import Mathlib

/-!
# Spatio-temporal hull computation: batched feature accumulation and mesh welding

A shallow embedding of `src/HullComputation` (Reader.cpp, Calc.cpp, Writer.cpp, main.cpp).

Modelling conventions

* ArrayFire `f32` arrays are arrays of rationals: every arithmetic step of the source is
  exact, so the development speaks about the algorithm, not about rounding.
* An array is its shape together with a total element function; only the elements
  inside the shape are the array, the others are never read by a run that ArrayFire
  would accept.
* C `int` extents, kernel sizes and counters that are non-negative in every
  configuration reaching the code are natural numbers; `threshold`, `special`,
  `viewSlice`, `x`, `y` and the frame counter `t` are integers.  Products of C `int`s
  are taken without overflow.
* The buffers of the `Writer` and the weld map are total functions of the index, with the
  capacities kept beside them; that every weld-map index used lies inside the allocated map
  is proved, not assumed.
* `MarchingCubes.h` is not among the sources: its two tables are a parameter.  The square
  root of the C library is a parameter as well.
-/

namespace HullComputation

/-! ## Data model -/

/-- The public fields of `class Parameters` (Parameters.h), `datafiles` apart. -/
structure Parameters where
  isViewed : Bool
  viewSlice : Int
  isTimed : Bool
  batches : Nat
  kx : Nat
  ky : Nat
  kz : Nat
  kt : Nat
  threshold : Int
  special : Int
  width : Nat
  height : Nat
  depth : Nat
  duration : Nat
  is4D : Bool
  exportAnimation : Bool
  x : Int
  y : Int

/-- The frame files named by `params->datafiles`: `files k z y x` is the byte of the
`k`-th frame file that `readFile` places at position `(0, z, y, x)`. -/
abbrev FrameStore := Nat → Nat → Nat → Nat → Fin 256

/-- A four-axis ArrayFire array: `dims(0..3)` and the element at `(i0, i1, i2, i3)`. -/
structure Arr4 where
  n0 : Nat
  n1 : Nat
  n2 : Nat
  n3 : Nat
  val : Nat → Nat → Nat → Nat → ℚ

/-- A three-axis ArrayFire array (the hull accumulator). -/
structure Arr3 where
  n0 : Nat
  n1 : Nat
  n2 : Nat
  val : Nat → Nat → Nat → ℚ

/-- The array `array(n0, n1, n2, n3)` before anything is written to it. -/
def Arr4.alloc (n0 n1 n2 n3 : Nat) : Arr4 :=
  { n0 := n0, n1 := n1, n2 := n2, n3 := n3, val := fun _ _ _ _ => 0 }

/-- The assignment `A(i, span, span, span) = F` of a one-frame array `F`. -/
def Arr4.setFrame (A : Arr4) (i : Nat) (F : Arr4) : Arr4 :=
  { A with val := fun i0 i1 i2 i3 => if i0 = i then F.val 0 i1 i2 i3 else A.val i0 i1 i2 i3 }

/-- Elementwise `A / c`. -/
def Arr4.divScalar (A : Arr4) (c : ℚ) : Arr4 :=
  { A with val := fun i0 i1 i2 i3 => A.val i0 i1 i2 i3 / c }

/-- Elementwise `pow2(A)`. -/
def Arr4.pow2 (A : Arr4) : Arr4 :=
  { A with val := fun i0 i1 i2 i3 => A.val i0 i1 i2 i3 * A.val i0 i1 i2 i3 }

/-- Elementwise `A + B` (the shape is that of the left operand). -/
def Arr4.add (A B : Arr4) : Arr4 :=
  { A with val := fun i0 i1 i2 i3 => A.val i0 i1 i2 i3 + B.val i0 i1 i2 i3 }

/-- Elementwise `c * A`. -/
def Arr4.scale (c : ℚ) (A : Arr4) : Arr4 :=
  { A with val := fun i0 i1 i2 i3 => c * A.val i0 i1 i2 i3 }

/-! ## Reader.cpp -/

/-- The state of a `Reader`: the current batch (raw bytes), `batchNum` and `pointer`. -/
structure Reader where
  batch : Arr4
  batchNum : Nat
  pointer : Nat

/-- `Reader::readFile` applied to `datafiles[k]`: a `1 × depth × height × width` array
holding the bytes of the file. -/
def Reader.readFile (params : Parameters) (files : FrameStore) (k : Nat) : Arr4 :=
  { n0 := 1, n1 := params.depth, n2 := params.height, n3 := params.width,
    val := fun _ z y x => ((files k z y x).val : ℚ) }

/-- The loop `for (i = first; i < first + count; i++) batch(i,…) = readFile(datafiles[pointer++])`,
on the pair (batch, pointer). -/
def Reader.fill (params : Parameters) (files : FrameStore) (first count : Nat)
    (st : Arr4 × Nat) : Arr4 × Nat :=
  (List.range count).foldl
    (fun s j => (s.1.setFrame (first + j) (Reader.readFile params files s.2), s.2 + 1)) st

/-- The constructor `Reader::Reader`: reads the first batch. -/
def Reader.init (params : Parameters) (files : FrameStore) : Reader :=
  let border := params.kt - 1
  let tSize := (params.duration + (params.batches - 1) * border) / params.batches
  let st := Reader.fill params files 0 tSize
    (Arr4.alloc tSize params.depth params.height params.width, 0)
  { batch := st.1, batchNum := 0, pointer := st.2 }

/-- The assignment `nextBatch(seq(border), …) = batch(seq(-border, -1), …)`. -/
def Reader.copyBorder (nextBatch batch : Arr4) (border : Nat) : Arr4 :=
  { nextBatch with
    val := fun i0 i1 i2 i3 =>
      if i0 < border then batch.val (batch.n0 - border + i0) i1 i2 i3
      else nextBatch.val i0 i1 i2 i3 }

/-- `Reader::getNextBatch`: the returned (normalised) batch and the new reader state. -/
def Reader.getNextBatch (params : Parameters) (files : FrameStore) (r : Reader) :
    Arr4 × Reader :=
  let r1 : Reader :=
    if r.batchNum ≠ 0 then
      let border := params.kt - 1
      let tSize :=
        (params.duration + (params.batches - 1) * border + r.batchNum) / params.batches
      let nextBatch := Arr4.alloc tSize params.depth params.height params.width
      let nextBatch := Reader.copyBorder nextBatch r.batch border
      let st := Reader.fill params files border (tSize - border) (nextBatch, r.pointer)
      { batch := st.1, batchNum := r.batchNum, pointer := st.2 }
    else r
  (r1.batch.divScalar 255, { r1 with batchNum := r1.batchNum + 1 })

/-! ## Calc.cpp -/

/-- `Calc::derivative`: `M(0..-2) - M(1..-1)` along axis `dim`. -/
def Calc.derivative (M : Arr4) (dim : Nat) : Arr4 :=
  match dim with
  | 0 => { M with n0 := M.n0 - 1,
                  val := fun i0 i1 i2 i3 => M.val i0 i1 i2 i3 - M.val (i0 + 1) i1 i2 i3 }
  | 1 => { M with n1 := M.n1 - 1,
                  val := fun i0 i1 i2 i3 => M.val i0 i1 i2 i3 - M.val i0 (i1 + 1) i2 i3 }
  | 2 => { M with n2 := M.n2 - 1,
                  val := fun i0 i1 i2 i3 => M.val i0 i1 i2 i3 - M.val i0 i1 (i2 + 1) i3 }
  | _ => { M with n3 := M.n3 - 1,
                  val := fun i0 i1 i2 i3 => M.val i0 i1 i2 i3 - M.val i0 i1 i2 (i3 + 1) }

/-- `Calc::guassian`: `M(0..-2) + M(1..-1)` along axis `dim`. -/
def Calc.guassian (M : Arr4) (dim : Nat) : Arr4 :=
  match dim with
  | 0 => { M with n0 := M.n0 - 1,
                  val := fun i0 i1 i2 i3 => M.val i0 i1 i2 i3 + M.val (i0 + 1) i1 i2 i3 }
  | 1 => { M with n1 := M.n1 - 1,
                  val := fun i0 i1 i2 i3 => M.val i0 i1 i2 i3 + M.val i0 (i1 + 1) i2 i3 }
  | 2 => { M with n2 := M.n2 - 1,
                  val := fun i0 i1 i2 i3 => M.val i0 i1 i2 i3 + M.val i0 i1 (i2 + 1) i3 }
  | _ => { M with n3 := M.n3 - 1,
                  val := fun i0 i1 i2 i3 => M.val i0 i1 i2 i3 + M.val i0 i1 i2 (i3 + 1) }

/-- The array `kernelSizes` of `sobelD2` and `sobelD3`. -/
def Calc.kernelSizes (params : Parameters) : List Nat :=
  [params.kt, if params.is4D then params.kz else 1, params.ky, params.kx]

/-- One step of the inner loop of `sobelD2`. -/
def Calc.sobelD2Step (dev1 dev2 dimension : Nat) (M : Arr4) (i : Nat) : Arr4 :=
  if i = 0 ∧ dev1 = dimension then Calc.derivative M dimension
  else if i = 1 ∧ dev2 = dimension then Calc.derivative M dimension
  else Calc.guassian M dimension

/-- `Calc::sobelD2`. -/
def Calc.sobelD2 (params : Parameters) (M : Arr4) (dev1 dev2 : Nat) : Arr4 :=
  (List.range 4).foldl
    (fun M dimension =>
      let size := (Calc.kernelSizes params).getD dimension 0
      (List.range (size - 1)).foldl (Calc.sobelD2Step dev1 dev2 dimension) M)
    M

/-- One step of the inner loop of `sobelD3`, on the pair (M, count). -/
def Calc.sobelD3Step (dimension : Nat) (st : Arr4 × Int) : Arr4 × Int :=
  (if st.2 > 0 then Calc.derivative st.1 dimension else Calc.guassian st.1 dimension,
   st.2 - 1)

/-- `Calc::sobelD3`. -/
def Calc.sobelD3 (params : Parameters) (M : Arr4) (dev1 dev2 dev3 : Nat) : Arr4 :=
  (List.range 4).foldl
    (fun M dimension =>
      let size := (Calc.kernelSizes params).getD dimension 0
      let count : Int :=
        (if dev1 = dimension then 1 else 0) + (if dev2 = dimension then 1 else 0)
          + (if dev3 = dimension then 1 else 0)
      ((List.range (size - 1)).foldl (fun st _ => Calc.sobelD3Step dimension st) (M, count)).1)
    M

/-- The state of a `Calc`: the hull accumulator and the frame counter `t`. -/
structure Calc where
  hulls : Arr3
  t : Int

/-- The constructor `Calc::Calc`; `saved` is the content of the checkpoint file `hulls.af`. -/
def Calc.init (params : Parameters) (saved : Arr3) : Calc :=
  if params.y ≠ 0 then { hulls := saved, t := 1 }
  else if params.is4D then
    { hulls := { n0 := params.depth - params.kz + 1, n1 := params.height - params.ky + 1,
                 n2 := params.width - params.kx + 1, val := fun _ _ _ => 0 },
      t := 1 }
  else
    { hulls := { n0 := 1, n1 := params.height - params.ky + 1,
                 n2 := params.width - params.kx + 1, val := fun _ _ _ => 0 },
      t := 1 }

/-- The feature field of `processBatch`, before the threshold: the three `if` blocks on
`params->special`.  A default-constructed `array` is the empty array. -/
def Calc.featureField (params : Parameters) (batch : Arr4) : Arr4 :=
  let spacetime : Arr4 := Arr4.alloc 0 0 0 0
  let spacetime :=
    if params.special = 0 ∨ params.special = 1 then
      (List.range 3).foldl
        (fun st j =>
          let d := j + 1
          if !params.is4D && d == 1 then st
          else st.add (Calc.sobelD2 params batch d d).pow2)
        (Calc.sobelD2 params batch 0 0).pow2
    else spacetime
  let spacetime :=
    if params.special = 0 then
      (List.range 4).foldl
        (fun st d0 =>
          if !params.is4D && d0 == 1 then st
          else
            (List.range (4 - (d0 + 1))).foldl
              (fun st j =>
                let d1 := d0 + 1 + j
                if !params.is4D && d1 == 1 then st
                else st.add (Arr4.scale 2 (Calc.sobelD2 params batch d0 d1).pow2))
              st)
        spacetime
    else spacetime
  if params.special = 2 then
    let spacetime := (Calc.sobelD3 params batch 0 0 3).pow2
    let spacetime := spacetime.add (Calc.sobelD3 params batch 0 0 2).pow2
    if params.is4D then spacetime.add (Calc.sobelD3 params batch 0 0 1).pow2 else spacetime
  else spacetime

/-- The statement `spacetime(spacetime < threshold * threshold) = 0`. -/
def Calc.applyThreshold (params : Parameters) (spacetime : Arr4) : Arr4 :=
  { spacetime with
    val := fun i0 i1 i2 i3 =>
      if spacetime.val i0 i1 i2 i3 < ((params.threshold * params.threshold : Int) : ℚ) then 0
      else spacetime.val i0 i1 i2 i3 }

/-- One pass of the labelling loop of `flattenAndReduce`:
`slice = spacetime(i,…); slice(slice > 1) = marker; spacetime(i,…) = slice`. -/
def Calc.labelFrame (spacetime : Arr4) (i : Nat) (marker : Int) : Arr4 :=
  { spacetime with
    val := fun i0 i1 i2 i3 =>
      if i0 = i then
        (if spacetime.val i i1 i2 i3 > 1 then (marker : ℚ) else spacetime.val i i1 i2 i3)
      else spacetime.val i0 i1 i2 i3 }

/-- The reduction `max(reorder(spacetime, 1, 2, 3, 0), 3)`: the maximum along the time axis.
An empty time axis (no feature frame, a call ArrayFire does not accept) yields 0. -/
def Calc.maxTime (spacetime : Arr4) : Arr3 :=
  { n0 := spacetime.n1, n1 := spacetime.n2, n2 := spacetime.n3,
    val := fun z y x =>
      match spacetime.n0 with
      | 0 => 0
      | n + 1 =>
        (List.range n).foldl (fun acc i => max acc (spacetime.val (i + 1) z y x))
          (spacetime.val 0 z y x) }

/-- Elementwise `max(A, B)` of two three-axis arrays. -/
def Arr3.max (A B : Arr3) : Arr3 :=
  { A with val := fun z y x => Max.max (A.val z y x) (B.val z y x) }

/-- The labelling loop of `flattenAndReduce` ("perform time labelling"), with `n` read from
`spacetime.dims(0)` before the loop. -/
def Calc.labelLoop (params : Parameters) (c : Calc) (spacetime : Arr4) : Arr4 :=
  (List.range spacetime.n0).foldl
    (fun st i => Calc.labelFrame st i ((i : Int) + c.t + params.y)) spacetime

/-- `Calc::flattenAndReduce`. -/
def Calc.flattenAndReduce (params : Parameters) (c : Calc) (spacetime : Arr4) : Calc :=
  let n := spacetime.n0
  let labelled := Calc.labelLoop params c spacetime
  let flatten := Calc.maxTime labelled
  { hulls := c.hulls.max flatten, t := c.t + (n : Int) }

/-- `Calc::processBatch`. -/
def Calc.processBatch (params : Parameters) (c : Calc) (batch : Arr4) : Calc :=
  Calc.flattenAndReduce params c (Calc.applyThreshold params (Calc.featureField params batch))

/-! ## main.cpp -/

/-- One pass of the batch loop of `pipeline`: `getNextBatch`, then `processBatch`. -/
def pipelineStep (params : Parameters) (files : FrameStore) (st : Reader × Calc) :
    Reader × Calc :=
  let nb := Reader.getNextBatch params files st.1
  (nb.2, Calc.processBatch params st.2 nb.1)

/-- The reader and the calc of `pipeline` after `k` passes of the batch loop. -/
def pipelineAfter (params : Parameters) (files : FrameStore) (saved : Arr3) (k : Nat) :
    Reader × Calc :=
  (List.range k).foldl (fun st _ => pipelineStep params files st)
    (Reader.init params files, Calc.init params saved)

/-- The batch loop of `pipeline`: `batches` passes. -/
def pipelineLoop (params : Parameters) (files : FrameStore) (saved : Arr3) : Reader × Calc :=
  pipelineAfter params files saved params.batches

/-- A run of `processBatch` over a list of batches. -/
def Calc.run (params : Parameters) (c : Calc) (batches : List Arr4) : Calc :=
  batches.foldl (Calc.processBatch params) c

end HullComputation

namespace HullComputation

/-! ## Batch sizes -/

/-- The size `tSize` of the batch of call `k`: the constructor's formula for `k = 0`
(there `batchNum` does not occur), the formula of `getNextBatch` with `batchNum = k` after. -/
def Reader.tSize (params : Parameters) (k : Nat) : Nat :=
  (params.duration + (params.batches - 1) * (params.kt - 1) + k) / params.batches

/-- The reader state after the constructor and `k` calls of `getNextBatch`. -/
def Reader.afterCalls (params : Parameters) (files : FrameStore) : Nat → Reader
  | 0 => Reader.init params files
  | k + 1 => (Reader.getNextBatch params files (Reader.afterCalls params files k)).2

/-- The batch returned by call `k` (call 0 returns the batch primed by the constructor). -/
def Reader.batchOfCall (params : Parameters) (files : FrameStore) (k : Nat) : Arr4 :=
  (Reader.getNextBatch params files (Reader.afterCalls params files k)).1

/-- The global index of the first frame of the batch of call `k`: every call after the
first re-uses `kt - 1` frames of the batch before it. -/
def Reader.start (params : Parameters) : Nat → Nat
  | 0 => 0
  | k + 1 => Reader.start params k + Reader.tSize params k - (params.kt - 1)

/-- The current batch of the reader is the batch of call `j`: it has `tSize j` frames, which are
the frames `start j, start j + 1, …` of the sequence, and the file pointer stands behind them. -/
def Reader.Holds (params : Parameters) (files : FrameStore) (r : Reader) (j : Nat) : Prop :=
  r.batch.n0 = Reader.tSize params j ∧
  r.pointer = Reader.start params j + Reader.tSize params j ∧
  ∀ i, i < Reader.tSize params j → ∀ z y x,
    r.batch.val i z y x = ((files (Reader.start params j + i) z y x).val : ℚ)

/-- The number of feature frames that a run of `processBatch` over `batches` labels: the sum
of the time extents `spacetime.dims(0)` seen by `flattenAndReduce`. -/
def Calc.featureFrames (params : Parameters) (batches : List Arr4) : Nat :=
  (batches.map (fun b => (Calc.featureField params b).n0)).sum

/-! ## MarchingSquares.h -/

/-- `MarchingSquares::coords`: the offsets of the 8 points of a cell in the refined grid. -/
def MarchingSquares.coords : List (List Nat) :=
  [[2, 0], [2, 1], [2, 2], [1, 2], [0, 2], [0, 1], [0, 0], [1, 0]]

/-- `MarchingSquares::lookup`: up to 3 triangles (point indices) per case, padded by -1. -/
def MarchingSquares.lookup : List (List Int) :=
  [ [-1, -1, -1, -1, -1, -1, -1, -1, -1],
    [ 0,  1,  7, -1, -1, -1, -1, -1, -1],
    [ 2,  3,  1, -1, -1, -1, -1, -1, -1],
    [ 0,  2,  3,  0,  3,  7, -1, -1, -1],
    [ 3,  4,  5, -1, -1, -1, -1, -1, -1],
    [ 0,  1,  7,  3,  4,  5, -1, -1, -1],
    [ 1,  2,  4,  1,  4,  5, -1, -1, -1],
    [ 0,  2,  4,  0,  4,  5,  0,  5,  7],
    [ 5,  6,  7, -1, -1, -1, -1, -1, -1],
    [ 0,  1,  5,  0,  5,  6, -1, -1, -1],
    [ 1,  2,  3,  5,  6,  7, -1, -1, -1],
    [ 0,  2,  6,  2,  3,  5,  2,  5,  6],
    [ 3,  4,  6,  3,  6,  7, -1, -1, -1],
    [ 0,  4,  6,  0,  1,  3,  0,  3,  4],
    [ 2,  4,  6,  1,  2,  6,  1,  6,  7],
    [ 0,  2,  4,  0,  4,  6, -1, -1, -1] ]

/-- The read `MarchingSquares::coords[p][c]`. -/
def MarchingSquares.coordAt (p : Int) (c : Nat) : Nat :=
  (MarchingSquares.coords.getD p.toNat []).getD c 0

/-- The read `MarchingSquares::lookup[code][i]`. -/
def MarchingSquares.lookupAt (code i : Nat) : Int :=
  (MarchingSquares.lookup.getD code []).getD i (-1)

/-- The tables of `MarchingCubes.h`, a header that is not part of the sources at hand:
`coords p c` is `MarchingCubes::coords[p][c]` (an offset in the refined grid) and
`lookup code i` is `MarchingCubes::lookup[code][i]`. -/
structure CubeTable where
  coords : Int → Nat → Nat
  lookup : Nat → Nat → Int

/-! ## Writer.cpp -/

/-- The constant `EPSILON`. -/
def EPSILON : ℚ := 1 / 1000

/-- The constant `COLORLESS`. -/
def COLORLESS : ℚ := 38431372549 / 100000000000

/-- The constant `INTIAL_SIZE`. -/
def INTIAL_SIZE : Nat := 300

/-- A two-axis ArrayFire array (the field given to `marchingSquares`). -/
structure Arr2 where
  n0 : Nat
  n1 : Nat
  val : Nat → Nat → ℚ

/-- The state of a `Writer`: the counts, the capacities and the four buffers. -/
structure Writer where
  vertexCount : Nat
  vertexSize : Nat
  coords : Nat → ℚ
  normals : Nat → ℚ
  colors : Nat → ℚ
  mesh : Nat → Nat
  faceCount : Nat
  meshSize : Nat

/-- The weld map `vmap[x][y][z]`. -/
abbrev VMap := Nat → Nat → Nat → Nat

/-- The write `buf[i] = v`. -/
def setAt {α : Type} (buf : Nat → α) (i : Nat) (v : α) : Nat → α :=
  fun k => if k = i then v else buf k

/-- The write `vmap[a][b][c] = v`. -/
def VMap.set (vmap : VMap) (a b c v : Nat) : VMap :=
  fun a2 b2 c2 => if a2 = a ∧ b2 = b ∧ c2 = c then v else vmap a2 b2 c2

/-- The constructor `Writer::Writer`: zeroed buffers of capacity `INTIAL_SIZE`; the counts
are set by `extract` before every extraction. -/
def Writer.init : Writer :=
  { vertexCount := 0, vertexSize := INTIAL_SIZE, coords := fun _ => 0, normals := fun _ => 0,
    colors := fun _ => 0, mesh := fun _ => 0, faceCount := 0, meshSize := INTIAL_SIZE }

/-- The content of a `float` array just obtained from `new[]`. The language leaves it
unspecified; the model marks every such element with -1, a value that differs from the 0 the
resize loops store. -/
def Writer.freshFloats : Nat → ℚ := fun _ => -1

/-- The content of an `int` array just obtained from `new[]`, marked with `INT_MAX`. -/
def Writer.freshInts : Nat → Nat := fun _ => 2147483647

/-- The body of the copy loop of `resizeVertexes`: element `i` of the three old arrays (held by
`w`) goes to the three new arrays (held by `nw`). -/
def Writer.copyVertex (w nw : Writer) (i : Nat) : Writer :=
  { nw with
    coords := setAt nw.coords i (w.coords i)
    normals := setAt nw.normals i (w.normals i)
    colors := setAt nw.colors i (w.colors i) }

/-- The body of the last loop of `resizeVertexes`:
`coords[i] = colors[i] = normals[i] = 0`. -/
def Writer.zeroVertex (w : Writer) (i : Nat) : Writer :=
  let w := { w with normals := setAt w.normals i 0 }
  let w := { w with colors := setAt w.colors i 0 }
  { w with coords := setAt w.coords i 0 }

/-- `Writer::resizeVertexes`: the capacity doubles, three new arrays are allocated, the copy
loop runs over `i < vertexSize / 2` and the zeroing loop over `vertexSize / 2 <= i < vertexSize`. -/
def Writer.resizeVertexes (w : Writer) : Writer :=
  let vertexSize := w.vertexSize * 2
  let nw : Writer :=
    { w with
      vertexSize := vertexSize
      coords := Writer.freshFloats
      normals := Writer.freshFloats
      colors := Writer.freshFloats }
  let nw := (List.range (vertexSize / 2)).foldl (Writer.copyVertex w) nw
  (List.range' (vertexSize / 2) (vertexSize - vertexSize / 2)).foldl Writer.zeroVertex nw

/-- `Writer::resizeMesh`: the capacity doubles, a new array is allocated, the copy loop runs
over `i < meshSize / 2` and the zeroing loop over `meshSize / 2 <= i < meshSize`. -/
def Writer.resizeMesh (w : Writer) : Writer :=
  let meshSize := w.meshSize * 2
  let newMesh : Nat → Nat :=
    (List.range (meshSize / 2)).foldl (fun newMesh i => setAt newMesh i (w.mesh i))
      Writer.freshInts
  let w := { w with meshSize := meshSize, mesh := newMesh }
  (List.range' (meshSize / 2) (meshSize - meshSize / 2)).foldl
    (fun w i => { w with mesh := setAt w.mesh i 0 }) w

/-- The statement `if (vertexCount * 3 > vertexSize) resizeVertexes();`. -/
def Writer.growVertexes (w : Writer) : Writer :=
  if w.vertexCount * 3 > w.vertexSize then w.resizeVertexes else w

/-- The statement `if (faceCount * 3 > meshSize) resizeMesh();` (the count is incremented
just before it). -/
def Writer.growMesh (w : Writer) : Writer :=
  if w.faceCount * 3 > w.meshSize then w.resizeMesh else w

/-- The body of the loop of `scaleCoords` for `i = 3 * v`. -/
def Writer.scaleVertex (width height depth : Nat) (w : Writer) (v : Nat) : Writer :=
  let i := 3 * v
  let w := { w with coords := setAt w.coords i (w.coords i / ((width * 2 : Nat) : ℚ)) }
  let w := { w with
    coords := setAt w.coords (i + 1) (w.coords (i + 1) / ((height * 2 : Nat) : ℚ)) }
  { w with coords := setAt w.coords (i + 2) (w.coords (i + 2) / ((depth * 2 : Nat) : ℚ)) }

/-- `Writer::scaleCoords`. -/
def Writer.scaleCoords (w : Writer) (width height depth : Nat) : Writer :=
  (List.range w.vertexCount).foldl (Writer.scaleVertex width height depth) w

/-- `Writer::normalizeNormals`; `sqrtf` is the square root of the C library. -/
def Writer.normalizeNormals (sqrtf : ℚ → ℚ) (w : Writer) : Writer :=
  (List.range w.vertexCount).foldl
    (fun w v =>
      let i := 3 * v
      let m := w.normals i * w.normals i
      let m := m + w.normals (i + 1) * w.normals (i + 1)
      let m := m + w.normals (i + 2) * w.normals (i + 2)
      let m := sqrtf m
      let w := { w with normals := setAt w.normals i (w.normals i / m) }
      let w := { w with normals := setAt w.normals (i + 1) (w.normals (i + 1) / m) }
      { w with normals := setAt w.normals (i + 2) (w.normals (i + 2) / m) })
    w

/-- `Writer::createVertexMap`: the weld map with every entry 0. -/
def Writer.createVertexMap : VMap := fun _ _ _ => 0

/-- `Writer::getNormal`: the returned array `normal` and the writer, whose member `normals`
the last three statements divide. -/
def Writer.getNormal (tbl : CubeTable) (sqrtf : ℚ → ℚ) (w : Writer) (p0 p1 p2 : Int) :
    (ℚ × ℚ × ℚ) × Writer :=
  let p0x : Int := tbl.coords p0 0
  let p0y : Int := tbl.coords p0 1
  let p0z : Int := tbl.coords p0 2
  let p1x : Int := tbl.coords p1 0
  let p1y : Int := tbl.coords p1 1
  let p1z : Int := tbl.coords p1 2
  let p2x : Int := tbl.coords p2 0
  let p2y : Int := tbl.coords p2 1
  let p2z : Int := tbl.coords p2 2
  let n0 : ℚ := (((p1y - p0y) * (p2z - p0z) - (p1z - p0z) * (p2y - p0y) : Int) : ℚ)
  let n1 : ℚ := (((p1z - p0z) * (p2x - p0x) - (p1x - p0x) * (p2z - p0z) : Int) : ℚ)
  let n2 : ℚ := (((p1x - p0x) * (p2y - p0y) - (p1y - p0y) * (p2x - p0x) : Int) : ℚ)
  let m := sqrtf (n0 * n0 + n1 * n1 + n2 * n2)
  let w := { w with normals := setAt w.normals 0 (w.normals 0 / m) }
  let w := { w with normals := setAt w.normals 1 (w.normals 1 / m) }
  let w := { w with normals := setAt w.normals 2 (w.normals 2 / m) }
  ((n0, n1, n2), w)

/-- The colour statements ("add color") of `cubeCase` and `squareCase` for the new vertex `v`,
`t` being the refined field value at the vertex. -/
def Writer.setColor (w : Writer) (isColored : Bool) (v : Nat) (t : ℚ) : Writer :=
  if isColored then
    let w := { w with colors := setAt w.colors (3 * v - 3) (1 - t / 255) }
    let w := { w with colors := setAt w.colors (3 * v - 2) 0 }
    { w with colors := setAt w.colors (3 * v - 1) (t / 255) }
  else
    let w := { w with colors := setAt w.colors (3 * v - 1) COLORLESS }
    let w := { w with colors := setAt w.colors (3 * v - 2) COLORLESS }
    { w with colors := setAt w.colors (3 * v - 3) COLORLESS }

/-- The body of the vertex loop of `cubeCase` for the corner at refined coordinate
`(vx, vy, vz)`, `j`-th corner of the current triangle. -/
def Writer.cubeCorner (vals : Nat → Nat → Nat → ℚ) (isColored : Bool) (normal : ℚ × ℚ × ℚ)
    (vx vy vz j : Nat) (st : Writer × VMap) : Writer × VMap :=
  let w := st.1
  let vmap := st.2
  let st1 : Writer × VMap × Nat :=
    if vmap vx vy vz = 0 then
      let w := { w with vertexCount := w.vertexCount + 1 }
      let v := w.vertexCount
      let vmap := vmap.set vx vy vz v
      let w := w.growVertexes
      let w := { w with coords := setAt w.coords (3 * v - 3) (vx : ℚ) }
      let w := { w with coords := setAt w.coords (3 * v - 2) (vy : ℚ) }
      let w := { w with coords := setAt w.coords (3 * v - 1) (vz : ℚ) }
      let w := w.setColor isColored v (vals vx vy vz)
      (w, vmap, v)
    else (w, vmap, vmap vx vy vz)
  let w := st1.1
  let v := st1.2.2
  let w := { w with normals := setAt w.normals (3 * v - 3) (w.normals (3 * v - 3) + normal.1) }
  let w := { w with
    normals := setAt w.normals (3 * v - 2) (w.normals (3 * v - 2) + normal.2.1) }
  let w := { w with
    normals := setAt w.normals (3 * v - 1) (w.normals (3 * v - 1) + normal.2.2) }
  let w := { w with mesh := setAt w.mesh (3 * w.faceCount - 3 + j) v }
  (w, st1.2.1)

/-- The body of the triangle loop of `cubeCase` after the `break` test, for the triangle
whose point indices are `faces[i], faces[i+1], faces[i+2]`. -/
def Writer.cubeTriangle (tbl : CubeTable) (sqrtf : ℚ → ℚ) (vals : Nat → Nat → Nat → ℚ)
    (isColored : Bool) (faces : Nat → Int) (x y z i : Nat) (st : Writer × VMap) :
    Writer × VMap :=
  let w := { st.1 with faceCount := st.1.faceCount + 1 }
  let w := w.growMesh
  let gn := Writer.getNormal tbl sqrtf w (faces i) (faces (i + 1)) (faces (i + 2))
  (List.range 3).foldl
    (fun st j =>
      Writer.cubeCorner vals isColored gn.1
        (tbl.coords (faces (i + j)) 0 + 2 * x) (tbl.coords (faces (i + j)) 1 + 2 * y)
        (tbl.coords (faces (i + j)) 2 + 2 * z) j st)
    (gn.2, st.2)

/-- The triangle loop `for (i = 0; i < 15; i += 3)` of `cubeCase`, with its `break`. -/
def Writer.cubeLoop (tbl : CubeTable) (sqrtf : ℚ → ℚ) (vals : Nat → Nat → Nat → ℚ)
    (isColored : Bool) (faces : Nat → Int) (x y z : Nat) :
    List Nat → Writer × VMap → Writer × VMap
  | [], st => st
  | i :: rest, st =>
    if faces i = -1 then st
    else Writer.cubeLoop tbl sqrtf vals isColored faces x y z rest
      (Writer.cubeTriangle tbl sqrtf vals isColored faces x y z i st)

/-- `Writer::cubeCase`. -/
def Writer.cubeCase (tbl : CubeTable) (sqrtf : ℚ → ℚ) (cases : Nat → Nat → Nat → Nat)
    (vals : Nat → Nat → Nat → ℚ) (x y z : Nat) (isColored : Bool) (st : Writer × VMap) :
    Writer × VMap :=
  Writer.cubeLoop tbl sqrtf vals isColored (tbl.lookup (cases x y z)) x y z [0, 3, 6, 9, 12] st

/-- The 0/1 array `B = (M > EPSILON)`. -/
def aboveEpsilon (v : ℚ) : Nat := if v > EPSILON then 1 else 0

/-- The case grid of `marchingCubes`: `cases[x][y][z] = C(z, y, x)`. -/
def Writer.cubeCases (M : Arr3) (x y z : Nat) : Nat :=
  128 * aboveEpsilon (M.val (z + 1) (y + 1) x) + 64 * aboveEpsilon (M.val (z + 1) (y + 1) (x + 1))
    + (32 * aboveEpsilon (M.val z (y + 1) (x + 1)) + 16 * aboveEpsilon (M.val z (y + 1) x))
    + (8 * aboveEpsilon (M.val (z + 1) y x) + 4 * aboveEpsilon (M.val (z + 1) y (x + 1)))
    + (2 * aboveEpsilon (M.val z y (x + 1)) + 1 * aboveEpsilon (M.val z y x))

/-- The array `constant(c, n0, n1, n2)`. -/
def Arr3.constant (c : ℚ) (n0 n1 n2 : Nat) : Arr3 :=
  { n0 := n0, n1 := n1, n2 := n2, val := fun _ _ _ => c }

/-- The contiguous slice of `M` that starts at `(s0, s1, s2)` and has shape `m0 × m1 × m2`:
`seq(0,-2)` on an axis of extent `n` is start 0 with `n - 1` entries, `seq(1,-1)` is start 1
with `n - 1` entries, `span` is start 0 with `n` entries. -/
def Arr3.slice (M : Arr3) (s0 m0 s1 m1 s2 m2 : Nat) : Arr3 :=
  { n0 := m0, n1 := m1, n2 := m2, val := fun i j k => M.val (s0 + i) (s1 + j) (s2 + k) }

/-- Elementwise `af::max(A, B)` (the shape is that of the left operand). -/
def Arr3.maxOf (A B : Arr3) : Arr3 :=
  { A with val := fun i j k => Max.max (A.val i j k) (B.val i j k) }

/-- The assignment `V(seq(s0, _, 2), seq(s1, _, 2), seq(s2, _, 2)) = src`: entry `(i, j, k)` of
`src` goes to `(s0 + 2i, s1 + 2j, s2 + 2k)`; the other entries of `V` keep their value. -/
def Arr3.assignStrided (V : Arr3) (s0 s1 s2 : Nat) (src : Arr3) : Arr3 :=
  { V with val := fun a b c =>
      if (s0 ≤ a ∧ (a - s0) % 2 = 0 ∧ (a - s0) / 2 < src.n0)
          ∧ (s1 ≤ b ∧ (b - s1) % 2 = 0 ∧ (b - s1) / 2 < src.n1)
          ∧ (s2 ≤ c ∧ (c - s2) % 2 = 0 ∧ (c - s2) / 2 < src.n2)
      then src.val ((a - s0) / 2) ((b - s1) / 2) ((c - s2) / 2)
      else V.val a b c }

/-- The refined value array `V` that `marchingCubes` builds from `M`. -/
def Writer.cubeRefinedGrid (M : Arr3) : Arr3 :=
  let depth := M.n0
  let height := M.n1
  let width := M.n2
  let V := Arr3.constant 0 (depth * 2 - 1) (height * 2 - 1) (width * 2 - 1)
  let V := V.assignStrided 0 0 0 M
  let V := V.assignStrided 1 0 0
    (Arr3.maxOf (M.slice 0 (depth - 1) 0 height 0 width) (M.slice 1 (depth - 1) 0 height 0 width))
  let V := V.assignStrided 0 1 0
    (Arr3.maxOf (M.slice 0 depth 0 (height - 1) 0 width) (M.slice 0 depth 1 (height - 1) 0 width))
  let V := V.assignStrided 0 0 1
    (Arr3.maxOf (M.slice 0 depth 0 height 0 (width - 1)) (M.slice 0 depth 0 height 1 (width - 1)))
  V

/-- The refined value grid `V` of `marchingCubes` at `(a, b, c)`. -/
def Writer.cubeRefined (M : Arr3) (a b c : Nat) : ℚ :=
  (Writer.cubeRefinedGrid M).val a b c

/-- The marching loops of `marchingCubes`: the writer and the weld map after the last cube. -/
def Writer.marchingCubesCore (tbl : CubeTable) (sqrtf : ℚ → ℚ) (w : Writer) (M : Arr3)
    (isColored : Bool) : Writer × VMap :=
  let width := M.n2
  let height := M.n1
  let depth := M.n0
  let vmap := Writer.createVertexMap
  let cases := Writer.cubeCases M
  let vals : Nat → Nat → Nat → ℚ := fun x y z => Writer.cubeRefined M z y x
  (List.range (width - 1)).foldl
    (fun st x =>
      (List.range (height - 1)).foldl
        (fun st y =>
          (List.range (depth - 1)).foldl
            (fun st z => Writer.cubeCase tbl sqrtf cases vals x y z isColored st) st)
        st)
    (w, vmap)

/-- `Writer::marchingCubes`. -/
def Writer.marchingCubes (tbl : CubeTable) (sqrtf : ℚ → ℚ) (w : Writer) (M : Arr3)
    (isColored : Bool) : Writer :=
  let w := (Writer.marchingCubesCore tbl sqrtf w M isColored).1
  let w := w.normalizeNormals sqrtf
  w.scaleCoords M.n2 M.n1 M.n0

/-- The body of the vertex loop of `squareCase` for the corner at refined coordinate
`(vx, vy)`, `j`-th corner of the current triangle. -/
def Writer.squareCorner (vals : Nat → Nat → ℚ) (isColored : Bool) (vx vy j : Nat)
    (st : Writer × VMap) : Writer × VMap :=
  let w := st.1
  let vmap := st.2
  let st1 : Writer × VMap × Nat :=
    if vmap vx vy 0 = 0 then
      let w := { w with vertexCount := w.vertexCount + 1 }
      let v := w.vertexCount
      let vmap := vmap.set vx vy 0 v
      let w := w.growVertexes
      let w := { w with coords := setAt w.coords (3 * v - 3) (vx : ℚ) }
      let w := { w with coords := setAt w.coords (3 * v - 2) (vy : ℚ) }
      let w := { w with normals := setAt w.normals (3 * v - 1) 1 }
      let w := w.setColor isColored v (vals vx vy)
      (w, vmap, v)
    else (w, vmap, vmap vx vy 0)
  let w := st1.1
  let v := st1.2.2
  let w := { w with mesh := setAt w.mesh (3 * w.faceCount - 3 + j) v }
  (w, st1.2.1)

/-- The body of the triangle loop of `squareCase` after the `break` test. -/
def Writer.squareTriangle (vals : Nat → Nat → ℚ) (isColored : Bool) (faces : Nat → Int)
    (x y i : Nat) (st : Writer × VMap) : Writer × VMap :=
  let w := { st.1 with faceCount := st.1.faceCount + 1 }
  let w := w.growMesh
  (List.range 3).foldl
    (fun st j =>
      Writer.squareCorner vals isColored
        (MarchingSquares.coordAt (faces (i + j)) 0 + 2 * x)
        (MarchingSquares.coordAt (faces (i + j)) 1 + 2 * y) j st)
    (w, st.2)

/-- The triangle loop `for (i = 0; i < 9; i += 3)` of `squareCase`, with its `break`. -/
def Writer.squareLoop (vals : Nat → Nat → ℚ) (isColored : Bool) (faces : Nat → Int)
    (x y : Nat) : List Nat → Writer × VMap → Writer × VMap
  | [], st => st
  | i :: rest, st =>
    if faces i = -1 then st
    else Writer.squareLoop vals isColored faces x y rest
      (Writer.squareTriangle vals isColored faces x y i st)

/-- `Writer::squareCase`. -/
def Writer.squareCase (cases : Nat → Nat → Nat) (vals : Nat → Nat → ℚ) (x y : Nat)
    (isColored : Bool) (st : Writer × VMap) : Writer × VMap :=
  Writer.squareLoop vals isColored (MarchingSquares.lookupAt (cases x y)) x y [0, 3, 6] st

/-- The case grid of `marchingSquares`: `cases[x][y] = C(y, x)`. -/
def Writer.squareCases (M : Arr2) (x y : Nat) : Nat :=
  8 * aboveEpsilon (M.val y x) + 4 * aboveEpsilon (M.val (y + 1) x)
    + (1 * aboveEpsilon (M.val y (x + 1)) + 2 * aboveEpsilon (M.val (y + 1) (x + 1)))

/-- The array `constant(c, n0, n1)`. -/
def Arr2.constant (c : ℚ) (n0 n1 : Nat) : Arr2 :=
  { n0 := n0, n1 := n1, val := fun _ _ => c }

/-- The contiguous slice of `M` that starts at `(s0, s1)` and has shape `m0 × m1`. -/
def Arr2.slice (M : Arr2) (s0 m0 s1 m1 : Nat) : Arr2 :=
  { n0 := m0, n1 := m1, val := fun i j => M.val (s0 + i) (s1 + j) }

/-- Elementwise `af::max(A, B)` (the shape is that of the left operand). -/
def Arr2.maxOf (A B : Arr2) : Arr2 :=
  { A with val := fun i j => Max.max (A.val i j) (B.val i j) }

/-- The assignment `V(seq(s0, _, 2), seq(s1, _, 2)) = src`: entry `(i, j)` of `src` goes to
`(s0 + 2i, s1 + 2j)`; the other entries of `V` keep their value. -/
def Arr2.assignStrided (V : Arr2) (s0 s1 : Nat) (src : Arr2) : Arr2 :=
  { V with val := fun a b =>
      if (s0 ≤ a ∧ (a - s0) % 2 = 0 ∧ (a - s0) / 2 < src.n0)
          ∧ (s1 ≤ b ∧ (b - s1) % 2 = 0 ∧ (b - s1) / 2 < src.n1)
      then src.val ((a - s0) / 2) ((b - s1) / 2)
      else V.val a b }

/-- The refined value array `V` that `marchingSquares` builds from `M`. -/
def Writer.squareRefinedGrid (M : Arr2) : Arr2 :=
  let height := M.n0
  let width := M.n1
  let V := Arr2.constant 0 (height * 2 - 1) (width * 2 - 1)
  let V := V.assignStrided 0 0 M
  let V := V.assignStrided 1 0
    (Arr2.maxOf (M.slice 0 (height - 1) 0 width) (M.slice 1 (height - 1) 0 width))
  let V := V.assignStrided 0 1
    (Arr2.maxOf (M.slice 0 height 0 (width - 1)) (M.slice 0 height 1 (width - 1)))
  V

/-- The refined value grid `V` of `marchingSquares` at `(a, b)`. -/
def Writer.squareRefined (M : Arr2) (a b : Nat) : ℚ :=
  (Writer.squareRefinedGrid M).val a b

/-- The marching loops of `marchingSquares`: the writer and the weld map after the last
square. -/
def Writer.marchingSquaresCore (w : Writer) (M : Arr2) (isColored : Bool) : Writer × VMap :=
  let width := M.n1
  let height := M.n0
  let vmap := Writer.createVertexMap
  let cases := Writer.squareCases M
  let vals : Nat → Nat → ℚ := fun x y => Writer.squareRefined M y x
  (List.range (width - 1)).foldl
    (fun st x =>
      (List.range (height - 1)).foldl
        (fun st y => Writer.squareCase cases vals x y isColored st) st)
    (w, vmap)

/-- `Writer::marchingSquares`. -/
def Writer.marchingSquares (sqrtf : ℚ → ℚ) (w : Writer) (M : Arr2) (isColored : Bool) :
    Writer :=
  let w := (Writer.marchingSquaresCore w M isColored).1
  let w := w.normalizeNormals sqrtf
  w.scaleCoords M.n1 M.n0 1

/-- The two assignments `vertexCount = 0; faceCount = 0;` that `extract` and
`extractAnimation` make before every call of `marchingCubes` or `marchingSquares`. -/
def Writer.resetCounts (w : Writer) : Writer :=
  { w with vertexCount := 0, faceCount := 0 }

/-- The position of vertex `v` (1-based), as `output` prints it:
`coords[3v-3], coords[3v-2], coords[3v-1]`. -/
def Writer.position (w : Writer) (v : Nat) : ℚ × ℚ × ℚ :=
  (w.coords (3 * v - 3), w.coords (3 * v - 2), w.coords (3 * v - 1))

/-- The divisor that `scaleCoords` applies to `coords[k]`. -/
def Writer.scaleOf (width height depth k : Nat) : ℚ :=
  if k % 3 = 0 then ((width * 2 : Nat) : ℚ)
  else if k % 3 = 1 then ((height * 2 : Nat) : ℚ) else ((depth * 2 : Nat) : ℚ)

/-- A coordinate of the refined grid. -/
abbrev RCoord := Nat × Nat × Nat

/-- The weld invariant: the vertex buffer holds the `vertexCount` vertices, every entry of the
weld map is an id handed out so far, and each id `v` is the entry of the weld map at the
refined coordinate stored in `coords[3v-3 ..]` (in 2D the third component is not stored and
the weld map is used at `z = 0`). -/
def Writer.Welded (dim3 : Bool) (w : Writer) (vmap : VMap) : Prop :=
  3 ≤ w.vertexSize ∧ 3 * w.vertexCount ≤ w.vertexSize ∧
  (∀ a b c, vmap a b c ≤ w.vertexCount) ∧
  ∀ v, 1 ≤ v → v ≤ w.vertexCount →
    ∃ a b c : Nat, vmap a b c = v ∧ w.coords (3 * v - 3) = (a : ℚ) ∧
      w.coords (3 * v - 2) = (b : ℚ) ∧ (if dim3 then w.coords (3 * v - 1) = (c : ℚ) else c = 0)

/-- The face-list invariant: the face buffer holds the triangles counted so far, and the
`k`-th corner written to it is the weld-map entry of the `k`-th emitted corner coordinate. -/
def Writer.FacesWelded (w : Writer) (vmap : VMap) (cs : List RCoord) : Prop :=
  3 ≤ w.meshSize ∧ 3 * w.faceCount ≤ w.meshSize ∧
  ∀ k, k < cs.length →
    w.mesh k = vmap (cs.getD k (0, 0, 0)).1 (cs.getD k (0, 0, 0)).2.1 (cs.getD k (0, 0, 0)).2.2 ∧
    w.mesh k ≠ 0

/-- What the vertex loop of `squareCase` (`dim3 = false`) and of `cubeCase` (`dim3 = true`)
does, for the `j`-th corner at refined coordinate `(a, b, c)`, to the counts, the capacities,
the coordinates, the face list and the weld map. -/
def Writer.CornerEffect (dim3 : Bool) (a b c j : Nat) (s t : Writer × VMap) : Prop :=
  t.1.faceCount = s.1.faceCount ∧ t.1.meshSize = s.1.meshSize ∧
  t.1.mesh = setAt s.1.mesh (3 * s.1.faceCount - 3 + j) (t.2 a b c) ∧
  ((s.2 a b c ≠ 0 ∧ t.2 = s.2 ∧ t.1.vertexCount = s.1.vertexCount ∧
      t.1.vertexSize = s.1.vertexSize ∧ t.1.coords = s.1.coords) ∨
   (s.2 a b c = 0 ∧ t.2 = s.2.set a b c (s.1.vertexCount + 1) ∧
      t.1.vertexCount = s.1.vertexCount + 1 ∧
      t.1.vertexSize = (if (s.1.vertexCount + 1) * 3 > s.1.vertexSize
        then s.1.vertexSize * 2 else s.1.vertexSize) ∧
      t.1.coords (3 * (s.1.vertexCount + 1) - 3) = (a : ℚ) ∧
      t.1.coords (3 * (s.1.vertexCount + 1) - 2) = (b : ℚ) ∧
      (dim3 = true → t.1.coords (3 * (s.1.vertexCount + 1) - 1) = (c : ℚ)) ∧
      (3 * s.1.vertexCount ≤ s.1.vertexSize →
        ∀ i, i < 3 * s.1.vertexCount → t.1.coords i = s.1.coords i)))

/-- The state of an extraction after `j` corners of the current triangle (and `cs` corners in
all): both invariants, and the face buffer filled up to the `j`-th corner of face
`faceCount`. -/
def Writer.MidTriangle (dim3 : Bool) (j : Nat) (s : Writer × VMap) (cs : List RCoord) : Prop :=
  Writer.Welded dim3 s.1 s.2 ∧ Writer.FacesWelded s.1 s.2 cs ∧
  1 ≤ s.1.faceCount ∧ cs.length = 3 * s.1.faceCount - 3 + j

/-- The state of an extraction between two triangles. -/
def Writer.Extracting (dim3 : Bool) (s : Writer × VMap) (cs : List RCoord) : Prop :=
  Writer.Welded dim3 s.1 s.2 ∧ Writer.FacesWelded s.1 s.2 cs ∧ cs.length = 3 * s.1.faceCount

/-- The refined coordinates of the corners that `squareCase` emits for the cell `(x, y)`, in
the order of emission. -/
def Writer.squareCorners (faces : Nat → Int) (x y : Nat) : List Nat → List RCoord
  | [] => []
  | i :: rest =>
    if faces i = -1 then []
    else
      (List.range 3).map
          (fun j => (MarchingSquares.coordAt (faces (i + j)) 0 + 2 * x,
            MarchingSquares.coordAt (faces (i + j)) 1 + 2 * y, 0))
        ++ Writer.squareCorners faces x y rest

/-- The refined coordinates of all corners that `marchingSquares` emits on `M`, in the order
of emission. -/
def Writer.marchingSquaresCorners (M : Arr2) : List RCoord :=
  (List.range (M.n1 - 1)).foldl
    (fun cs x =>
      (List.range (M.n0 - 1)).foldl
        (fun cs y =>
          cs ++ Writer.squareCorners (MarchingSquares.lookupAt (Writer.squareCases M x y)) x y
            [0, 3, 6])
        cs)
    []

/-- The refined coordinates of the corners that `cubeCase` emits for the cell `(x, y, z)`. -/
def Writer.cubeCorners (tbl : CubeTable) (faces : Nat → Int) (x y z : Nat) :
    List Nat → List RCoord
  | [] => []
  | i :: rest =>
    if faces i = -1 then []
    else
      (List.range 3).map
          (fun j => (tbl.coords (faces (i + j)) 0 + 2 * x, tbl.coords (faces (i + j)) 1 + 2 * y,
            tbl.coords (faces (i + j)) 2 + 2 * z))
        ++ Writer.cubeCorners tbl faces x y z rest

/-- The refined coordinates of all corners that `marchingCubes` emits on `M`. -/
def Writer.marchingCubesCorners (tbl : CubeTable) (M : Arr3) : List RCoord :=
  (List.range (M.n2 - 1)).foldl
    (fun cs x =>
      (List.range (M.n1 - 1)).foldl
        (fun cs y =>
          (List.range (M.n0 - 1)).foldl
            (fun cs z =>
              cs ++ Writer.cubeCorners tbl (tbl.lookup (Writer.cubeCases M x y z)) x y z
                [0, 3, 6, 9, 12])
            cs)
        cs)
    []

/-- The colour of vertex `v` (1-based), as `output` prints it:
`colors[3v-3], colors[3v-2], colors[3v-1]`. -/
def Writer.color (w : Writer) (v : Nat) : ℚ × ℚ × ℚ :=
  (w.colors (3 * v - 3), w.colors (3 * v - 2), w.colors (3 * v - 1))

/-- The colour that the statements "add color" store for a new vertex whose refined field
value is `t`. -/
def Writer.colorOf (isColored : Bool) (t : ℚ) : ℚ × ℚ × ℚ :=
  if isColored then (1 - t / 255, 0, t / 255) else (COLORLESS, COLORLESS, COLORLESS)

/-- What the vertex loop does to the colour buffer, for a corner at refined coordinate
`(a, b, c)` whose refined field value is `t`: nothing when the corner is welded to an existing
vertex, and otherwise the colour of the new vertex is stored and the colours of the vertices
before it are kept. -/
def Writer.ColorEffect (isColored : Bool) (t : ℚ) (a b c : Nat) (s r : Writer × VMap) : Prop :=
  (s.2 a b c ≠ 0 → r.1.colors = s.1.colors) ∧
  (s.2 a b c = 0 →
    r.1.color (s.1.vertexCount + 1) = Writer.colorOf isColored t ∧
    (3 * s.1.vertexCount ≤ s.1.vertexSize →
      ∀ i, i < 3 * s.1.vertexCount → r.1.colors i = s.1.colors i))

/-- The ledger invariant of an extraction that has emitted the corners `cs`: the weld map is
non-zero only at emitted corners, it gives distinct coordinates distinct ids, and the vertex
at each of them has the colour of the refined field value `vals` there. -/
def Writer.Ledger (isColored : Bool) (vals : Nat → Nat → Nat → ℚ) (s : Writer × VMap)
    (cs : List RCoord) : Prop :=
  (∀ a b c, s.2 a b c ≠ 0 → (a, b, c) ∈ cs) ∧
  (∀ a b c a2 b2 c2, s.2 a b c ≠ 0 → s.2 a b c = s.2 a2 b2 c2 →
    (a, b, c) = (a2, b2, c2)) ∧
  (∀ a b c, s.2 a b c ≠ 0 →
    s.1.color (s.2 a b c) = Writer.colorOf isColored (vals a b c))

/-- The third coordinate of every vertex slot of the buffer is 0: the state of the coordinate
buffer of a writer that has only run `marchingSquares`, which never stores a third
coordinate. -/
def Writer.Planar (w : Writer) : Prop :=
  ∀ i, i < w.vertexSize → i % 3 = 2 → w.coords i = 0

/-- The 2D field `M` has exactly one sample above `EPSILON`, at row `py` and column `px`, and
that sample is interior. -/
def SingleBlob (M : Arr2) (px py : Nat) : Prop :=
  1 ≤ px ∧ px + 2 ≤ M.n1 ∧ 1 ≤ py ∧ py + 2 ≤ M.n0 ∧
  ∀ a b, a < M.n0 → b < M.n1 → (M.val a b > EPSILON ↔ (a = py ∧ b = px))

/-- The refined coordinates of the five vertices around an interior sample at column `px` and
row `py`: the sample itself and the four midpoints next to it. -/
def blobVertices (px py : Nat) : List RCoord :=
  [(2 * px, 2 * py, 0), (2 * px - 1, 2 * py, 0), (2 * px + 1, 2 * py, 0),
   (2 * px, 2 * py - 1, 0), (2 * px, 2 * py + 1, 0)]

/-- A summary of an extraction state in which no buffer has grown beyond the constructor's
capacity: the counts, the weld map, the face list and the normal of vertex 1, which is held by
`normals[0], normals[1], normals[2]`. -/
def Writer.Track (s : Writer × VMap) (vc fc : Nat) (vm : VMap) (nx ny nz : ℚ)
    (me : Nat → Nat) : Prop :=
  s.1.vertexCount = vc ∧ s.1.vertexSize = INTIAL_SIZE ∧ s.1.faceCount = fc ∧
  s.1.meshSize = INTIAL_SIZE ∧ s.2 = vm ∧ s.1.mesh = me ∧
  s.1.normals 0 = nx ∧ s.1.normals 1 = ny ∧ s.1.normals 2 = nz

/-- Twice the signed area `(x1-x0)*(y2-y0) - (y1-y0)*(x2-x0)` of the triangle whose corners are
the points `p0, p1, p2` of `MarchingSquares::coords`. -/
def MarchingSquares.area2 (p0 p1 p2 : Int) : Int :=
  let x0 : Int := MarchingSquares.coordAt p0 0
  let y0 : Int := MarchingSquares.coordAt p0 1
  let x1 : Int := MarchingSquares.coordAt p1 0
  let y1 : Int := MarchingSquares.coordAt p1 1
  let x2 : Int := MarchingSquares.coordAt p2 0
  let y2 : Int := MarchingSquares.coordAt p2 1
  (x1 - x0) * (y2 - y0) - (y1 - y0) * (x2 - x0)

/-- The whole input sequence as one array of normalised frames: frame `i` is the content of
`datafiles[i]` divided by `0xFF`. -/
def sequence (params : Parameters) (files : FrameStore) : Arr4 :=
  { n0 := params.duration, n1 := params.depth, n2 := params.height, n3 := params.width,
    val := fun i z y x => ((files i z y x).val : ℚ) / 255 }

/-- Frames `0, …, m-1` of `A` are frames `s, …, s+m-1` of `B`. -/
def Arr4.AgreeFrom (s m : Nat) (A B : Arr4) : Prop :=
  ∀ i, i < m → ∀ z y x, A.val i z y x = B.val (s + i) z y x

/-- The thresholded feature field of the whole input sequence. -/
def Calc.sequenceFeatures (params : Parameters) (files : FrameStore) : Arr4 :=
  Calc.applyThreshold params (Calc.featureField params (sequence params files))

/-- What the labelling loop makes of feature frame `g` of the whole sequence when that frame
gets the marker `g + 1`: the marker where the thresholded value exceeds 1, the value itself
elsewhere. -/
def Calc.labelled (params : Parameters) (files : FrameStore) (g z y x : Nat) : ℚ :=
  if (Calc.sequenceFeatures params files).val g z y x > 1 then ((g + 1 : Nat) : ℚ)
  else (Calc.sequenceFeatures params files).val g z y x

/-- The value `h` is the maximum of 0 and `f 0, …, f (n-1)`. -/
def IsMaxUpTo (f : Nat → ℚ) (n : Nat) (h : ℚ) : Prop :=
  (h = 0 ∨ ∃ g, g < n ∧ h = f g) ∧ 0 ≤ h ∧ ∀ g, g < n → f g ≤ h

/-! ## Concrete configurations and frame files used in examples -/

/-- A frame store whose files are all zero. -/
def zeroFiles : FrameStore := fun _ _ _ _ => 0

/-- An accumulator checkpoint that is never read (resume offset 0). -/
def noCheckpoint : Arr3 := { n0 := 0, n1 := 0, n2 := 0, val := fun _ _ _ => 0 }

/-- A 2D configuration with 3×3 frames, all kernels of size 3, threshold 1 and mode 0, for a
given duration and batch count. -/
def smallConfig (duration batches : Nat) : Parameters :=
  { isViewed := false, viewSlice := -1, isTimed := false, batches := batches,
    kx := 3, ky := 3, kz := 3, kt := 3, threshold := 1, special := 0,
    width := 3, height := 3, depth := 1, duration := duration, is4D := false,
    exportAnimation := false, x := 0, y := 0 }

/-- A configuration whose temporal kernel (4) is longer than its sequence (1 frame), with
2 batches: outside what `checkParameters` accepts. -/
def shortSequenceConfig : Parameters := { smallConfig 1 2 with kt := 4 }

/-- A marching-cubes table without triangles, standing in for the absent header in
examples. -/
def emptyCubeTable : CubeTable := { coords := fun _ _ => 0, lookup := fun _ _ => -1 }

/-- The 3×3 field of `debugWriter` (main.cpp): zero except for `0x62` at the centre. -/
def debugField : Arr2 := { n0 := 3, n1 := 3, val := fun a b => if a = 1 ∧ b = 1 then 98 else 0 }

/-- A 2×2×2 field that is zero everywhere. -/
def zeroCube : Arr3 := { n0 := 2, n1 := 2, n2 := 2, val := fun _ _ _ => 0 }

/-- Frame files that are zero except for one voxel of value 85 at position (0, 0, 0) of
frame 1. -/
def loneVoxelFiles : FrameStore :=
  fun k z y x => if k = 1 ∧ z = 0 ∧ y = 0 ∧ x = 0 then 85 else 0

/-- Frame files that are zero except for one voxel of value 255 at position (0, 0, 0) of
frame 1. -/
def brightVoxelFiles : FrameStore :=
  fun k z y x => if k = 1 ∧ z = 0 ∧ y = 0 ∧ x = 0 then 255 else 0

/-- A 2×2 field all of whose samples are 255. -/
def fullSquare : Arr2 := { n0 := 2, n1 := 2, val := fun _ _ => 255 }

/-- A 3×3 field that is zero everywhere. -/
def zeroSquare : Arr2 := { n0 := 3, n1 := 3, val := fun _ _ => 0 }

/-- The midpoints of the 12 edges of a cube in the refined grid, in the usual numbering of
the marching-cubes edges (edge 0 joins the corners `(x, y, z)` and `(x+1, y, z)`). -/
def edgeMidpoints : List (List Nat) :=
  [[1, 0, 0], [2, 0, 1], [1, 0, 2], [0, 0, 1], [1, 2, 0], [2, 2, 1], [1, 2, 2], [0, 2, 1],
   [0, 1, 0], [2, 1, 0], [2, 1, 2], [0, 1, 2]]

/-- A marching-cubes table standing in for the absent header in an example: the points are
the edge midpoints, the rows of the case codes 32 and 64 (one corner above `EPSILON`) hold the
single triangle that cuts that corner off, and every other row is empty. -/
def cornerCubeTable : CubeTable :=
  { coords := fun p c => (edgeMidpoints.getD p.toNat []).getD c 0
    lookup := fun code i =>
      if code = 64 then ([10, 6, 5] : List Int).getD i (-1)
      else if code = 32 then ([9, 5, 4] : List Int).getD i (-1) else -1 }

/-- A 3D field of 2×2 samples in 3 slices that is zero except for the sample at
`(z, y, x) = (1, 1, 1)`: two cubes, stacked along `z`, that share this corner. -/
def pairCubes : Arr3 :=
  { n0 := 3, n1 := 2, n2 := 2, val := fun z y x => if z = 1 ∧ y = 1 ∧ x = 1 then 255 else 0 }

end HullComputation

namespace HullComputation

/-- One step of an inner loop of `sobelD2` / `sobelD3` along `dim`: `derivative` when the flag
is set, `guassian` otherwise. -/
def Calc.axisStep (dim : Nat) (M : Arr4) (isDerivative : Bool) : Arr4 :=
  if isDerivative then Calc.derivative M dim else Calc.guassian M dim

/-- A run of inner-loop steps along `dim`, one per flag of `ops`, first flag first. -/
def Calc.axisSteps (dim : Nat) (ops : List Bool) (M : Arr4) : Arr4 :=
  ops.foldl (Calc.axisStep dim) M

/-- The element of `M` at offset `o` along axis `d` from `(i0, i1, i2, i3)`. -/
def Arr4.shifted (M : Arr4) (d o : Nat) (i0 i1 i2 i3 : Nat) : ℚ :=
  match d with
  | 0 => M.val (i0 + o) i1 i2 i3
  | 1 => M.val i0 (i1 + o) i2 i3
  | 2 => M.val i0 i1 (i2 + o) i3
  | _ => M.val i0 i1 i2 (i3 + o)

/-- The extent of `M` along axis `d`. -/
def Arr4.extent (M : Arr4) (d : Nat) : Nat :=
  match d with
  | 0 => M.n0
  | 1 => M.n1
  | 2 => M.n2
  | _ => M.n3

/-- The flags of the inner loop of `sobelD2` along `dimension`, for `n` steps. -/
def Calc.sobelD2Ops (dev1 dev2 dimension n : Nat) : List Bool :=
  (List.range n).map
    (fun i => decide ((i = 0 ∧ dev1 = dimension) ∨ (i = 1 ∧ dev2 = dimension)))

/-- The number of derivative orders that `(dev1, dev2, dev3)` request on axis `d`: the initial
value of `count` in `sobelD3`. -/
def Calc.ordersD3 (dev1 dev2 dev3 d : Nat) : Nat :=
  (if dev1 = d then 1 else 0) + (if dev2 = d then 1 else 0) + (if dev3 = d then 1 else 0)

end HullComputation
namespace HullComputation

end HullComputation
namespace HullComputation

/-- The shape `dims()` of a four-axis array. -/
def Arr4.shape (M : Arr4) : Nat × Nat × Nat × Nat := (M.n0, M.n1, M.n2, M.n3)

/-- The shape `dims()` of a three-axis array. -/
def Arr3.shape (M : Arr3) : Nat × Nat × Nat := (M.n0, M.n1, M.n2)

end HullComputation
namespace HullComputation

/-! ## Parameters.cpp -/

/-- The `int` fields of `class Parameters` that `checkParameters` reads, with the values that
`parseFile` and `parseOptions` leave in them (of any sign); the two flags are only ever set
to 0 or 1. -/
structure Parameters.Parsed where
  isViewed : Bool
  viewSlice : Int
  batches : Int
  kx : Int
  ky : Int
  kz : Int
  kt : Int
  threshold : Int
  special : Int
  width : Int
  height : Int
  depth : Int
  duration : Int
  is4D : Bool

/-- `Parameters::printError`: prints the message and calls `exit(EXIT_FAILURE)`; the run
ends with that usage error. -/
def Parameters.printError (error : String) : Except String Unit := Except.error error

/-- `Parameters::checkParameters`: as `printError` does not return, the first failing test
ends the run with its message and the later tests are reached only when the earlier ones
pass; `ok` is the return to the constructor. -/
def Parameters.checkParameters (p : Parameters.Parsed) : Except String Unit :=
  if 0 ≥ p.threshold then Parameters.printError "Threshold value too small!"
  else if p.kx > p.width then Parameters.printError "Kernel x size too large!"
  else if p.kx < 3 then Parameters.printError "Kernel x size too small must be alteast 3!"
  else if p.ky > p.height then Parameters.printError "Kernel y size too large!"
  else if p.ky < 3 then Parameters.printError "Kernel y size too small must be alteast 3!"
  else if p.kz > p.depth ∧ p.is4D then Parameters.printError "Kernel z size too large!"
  else if p.kz < 3 ∧ p.is4D then
    Parameters.printError "Kernel z size too small must be alteast 3!"
  else if p.kt > p.duration then Parameters.printError "Kernel t size too large!"
  else if p.kt < 3 then Parameters.printError "Kernel t size too small must be alteast 3!"
  else if !p.isViewed ∧ p.viewSlice ≠ -1 then
    Parameters.printError "View slice given but grayscale off!"
  else if p.isViewed ∧ p.viewSlice = -1 ∧ p.is4D then
    Parameters.printError "4D date viewed without view slice!"
  else if p.isViewed ∧ p.viewSlice ≠ -1 ∧ !p.is4D then
    Parameters.printError "View slice given for 3D data!"
  else if p.isViewed ∧ p.is4D ∧ ¬ (0 ≤ p.viewSlice ∧ p.viewSlice ≤ p.depth - p.kz + 1) then
    Parameters.printError "Invalid view slice size!"
  else if 0 ≥ p.batches then Parameters.printError "Too little batches must be atleast 1!"
  else if p.batches > p.duration - p.kt + 1 then Parameters.printError "Too many batches!"
  else if p.special ≠ 0 ∧ p.special ≠ 1 ∧ p.special ≠ 2 then
    Parameters.printError "Invalid special value"
  else Except.ok ()

/-- The fields after `compute <file>` without options on a 2D sequence of 5 frames of 3×3
pixels: the defaults of the constructor, `depth = 1` and so `is4D = 0`. -/
def flatDefaults : Parameters.Parsed :=
  { isViewed := false, viewSlice := -1, batches := 1, kx := 3, ky := 3, kz := 3, kt := 3,
    threshold := 100, special := 0, width := 3, height := 3, depth := 1, duration := 5,
    is4D := false }

end HullComputation
namespace HullComputation

/-- Elementwise `A / c` of a three-axis array. -/
def Arr3.divScalar (A : Arr3) (c : ℚ) : Arr3 :=
  { A with val := fun z y x => A.val z y x / c }

/-- Elementwise `A * c` of a three-axis array. -/
def Arr3.mulScalar (A : Arr3) (c : ℚ) : Arr3 :=
  { A with val := fun z y x => A.val z y x * c }

/-- The call `reorder(A, 1, 2, 0)`: axis 0 of the result is axis 1 of `A`, axis 1 is axis 2 and
axis 2 is axis 0. -/
def Arr3.reorder120 (A : Arr3) : Arr3 :=
  { n0 := A.n1, n1 := A.n2, n2 := A.n0, val := fun i j k => A.val k i j }

/-- `Calc::getHulls` (the value returned; the `saveArray` call writes the checkpoint). -/
def Calc.getHulls (params : Parameters) (c : Calc) : Arr3 :=
  if params.is4D then
    (c.hulls.divScalar (((params.x - (params.kt : Int) + 1 : Int) : ℚ))).mulScalar 255
  else
    (c.hulls.reorder120.divScalar
      (((params.x - (params.kt : Int) + 1 : Int) : ℚ))).mulScalar 255

end HullComputation
namespace HullComputation

/-- The configuration `smallConfig 5 1` in mode 2. -/
def motionConfig : Parameters := { smallConfig 5 1 with special := 2 }

end HullComputation
namespace HullComputation

/-- A 2×2×2 field (one cube) that is zero except for the sample at `(z, y, x) = (1, 1, 1)`:
case code 64. -/
def farCorner : Arr3 :=
  { n0 := 2, n1 := 2, n2 := 2, val := fun z y x => if z = 1 ∧ y = 1 ∧ x = 1 then 255 else 0 }

/-- A 2×2×2 field (one cube) that is zero except for the sample at `(z, y, x) = (0, 1, 1)`:
case code 32. -/
def nearCorner : Arr3 :=
  { n0 := 2, n1 := 2, n2 := 2, val := fun z y x => if z = 0 ∧ y = 1 ∧ x = 1 then 255 else 0 }

end HullComputation
namespace HullComputation

/-- Bit `k` of the case code `c`. -/
def caseBit (c k : Nat) : Bool := c / 2 ^ k % 2 = 1

/-- A row of `MarchingSquares::lookup` is well formed: `n ≤ 3` complete triangles whose
entries are point indices in `0..7`, followed only by `-1`. -/
def MarchingSquares.WellFormedRow (code : Nat) : Prop :=
  ∃ n, n ≤ 3 ∧
    (∀ i, i < 3 * n → 0 ≤ MarchingSquares.lookupAt code i ∧ MarchingSquares.lookupAt code i ≤ 7) ∧
    (∀ i, i < 9 → 3 * n ≤ i → MarchingSquares.lookupAt code i = -1)

end HullComputation
namespace HullComputation

/-! ## Viewer.cpp -/

/-- The fields of a `Parameters` object as the `int`s that `checkParameters` reads. -/
def Parameters.asParsed (params : Parameters) : Parameters.Parsed :=
  { isViewed := params.isViewed, viewSlice := params.viewSlice, batches := params.batches,
    kx := params.kx, ky := params.ky, kz := params.kz, kt := params.kt,
    threshold := params.threshold, special := params.special, width := params.width,
    height := params.height, depth := params.depth, duration := params.duration,
    is4D := params.is4D }

/-- The index expression `hulls(params->viewSlice, span, span)` of `Viewer::show` for 3D
frames: the plane of `hulls` at index `viewSlice` of axis 0; an index outside the extent of
that axis is an ArrayFire index error, `none`. -/
def Viewer.viewedSlice (params : Parameters) (hulls : Arr3) : Option Arr2 :=
  if 0 ≤ params.viewSlice ∧ params.viewSlice < (hulls.n0 : Int) then
    some { n0 := hulls.n1, n1 := hulls.n2,
           val := fun a b => hulls.val params.viewSlice.toNat a b }
  else none

/-- A 3D configuration of 3×3×3 frames with all kernels of size 3, viewed at slice 1:
`compute <file> -gs --view-slice 1` on 5 such frames. -/
def edgeSliceConfig : Parameters :=
  { isViewed := true, viewSlice := 1, isTimed := false, batches := 1,
    kx := 3, ky := 3, kz := 3, kt := 3, threshold := 100, special := 0,
    width := 3, height := 3, depth := 3, duration := 5, is4D := true,
    exportAnimation := false, x := 0, y := 0 }

/-- The state of the run of `marchingCubes` on `pairCubes` after the first cell. -/
def pairCubesAfterFirst (sqrtf : ℚ → ℚ) : Writer × VMap :=
  Writer.cubeCase cornerCubeTable sqrtf (Writer.cubeCases pairCubes)
    (fun x y z => Writer.cubeRefined pairCubes z y x) 0 0 0 true
    (Writer.init.resetCounts, Writer.createVertexMap)

/-- The writer on which `cubeCase` calls `getNormal` for the triangle of the second cell of
`pairCubes`: the face count is incremented and the mesh buffer grown just before the call. -/
def pairCubesSecondCall (sqrtf : ℚ → ℚ) : Writer :=
  Writer.growMesh
    { (pairCubesAfterFirst sqrtf).1 with faceCount := (pairCubesAfterFirst sqrtf).1.faceCount + 1 }

end HullComputation
namespace HullComputation

/-! ## Timer.cpp -/

/-- The part of a `std::ostringstream` that `formatTime` uses: the text written so far, the
field width set by `setw` for the next item, and the fill character. -/
structure OStringStream where
  text : String
  width : Nat
  fill : Char

/-- A freshly constructed stream: no text, width 0, fill character blank. -/
def OStringStream.init : OStringStream := { text := "", width := 0, fill := ' ' }

/-- Formatted output of one item: the item is right-adjusted in a field of the pending width,
padded on the left with the fill character, and the width is reset to 0. -/
def OStringStream.put (ss : OStringStream) (item : String) : OStringStream :=
  { text := ss.text ++ String.mk (List.replicate (ss.width - item.length) ss.fill) ++ item,
    width := 0, fill := ss.fill }

/-- The output `ss << v` of an `int`. -/
def OStringStream.putInt (ss : OStringStream) (v : Int) : OStringStream := ss.put (toString v)

/-- The manipulator `setw(n)`. -/
def OStringStream.setw (ss : OStringStream) (n : Nat) : OStringStream := { ss with width := n }

/-- The manipulator `setfill(c)`. -/
def OStringStream.setfill (ss : OStringStream) (c : Char) : OStringStream := { ss with fill := c }

/-- `Timer::formatTime`; `/` and `%` on `int` truncate towards zero. -/
def Timer.formatTime (ms : Int) : String :=
  let ss := OStringStream.init
  let ss :=
    if ms.tdiv 360000000 > 0 then
      (((ss.putInt (ms.tdiv 360000000)).put "h ").setw 2).setfill '0'
    else ss
  let ss :=
    if ms.tdiv 60000000 > 0 then
      (((ss.putInt ((ms.tdiv 60000000).tmod 60)).put "m ").setw 2).setfill '0'
    else ss
  let ss := (((ss.putInt ((ms.tdiv 1000000).tmod 60)).put ".").setw 6).setfill '0'
  let ss := (ss.putInt (ms.tmod 1000000)).put "s"
  ss.text

end HullComputation
namespace HullComputation

/-! ## Arithmetic of the size formula -/

theorem sum_shifted_div (N B : Nat) (hB : 0 < B) :
    ∑ k in Finset.range B, (N + k) / B = N := by
  induction N with
  | zero =>
    apply Finset.sum_eq_zero
    intro k hk
    rw [Finset.mem_range] at hk
    simp [Nat.div_eq_of_lt hk]
  | succ n ih =>
    have h1 : ∑ k in Finset.range B, (n + 1 + k) / B
        = ∑ k in Finset.range B, (n + (k + 1)) / B := by
      apply Finset.sum_congr rfl
      intro k _
      congr 1
      omega
    have h2 := Finset.sum_range_succ (fun k => (n + k) / B) B
    have h3 := Finset.sum_range_succ' (fun k => (n + k) / B) B
    have h4 : (n + B) / B = n / B + 1 := Nat.add_div_right n hB
    simp only [Nat.add_zero] at h3
    rw [h1]
    omega

theorem div_shift_mono (N B : Nat) {j k : Nat} (h : j ≤ k) : (N + j) / B ≤ (N + k) / B :=
  Nat.div_le_div_right (by omega)

theorem div_shift_le_succ (N B : Nat) (hB : 0 < B) {j k : Nat} (h : k < j + B) :
    (N + k) / B ≤ (N + j) / B + 1 := by
  have h1 : (N + k) / B ≤ (N + j + B) / B := Nat.div_le_div_right (by omega)
  rw [Nat.add_div_right _ hB] at h1
  exact h1

/-- The sum of the sizes from call `k` on, bounded below and above by the size of call `k`. -/
theorem sum_tail_bounds (N B : Nat) (hB : 0 < B) (k : Nat) (hk : k < B) :
    (B - k) * ((N + k) / B) ≤ ∑ j in Finset.Ico k B, (N + j) / B ∧
    ∑ j in Finset.Ico k B, (N + j) / B < (B - k) * ((N + k) / B + 1) := by
  constructor
  · have h := Finset.card_nsmul_le_sum (Finset.Ico k B) (fun j => (N + j) / B) ((N + k) / B)
      (fun j hj => div_shift_mono N B (Finset.mem_Ico.mp hj).1)
    simpa using h
  · have hsplit : ∑ j in Finset.Ico k B, (N + j) / B
        = (N + k) / B + ∑ j in Finset.Ico (k + 1) B, (N + j) / B :=
      Finset.sum_eq_sum_Ico_succ_bot hk _
    have h := Finset.sum_le_card_nsmul (Finset.Ico (k + 1) B) (fun j => (N + j) / B)
      ((N + k) / B + 1)
      (fun j hj => div_shift_le_succ N B hB (by have := (Finset.mem_Ico.mp hj).2; omega))
    simp only [Nat.card_Ico, smul_eq_mul] at h
    rw [hsplit]
    have h5 : (B - k) * ((N + k) / B + 1) = ((N + k) / B + 1) + (B - (k + 1)) * ((N + k) / B + 1) := by
      have : B - k = (B - (k + 1)) + 1 := by omega
      rw [this]; ring
    rw [h5]
    omega

end HullComputation

namespace HullComputation

/-! ## The reader's fill loop and batches -/

theorem Reader.fill_succ (params : Parameters) (files : FrameStore) (first count : Nat)
    (st : Arr4 × Nat) :
    Reader.fill params files first (count + 1) st =
      (((Reader.fill params files first count st).1.setFrame (first + count)
          (Reader.readFile params files (Reader.fill params files first count st).2)),
        (Reader.fill params files first count st).2 + 1) := by
  simp [Reader.fill, List.range_succ, List.foldl_append]

theorem Reader.fill_spec (params : Parameters) (files : FrameStore) (first count : Nat)
    (A : Arr4) (ptr : Nat) :
    (Reader.fill params files first count (A, ptr)).2 = ptr + count ∧
    (Reader.fill params files first count (A, ptr)).1.n0 = A.n0 ∧
    ∀ i z y x, (Reader.fill params files first count (A, ptr)).1.val i z y x =
      if first ≤ i ∧ i < first + count then ((files (ptr + (i - first)) z y x).val : ℚ)
      else A.val i z y x := by
  induction count with
  | zero =>
    refine ⟨rfl, rfl, ?_⟩
    intro i z y x
    have : ¬ (first ≤ i ∧ i < first) := by omega
    simp [Reader.fill, this]
  | succ c ih =>
    obtain ⟨h1, h2, h3⟩ := ih
    rw [Reader.fill_succ]
    refine ⟨by simp [h1]; omega, by simp [Arr4.setFrame, h2], ?_⟩
    intro i z y x
    simp only [Arr4.setFrame, Reader.readFile, h1, h3]
    by_cases hi : i = first + c
    · subst hi
      have : first ≤ first + c ∧ first + c < first + (c + 1) := by omega
      simp [this]
    · by_cases hr : first ≤ i ∧ i < first + c
      · have : first ≤ i ∧ i < first + (c + 1) := by omega
        simp [hi, hr, this]
      · have : ¬ (first ≤ i ∧ i < first + (c + 1)) := by omega
        simp [hi, hr, this]

theorem Reader.afterCalls_batchNum (params : Parameters) (files : FrameStore) (k : Nat) :
    (Reader.afterCalls params files k).batchNum = k := by
  induction k with
  | zero => rfl
  | succ k ih =>
    simp only [Reader.afterCalls, Reader.getNextBatch]
    split <;> simp [ih]

theorem Reader.batchOfCall_eq (params : Parameters) (files : FrameStore) (k : Nat) :
    Reader.batchOfCall params files k =
      (Reader.afterCalls params files (k + 1)).batch.divScalar 255 := by
  simp only [Reader.batchOfCall, Reader.afterCalls, Reader.getNextBatch]

theorem Reader.init_n0 (params : Parameters) (files : FrameStore) :
    (Reader.init params files).batch.n0 = Reader.tSize params 0 := by
  simp only [Reader.init]
  rw [(Reader.fill_spec params files 0 _ _ 0).2.1]
  rfl

theorem Reader.afterCalls_one (params : Parameters) (files : FrameStore) :
    (Reader.afterCalls params files 1).batch = (Reader.init params files).batch ∧
    (Reader.afterCalls params files 1).pointer = (Reader.init params files).pointer := by
  have h : (Reader.init params files).batchNum = 0 := rfl
  simp [Reader.afterCalls, Reader.getNextBatch, h]

theorem Reader.afterCalls_succ_succ (params : Parameters) (files : FrameStore) (k : Nat) :
    (Reader.afterCalls params files (k + 2)).batch =
      (Reader.fill params files (params.kt - 1) (Reader.tSize params (k + 1) - (params.kt - 1))
        (Reader.copyBorder
          (Arr4.alloc (Reader.tSize params (k + 1)) params.depth params.height params.width)
          (Reader.afterCalls params files (k + 1)).batch (params.kt - 1),
         (Reader.afterCalls params files (k + 1)).pointer)).1 ∧
    (Reader.afterCalls params files (k + 2)).pointer =
      (Reader.fill params files (params.kt - 1) (Reader.tSize params (k + 1) - (params.kt - 1))
        (Reader.copyBorder
          (Arr4.alloc (Reader.tSize params (k + 1)) params.depth params.height params.width)
          (Reader.afterCalls params files (k + 1)).batch (params.kt - 1),
         (Reader.afterCalls params files (k + 1)).pointer)).2 := by
  have h := Reader.afterCalls_batchNum params files (k + 1)
  constructor
  · conv_lhs => rw [Reader.afterCalls]
    simp [Reader.getNextBatch, Reader.tSize, h]
  · conv_lhs => rw [Reader.afterCalls]
    simp [Reader.getNextBatch, Reader.tSize, h]

/-- The size of the batch returned by call `k`. -/
theorem Reader.batchOfCall_n0 (params : Parameters) (files : FrameStore) (k : Nat) :
    (Reader.batchOfCall params files k).n0 = Reader.tSize params k := by
  rw [Reader.batchOfCall_eq]
  cases k with
  | zero =>
    simp only [Arr4.divScalar, (Reader.afterCalls_one params files).1]
    exact Reader.init_n0 params files
  | succ k =>
    simp only [Arr4.divScalar, (Reader.afterCalls_succ_succ params files k).1]
    rw [(Reader.fill_spec params files _ _ _ _).2.1]
    rfl

end HullComputation
namespace HullComputation

theorem Reader.tSize_mono (params : Parameters) {j k : Nat} (h : j ≤ k) :
    Reader.tSize params j ≤ Reader.tSize params k :=
  div_shift_mono _ _ h

/-- When the border fits in the sequence, every batch is at least as long as the border. -/
theorem Reader.border_le_tSize (params : Parameters) (hkt : 1 ≤ params.kt)
    (hB : 1 ≤ params.batches) (hD : params.kt ≤ params.duration + 1) (k : Nat) :
    params.kt - 1 ≤ Reader.tSize params k := by
  refine le_trans ?_ (Reader.tSize_mono params (Nat.zero_le k))
  rw [Reader.tSize, Nat.le_div_iff_mul_le (by omega)]
  have h1 : (params.kt - 1) * params.batches
      = (params.kt - 1) + (params.batches - 1) * (params.kt - 1) := by
    have : params.batches = (params.batches - 1) + 1 := by omega
    conv_lhs => rw [this]
    ring
  rw [h1]
  omega

/-- In a configuration with `batches ≤ duration - kt + 1` every batch has at least `kt` frames. -/
theorem Reader.kt_le_tSize (params : Parameters) (hkt : 1 ≤ params.kt)
    (hB : 1 ≤ params.batches) (hBD : params.batches + params.kt ≤ params.duration + 1)
    (k : Nat) : params.kt ≤ Reader.tSize params k := by
  refine le_trans ?_ (Reader.tSize_mono params (Nat.zero_le k))
  rw [Reader.tSize, Nat.le_div_iff_mul_le (by omega)]
  have h1 : params.kt * params.batches
      = params.batches + (params.kt - 1) + (params.batches - 1) * (params.kt - 1) := by
    obtain ⟨b, hb⟩ : ∃ b, params.batches = b + 1 := ⟨params.batches - 1, by omega⟩
    obtain ⟨c, hc⟩ : ∃ c, params.kt = c + 1 := ⟨params.kt - 1, by omega⟩
    rw [hb, hc]
    simp only [Nat.add_sub_cancel]
    ring
  rw [h1]
  omega

theorem Reader.init_holds (params : Parameters) (files : FrameStore) :
    Reader.Holds params files (Reader.init params files) 0 := by
  refine ⟨Reader.init_n0 params files, ?_, ?_⟩
  · simp only [Reader.init, Reader.start]
    rw [(Reader.fill_spec params files 0 _ _ 0).1]
    simp [Reader.tSize]
  · intro i hi z y x
    simp only [Reader.init, Reader.start]
    rw [(Reader.fill_spec params files 0 _ _ 0).2.2]
    have hr : i < (params.duration + (params.batches - 1) * (params.kt - 1))
        / params.batches := by
      simpa [Reader.tSize] using hi
    simp [hr]

theorem Reader.afterCalls_holds (params : Parameters) (files : FrameStore)
    (hkt : 1 ≤ params.kt) (hB : 1 ≤ params.batches) (hD : params.kt ≤ params.duration + 1)
    (k : Nat) : Reader.Holds params files (Reader.afterCalls params files (k + 1)) k := by
  induction k with
  | zero =>
    obtain ⟨h1, h2⟩ := Reader.afterCalls_one params files
    have h := Reader.init_holds params files
    simpa [Reader.Holds, h1, h2] using h
  | succ k ih =>
    obtain ⟨hb, hp⟩ := Reader.afterCalls_succ_succ params files k
    obtain ⟨i0, i1, i2⟩ := ih
    have hk := Reader.border_le_tSize params hkt hB hD k
    have hk1 := Reader.border_le_tSize params hkt hB hD (k + 1)
    refine ⟨?_, ?_, ?_⟩
    · rw [hb, (Reader.fill_spec params files _ _ _ _).2.1]
      rfl
    · rw [hp, (Reader.fill_spec params files _ _ _ _).1, i1]
      simp only [Reader.start]
      omega
    · intro i hi z y x
      rw [hb, (Reader.fill_spec params files _ _ _ _).2.2]
      by_cases hib : i < params.kt - 1
      · have hn : ¬ (params.kt - 1 ≤ i ∧
            i < params.kt - 1 + (Reader.tSize params (k + 1) - (params.kt - 1))) := by omega
        rw [if_neg hn]
        simp only [Reader.copyBorder, hib, if_true, i0]
        rw [i2 _ (by omega)]
        simp only [Reader.start]
        congr 3
        omega
      · have hy : params.kt - 1 ≤ i ∧
            i < params.kt - 1 + (Reader.tSize params (k + 1) - (params.kt - 1)) := by omega
        rw [if_pos hy, i1]
        simp only [Reader.start]
        congr 3
        omega

/-- The first frame of batch `k` plus the `k` re-used borders is the number of frames in the
batches before it. -/
theorem Reader.start_add (params : Parameters)
    (hb : ∀ j, params.kt - 1 ≤ Reader.tSize params j) (k : Nat) :
    Reader.start params k + k * (params.kt - 1) =
      ∑ j in Finset.range k, Reader.tSize params j := by
  induction k with
  | zero => simp [Reader.start]
  | succ k ih =>
    rw [Finset.sum_range_succ, ← ih]
    simp only [Reader.start]
    have := hb k
    have h2 : (k + 1) * (params.kt - 1) = k * (params.kt - 1) + (params.kt - 1) := by ring
    omega

theorem Reader.sum_tSize (params : Parameters) (hB : 1 ≤ params.batches) :
    ∑ k in Finset.range params.batches, Reader.tSize params k =
      params.duration + (params.batches - 1) * (params.kt - 1) :=
  sum_shifted_div _ _ hB

/-- The batches end where the sequence ends. -/
theorem Reader.start_last (params : Parameters) (hkt : 1 ≤ params.kt)
    (hB : 1 ≤ params.batches) (hD : params.kt ≤ params.duration + 1) :
    Reader.start params (params.batches - 1) + Reader.tSize params (params.batches - 1)
      = params.duration := by
  have h1 := Reader.start_add params (Reader.border_le_tSize params hkt hB hD) (params.batches - 1)
  have h2 := Reader.sum_tSize params hB
  have h3 := Finset.sum_range_succ (fun j => Reader.tSize params j) (params.batches - 1)
  have h4 : params.batches - 1 + 1 = params.batches := by omega
  rw [h4] at h3
  omega

end HullComputation
namespace HullComputation

theorem Reader.fill_dims (params : Parameters) (files : FrameStore) (first count : Nat)
    (A : Arr4) (ptr : Nat) :
    (Reader.fill params files first count (A, ptr)).1.n1 = A.n1 ∧
    (Reader.fill params files first count (A, ptr)).1.n2 = A.n2 ∧
    (Reader.fill params files first count (A, ptr)).1.n3 = A.n3 := by
  induction count with
  | zero => exact ⟨rfl, rfl, rfl⟩
  | succ c ih =>
    rw [Reader.fill_succ]
    simpa [Arr4.setFrame] using ih

/-- The spatial shape of every returned batch is `depth × height × width`. -/
theorem Reader.batchOfCall_dims (params : Parameters) (files : FrameStore) (k : Nat) :
    (Reader.batchOfCall params files k).n1 = params.depth ∧
    (Reader.batchOfCall params files k).n2 = params.height ∧
    (Reader.batchOfCall params files k).n3 = params.width := by
  rw [Reader.batchOfCall_eq]
  cases k with
  | zero =>
    simp only [Arr4.divScalar, (Reader.afterCalls_one params files).1, Reader.init]
    exact Reader.fill_dims params files _ _ _ _
  | succ k =>
    simp only [Arr4.divScalar, (Reader.afterCalls_succ_succ params files k).1]
    exact Reader.fill_dims params files _ _ _ _

/-- C6 (as stated, refuted): with duration 1, kt 4 and 2 batches the constructor alone reads
2 frame files, so the file pointer does not end at `duration`. -/
theorem C6_pointer_counterexample :
    1 ≤ shortSequenceConfig.kt ∧ 1 ≤ shortSequenceConfig.batches ∧
    (Reader.afterCalls shortSequenceConfig zeroFiles shortSequenceConfig.batches).pointer
      ≠ shortSequenceConfig.duration := by
  decide

/-- C6 (amended): for every duration, `kt ≥ 1` and batch count `B ≥ 1`, the sizes of the `B`
returned batches sum to `duration + (B-1)*(kt-1)`; and when the border fits in the sequence
(`kt - 1 ≤ duration`, as in every accepted configuration) the reader has read exactly
`duration` frame files after the `B` calls: its file pointer ends at `duration`. -/
theorem C6_total_frames_consumed (params : Parameters) (files : FrameStore)
    (hkt : 1 ≤ params.kt) (hB : 1 ≤ params.batches) :
    ∑ k in Finset.range params.batches, (Reader.batchOfCall params files k).n0
      = params.duration + (params.batches - 1) * (params.kt - 1) ∧
    (params.kt ≤ params.duration + 1 →
      (Reader.afterCalls params files params.batches).pointer = params.duration) := by
  constructor
  · simp only [Reader.batchOfCall_n0]
    exact Reader.sum_tSize params hB
  · intro hD
    have h := (Reader.afterCalls_holds params files hkt hB hD (params.batches - 1)).2.1
    have h4 : params.batches - 1 + 1 = params.batches := by omega
    rw [h4] at h
    rw [h]
    exact Reader.start_last params hkt hB hD

/-- C6 (witness): 5 frames, `kt = 3`, 2 batches. -/
theorem C6_total_frames_consumed_witness :
    ∑ k in Finset.range (smallConfig 5 2).batches,
        (Reader.batchOfCall (smallConfig 5 2) zeroFiles k).n0
      = (smallConfig 5 2).duration + ((smallConfig 5 2).batches - 1) * ((smallConfig 5 2).kt - 1) ∧
    ((smallConfig 5 2).kt ≤ (smallConfig 5 2).duration + 1 →
      (Reader.afterCalls (smallConfig 5 2) zeroFiles (smallConfig 5 2).batches).pointer
        = (smallConfig 5 2).duration) :=
  C6_total_frames_consumed (smallConfig 5 2) zeroFiles (by decide) (by decide)

/-- C7: for `1 ≤ n < B`, frames `0 .. kt-2` of the batch returned by call `n+1` (index `n`)
equal, value for value, the last `kt-1` frames of the batch returned by call `n` (index `n-1`);
the two batches have the same spatial shape, and when the border fits in the sequence both
batches are at least `kt-1` frames long, so the frames compared exist. -/
theorem C7_border_continuity (params : Parameters) (files : FrameStore) (n : Nat)
    (hn : 1 ≤ n) (hnB : n < params.batches) :
    (∀ i, i < params.kt - 1 → ∀ z y x,
      (Reader.batchOfCall params files n).val i z y x =
        (Reader.batchOfCall params files (n - 1)).val
          ((Reader.batchOfCall params files (n - 1)).n0 - (params.kt - 1) + i) z y x) ∧
    ((Reader.batchOfCall params files n).n1 = (Reader.batchOfCall params files (n - 1)).n1 ∧
     (Reader.batchOfCall params files n).n2 = (Reader.batchOfCall params files (n - 1)).n2 ∧
     (Reader.batchOfCall params files n).n3 = (Reader.batchOfCall params files (n - 1)).n3) ∧
    (1 ≤ params.kt → params.kt ≤ params.duration + 1 →
      params.kt - 1 ≤ (Reader.batchOfCall params files (n - 1)).n0 ∧
      params.kt - 1 ≤ (Reader.batchOfCall params files n).n0) := by
  obtain ⟨m, rfl⟩ : ∃ m, n = m + 1 := ⟨n - 1, by omega⟩
  simp only [Nat.add_sub_cancel]
  refine ⟨?_, ?_, ?_⟩
  · intro i hi z y x
    rw [Reader.batchOfCall_eq params files (m + 1), Reader.batchOfCall_eq params files m]
    simp only [Arr4.divScalar, (Reader.afterCalls_succ_succ params files m).1]
    rw [(Reader.fill_spec params files _ _ _ _).2.2]
    have hno : ¬ (params.kt - 1 ≤ i ∧
        i < params.kt - 1 + (Reader.tSize params (m + 1) - (params.kt - 1))) := by omega
    rw [if_neg hno]
    simp only [Reader.copyBorder, hi, if_true]
  · have h1 := Reader.batchOfCall_dims params files (m + 1)
    have h2 := Reader.batchOfCall_dims params files m
    exact ⟨h1.1.trans h2.1.symm, h1.2.1.trans h2.2.1.symm, h1.2.2.trans h2.2.2.symm⟩
  · intro hkt hD
    have hB : 1 ≤ params.batches := by omega
    rw [Reader.batchOfCall_n0, Reader.batchOfCall_n0]
    exact ⟨Reader.border_le_tSize params hkt hB hD m,
      Reader.border_le_tSize params hkt hB hD (m + 1)⟩

/-- The size of call `k` is the even share of what is left for the calls `k, …, B-1`. -/
theorem even_partition_arith (N B k : Nat) (hk : k < B) :
    (N + k) / B = (N - ∑ j in Finset.range k, (N + j) / B) / (B - k) := by
  have hB : 0 < B := by omega
  have hsum := sum_shifted_div N B hB
  have hsplit := Finset.sum_range_add_sum_Ico (fun j => (N + j) / B) (le_of_lt hk)
  obtain ⟨lo, hi⟩ := sum_tail_bounds N B hB k hk
  simp only at hsplit
  have hR : N - ∑ j in Finset.range k, (N + j) / B = ∑ j in Finset.Ico k B, (N + j) / B := by
    omega
  rw [hR]
  symm
  apply Nat.div_eq_of_lt_le
  · rw [Nat.mul_comm]; exact lo
  · rw [Nat.mul_comm]; exact hi

/-- C8: at every call `k < B` the batch size is `⌊R_k / (B - k)⌋`, where `R_k` is
`duration + (B-1)*(kt-1)` minus the sizes of the batches already returned; and any two batch
sizes differ by at most 1. -/
theorem C8_even_partition (params : Parameters) (files : FrameStore) (k : Nat)
    (hk : k < params.batches) :
    (Reader.batchOfCall params files k).n0 =
      (params.duration + (params.batches - 1) * (params.kt - 1)
        - ∑ j in Finset.range k, (Reader.batchOfCall params files j).n0)
        / (params.batches - k) ∧
    ∀ j, j < params.batches →
      (Reader.batchOfCall params files j).n0 ≤ (Reader.batchOfCall params files k).n0 + 1 ∧
      (Reader.batchOfCall params files k).n0 ≤ (Reader.batchOfCall params files j).n0 + 1 := by
  have hB : 0 < params.batches := by omega
  simp only [Reader.batchOfCall_n0]
  constructor
  · exact even_partition_arith _ _ k hk
  · intro j hj
    constructor
    · exact div_shift_le_succ _ _ hB (by omega)
    · exact div_shift_le_succ _ _ hB (by omega)

/-- C8 (witness): call 1 of 3 batches over 7 frames. -/
theorem C8_even_partition_witness :
    (Reader.batchOfCall (smallConfig 7 3) zeroFiles 1).n0 =
      ((smallConfig 7 3).duration + ((smallConfig 7 3).batches - 1) * ((smallConfig 7 3).kt - 1)
        - ∑ j in Finset.range 1, (Reader.batchOfCall (smallConfig 7 3) zeroFiles j).n0)
        / ((smallConfig 7 3).batches - 1) ∧
    ∀ j, j < (smallConfig 7 3).batches →
      (Reader.batchOfCall (smallConfig 7 3) zeroFiles j).n0
        ≤ (Reader.batchOfCall (smallConfig 7 3) zeroFiles 1).n0 + 1 ∧
      (Reader.batchOfCall (smallConfig 7 3) zeroFiles 1).n0
        ≤ (Reader.batchOfCall (smallConfig 7 3) zeroFiles j).n0 + 1 :=
  C8_even_partition (smallConfig 7 3) zeroFiles 1 (by decide)

/-- C7 (witness): the second of 2 batches over 5 frames. -/
theorem C7_border_continuity_witness :
    (∀ i, i < (smallConfig 5 2).kt - 1 → ∀ z y x,
      (Reader.batchOfCall (smallConfig 5 2) zeroFiles 1).val i z y x =
        (Reader.batchOfCall (smallConfig 5 2) zeroFiles (1 - 1)).val
          ((Reader.batchOfCall (smallConfig 5 2) zeroFiles (1 - 1)).n0
            - ((smallConfig 5 2).kt - 1) + i) z y x) ∧
    ((Reader.batchOfCall (smallConfig 5 2) zeroFiles 1).n1
        = (Reader.batchOfCall (smallConfig 5 2) zeroFiles (1 - 1)).n1 ∧
     (Reader.batchOfCall (smallConfig 5 2) zeroFiles 1).n2
        = (Reader.batchOfCall (smallConfig 5 2) zeroFiles (1 - 1)).n2 ∧
     (Reader.batchOfCall (smallConfig 5 2) zeroFiles 1).n3
        = (Reader.batchOfCall (smallConfig 5 2) zeroFiles (1 - 1)).n3) ∧
    (1 ≤ (smallConfig 5 2).kt → (smallConfig 5 2).kt ≤ (smallConfig 5 2).duration + 1 →
      (smallConfig 5 2).kt - 1 ≤ (Reader.batchOfCall (smallConfig 5 2) zeroFiles (1 - 1)).n0 ∧
      (smallConfig 5 2).kt - 1 ≤ (Reader.batchOfCall (smallConfig 5 2) zeroFiles 1).n0) :=
  C7_border_continuity (smallConfig 5 2) zeroFiles 1 (by decide) (by decide)

end HullComputation
namespace HullComputation

/-! ## The labelling loop, the time maximum and the merge -/

theorem Calc.labelFrame_val (A : Arr4) (i : Nat) (marker : Int) (i0 i1 i2 i3 : Nat) :
    (Calc.labelFrame A i marker).val i0 i1 i2 i3 =
      if i0 = i then (if A.val i i1 i2 i3 > 1 then (marker : ℚ) else A.val i i1 i2 i3)
      else A.val i0 i1 i2 i3 := rfl

theorem Calc.labelFrame_n0 (A : Arr4) (i : Nat) (marker : Int) :
    (Calc.labelFrame A i marker).n0 = A.n0 := rfl

theorem Calc.labelLoop_aux (params : Parameters) (c : Calc) (A : Arr4) (n : Nat) :
    ((List.range n).foldl
        (fun st i => Calc.labelFrame st i ((i : Int) + c.t + params.y)) A).n0 = A.n0 ∧
    ∀ i z y x,
      ((List.range n).foldl
        (fun st i => Calc.labelFrame st i ((i : Int) + c.t + params.y)) A).val i z y x =
      if i < n then
        (if A.val i z y x > 1 then (((i : Int) + c.t + params.y : Int) : ℚ) else A.val i z y x)
      else A.val i z y x := by
  induction n with
  | zero => simp
  | succ n ih =>
    obtain ⟨h0, hv⟩ := ih
    rw [List.range_succ, List.foldl_append]
    simp only [List.foldl_cons, List.foldl_nil]
    refine ⟨by rw [Calc.labelFrame_n0]; exact h0, ?_⟩
    intro i z y x
    rw [Calc.labelFrame_val, hv, hv]
    by_cases hi : i = n
    · subst hi
      simp
    · by_cases hlt : i < n
      · have : i < n + 1 := by omega
        simp [hi, hlt, this]
      · have : ¬ i < n + 1 := by omega
        simp [hi, hlt, this]

/-- The labelling loop keeps the shape, writes the marker `i + t + y` into the cells of
frame `i` whose value exceeds 1, and leaves every other cell as it is. -/
theorem Calc.labelLoop_val (params : Parameters) (c : Calc) (A : Arr4) (i z y x : Nat) :
    (Calc.labelLoop params c A).val i z y x =
      if i < A.n0 then
        (if A.val i z y x > 1 then (((i : Int) + c.t + params.y : Int) : ℚ) else A.val i z y x)
      else A.val i z y x :=
  (Calc.labelLoop_aux params c A A.n0).2 i z y x

theorem Calc.labelLoop_n0 (params : Parameters) (c : Calc) (A : Arr4) :
    (Calc.labelLoop params c A).n0 = A.n0 :=
  (Calc.labelLoop_aux params c A A.n0).1

theorem foldl_max_spec (f : Nat → ℚ) (n : Nat) :
    (∀ i, i ≤ n → f i ≤ (List.range n).foldl (fun acc i => max acc (f (i + 1))) (f 0)) ∧
    ∃ i, i ≤ n ∧ (List.range n).foldl (fun acc i => max acc (f (i + 1))) (f 0) = f i := by
  induction n with
  | zero =>
    refine ⟨?_, 0, le_refl 0, rfl⟩
    intro i hi
    have : i = 0 := by omega
    subst this
    exact le_refl _
  | succ n ih =>
    obtain ⟨hle, j, hj, hjv⟩ := ih
    rw [List.range_succ, List.foldl_append]
    simp only [List.foldl_cons, List.foldl_nil]
    constructor
    · intro i hi
      by_cases h : i ≤ n
      · exact le_trans (hle i h) (le_max_left _ _)
      · have : i = n + 1 := by omega
        subst this
        exact le_max_right _ _
    · rcases le_total ((List.range n).foldl (fun acc i => max acc (f (i + 1))) (f 0)) (f (n + 1))
        with h | h
      · exact ⟨n + 1, le_refl _, max_eq_right h⟩
      · exact ⟨j, by omega, by rw [max_eq_left h, hjv]⟩

/-- The time maximum of a field with at least one frame is the greatest of its frames. -/
theorem Calc.maxTime_spec (M : Arr4) (z y x : Nat) (hn : 0 < M.n0) :
    (∀ i, i < M.n0 → M.val i z y x ≤ (Calc.maxTime M).val z y x) ∧
    ∃ i, i < M.n0 ∧ (Calc.maxTime M).val z y x = M.val i z y x := by
  obtain ⟨n, hn0⟩ : ∃ n, M.n0 = n + 1 := ⟨M.n0 - 1, by omega⟩
  simp only [Calc.maxTime, hn0]
  obtain ⟨h1, j, hj, hjv⟩ := foldl_max_spec (fun i => M.val i z y x) n
  exact ⟨fun i hi => h1 i (by omega), j, by omega, hjv⟩

theorem Calc.maxTime_empty (M : Arr4) (z y x : Nat) (hn : M.n0 = 0) :
    (Calc.maxTime M).val z y x = 0 := by
  simp [Calc.maxTime, hn]

theorem Calc.processBatch_hulls (params : Parameters) (c : Calc) (batch : Arr4) (z y x : Nat) :
    (Calc.processBatch params c batch).hulls.val z y x =
      max (c.hulls.val z y x)
        ((Calc.maxTime (Calc.labelLoop params c
          (Calc.applyThreshold params (Calc.featureField params batch)))).val z y x) := rfl

theorem Calc.processBatch_t (params : Parameters) (c : Calc) (batch : Arr4) :
    (Calc.processBatch params c batch).t = c.t + ((Calc.featureField params batch).n0 : Int) := rfl

theorem Calc.run_append (params : Parameters) (c : Calc) (bs : List Arr4) (b : Arr4) :
    Calc.run params c (bs ++ [b]) = Calc.processBatch params (Calc.run params c bs) b := by
  simp [Calc.run, List.foldl_append]

/-- C2: `processBatch` replaces the accumulator by the elementwise maximum of the old
accumulator and the batch's time-flattened label slice, so every cell is `≥` its value before
the call, and stays so over any further run of `processBatch` calls. -/
theorem C2_monotonicity (params : Parameters) (c : Calc) (batch : Arr4) (z y x : Nat) :
    (Calc.processBatch params c batch).hulls.val z y x =
      max (c.hulls.val z y x)
        ((Calc.maxTime (Calc.labelLoop params c
          (Calc.applyThreshold params (Calc.featureField params batch)))).val z y x) ∧
    c.hulls.val z y x ≤ (Calc.processBatch params c batch).hulls.val z y x ∧
    ∀ batches : List Arr4,
      c.hulls.val z y x ≤ (Calc.run params c batches).hulls.val z y x := by
  refine ⟨rfl, ?_, ?_⟩
  · rw [Calc.processBatch_hulls]
    exact le_max_left _ _
  · intro batches
    induction batches using List.reverseRecOn with
    | nil => exact le_refl _
    | append_singleton bs b ih =>
      rw [Calc.run_append, Calc.processBatch_hulls]
      exact le_trans ih (le_max_left _ _)

end HullComputation
namespace HullComputation

/-! ## The accumulator holds labels -/

theorem Calc.featureFrames_append (params : Parameters) (bs : List Arr4) (b : Arr4) :
    Calc.featureFrames params (bs ++ [b]) =
      Calc.featureFrames params bs + (Calc.featureField params b).n0 := by
  simp [Calc.featureFrames]

end HullComputation
namespace HullComputation

/-! ## The stencils are local in time -/

theorem foldl_rel {α β γ : Type} (R : α → β → Prop) (f : α → γ → α) (g : β → γ → β)
    (h : ∀ a b x, R a b → R (f a x) (g b x)) (l : List γ) :
    ∀ a b, R a b → R (l.foldl f a) (l.foldl g b) := by
  induction l with
  | nil => intro a b hab; exact hab
  | cons x l ih => intro a b hab; exact ih _ _ (h a b x hab)

theorem foldl_inv {α γ : Type} (P : α → Prop) (f : α → γ → α)
    (h : ∀ a x, P a → P (f a x)) (l : List γ) : ∀ a, P a → P (l.foldl f a) := by
  induction l with
  | nil => intro a ha; exact ha
  | cons x l ih => intro a ha; exact ih _ (h a x ha)

theorem Arr4.AgreeFrom.mono {s m m' : Nat} {A B : Arr4} (h : Arr4.AgreeFrom s m A B)
    (hm : m' ≤ m) : Arr4.AgreeFrom s m' A B :=
  fun i hi => h i (by omega)

theorem Calc.derivative_agree_time {s m : Nat} {A B : Arr4}
    (h : Arr4.AgreeFrom s (m + 1) A B) :
    Arr4.AgreeFrom s m (Calc.derivative A 0) (Calc.derivative B 0) := by
  intro i hi z y x
  simp only [Calc.derivative]
  rw [h i (by omega), h (i + 1) (by omega)]
  rfl

theorem Calc.guassian_agree_time {s m : Nat} {A B : Arr4}
    (h : Arr4.AgreeFrom s (m + 1) A B) :
    Arr4.AgreeFrom s m (Calc.guassian A 0) (Calc.guassian B 0) := by
  intro i hi z y x
  simp only [Calc.guassian]
  rw [h i (by omega), h (i + 1) (by omega)]
  rfl

theorem Calc.derivative_agree_space {s m : Nat} {A B : Arr4} (d : Nat)
    (h : Arr4.AgreeFrom s m A B) :
    Arr4.AgreeFrom s m (Calc.derivative A (d + 1)) (Calc.derivative B (d + 1)) := by
  intro i hi z y x
  rcases d with _ | _ | d <;> simp only [Calc.derivative] <;> rw [h i hi, h i hi]

theorem Calc.guassian_agree_space {s m : Nat} {A B : Arr4} (d : Nat)
    (h : Arr4.AgreeFrom s m A B) :
    Arr4.AgreeFrom s m (Calc.guassian A (d + 1)) (Calc.guassian B (d + 1)) := by
  intro i hi z y x
  rcases d with _ | _ | d <;> simp only [Calc.guassian] <;> rw [h i hi, h i hi]

theorem Calc.derivative_n0_time (A : Arr4) : (Calc.derivative A 0).n0 = A.n0 - 1 := rfl

theorem Calc.guassian_n0_time (A : Arr4) : (Calc.guassian A 0).n0 = A.n0 - 1 := rfl

theorem Calc.derivative_n0_space (A : Arr4) (d : Nat) :
    (Calc.derivative A (d + 1)).n0 = A.n0 := by
  rcases d with _ | _ | d <;> rfl

theorem Calc.guassian_n0_space (A : Arr4) (d : Nat) :
    (Calc.guassian A (d + 1)).n0 = A.n0 := by
  rcases d with _ | _ | d <;> rfl

/-- A run of time-axis steps of `sobelD2` shortens the agreeing window by one frame per step. -/
theorem Calc.sobelD2_time_agree (dev1 dev2 s : Nat) (l : List Nat) :
    ∀ (m : Nat) (A B : Arr4), Arr4.AgreeFrom s (m + l.length) A B →
      Arr4.AgreeFrom s m (l.foldl (Calc.sobelD2Step dev1 dev2 0) A)
        (l.foldl (Calc.sobelD2Step dev1 dev2 0) B) := by
  induction l with
  | nil => intro m A B h; exact h
  | cons i l ih =>
    intro m A B h
    simp only [List.foldl_cons]
    apply ih
    have h1 : Arr4.AgreeFrom s (m + l.length + 1) A B := by
      simpa [Nat.add_assoc] using h
    simp only [Calc.sobelD2Step]
    split_ifs
    · exact Calc.derivative_agree_time h1
    · exact Calc.derivative_agree_time h1
    · exact Calc.guassian_agree_time h1

theorem Calc.sobelD2_time_n0 (dev1 dev2 : Nat) (l : List Nat) :
    ∀ A : Arr4, (l.foldl (Calc.sobelD2Step dev1 dev2 0) A).n0 = A.n0 - l.length := by
  induction l with
  | nil => intro A; rfl
  | cons i l ih =>
    intro A
    simp only [List.foldl_cons, List.length_cons]
    rw [ih]
    have : (Calc.sobelD2Step dev1 dev2 0 A i).n0 = A.n0 - 1 := by
      simp only [Calc.sobelD2Step]
      split_ifs <;> rfl
    rw [this]
    omega

theorem Calc.sobelD2_space_agree (dev1 dev2 s m d : Nat) (l : List Nat) (A B : Arr4)
    (h : Arr4.AgreeFrom s m A B) :
    Arr4.AgreeFrom s m (l.foldl (Calc.sobelD2Step dev1 dev2 (d + 1)) A)
      (l.foldl (Calc.sobelD2Step dev1 dev2 (d + 1)) B) := by
  refine foldl_rel (Arr4.AgreeFrom s m) _ _ ?_ l A B h
  intro a b i hab
  simp only [Calc.sobelD2Step]
  split_ifs
  · exact Calc.derivative_agree_space d hab
  · exact Calc.derivative_agree_space d hab
  · exact Calc.guassian_agree_space d hab

theorem Calc.sobelD2_space_n0 (dev1 dev2 d : Nat) (l : List Nat) (A : Arr4) :
    (l.foldl (Calc.sobelD2Step dev1 dev2 (d + 1)) A).n0 = A.n0 := by
  refine foldl_inv (fun a : Arr4 => a.n0 = A.n0) _ ?_ l A rfl
  intro a i ha
  simp only [Calc.sobelD2Step]
  split_ifs
  · rw [Calc.derivative_n0_space]; exact ha
  · rw [Calc.derivative_n0_space]; exact ha
  · rw [Calc.guassian_n0_space]; exact ha

theorem Calc.sobelD2_unfold (params : Parameters) (M : Arr4) (dev1 dev2 : Nat) :
    Calc.sobelD2 params M dev1 dev2 =
      (List.range (params.kx - 1)).foldl (Calc.sobelD2Step dev1 dev2 3)
        ((List.range (params.ky - 1)).foldl (Calc.sobelD2Step dev1 dev2 2)
          ((List.range ((if params.is4D then params.kz else 1) - 1)).foldl
            (Calc.sobelD2Step dev1 dev2 1)
            ((List.range (params.kt - 1)).foldl (Calc.sobelD2Step dev1 dev2 0) M))) := rfl

/-- Frame `i` of `sobelD2` depends only on frames `i, …, i + kt - 1` of its argument. -/
theorem Calc.sobelD2_agree (params : Parameters) (dev1 dev2 s m : Nat) (A B : Arr4)
    (h : Arr4.AgreeFrom s (m + (params.kt - 1)) A B) :
    Arr4.AgreeFrom s m (Calc.sobelD2 params A dev1 dev2) (Calc.sobelD2 params B dev1 dev2) := by
  rw [Calc.sobelD2_unfold, Calc.sobelD2_unfold]
  apply Calc.sobelD2_space_agree
  apply Calc.sobelD2_space_agree
  apply Calc.sobelD2_space_agree
  apply Calc.sobelD2_time_agree
  simpa using h

theorem Calc.sobelD2_n0 (params : Parameters) (dev1 dev2 : Nat) (A : Arr4) :
    (Calc.sobelD2 params A dev1 dev2).n0 = A.n0 - (params.kt - 1) := by
  rw [Calc.sobelD2_unfold, Calc.sobelD2_space_n0, Calc.sobelD2_space_n0,
    Calc.sobelD2_space_n0, Calc.sobelD2_time_n0]
  simp

end HullComputation
namespace HullComputation

theorem Calc.sobelD3_time_agree (s : Nat) (l : List Nat) :
    ∀ (m : Nat) (A B : Arr4) (cnt : Int), Arr4.AgreeFrom s (m + l.length) A B →
      Arr4.AgreeFrom s m (l.foldl (fun st _ => Calc.sobelD3Step 0 st) (A, cnt)).1
        (l.foldl (fun st _ => Calc.sobelD3Step 0 st) (B, cnt)).1 := by
  induction l with
  | nil => intro m A B cnt h; exact h
  | cons i l ih =>
    intro m A B cnt h
    simp only [List.foldl_cons, Calc.sobelD3Step]
    apply ih
    have h1 : Arr4.AgreeFrom s (m + l.length + 1) A B := by
      simpa [Nat.add_assoc] using h
    split_ifs
    · exact Calc.derivative_agree_time h1
    · exact Calc.guassian_agree_time h1

theorem Calc.sobelD3_time_n0 (l : List Nat) :
    ∀ (A : Arr4) (cnt : Int),
      (l.foldl (fun st _ => Calc.sobelD3Step 0 st) (A, cnt)).1.n0 = A.n0 - l.length := by
  induction l with
  | nil => intro A cnt; rfl
  | cons i l ih =>
    intro A cnt
    simp only [List.foldl_cons, List.length_cons]
    rw [Calc.sobelD3Step, ih]
    have : (if cnt > 0 then Calc.derivative A 0 else Calc.guassian A 0).n0 = A.n0 - 1 := by
      split_ifs <;> rfl
    simp only at this ⊢
    rw [this]
    omega

theorem Calc.sobelD3_space_agree (s m d : Nat) (l : List Nat) :
    ∀ (A B : Arr4) (cnt : Int), Arr4.AgreeFrom s m A B →
      Arr4.AgreeFrom s m (l.foldl (fun st _ => Calc.sobelD3Step (d + 1) st) (A, cnt)).1
        (l.foldl (fun st _ => Calc.sobelD3Step (d + 1) st) (B, cnt)).1 := by
  induction l with
  | nil => intro A B cnt h; exact h
  | cons i l ih =>
    intro A B cnt h
    simp only [List.foldl_cons, Calc.sobelD3Step]
    apply ih
    split_ifs
    · exact Calc.derivative_agree_space d h
    · exact Calc.guassian_agree_space d h

theorem Calc.sobelD3_space_n0 (d : Nat) (l : List Nat) :
    ∀ (A : Arr4) (cnt : Int),
      (l.foldl (fun st _ => Calc.sobelD3Step (d + 1) st) (A, cnt)).1.n0 = A.n0 := by
  induction l with
  | nil => intro A cnt; rfl
  | cons i l ih =>
    intro A cnt
    simp only [List.foldl_cons]
    rw [Calc.sobelD3Step, ih]
    simp only
    split_ifs
    · exact Calc.derivative_n0_space A d
    · exact Calc.guassian_n0_space A d

theorem Calc.sobelD3_unfold (params : Parameters) (M : Arr4) (dev1 dev2 dev3 : Nat) :
    Calc.sobelD3 params M dev1 dev2 dev3 =
      ((List.range (params.kx - 1)).foldl (fun st _ => Calc.sobelD3Step 3 st)
        (((List.range (params.ky - 1)).foldl (fun st _ => Calc.sobelD3Step 2 st)
          (((List.range ((if params.is4D then params.kz else 1) - 1)).foldl
            (fun st _ => Calc.sobelD3Step 1 st)
            (((List.range (params.kt - 1)).foldl (fun st _ => Calc.sobelD3Step 0 st)
              (M, (if dev1 = 0 then 1 else 0) + (if dev2 = 0 then 1 else 0)
                + (if dev3 = 0 then 1 else 0))).1,
             (if dev1 = 1 then 1 else 0) + (if dev2 = 1 then 1 else 0)
                + (if dev3 = 1 then 1 else 0))).1,
           (if dev1 = 2 then 1 else 0) + (if dev2 = 2 then 1 else 0)
                + (if dev3 = 2 then 1 else 0))).1,
         (if dev1 = 3 then 1 else 0) + (if dev2 = 3 then 1 else 0)
                + (if dev3 = 3 then 1 else 0))).1 := rfl

/-- Frame `i` of `sobelD3` depends only on frames `i, …, i + kt - 1` of its argument. -/
theorem Calc.sobelD3_agree (params : Parameters) (dev1 dev2 dev3 s m : Nat) (A B : Arr4)
    (h : Arr4.AgreeFrom s (m + (params.kt - 1)) A B) :
    Arr4.AgreeFrom s m (Calc.sobelD3 params A dev1 dev2 dev3)
      (Calc.sobelD3 params B dev1 dev2 dev3) := by
  rw [Calc.sobelD3_unfold, Calc.sobelD3_unfold]
  apply Calc.sobelD3_space_agree
  apply Calc.sobelD3_space_agree
  apply Calc.sobelD3_space_agree
  apply Calc.sobelD3_time_agree
  simpa using h

theorem Calc.sobelD3_n0 (params : Parameters) (dev1 dev2 dev3 : Nat) (A : Arr4) :
    (Calc.sobelD3 params A dev1 dev2 dev3).n0 = A.n0 - (params.kt - 1) := by
  rw [Calc.sobelD3_unfold, Calc.sobelD3_space_n0, Calc.sobelD3_space_n0,
    Calc.sobelD3_space_n0, Calc.sobelD3_time_n0]
  simp

theorem Arr4.AgreeFrom.pow2 {s m : Nat} {A B : Arr4} (h : Arr4.AgreeFrom s m A B) :
    Arr4.AgreeFrom s m A.pow2 B.pow2 := by
  intro i hi z y x
  simp only [Arr4.pow2]
  rw [h i hi]

theorem Arr4.AgreeFrom.add {s m : Nat} {A B C D : Arr4} (h : Arr4.AgreeFrom s m A B)
    (h2 : Arr4.AgreeFrom s m C D) : Arr4.AgreeFrom s m (A.add C) (B.add D) := by
  intro i hi z y x
  simp only [Arr4.add]
  rw [h i hi, h2 i hi]

theorem Arr4.AgreeFrom.scale {s m : Nat} {A B : Arr4} (c : ℚ) (h : Arr4.AgreeFrom s m A B) :
    Arr4.AgreeFrom s m (Arr4.scale c A) (Arr4.scale c B) := by
  intro i hi z y x
  simp only [Arr4.scale]
  rw [h i hi]

theorem Arr4.AgreeFrom.alloc (s m : Nat) (a b c d a2 b2 c2 d2 : Nat) :
    Arr4.AgreeFrom s m (Arr4.alloc a b c d) (Arr4.alloc a2 b2 c2 d2) :=
  fun _ _ _ _ _ => rfl

/-- Frame `i` of the feature field depends only on frames `i, …, i + kt - 1` of the batch. -/
theorem Calc.featureField_agree (params : Parameters) (s m : Nat) (A B : Arr4)
    (h : Arr4.AgreeFrom s (m + (params.kt - 1)) A B) :
    Arr4.AgreeFrom s m (Calc.featureField params A) (Calc.featureField params B) := by
  have hD2 : ∀ d1 d2, Arr4.AgreeFrom s m (Calc.sobelD2 params A d1 d2)
      (Calc.sobelD2 params B d1 d2) := fun d1 d2 => Calc.sobelD2_agree params d1 d2 s m A B h
  have hD3 : ∀ d1 d2 d3, Arr4.AgreeFrom s m (Calc.sobelD3 params A d1 d2 d3)
      (Calc.sobelD3 params B d1 d2 d3) :=
    fun d1 d2 d3 => Calc.sobelD3_agree params d1 d2 d3 s m A B h
  have step1 : Arr4.AgreeFrom s m
      (if params.special = 0 ∨ params.special = 1 then
        (List.range 3).foldl
          (fun st j =>
            if !params.is4D && (j + 1) == 1 then st
            else st.add (Calc.sobelD2 params A (j + 1) (j + 1)).pow2)
          (Calc.sobelD2 params A 0 0).pow2
       else Arr4.alloc 0 0 0 0)
      (if params.special = 0 ∨ params.special = 1 then
        (List.range 3).foldl
          (fun st j =>
            if !params.is4D && (j + 1) == 1 then st
            else st.add (Calc.sobelD2 params B (j + 1) (j + 1)).pow2)
          (Calc.sobelD2 params B 0 0).pow2
       else Arr4.alloc 0 0 0 0) := by
    split_ifs
    · refine foldl_rel (Arr4.AgreeFrom s m) _ _ ?_ _ _ _ (hD2 0 0).pow2
      intro a b j hab
      split_ifs
      · exact hab
      · exact hab.add (hD2 _ _).pow2
    · exact Arr4.AgreeFrom.alloc s m _ _ _ _ _ _ _ _
  have step2 : ∀ X Y : Arr4, Arr4.AgreeFrom s m X Y → Arr4.AgreeFrom s m
      (if params.special = 0 then
        (List.range 4).foldl
          (fun st d0 =>
            if !params.is4D && d0 == 1 then st
            else
              (List.range (4 - (d0 + 1))).foldl
                (fun st j =>
                  if !params.is4D && (d0 + 1 + j) == 1 then st
                  else st.add (Arr4.scale 2 (Calc.sobelD2 params A d0 (d0 + 1 + j)).pow2))
                st)
          X
       else X)
      (if params.special = 0 then
        (List.range 4).foldl
          (fun st d0 =>
            if !params.is4D && d0 == 1 then st
            else
              (List.range (4 - (d0 + 1))).foldl
                (fun st j =>
                  if !params.is4D && (d0 + 1 + j) == 1 then st
                  else st.add (Arr4.scale 2 (Calc.sobelD2 params B d0 (d0 + 1 + j)).pow2))
                st)
          Y
       else Y) := by
    intro X Y hXY
    split_ifs
    · refine foldl_rel (Arr4.AgreeFrom s m) _ _ ?_ _ _ _ hXY
      intro a b d0 hab
      split_ifs
      · exact hab
      · refine foldl_rel (Arr4.AgreeFrom s m) _ _ ?_ _ _ _ hab
        intro a2 b2 j hab2
        split_ifs
        · exact hab2
        · exact hab2.add ((hD2 _ _).pow2.scale 2)
    · exact hXY
  have h12 := step2 _ _ step1
  unfold Calc.featureField
  simp only []
  by_cases h2 : params.special = 2
  · rw [if_pos h2, if_pos h2]
    split_ifs
    · exact ((hD3 0 0 3).pow2.add (hD3 0 0 2).pow2).add (hD3 0 0 1).pow2
    · exact (hD3 0 0 3).pow2.add (hD3 0 0 2).pow2
  · rw [if_neg h2, if_neg h2]
    exact h12

end HullComputation
namespace HullComputation

/-! ## The shape of the feature field -/

theorem Arr4.add_n0 (A B : Arr4) : (A.add B).n0 = A.n0 := rfl

theorem Arr4.pow2_n0 (A : Arr4) : A.pow2.n0 = A.n0 := rfl

/-- In the three modes the feature field has `kt - 1` frames fewer than the batch; for any
other value of `special` it is the empty array. -/
theorem Calc.featureField_n0 (params : Parameters) (A : Arr4) :
    (Calc.featureField params A).n0 =
      if params.special = 0 ∨ params.special = 1 ∨ params.special = 2
      then A.n0 - (params.kt - 1) else 0 := by
  have step1 : (if params.special = 0 ∨ params.special = 1 then
        (List.range 3).foldl
          (fun st j =>
            if !params.is4D && (j + 1) == 1 then st
            else st.add (Calc.sobelD2 params A (j + 1) (j + 1)).pow2)
          (Calc.sobelD2 params A 0 0).pow2
       else Arr4.alloc 0 0 0 0).n0 =
      if params.special = 0 ∨ params.special = 1 then A.n0 - (params.kt - 1) else 0 := by
    split_ifs
    · refine foldl_inv (fun a : Arr4 => a.n0 = A.n0 - (params.kt - 1)) _ ?_ _ _ ?_
      · intro a j ha
        split_ifs
        · exact ha
        · exact ha
      · exact Calc.sobelD2_n0 params 0 0 A
    · rfl
  have step2 : ∀ X : Arr4,
      (if params.special = 0 then
        (List.range 4).foldl
          (fun st d0 =>
            if !params.is4D && d0 == 1 then st
            else
              (List.range (4 - (d0 + 1))).foldl
                (fun st j =>
                  if !params.is4D && (d0 + 1 + j) == 1 then st
                  else st.add (Arr4.scale 2 (Calc.sobelD2 params A d0 (d0 + 1 + j)).pow2))
                st)
          X
       else X).n0 = X.n0 := by
    intro X
    split_ifs
    · refine foldl_inv (fun a : Arr4 => a.n0 = X.n0) _ ?_ _ _ rfl
      intro a d0 ha
      split_ifs
      · exact ha
      · refine foldl_inv (fun a : Arr4 => a.n0 = X.n0) _ ?_ _ _ ha
        intro a2 j ha2
        split_ifs
        · exact ha2
        · exact ha2
    · rfl
  unfold Calc.featureField
  simp only []
  by_cases h2 : params.special = 2
  · rw [if_pos h2]
    have : params.special = 0 ∨ params.special = 1 ∨ params.special = 2 := Or.inr (Or.inr h2)
    rw [if_pos this]
    split_ifs
    · exact Calc.sobelD3_n0 params 0 0 3 A
    · exact Calc.sobelD3_n0 params 0 0 3 A
  · rw [if_neg h2, step2, step1]
    by_cases h01 : params.special = 0 ∨ params.special = 1
    · have : params.special = 0 ∨ params.special = 1 ∨ params.special = 2 := by tauto
      rw [if_pos h01, if_pos this]
    · have : ¬ (params.special = 0 ∨ params.special = 1 ∨ params.special = 2) := by tauto
      rw [if_neg h01, if_neg this]

theorem Calc.featureField_invalid_val (params : Parameters)
    (h : ¬ (params.special = 0 ∨ params.special = 1 ∨ params.special = 2)) (A : Arr4)
    (i z y x : Nat) : (Calc.featureField params A).val i z y x = 0 := by
  have h0 : ¬ params.special = 0 := by tauto
  have h1 : ¬ params.special = 1 := by tauto
  have h2 : ¬ params.special = 2 := by tauto
  simp [Calc.featureField, h0, h1, h2, Arr4.alloc]

theorem Calc.applyThreshold_agree (params : Parameters) {s m : Nat} {A B : Arr4}
    (h : Arr4.AgreeFrom s m A B) :
    Arr4.AgreeFrom s m (Calc.applyThreshold params A) (Calc.applyThreshold params B) := by
  intro i hi z y x
  simp only [Calc.applyThreshold]
  rw [h i hi]

theorem IsMaxUpTo.unique {f : Nat → ℚ} {n : Nat} {h1 h2 : ℚ}
    (a : IsMaxUpTo f n h1) (b : IsMaxUpTo f n h2) : h1 = h2 := by
  have le : ∀ {u v : ℚ}, IsMaxUpTo f n u → IsMaxUpTo f n v → u ≤ v := by
    intro u v hu hv
    rcases hu.1 with h | ⟨g, hg, h⟩
    · rw [h]; exact hv.2.1
    · rw [h]; exact hv.2.2 g hg
  exact le_antisymm (le a b) (le b a)

theorem IsMaxUpTo.zero (f : Nat → ℚ) : IsMaxUpTo f 0 0 :=
  ⟨Or.inl rfl, le_refl 0, fun g hg => absurd hg (Nat.not_lt_zero g)⟩

/-- Joining the maximum of the first `n` values with that of the next `k > 0` values. -/
theorem IsMaxUpTo.extend {f : Nat → ℚ} {n k : Nat} {h F : ℚ} (a : IsMaxUpTo f n h)
    (hle : ∀ i, i < k → f (n + i) ≤ F) (hex : ∃ i, i < k ∧ F = f (n + i)) :
    IsMaxUpTo f (n + k) (max h F) := by
  refine ⟨?_, le_trans a.2.1 (le_max_left _ _), ?_⟩
  · rcases le_total h F with hF | hF
    · rw [max_eq_right hF]
      obtain ⟨i, hi, hv⟩ := hex
      exact Or.inr ⟨n + i, by omega, hv⟩
    · rw [max_eq_left hF]
      rcases a.1 with h0 | ⟨g, hg, hv⟩
      · exact Or.inl h0
      · exact Or.inr ⟨g, by omega, hv⟩
  · intro g hg
    by_cases hgn : g < n
    · exact le_trans (a.2.2 g hgn) (le_max_left _ _)
    · have : g = n + (g - n) := by omega
      rw [this]
      exact le_trans (hle (g - n) (by omega)) (le_max_right _ _)

end HullComputation
namespace HullComputation

/-! ## The batch loop -/

theorem pipelineAfter_succ (params : Parameters) (files : FrameStore) (saved : Arr3) (k : Nat) :
    pipelineAfter params files saved (k + 1) =
      pipelineStep params files (pipelineAfter params files saved k) := by
  simp [pipelineAfter, List.range_succ, List.foldl_append]

theorem pipelineAfter_reader (params : Parameters) (files : FrameStore) (saved : Arr3)
    (k : Nat) : (pipelineAfter params files saved k).1 = Reader.afterCalls params files k := by
  induction k with
  | zero => rfl
  | succ k ih =>
    rw [pipelineAfter_succ]
    simp only [pipelineStep, Reader.afterCalls, ih]

theorem pipelineAfter_calc (params : Parameters) (files : FrameStore) (saved : Arr3)
    (k : Nat) :
    (pipelineAfter params files saved (k + 1)).2 =
      Calc.processBatch params (pipelineAfter params files saved k).2
        (Reader.batchOfCall params files k) := by
  rw [pipelineAfter_succ]
  simp only [pipelineStep, Reader.batchOfCall, pipelineAfter_reader]

/-- The batch of call `k` holds the frames `start k, …, start k + tSize k - 1` of the sequence. -/
theorem Reader.batchOfCall_agree (params : Parameters) (files : FrameStore)
    (hkt : 1 ≤ params.kt) (hB : 1 ≤ params.batches) (hD : params.kt ≤ params.duration + 1)
    (k : Nat) :
    Arr4.AgreeFrom (Reader.start params k) (Reader.tSize params k)
      (Reader.batchOfCall params files k) (sequence params files) := by
  intro i hi z y x
  rw [Reader.batchOfCall_eq]
  simp only [Arr4.divScalar, sequence]
  rw [(Reader.afterCalls_holds params files hkt hB hD k).2.2 i hi]

theorem Calc.init_zero (params : Parameters) (saved : Arr3) (hy : params.y = 0) :
    (Calc.init params saved).t = 1 ∧ ∀ z y x, (Calc.init params saved).hulls.val z y x = 0 := by
  simp only [Calc.init, hy]
  cases params.is4D <;> simp

/-- The marker written into frame `i` of batch `k` and the values left unlabelled are those of
frame `start k + i` of the whole sequence. -/
theorem Calc.labelLoop_batch (params : Parameters) (files : FrameStore)
    (hkt : 1 ≤ params.kt) (hB : 1 ≤ params.batches)
    (hBD : params.batches + params.kt ≤ params.duration + 1) (hy : params.y = 0)
    (hsp : params.special = 0 ∨ params.special = 1 ∨ params.special = 2)
    (c : Calc) (k : Nat) (ht : c.t = 1 + (Reader.start params k : Int)) (i : Nat)
    (hi : i < Reader.tSize params k - (params.kt - 1)) (z y x : Nat) :
    (Calc.labelLoop params c (Calc.applyThreshold params
        (Calc.featureField params (Reader.batchOfCall params files k)))).val i z y x
      = Calc.labelled params files (Reader.start params k + i) z y x := by
  have hag := Calc.applyThreshold_agree params
    (Calc.featureField_agree params (Reader.start params k)
      (Reader.tSize params k - (params.kt - 1)) _ _
      ((Reader.batchOfCall_agree params files hkt hB (by omega) k).mono (by omega)))
  have hn : (Calc.applyThreshold params
      (Calc.featureField params (Reader.batchOfCall params files k))).n0
        = Reader.tSize params k - (params.kt - 1) := by
    show (Calc.featureField params (Reader.batchOfCall params files k)).n0 = _
    rw [Calc.featureField_n0, if_pos hsp, Reader.batchOfCall_n0]
  rw [Calc.labelLoop_val, hn, if_pos hi, hag i hi z y x, ht, hy]
  simp only [Calc.labelled, Calc.sequenceFeatures]
  split_ifs
  · push_cast
    ring
  · rfl

/-- After `k` passes the counter is `1 + start k` and every accumulator cell is the maximum of 0
and the labelled values of the feature frames `0, …, start k - 1` of the whole sequence. -/
theorem pipelineAfter_inv (params : Parameters) (files : FrameStore) (saved : Arr3)
    (hkt : 1 ≤ params.kt) (hB : 1 ≤ params.batches)
    (hBD : params.batches + params.kt ≤ params.duration + 1) (hy : params.y = 0)
    (hsp : params.special = 0 ∨ params.special = 1 ∨ params.special = 2) (k : Nat) :
    (pipelineAfter params files saved k).2.t = 1 + (Reader.start params k : Int) ∧
    ∀ z y x, IsMaxUpTo (fun g => Calc.labelled params files g z y x) (Reader.start params k)
      ((pipelineAfter params files saved k).2.hulls.val z y x) := by
  induction k with
  | zero =>
    obtain ⟨h1, h2⟩ := Calc.init_zero params saved hy
    constructor
    · simpa [pipelineAfter, Reader.start] using h1
    · intro z y x
      have : (pipelineAfter params files saved 0).2.hulls.val z y x = 0 := h2 z y x
      rw [this]
      exact IsMaxUpTo.zero _
  | succ k ih =>
    obtain ⟨ht, hh⟩ := ih
    have hsz := Reader.kt_le_tSize params hkt hB hBD k
    have hstart : Reader.start params (k + 1)
        = Reader.start params k + (Reader.tSize params k - (params.kt - 1)) := by
      simp only [Reader.start]
      omega
    have hn : (Calc.featureField params (Reader.batchOfCall params files k)).n0
        = Reader.tSize params k - (params.kt - 1) := by
      rw [Calc.featureField_n0, if_pos hsp, Reader.batchOfCall_n0]
    rw [pipelineAfter_calc]
    constructor
    · rw [Calc.processBatch_t, ht, hn, hstart]
      push_cast
      ring
    · intro z y x
      rw [Calc.processBatch_hulls, hstart]
      have hpos : 0 < (Calc.labelLoop params (pipelineAfter params files saved k).2
          (Calc.applyThreshold params
            (Calc.featureField params (Reader.batchOfCall params files k)))).n0 := by
        rw [Calc.labelLoop_n0]
        show 0 < (Calc.featureField params (Reader.batchOfCall params files k)).n0
        rw [hn]
        omega
      obtain ⟨hle, j, hj, hjv⟩ := Calc.maxTime_spec _ z y x hpos
      rw [Calc.labelLoop_n0] at hle hj
      have hn2 : (Calc.applyThreshold params
          (Calc.featureField params (Reader.batchOfCall params files k))).n0
            = Reader.tSize params k - (params.kt - 1) := hn
      rw [hn2] at hle hj
      apply IsMaxUpTo.extend (hh z y x)
      · intro i hi
        rw [← Calc.labelLoop_batch params files hkt hB hBD hy hsp _ k ht i hi z y x]
        exact hle i hi
      · refine ⟨j, hj, ?_⟩
        rw [hjv]
        exact Calc.labelLoop_batch params files hkt hB hBD hy hsp _ k ht j hj z y x

/-- The batches of a run with `batches ≤ duration - kt + 1` cover the `duration - (kt - 1)`
feature frames of the sequence exactly. -/
theorem Reader.start_batches (params : Parameters) (hkt : 1 ≤ params.kt)
    (hB : 1 ≤ params.batches) (hBD : params.batches + params.kt ≤ params.duration + 1) :
    Reader.start params params.batches = params.duration - (params.kt - 1) := by
  have h1 := Reader.start_last params hkt hB (by omega)
  have h2 := Reader.kt_le_tSize params hkt hB hBD (params.batches - 1)
  obtain ⟨b, hb⟩ : ∃ b, params.batches = b + 1 := ⟨params.batches - 1, by omega⟩
  rw [hb] at h1 h2 ⊢
  simp only [Nat.add_sub_cancel] at h1 h2
  simp only [Reader.start]
  omega

end HullComputation
namespace HullComputation

theorem Arr3.ext_val {A B : Arr3} (h0 : A.n0 = B.n0) (h1 : A.n1 = B.n1) (h2 : A.n2 = B.n2)
    (hv : ∀ z y x, A.val z y x = B.val z y x) : A = B := by
  cases A
  cases B
  simp only at h0 h1 h2 hv
  subst h0 h1 h2
  congr
  funext z y x
  exact hv z y x

/-- The batch loop never changes the shape of the accumulator. -/
theorem pipelineAfter_dims (params : Parameters) (files : FrameStore) (saved : Arr3) (k : Nat) :
    (pipelineAfter params files saved k).2.hulls.n0 = (Calc.init params saved).hulls.n0 ∧
    (pipelineAfter params files saved k).2.hulls.n1 = (Calc.init params saved).hulls.n1 ∧
    (pipelineAfter params files saved k).2.hulls.n2 = (Calc.init params saved).hulls.n2 := by
  induction k with
  | zero => exact ⟨rfl, rfl, rfl⟩
  | succ k ih =>
    rw [pipelineAfter_calc]
    exact ih

/-- With a value of `special` outside {0, 1, 2} no feature frame exists and the accumulator
stays zero. -/
theorem pipelineAfter_invalid_mode (params : Parameters) (files : FrameStore) (saved : Arr3)
    (hy : params.y = 0)
    (hsp : ¬ (params.special = 0 ∨ params.special = 1 ∨ params.special = 2)) (k : Nat)
    (z y x : Nat) : (pipelineAfter params files saved k).2.hulls.val z y x = 0 := by
  induction k with
  | zero => exact (Calc.init_zero params saved hy).2 z y x
  | succ k ih =>
    rw [pipelineAfter_calc, Calc.processBatch_hulls, ih, Calc.maxTime_empty]
    · simp
    · rw [Calc.labelLoop_n0]
      show (Calc.featureField params _).n0 = 0
      rw [Calc.featureField_n0, if_neg hsp]

/-- C1: for every frame sequence and every configuration with `kt ≥ 1` (in particular
`kt ≥ 3`), `1 ≤ B ≤ duration - kt + 1` and resume offset 0, the batch loop leaves exactly the
same accumulator as the loop run with `B = 1` on the same frames; and in the three modes the
thresholded feature frames of batch `k` are the frames `start k, start k + 1, …` of the
thresholded feature field of the whole sequence, batch `k + 1` continues where batch `k`
ends, the batches cover all feature frames, and frame `i` of batch `k` gets the marker
`start k + i + 1` that it gets in the single-batch run. -/
theorem C1_batch_count_independence (params : Parameters) (files : FrameStore) (saved : Arr3)
    (hkt : 1 ≤ params.kt) (hB : 1 ≤ params.batches)
    (hBD : params.batches + params.kt ≤ params.duration + 1) (hy : params.y = 0) :
    (pipelineLoop params files saved).2.hulls
      = (pipelineLoop { params with batches := 1 } files saved).2.hulls ∧
    ((params.special = 0 ∨ params.special = 1 ∨ params.special = 2) →
      Reader.start params params.batches
        = (Calc.featureField params (sequence params files)).n0 ∧
      ∀ k, k < params.batches →
        Reader.start params (k + 1) = Reader.start params k
          + (Calc.featureField params (Reader.batchOfCall params files k)).n0 ∧
        ∀ i, i < (Calc.featureField params (Reader.batchOfCall params files k)).n0 →
          (∀ z y x,
            (Calc.applyThreshold params
              (Calc.featureField params (Reader.batchOfCall params files k))).val i z y x
            = (Calc.sequenceFeatures params files).val (Reader.start params k + i) z y x) ∧
          (i : Int) + (pipelineAfter params files saved k).2.t + params.y
            = ((Reader.start params k + i + 1 : Nat) : Int)) := by
  constructor
  · have hd := pipelineAfter_dims params files saved params.batches
    have hd1 := pipelineAfter_dims { params with batches := 1 } files saved 1
    have hinit : Calc.init { params with batches := 1 } saved = Calc.init params saved := rfl
    rw [hinit] at hd1
    apply Arr3.ext_val
    · exact hd.1.trans hd1.1.symm
    · exact hd.2.1.trans hd1.2.1.symm
    · exact hd.2.2.trans hd1.2.2.symm
    · intro z y x
      by_cases hsp : params.special = 0 ∨ params.special = 1 ∨ params.special = 2
      · have a := (pipelineAfter_inv params files saved hkt hB hBD hy hsp params.batches).2 z y x
        have b := (pipelineAfter_inv { params with batches := 1 } files saved hkt (le_refl 1)
          (by show 1 + params.kt ≤ params.duration + 1; omega) hy hsp 1).2 z y x
        rw [Reader.start_batches params hkt hB hBD] at a
        have hs1 := Reader.start_batches { params with batches := 1 } hkt (le_refl 1)
          (by show 1 + params.kt ≤ params.duration + 1; omega)
        have hs1b : Reader.start { params with batches := 1 } 1
            = params.duration - (params.kt - 1) := hs1
        rw [hs1b] at b
        exact IsMaxUpTo.unique a b
      · rw [show (pipelineLoop params files saved).2.hulls.val z y x = 0 from
            pipelineAfter_invalid_mode params files saved hy hsp params.batches z y x]
        exact (pipelineAfter_invalid_mode { params with batches := 1 } files saved hy hsp 1
          z y x).symm
  · intro hsp
    constructor
    · rw [Reader.start_batches params hkt hB hBD, Calc.featureField_n0, if_pos hsp]
      rfl
    · intro k hk
      have hsz := Reader.kt_le_tSize params hkt hB hBD k
      have hn : (Calc.featureField params (Reader.batchOfCall params files k)).n0
          = Reader.tSize params k - (params.kt - 1) := by
        rw [Calc.featureField_n0, if_pos hsp, Reader.batchOfCall_n0]
      rw [hn]
      constructor
      · simp only [Reader.start]
        omega
      · intro i hi
        constructor
        · intro z y x
          exact Calc.applyThreshold_agree params
            (Calc.featureField_agree params (Reader.start params k)
              (Reader.tSize params k - (params.kt - 1)) _ _
              ((Reader.batchOfCall_agree params files hkt hB (by omega) k).mono (by omega)))
            i hi z y x
        · rw [(pipelineAfter_inv params files saved hkt hB hBD hy hsp k).1, hy]
          push_cast
          ring

/-- C1 (witness): 5 frames in 2 batches, all kernels of size 3. -/
theorem C1_batch_count_independence_witness :
    (pipelineLoop (smallConfig 5 2) loneVoxelFiles noCheckpoint).2.hulls
      = (pipelineLoop { smallConfig 5 2 with batches := 1 } loneVoxelFiles noCheckpoint).2.hulls :=
  (C1_batch_count_independence (smallConfig 5 2) loneVoxelFiles noCheckpoint
    (by decide) (by decide) (by decide) rfl).1

end HullComputation
namespace HullComputation

/-! ## Two concrete runs -/

set_option maxHeartbeats 1000000 in
/-- The feature field at cell (0, 0, 0) for the lone voxel of value 85: 20/9, 1, 0. -/
theorem loneVoxel_features :
    (Calc.featureField (smallConfig 5 1) (sequence (smallConfig 5 1) loneVoxelFiles)).val 0 0 0 0
      = 20 / 9 ∧
    (Calc.featureField (smallConfig 5 1) (sequence (smallConfig 5 1) loneVoxelFiles)).val 1 0 0 0
      = 1 ∧
    (Calc.featureField (smallConfig 5 1) (sequence (smallConfig 5 1) loneVoxelFiles)).val 2 0 0 0
      = 0 := by
  have h85 : ((85 : Fin 256) : Nat) = 85 := rfl
  refine ⟨?_, ?_, ?_⟩ <;>
  · simp [Calc.featureField, smallConfig, Calc.sobelD2_unfold, List.range_succ,
      Calc.sobelD2Step, Calc.derivative, Calc.guassian, Arr4.pow2, Arr4.add, Arr4.scale,
      sequence, loneVoxelFiles, h85]
    try norm_num

set_option maxHeartbeats 1000000 in
/-- The feature field at cell (0, 0, 0) for the lone voxel of value 255: 20, 9, 0. -/
theorem brightVoxel_features :
    (Calc.featureField (smallConfig 5 1) (sequence (smallConfig 5 1) brightVoxelFiles)).val 0 0 0 0
      = 20 ∧
    (Calc.featureField (smallConfig 5 1) (sequence (smallConfig 5 1) brightVoxelFiles)).val 1 0 0 0
      = 9 ∧
    (Calc.featureField (smallConfig 5 1) (sequence (smallConfig 5 1) brightVoxelFiles)).val 2 0 0 0
      = 0 := by
  have h255 : ((255 : Fin 256) : Nat) = 255 := rfl
  refine ⟨?_, ?_, ?_⟩ <;>
  · simp [Calc.featureField, smallConfig, Calc.sobelD2_unfold, List.range_succ,
      Calc.sobelD2Step, Calc.derivative, Calc.guassian, Arr4.pow2, Arr4.add, Arr4.scale,
      sequence, brightVoxelFiles, h255]
    try norm_num

end HullComputation
namespace HullComputation

/-! ## Relabelling and label recency -/

/-- The frame counter after a run of `processBatch` calls is 1 plus the number of feature
frames the calls have labelled. -/
theorem Calc.run_t (params : Parameters) (saved : Arr3) (bs : List Arr4) :
    (Calc.run params (Calc.init params saved) bs).t
      = 1 + ((Calc.featureFrames params bs : Nat) : Int) := by
  induction bs using List.reverseRecOn with
  | nil =>
    simp only [Calc.run, List.foldl_nil, Calc.init, Calc.featureFrames]
    split_ifs <;> simp
  | append_singleton bs b ih =>
    rw [Calc.run_append, Calc.featureFrames_append, Calc.processBatch_t, ih]
    push_cast
    ring

theorem Calc.applyThreshold_n0 (params : Parameters) (A : Arr4) :
    (Calc.applyThreshold params A).n0 = A.n0 := rfl

theorem Reader.start_zero (params : Parameters) : Reader.start params 0 = 0 := rfl

/-- The thresholded feature frames of the batch of call `k` are the frames
`start k, start k + 1, …` of the thresholded feature field of the whole sequence. -/
theorem Calc.batch_features_eq (params : Parameters) (files : FrameStore)
    (hkt : 1 ≤ params.kt) (hB : 1 ≤ params.batches) (hD : params.kt ≤ params.duration + 1)
    (k i : Nat) (hi : i < Reader.tSize params k - (params.kt - 1)) (z y x : Nat) :
    (Calc.applyThreshold params
        (Calc.featureField params (Reader.batchOfCall params files k))).val i z y x
      = (Calc.sequenceFeatures params files).val (Reader.start params k + i) z y x :=
  Calc.applyThreshold_agree params
    (Calc.featureField_agree params (Reader.start params k)
      (Reader.tSize params k - (params.kt - 1)) _ _
      ((Reader.batchOfCall_agree params files hkt hB hD k).mono (by omega))) i hi z y x

/-- A thresholded value: 0 below `threshold * threshold`, unchanged otherwise. -/
theorem Calc.sequenceFeatures_val (params : Parameters) (files : FrameStore) (g z y x : Nat) :
    (Calc.sequenceFeatures params files).val g z y x =
      if (Calc.featureField params (sequence params files)).val g z y x
          < ((params.threshold * params.threshold : Int) : ℚ) then 0
      else (Calc.featureField params (sequence params files)).val g z y x := rfl

/-- C4 (the code at the failing input): with threshold 1, mode 0 and a lone voxel of value 85,
frame 1 of the thresholded feature field of the first batch has the non-zero value 1 at cell
(0, 0, 0), and the labelling loop leaves it at 1 instead of writing the marker `0 + 1 + 1`. -/
theorem C4_relabel_failing_cell :
    1 < (Calc.applyThreshold (smallConfig 5 1) (Calc.featureField (smallConfig 5 1)
          (Reader.batchOfCall (smallConfig 5 1) loneVoxelFiles 0))).n0 ∧
    (Calc.applyThreshold (smallConfig 5 1) (Calc.featureField (smallConfig 5 1)
          (Reader.batchOfCall (smallConfig 5 1) loneVoxelFiles 0))).val 1 0 0 0 ≠ 0 ∧
    (Calc.labelLoop (smallConfig 5 1) (Calc.init (smallConfig 5 1) noCheckpoint)
        (Calc.applyThreshold (smallConfig 5 1) (Calc.featureField (smallConfig 5 1)
          (Reader.batchOfCall (smallConfig 5 1) loneVoxelFiles 0)))).val 1 0 0 0
      ≠ ((0 + 1 + 1 : Nat) : ℚ) := by
  have hn : (Calc.applyThreshold (smallConfig 5 1) (Calc.featureField (smallConfig 5 1)
      (Reader.batchOfCall (smallConfig 5 1) loneVoxelFiles 0))).n0 = 3 := by
    rw [Calc.applyThreshold_n0, Calc.featureField_n0, Reader.batchOfCall_n0]
    decide
  have hv : (Calc.applyThreshold (smallConfig 5 1) (Calc.featureField (smallConfig 5 1)
      (Reader.batchOfCall (smallConfig 5 1) loneVoxelFiles 0))).val 1 0 0 0 = 1 := by
    rw [Calc.batch_features_eq (smallConfig 5 1) loneVoxelFiles (by decide) (by decide)
      (by decide) 0 1 (by decide) 0 0 0, Reader.start_zero, Calc.sequenceFeatures_val,
      loneVoxel_features.2.1]
    norm_num [smallConfig]
  refine ⟨by rw [hn]; decide, by rw [hv]; norm_num, ?_⟩
  rw [Calc.labelLoop_val, hn, hv]
  norm_num

/-- What the labelling loop does: for every frame index `i` of the thresholded feature field
of a batch, a cell of frame `i` whose value exceeds 1 is overwritten with the marker
`c + i + 1`, where `c` is the number of feature frames labelled by the `processBatch` calls
made before this batch (resume offset 0); a cell whose value does not exceed 1 is left as it
is. -/
theorem Calc.relabel_spec (params : Parameters) (saved : Arr3) (hy : params.y = 0)
    (previous : List Arr4) (batch : Arr4) (i : Nat)
    (hi : i < (Calc.featureField params batch).n0) (z y x : Nat) :
    (1 < (Calc.applyThreshold params (Calc.featureField params batch)).val i z y x →
      (Calc.labelLoop params (Calc.run params (Calc.init params saved) previous)
          (Calc.applyThreshold params (Calc.featureField params batch))).val i z y x
        = ((Calc.featureFrames params previous + i + 1 : Nat) : ℚ)) ∧
    (¬ 1 < (Calc.applyThreshold params (Calc.featureField params batch)).val i z y x →
      (Calc.labelLoop params (Calc.run params (Calc.init params saved) previous)
          (Calc.applyThreshold params (Calc.featureField params batch))).val i z y x
        = (Calc.applyThreshold params (Calc.featureField params batch)).val i z y x) := by
  have hi2 : i < (Calc.applyThreshold params (Calc.featureField params batch)).n0 := hi
  constructor
  · intro h
    rw [Calc.labelLoop_val, if_pos hi2, if_pos h, Calc.run_t, hy]
    push_cast
    ring
  · intro h
    rw [Calc.labelLoop_val, if_pos hi2, if_neg h]

/-- The labelling of frame 0 of the first batch of the lone-voxel run. -/
theorem Calc.relabel_spec_loneVoxel :
    (1 < (Calc.applyThreshold (smallConfig 5 1) (Calc.featureField (smallConfig 5 1)
        (Reader.batchOfCall (smallConfig 5 1) loneVoxelFiles 0))).val 0 0 0 0 →
      (Calc.labelLoop (smallConfig 5 1)
          (Calc.run (smallConfig 5 1) (Calc.init (smallConfig 5 1) noCheckpoint) [])
          (Calc.applyThreshold (smallConfig 5 1) (Calc.featureField (smallConfig 5 1)
            (Reader.batchOfCall (smallConfig 5 1) loneVoxelFiles 0)))).val 0 0 0 0
        = ((Calc.featureFrames (smallConfig 5 1) [] + 0 + 1 : Nat) : ℚ)) ∧
    (¬ 1 < (Calc.applyThreshold (smallConfig 5 1) (Calc.featureField (smallConfig 5 1)
        (Reader.batchOfCall (smallConfig 5 1) loneVoxelFiles 0))).val 0 0 0 0 →
      (Calc.labelLoop (smallConfig 5 1)
          (Calc.run (smallConfig 5 1) (Calc.init (smallConfig 5 1) noCheckpoint) [])
          (Calc.applyThreshold (smallConfig 5 1) (Calc.featureField (smallConfig 5 1)
            (Reader.batchOfCall (smallConfig 5 1) loneVoxelFiles 0)))).val 0 0 0 0
        = (Calc.applyThreshold (smallConfig 5 1) (Calc.featureField (smallConfig 5 1)
            (Reader.batchOfCall (smallConfig 5 1) loneVoxelFiles 0))).val 0 0 0 0) :=
  Calc.relabel_spec (smallConfig 5 1) noCheckpoint rfl [] _ 0
    (by rw [Calc.featureField_n0, Reader.batchOfCall_n0]; decide) 0 0 0

end HullComputation
namespace HullComputation

theorem Calc.labelled_le (params : Parameters) (files : FrameStore) (g z y x : Nat) :
    Calc.labelled params files g z y x ≤ ((g + 1 : Nat) : ℚ) := by
  simp only [Calc.labelled]
  split_ifs with h
  · exact le_refl _
  · have h1 : (1 : ℚ) ≤ ((g + 1 : Nat) : ℚ) := by
      have : 1 ≤ g + 1 := by omega
      exact_mod_cast this
    exact le_trans (not_lt.mp h) h1

/-- The final accumulator of a run in one of the three modes: the maximum of 0 and the
labelled values of all feature frames of the sequence. -/
theorem pipelineLoop_hulls (params : Parameters) (files : FrameStore) (saved : Arr3)
    (hkt : 1 ≤ params.kt) (hB : 1 ≤ params.batches)
    (hBD : params.batches + params.kt ≤ params.duration + 1) (hy : params.y = 0)
    (hsp : params.special = 0 ∨ params.special = 1 ∨ params.special = 2) (z y x : Nat) :
    IsMaxUpTo (fun g => Calc.labelled params files g z y x)
      (params.duration - (params.kt - 1))
      ((pipelineLoop params files saved).2.hulls.val z y x) := by
  have a := (pipelineAfter_inv params files saved hkt hB hBD hy hsp params.batches).2 z y x
  rw [Reader.start_batches params hkt hB hBD] at a
  exact a

/-- Label recency away from the boundary value 1: in a run over all batches from a zero
accumulator (resume offset 0), if a cell qualifies (feature value `≥ threshold²`) in a feature
frame `f'` with a feature value that exceeds 1 (always so when `threshold ≥ 2`), and `f'` is
the last frame in which it qualifies, then the cell's final accumulator value is the marker
`f' + 1` of `f'`, and not the marker `f + 1` of any earlier frame `f`. -/
theorem Calc.label_recency_of_gt_one (params : Parameters) (files : FrameStore) (saved : Arr3)
    (hkt : 1 ≤ params.kt) (hB : 1 ≤ params.batches)
    (hBD : params.batches + params.kt ≤ params.duration + 1) (hy : params.y = 0)
    (z y x f f' : Nat) (hff : f < f') (hf' : f' < params.duration - (params.kt - 1))
    (hq' : ((params.threshold * params.threshold : Int) : ℚ)
      ≤ (Calc.featureField params (sequence params files)).val f' z y x)
    (hgt : 1 < (Calc.featureField params (sequence params files)).val f' z y x)
    (hlast : ∀ g, f' < g → g < params.duration - (params.kt - 1) →
      (Calc.featureField params (sequence params files)).val g z y x
        < ((params.threshold * params.threshold : Int) : ℚ)) :
    (pipelineLoop params files saved).2.hulls.val z y x = ((f' + 1 : Nat) : ℚ) ∧
    (pipelineLoop params files saved).2.hulls.val z y x ≠ ((f + 1 : Nat) : ℚ) := by
  have hsp : params.special = 0 ∨ params.special = 1 ∨ params.special = 2 := by
    by_contra h
    rw [Calc.featureField_invalid_val params h] at hgt
    exact absurd hgt (by norm_num)
  obtain ⟨hex, h0, hall⟩ := pipelineLoop_hulls params files saved hkt hB hBD hy hsp z y x
  beta_reduce at hex hall
  have hL : Calc.labelled params files f' z y x = ((f' + 1 : Nat) : ℚ) := by
    simp only [Calc.labelled, Calc.sequenceFeatures_val]
    rw [if_neg (not_lt.mpr hq'), if_pos hgt]
  have hlow : ((f' + 1 : Nat) : ℚ) ≤ (pipelineLoop params files saved).2.hulls.val z y x := by
    rw [← hL]
    exact hall f' hf'
  have hone : (1 : ℚ) ≤ ((f' + 1 : Nat) : ℚ) := by
    have : 1 ≤ f' + 1 := by omega
    exact_mod_cast this
  have hup : (pipelineLoop params files saved).2.hulls.val z y x ≤ ((f' + 1 : Nat) : ℚ) := by
    rcases hex with h | ⟨g, hg, h⟩
    · rw [h]
      exact le_trans (by norm_num) hone
    · rw [h]
      by_cases hgf : g ≤ f'
      · refine le_trans (Calc.labelled_le params files g z y x) ?_
        have : g + 1 ≤ f' + 1 := by omega
        exact_mod_cast this
      · have hz : Calc.labelled params files g z y x = 0 := by
          simp only [Calc.labelled, Calc.sequenceFeatures_val]
          rw [if_pos (hlast g (by omega) hg)]
          norm_num
        rw [hz]
        exact le_trans (by norm_num) hone
  have heq := le_antisymm hup hlow
  refine ⟨heq, ?_⟩
  rw [heq]
  intro h
  have : f' + 1 = f + 1 := by exact_mod_cast h
  omega

/-- C3 (the code at the failing input): with threshold 1, mode 0 and a lone voxel of value 85,
cell (0, 0, 0) qualifies in feature frame 0 (value 20/9) and in feature frame 1 (value exactly
1), frame 1 being the last in which it qualifies, yet its final value is 1, the marker of
frame 0, and not 2, the marker of frame 1. -/
theorem C3_label_recency_failing_run :
    0 < (smallConfig 5 1).threshold ∧ (smallConfig 5 1).y = 0 ∧
    (((smallConfig 5 1).threshold * (smallConfig 5 1).threshold : Int) : ℚ)
      ≤ (Calc.featureField (smallConfig 5 1)
          (sequence (smallConfig 5 1) loneVoxelFiles)).val 0 0 0 0 ∧
    (((smallConfig 5 1).threshold * (smallConfig 5 1).threshold : Int) : ℚ)
      ≤ (Calc.featureField (smallConfig 5 1)
          (sequence (smallConfig 5 1) loneVoxelFiles)).val 1 0 0 0 ∧
    (∀ g, 1 < g → g < (smallConfig 5 1).duration - ((smallConfig 5 1).kt - 1) →
      (Calc.featureField (smallConfig 5 1) (sequence (smallConfig 5 1) loneVoxelFiles)).val g 0 0 0
        < (((smallConfig 5 1).threshold * (smallConfig 5 1).threshold : Int) : ℚ)) ∧
    (pipelineLoop (smallConfig 5 1) loneVoxelFiles noCheckpoint).2.hulls.val 0 0 0
      = ((0 + 1 : Nat) : ℚ) ∧
    (pipelineLoop (smallConfig 5 1) loneVoxelFiles noCheckpoint).2.hulls.val 0 0 0
      ≠ ((1 + 1 : Nat) : ℚ) := by
  obtain ⟨v0, v1, v2⟩ := loneVoxel_features
  have hthr : (((smallConfig 5 1).threshold * (smallConfig 5 1).threshold : Int) : ℚ) = 1 := by
    norm_num [smallConfig]
  have hL0 : Calc.labelled (smallConfig 5 1) loneVoxelFiles 0 0 0 0 = 1 := by
    simp only [Calc.labelled, Calc.sequenceFeatures_val, v0, hthr]
    norm_num
  have hL1 : Calc.labelled (smallConfig 5 1) loneVoxelFiles 1 0 0 0 = 1 := by
    simp only [Calc.labelled, Calc.sequenceFeatures_val, v1, hthr]
    norm_num
  have hL2 : Calc.labelled (smallConfig 5 1) loneVoxelFiles 2 0 0 0 = 0 := by
    simp only [Calc.labelled, Calc.sequenceFeatures_val, v2, hthr]
    norm_num
  obtain ⟨hex, h0, hall⟩ := pipelineLoop_hulls (smallConfig 5 1) loneVoxelFiles noCheckpoint
    (by decide) (by decide) (by decide) rfl (Or.inl rfl) 0 0 0
  beta_reduce at hex hall
  have hval : (pipelineLoop (smallConfig 5 1) loneVoxelFiles noCheckpoint).2.hulls.val 0 0 0
      = 1 := by
    apply le_antisymm
    · rcases hex with h | ⟨g, hg, h⟩
      · rw [h]; norm_num
      · have hg3 : g < 3 := hg
        rw [h]
        interval_cases g
        · rw [hL0]
        · rw [hL1]
        · rw [hL2]; norm_num
    · have := hall 0 (by decide)
      rw [hL0] at this
      exact this
  refine ⟨by decide, rfl, ?_, ?_, ?_, ?_, ?_⟩
  · rw [hthr, v0]; norm_num
  · rw [hthr, v1]
  · intro g h1 h2
    have hg3 : g < 3 := h2
    have : g = 2 := by omega
    subst this
    rw [hthr, v2]; norm_num
  · rw [hval]; norm_num
  · rw [hval]; norm_num

/-- A lone voxel of value 255 gives cell (0, 0, 0) the feature values 20, 9, 0; it qualifies
in frames 0 and 1 and ends with the marker 2 of frame 1. -/
theorem Calc.label_recency_brightVoxel :
    (pipelineLoop (smallConfig 5 1) brightVoxelFiles noCheckpoint).2.hulls.val 0 0 0
      = ((1 + 1 : Nat) : ℚ) ∧
    (pipelineLoop (smallConfig 5 1) brightVoxelFiles noCheckpoint).2.hulls.val 0 0 0
      ≠ ((0 + 1 : Nat) : ℚ) :=
  Calc.label_recency_of_gt_one (smallConfig 5 1) brightVoxelFiles noCheckpoint (by decide) (by decide)
    (by decide) rfl 0 0 0 0 1 (by decide) (by decide)
    (by rw [brightVoxel_features.2.1]; norm_num [smallConfig])
    (by rw [brightVoxel_features.2.1]; norm_num)
    (by
      intro g h1 h2
      have hg3 : g < 3 := h2
      have : g = 2 := by omega
      subst this
      rw [brightVoxel_features.2.2]; norm_num [smallConfig])

end HullComputation

namespace HullComputation

end HullComputation
namespace HullComputation

/-! ## Welding: one corner -/

theorem setAt_same {α : Type} (buf : Nat → α) (i : Nat) (v : α) : setAt buf i v i = v := by
  simp [setAt]

theorem setAt_other {α : Type} (buf : Nat → α) (i k : Nat) (v : α) (h : k ≠ i) :
    setAt buf i v k = buf k := by
  simp [setAt, h]

theorem Writer.setColor_frame (w : Writer) (isColored : Bool) (v : Nat) (t : ℚ) :
    (w.setColor isColored v t).vertexCount = w.vertexCount ∧
    (w.setColor isColored v t).vertexSize = w.vertexSize ∧
    (w.setColor isColored v t).coords = w.coords ∧
    (w.setColor isColored v t).normals = w.normals ∧
    (w.setColor isColored v t).mesh = w.mesh ∧
    (w.setColor isColored v t).faceCount = w.faceCount ∧
    (w.setColor isColored v t).meshSize = w.meshSize := by
  cases isColored <;> exact ⟨rfl, rfl, rfl, rfl, rfl, rfl, rfl⟩

/-- The copy loop of `resizeVertexes` over the indices of `l`. -/
theorem Writer.copyVertex_foldl (w : Writer) (l : List Nat) (nw : Writer) :
    (l.foldl (Writer.copyVertex w) nw).vertexCount = nw.vertexCount ∧
    (l.foldl (Writer.copyVertex w) nw).vertexSize = nw.vertexSize ∧
    (l.foldl (Writer.copyVertex w) nw).mesh = nw.mesh ∧
    (l.foldl (Writer.copyVertex w) nw).faceCount = nw.faceCount ∧
    (l.foldl (Writer.copyVertex w) nw).meshSize = nw.meshSize ∧
    ∀ k, (l.foldl (Writer.copyVertex w) nw).coords k
          = (if k ∈ l then w.coords k else nw.coords k) ∧
      (l.foldl (Writer.copyVertex w) nw).normals k
          = (if k ∈ l then w.normals k else nw.normals k) ∧
      (l.foldl (Writer.copyVertex w) nw).colors k
          = (if k ∈ l then w.colors k else nw.colors k) := by
  induction l generalizing nw with
  | nil => simp
  | cons i rest ih =>
    simp only [List.foldl_cons]
    obtain ⟨h1, h2, h3, h4, h5, h6⟩ := ih (Writer.copyVertex w nw i)
    refine ⟨h1, h2, h3, h4, h5, ?_⟩
    intro k
    obtain ⟨c1, c2, c3⟩ := h6 k
    rw [c1, c2, c3]
    by_cases hk : k = i
    · subst hk
      simp [Writer.copyVertex, setAt]
    · by_cases hr : k ∈ rest
      · simp [hr]
      · simp [hr, hk, Writer.copyVertex, setAt]

/-- The zeroing loop of `resizeVertexes` over the indices of `l`. -/
theorem Writer.zeroVertex_foldl (l : List Nat) (nw : Writer) :
    (l.foldl Writer.zeroVertex nw).vertexCount = nw.vertexCount ∧
    (l.foldl Writer.zeroVertex nw).vertexSize = nw.vertexSize ∧
    (l.foldl Writer.zeroVertex nw).mesh = nw.mesh ∧
    (l.foldl Writer.zeroVertex nw).faceCount = nw.faceCount ∧
    (l.foldl Writer.zeroVertex nw).meshSize = nw.meshSize ∧
    ∀ k, (l.foldl Writer.zeroVertex nw).coords k = (if k ∈ l then 0 else nw.coords k) ∧
      (l.foldl Writer.zeroVertex nw).normals k = (if k ∈ l then 0 else nw.normals k) ∧
      (l.foldl Writer.zeroVertex nw).colors k = (if k ∈ l then 0 else nw.colors k) := by
  induction l generalizing nw with
  | nil => simp
  | cons i rest ih =>
    simp only [List.foldl_cons]
    obtain ⟨h1, h2, h3, h4, h5, h6⟩ := ih (Writer.zeroVertex nw i)
    refine ⟨h1, h2, h3, h4, h5, ?_⟩
    intro k
    obtain ⟨c1, c2, c3⟩ := h6 k
    rw [c1, c2, c3]
    by_cases hk : k = i
    · subst hk
      simp [Writer.zeroVertex, setAt]
    · by_cases hr : k ∈ rest
      · simp [hr]
      · simp [hr, hk, Writer.zeroVertex, setAt]

/-- What `resizeVertexes` does: the capacity doubles, the counts and the face buffer stay, the
three vertex buffers keep their content below the old capacity and hold 0 from the old
capacity up to the new one. -/
theorem Writer.resizeVertexes_spec (w : Writer) :
    w.resizeVertexes.vertexSize = 2 * w.vertexSize ∧
    w.resizeVertexes.vertexCount = w.vertexCount ∧
    w.resizeVertexes.faceCount = w.faceCount ∧
    w.resizeVertexes.meshSize = w.meshSize ∧
    w.resizeVertexes.mesh = w.mesh ∧
    (∀ k, k < w.vertexSize →
      w.resizeVertexes.coords k = w.coords k ∧ w.resizeVertexes.normals k = w.normals k ∧
        w.resizeVertexes.colors k = w.colors k) ∧
    (∀ k, w.vertexSize ≤ k → k < 2 * w.vertexSize →
      w.resizeVertexes.coords k = 0 ∧ w.resizeVertexes.normals k = 0 ∧
        w.resizeVertexes.colors k = 0) := by
  have hhalf : w.vertexSize * 2 / 2 = w.vertexSize := by omega
  simp only [Writer.resizeVertexes, hhalf]
  obtain ⟨z1, z2, z3, z4, z5, z6⟩ :=
    Writer.zeroVertex_foldl (List.range' w.vertexSize (w.vertexSize * 2 - w.vertexSize))
      ((List.range w.vertexSize).foldl (Writer.copyVertex w)
        { w with
          vertexSize := w.vertexSize * 2
          coords := Writer.freshFloats
          normals := Writer.freshFloats
          colors := Writer.freshFloats })
  obtain ⟨c1, c2, c3, c4, c5, c6⟩ :=
    Writer.copyVertex_foldl w (List.range w.vertexSize)
        { w with
          vertexSize := w.vertexSize * 2
          coords := Writer.freshFloats
          normals := Writer.freshFloats
          colors := Writer.freshFloats }
  refine ⟨by rw [z2, c2]; exact Nat.mul_comm _ _, by rw [z1, c1], by rw [z4, c4], by rw [z5, c5], by rw [z3, c3],
    ?_, ?_⟩
  · intro k hk
    obtain ⟨a1, a2, a3⟩ := z6 k
    obtain ⟨b1, b2, b3⟩ := c6 k
    have hnot : ¬ k ∈ List.range' w.vertexSize (w.vertexSize * 2 - w.vertexSize) := by
      rw [List.mem_range']; omega
    have hin : k ∈ List.range w.vertexSize := List.mem_range.mpr hk
    rw [a1, a2, a3, if_neg hnot, if_neg hnot, if_neg hnot, b1, b2, b3, if_pos hin, if_pos hin,
      if_pos hin]
    exact ⟨rfl, rfl, rfl⟩
  · intro k hk1 hk2
    obtain ⟨a1, a2, a3⟩ := z6 k
    have hin : k ∈ List.range' w.vertexSize (w.vertexSize * 2 - w.vertexSize) := by
      rw [List.mem_range']; exact ⟨k - w.vertexSize, by omega, by omega⟩
    rw [a1, a2, a3, if_pos hin, if_pos hin, if_pos hin]
    exact ⟨rfl, rfl, rfl⟩

/-- A loop of writes `buf[i] = src[i]` over the indices of `l`. -/
theorem setAt_foldl_copy {α : Type} (src : Nat → α) (l : List Nat) (buf : Nat → α) (k : Nat) :
    (l.foldl (fun b i => setAt b i (src i)) buf) k = (if k ∈ l then src k else buf k) := by
  induction l generalizing buf with
  | nil => simp
  | cons i rest ih =>
    simp only [List.foldl_cons]
    rw [ih]
    by_cases hk : k = i
    · subst hk
      simp [setAt]
    · by_cases hr : k ∈ rest
      · simp [hr]
      · simp [hr, hk, setAt]

/-- The zeroing loop of `resizeMesh` over the indices of `l`. -/
theorem Writer.zeroMesh_foldl (l : List Nat) (nw : Writer) :
    (l.foldl (fun w i => { w with mesh := setAt w.mesh i 0 }) nw).vertexCount
        = nw.vertexCount ∧
    (l.foldl (fun w i => { w with mesh := setAt w.mesh i 0 }) nw).vertexSize = nw.vertexSize ∧
    (l.foldl (fun w i => { w with mesh := setAt w.mesh i 0 }) nw).coords = nw.coords ∧
    (l.foldl (fun w i => { w with mesh := setAt w.mesh i 0 }) nw).normals = nw.normals ∧
    (l.foldl (fun w i => { w with mesh := setAt w.mesh i 0 }) nw).colors = nw.colors ∧
    (l.foldl (fun w i => { w with mesh := setAt w.mesh i 0 }) nw).faceCount = nw.faceCount ∧
    (l.foldl (fun w i => { w with mesh := setAt w.mesh i 0 }) nw).meshSize = nw.meshSize ∧
    ∀ k, (l.foldl (fun w i => { w with mesh := setAt w.mesh i 0 }) nw).mesh k
      = (if k ∈ l then 0 else nw.mesh k) := by
  induction l generalizing nw with
  | nil => simp
  | cons i rest ih =>
    simp only [List.foldl_cons]
    obtain ⟨h1, h2, h3, h4, h5, h6, h7, h8⟩ := ih { nw with mesh := setAt nw.mesh i 0 }
    refine ⟨h1, h2, h3, h4, h5, h6, h7, ?_⟩
    intro k
    rw [h8 k]
    by_cases hk : k = i
    · subst hk
      simp [setAt]
    · by_cases hr : k ∈ rest
      · simp [hr]
      · simp [hr, hk, setAt]

/-- What `resizeMesh` does: the capacity doubles, the counts and the vertex buffers stay, the
face buffer keeps its content below the old capacity and holds 0 from the old capacity up to
the new one. -/
theorem Writer.resizeMesh_spec (w : Writer) :
    w.resizeMesh.meshSize = 2 * w.meshSize ∧
    w.resizeMesh.vertexCount = w.vertexCount ∧
    w.resizeMesh.faceCount = w.faceCount ∧
    w.resizeMesh.vertexSize = w.vertexSize ∧
    w.resizeMesh.coords = w.coords ∧ w.resizeMesh.normals = w.normals ∧
    w.resizeMesh.colors = w.colors ∧
    (∀ k, k < w.meshSize → w.resizeMesh.mesh k = w.mesh k) ∧
    (∀ k, w.meshSize ≤ k → k < 2 * w.meshSize → w.resizeMesh.mesh k = 0) := by
  have hhalf : w.meshSize * 2 / 2 = w.meshSize := by omega
  simp only [Writer.resizeMesh, hhalf]
  obtain ⟨z1, z2, z3, z4, z5, z6, z7, z8⟩ :=
    Writer.zeroMesh_foldl (List.range' w.meshSize (w.meshSize * 2 - w.meshSize))
      { w with
        meshSize := w.meshSize * 2
        mesh := (List.range w.meshSize).foldl (fun newMesh i => setAt newMesh i (w.mesh i))
          Writer.freshInts }
  refine ⟨by rw [z7]; exact Nat.mul_comm _ _, by rw [z1], by rw [z6], by rw [z2], by rw [z3], by rw [z4],
    by rw [z5], ?_, ?_⟩
  · intro k hk
    have hnot : ¬ k ∈ List.range' w.meshSize (w.meshSize * 2 - w.meshSize) := by
      rw [List.mem_range']; omega
    rw [z8 k, if_neg hnot]
    show ((List.range w.meshSize).foldl (fun newMesh i => setAt newMesh i (w.mesh i))
          Writer.freshInts) k = w.mesh k
    rw [setAt_foldl_copy, if_pos (List.mem_range.mpr hk)]
  · intro k hk1 hk2
    have hin : k ∈ List.range' w.meshSize (w.meshSize * 2 - w.meshSize) := by
      rw [List.mem_range']; exact ⟨k - w.meshSize, by omega, by omega⟩
    rw [z8 k, if_pos hin]

theorem Writer.growVertexes_frame (w : Writer) :
    w.growVertexes.vertexCount = w.vertexCount ∧
    w.growVertexes.mesh = w.mesh ∧
    w.growVertexes.faceCount = w.faceCount ∧
    w.growVertexes.meshSize = w.meshSize ∧
    w.growVertexes.vertexSize
      = (if w.vertexCount * 3 > w.vertexSize then w.vertexSize * 2 else w.vertexSize) := by
  obtain ⟨r1, r2, r3, r4, r5, _, _⟩ := Writer.resizeVertexes_spec w
  simp only [Writer.growVertexes]
  split_ifs
  · exact ⟨r2, r5, r3, r4, by rw [r1]; omega⟩
  · exact ⟨rfl, rfl, rfl, rfl, rfl⟩

theorem Writer.growVertexes_coords (w : Writer) (i : Nat) (hi : i < w.vertexSize) :
    w.growVertexes.coords i = w.coords i := by
  simp only [Writer.growVertexes]
  split_ifs
  · exact ((Writer.resizeVertexes_spec w).2.2.2.2.2.1 i hi).1
  · rfl

theorem Writer.squareCorner_effect (vals : Nat → Nat → ℚ) (isColored : Bool) (a b j : Nat)
    (s : Writer × VMap) :
    Writer.CornerEffect false a b 0 j s (Writer.squareCorner vals isColored a b j s) := by
  by_cases h : s.2 a b 0 = 0
  · simp only [Writer.CornerEffect, Writer.squareCorner, h, if_true, Writer.setColor_frame,
      Writer.growVertexes_frame]
    refine ⟨trivial, trivial, ?_, Or.inr ⟨trivial, trivial, trivial, trivial, ?_, ?_, ?_, ?_⟩⟩
    · simp [VMap.set]
    · have h1 : ¬ (3 * (s.1.vertexCount + 1) - 3 = 3 * (s.1.vertexCount + 1) - 2) := by omega
      simp [setAt, h1]
    · simp [setAt]
    · intro hf; exact absurd hf (by decide)
    · intro hcap i hi
      simp only [setAt]
      rw [if_neg (by omega), if_neg (by omega)]
      exact Writer.growVertexes_coords _ i (by show i < s.1.vertexSize; omega)
  · simp only [Writer.CornerEffect, Writer.squareCorner, h, if_false]
    exact ⟨trivial, trivial, trivial, Or.inl ⟨h, trivial, trivial, trivial, trivial⟩⟩

theorem Writer.cubeCorner_effect (vals : Nat → Nat → Nat → ℚ) (isColored : Bool)
    (normal : ℚ × ℚ × ℚ) (a b c j : Nat) (s : Writer × VMap) :
    Writer.CornerEffect true a b c j s (Writer.cubeCorner vals isColored normal a b c j s) := by
  by_cases h : s.2 a b c = 0
  · simp only [Writer.CornerEffect, Writer.cubeCorner, h, if_true, Writer.setColor_frame,
      Writer.growVertexes_frame]
    refine ⟨trivial, trivial, ?_, Or.inr ⟨trivial, trivial, trivial, trivial, ?_, ?_, ?_, ?_⟩⟩
    · simp [VMap.set]
    · have h1 : ¬ (3 * (s.1.vertexCount + 1) - 3 = 3 * (s.1.vertexCount + 1) - 2) := by omega
      have h2 : ¬ (3 * (s.1.vertexCount + 1) - 3 = 3 * (s.1.vertexCount + 1) - 1) := by omega
      simp [setAt, h1, h2]
    · have h1 : ¬ (3 * (s.1.vertexCount + 1) - 2 = 3 * (s.1.vertexCount + 1) - 1) := by omega
      simp [setAt, h1]
    · intro _; simp [setAt]
    · intro hcap i hi
      simp only [setAt]
      rw [if_neg (by omega), if_neg (by omega), if_neg (by omega)]
      exact Writer.growVertexes_coords _ i (by show i < s.1.vertexSize; omega)
  · simp only [Writer.CornerEffect, Writer.cubeCorner, h, if_false]
    exact ⟨trivial, trivial, trivial, Or.inl ⟨h, trivial, trivial, trivial, trivial⟩⟩

end HullComputation
namespace HullComputation

/-! ## Welding: the invariants are kept -/

theorem Writer.CornerEffect.vmap_keep {dim3 : Bool} {a b c j : Nat} {s t : Writer × VMap}
    (h : Writer.CornerEffect dim3 a b c j s t) (a2 b2 c2 : Nat) (hne : s.2 a2 b2 c2 ≠ 0) :
    t.2 a2 b2 c2 = s.2 a2 b2 c2 := by
  rcases h.2.2.2 with ⟨_, hv, _⟩ | ⟨h0, hv, _⟩
  · rw [hv]
  · rw [hv]
    simp only [VMap.set]
    split_ifs with hc
    · obtain ⟨rfl, rfl, rfl⟩ := hc
      exact absurd h0 hne
    · rfl

theorem Writer.CornerEffect.vmap_ne_zero {dim3 : Bool} {a b c j : Nat} {s t : Writer × VMap}
    (h : Writer.CornerEffect dim3 a b c j s t) : t.2 a b c ≠ 0 := by
  rcases h.2.2.2 with ⟨hne, hv, _⟩ | ⟨_, hv, _⟩
  · rw [hv]; exact hne
  · rw [hv]
    simp [VMap.set]

theorem Writer.CornerEffect.welded {dim3 : Bool} {a b c j : Nat} {s t : Writer × VMap}
    (h : Writer.CornerEffect dim3 a b c j s t) (hw : Writer.Welded dim3 s.1 s.2)
    (hc : dim3 = false → c = 0) : Writer.Welded dim3 t.1 t.2 := by
  obtain ⟨hs3, hcap, hle, hid⟩ := hw
  rcases h.2.2.2 with ⟨_, hv, hvc, hvs, hco⟩ | ⟨h0, hv, hvc, hvs, hx, hy, hz, hkeep⟩
  · refine ⟨by rw [hvs]; exact hs3, by rw [hvs, hvc]; exact hcap, ?_, ?_⟩
    · intro a2 b2 c2
      rw [hv, hvc]
      exact hle a2 b2 c2
    · intro v h1 h2
      rw [hvc] at h2
      rw [hv, hco]
      exact hid v h1 h2
  · refine ⟨?_, ?_, ?_, ?_⟩
    · rw [hvs]; split_ifs <;> omega
    · rw [hvs, hvc]; split_ifs <;> omega
    · intro a2 b2 c2
      rw [hv, hvc]
      simp only [VMap.set]
      split_ifs
      · exact le_refl _
      · exact le_trans (hle a2 b2 c2) (Nat.le_succ _)
    · intro v h1 h2
      rw [hvc] at h2
      by_cases hv2 : v ≤ s.1.vertexCount
      · obtain ⟨a2, b2, c2, e1, e2, e3, e4⟩ := hid v h1 hv2
        refine ⟨a2, b2, c2, ?_, ?_, ?_, ?_⟩
        · rw [h.vmap_keep a2 b2 c2 (by omega)]
          exact e1
        · rw [hkeep hcap _ (by omega)]
          exact e2
        · rw [hkeep hcap _ (by omega)]
          exact e3
        · cases dim3
          · simpa using e4
          · simp only [if_true] at e4 ⊢
            rw [hkeep hcap _ (by omega)]
            exact e4
      · have hveq : v = s.1.vertexCount + 1 := by omega
        subst hveq
        refine ⟨a, b, c, ?_, hx, hy, ?_⟩
        · rw [hv]
          simp [VMap.set]
        · cases dim3
          · simpa using hc rfl
          · simpa using hz rfl

theorem Writer.MidTriangle.corner {dim3 : Bool} {a b c j : Nat} {s t : Writer × VMap}
    {cs : List RCoord} (hm : Writer.MidTriangle dim3 j s cs)
    (h : Writer.CornerEffect dim3 a b c j s t) (hc : dim3 = false → c = 0) :
    Writer.MidTriangle dim3 (j + 1) t (cs ++ [(a, b, c)]) := by
  obtain ⟨hw, ⟨hm3, hmcap, hmesh⟩, hfc, hlen⟩ := hm
  have efc := h.1
  have ems := h.2.1
  have emesh := h.2.2.1
  refine ⟨h.welded hw hc, ⟨by rw [ems]; exact hm3, by rw [ems, efc]; exact hmcap, ?_⟩,
    by rw [efc]; exact hfc, ?_⟩
  · intro k hk
    rw [List.length_append, List.length_singleton] at hk
    rw [emesh]
    by_cases hkl : k < cs.length
    · obtain ⟨e1, e2⟩ := hmesh k hkl
      rw [List.getD_append _ _ _ _ hkl, setAt_other _ _ _ _ (by omega), e1]
      have hne : s.2 (cs.getD k (0, 0, 0)).1 (cs.getD k (0, 0, 0)).2.1
          (cs.getD k (0, 0, 0)).2.2 ≠ 0 := by rw [← e1]; exact e2
      exact ⟨(h.vmap_keep _ _ _ hne).symm, hne⟩
    · have hkeq : k = cs.length := by omega
      subst hkeq
      rw [List.getD_append_right _ _ _ _ (le_refl _)]
      simp only [Nat.sub_self, List.getD_cons_zero]
      rw [← hlen, setAt_same]
      exact ⟨rfl, h.vmap_ne_zero⟩
  · rw [List.length_append, List.length_singleton, efc, hlen]
    omega

/-- Incrementing `faceCount` and growing the face buffer opens a triangle. -/
theorem Writer.Extracting.openTriangle {dim3 : Bool} {s : Writer × VMap} {cs : List RCoord}
    (h : Writer.Extracting dim3 s cs) :
    Writer.MidTriangle dim3 0
      (Writer.growMesh { s.1 with faceCount := s.1.faceCount + 1 }, s.2) cs := by
  obtain ⟨hw, ⟨hm3, hmcap, hmesh⟩, hlen⟩ := h
  have hgrow : ∀ w : Writer, w.growMesh.vertexCount = w.vertexCount ∧
      w.growMesh.vertexSize = w.vertexSize ∧ w.growMesh.coords = w.coords ∧
      w.growMesh.faceCount = w.faceCount ∧
      w.growMesh.meshSize = (if w.faceCount * 3 > w.meshSize then w.meshSize * 2 else w.meshSize)
      ∧ ∀ k, k < w.meshSize → w.growMesh.mesh k = w.mesh k := by
    intro w
    simp only [Writer.growMesh]
    obtain ⟨r1, r2, r3, r4, r5, _, _, r8, _⟩ := Writer.resizeMesh_spec w
    split_ifs
    · exact ⟨r2, r4, r5, r3, by rw [r1]; omega, r8⟩
    · exact ⟨rfl, rfl, rfl, rfl, rfl, fun _ _ => rfl⟩
  obtain ⟨g1, g2, g3, g4, g5, g6⟩ := hgrow { s.1 with faceCount := s.1.faceCount + 1 }
  refine ⟨?_, ⟨?_, ?_, ?_⟩, ?_, ?_⟩
  · simp only [Writer.Welded, g1, g2, g3]
    exact hw
  · simp only [g5]; split_ifs <;> omega
  · simp only [g4, g5]; split_ifs <;> omega
  · intro k hk
    simp only
    rw [g6 k (by show k < s.1.meshSize; omega)]
    exact hmesh k hk
  · simp only [g4]; omega
  · simp only [g4]; omega

theorem Writer.MidTriangle.close {dim3 : Bool} {s : Writer × VMap} {cs : List RCoord}
    (h : Writer.MidTriangle dim3 3 s cs) : Writer.Extracting dim3 s cs := by
  obtain ⟨hw, hf, hfc, hlen⟩ := h
  exact ⟨hw, hf, by omega⟩

end HullComputation
namespace HullComputation

/-! ## Welding: triangles, cells and the marching loops -/

/-- The invariants only read the counts, the capacities, the coordinates and the face list. -/
theorem Writer.MidTriangle.congr {dim3 : Bool} {j : Nat} {w w2 : Writer} {vmap : VMap}
    {cs : List RCoord} (h : Writer.MidTriangle dim3 j (w, vmap) cs)
    (e1 : w2.vertexCount = w.vertexCount) (e2 : w2.vertexSize = w.vertexSize)
    (e3 : w2.coords = w.coords) (e4 : w2.mesh = w.mesh) (e5 : w2.faceCount = w.faceCount)
    (e6 : w2.meshSize = w.meshSize) : Writer.MidTriangle dim3 j (w2, vmap) cs := by
  simp only [Writer.MidTriangle, Writer.Welded, Writer.FacesWelded, e1, e2, e3, e4, e5, e6]
    at h ⊢
  exact h

theorem Writer.squareTriangle_extracting (vals : Nat → Nat → ℚ) (isColored : Bool)
    (faces : Nat → Int) (x y i : Nat) (s : Writer × VMap) (cs : List RCoord)
    (h : Writer.Extracting false s cs) :
    Writer.Extracting false (Writer.squareTriangle vals isColored faces x y i s)
      (cs ++ (List.range 3).map
        (fun j => (MarchingSquares.coordAt (faces (i + j)) 0 + 2 * x,
          MarchingSquares.coordAt (faces (i + j)) 1 + 2 * y, 0))) := by
  have h0 := h.openTriangle
  have h1 := h0.corner (Writer.squareCorner_effect vals isColored
    (MarchingSquares.coordAt (faces (i + 0)) 0 + 2 * x)
    (MarchingSquares.coordAt (faces (i + 0)) 1 + 2 * y) 0 _) (fun _ => rfl)
  have h2 := h1.corner (Writer.squareCorner_effect vals isColored
    (MarchingSquares.coordAt (faces (i + 1)) 0 + 2 * x)
    (MarchingSquares.coordAt (faces (i + 1)) 1 + 2 * y) 1 _) (fun _ => rfl)
  have h3 := h2.corner (Writer.squareCorner_effect vals isColored
    (MarchingSquares.coordAt (faces (i + 2)) 0 + 2 * x)
    (MarchingSquares.coordAt (faces (i + 2)) 1 + 2 * y) 2 _) (fun _ => rfl)
  have hr : List.range 3 = [0, 1, 2] := rfl
  simp only [Writer.squareTriangle, hr, List.foldl_cons, List.foldl_nil, List.map_cons,
    List.map_nil]
  have hl : cs ++ [(MarchingSquares.coordAt (faces (i + 0)) 0 + 2 * x,
        MarchingSquares.coordAt (faces (i + 0)) 1 + 2 * y, 0),
      (MarchingSquares.coordAt (faces (i + 1)) 0 + 2 * x,
        MarchingSquares.coordAt (faces (i + 1)) 1 + 2 * y, 0),
      (MarchingSquares.coordAt (faces (i + 2)) 0 + 2 * x,
        MarchingSquares.coordAt (faces (i + 2)) 1 + 2 * y, 0)]
      = cs ++ [(MarchingSquares.coordAt (faces (i + 0)) 0 + 2 * x,
        MarchingSquares.coordAt (faces (i + 0)) 1 + 2 * y, 0)]
        ++ [(MarchingSquares.coordAt (faces (i + 1)) 0 + 2 * x,
        MarchingSquares.coordAt (faces (i + 1)) 1 + 2 * y, 0)]
        ++ [(MarchingSquares.coordAt (faces (i + 2)) 0 + 2 * x,
        MarchingSquares.coordAt (faces (i + 2)) 1 + 2 * y, 0)] := by simp
  rw [hl]
  exact h3.close

theorem Writer.squareLoop_extracting (vals : Nat → Nat → ℚ) (isColored : Bool)
    (faces : Nat → Int) (x y : Nat) (l : List Nat) :
    ∀ (s : Writer × VMap) (cs : List RCoord), Writer.Extracting false s cs →
      Writer.Extracting false (Writer.squareLoop vals isColored faces x y l s)
        (cs ++ Writer.squareCorners faces x y l) := by
  induction l with
  | nil => intro s cs h; simpa [Writer.squareLoop, Writer.squareCorners] using h
  | cons i rest ih =>
    intro s cs h
    simp only [Writer.squareLoop, Writer.squareCorners]
    split_ifs
    · simpa using h
    · rw [← List.append_assoc]
      exact ih _ _ (Writer.squareTriangle_extracting vals isColored faces x y i s cs h)

theorem Writer.getNormal_frame (tbl : CubeTable) (sqrtf : ℚ → ℚ) (w : Writer) (p0 p1 p2 : Int) :
    (Writer.getNormal tbl sqrtf w p0 p1 p2).2.vertexCount = w.vertexCount ∧
    (Writer.getNormal tbl sqrtf w p0 p1 p2).2.vertexSize = w.vertexSize ∧
    (Writer.getNormal tbl sqrtf w p0 p1 p2).2.coords = w.coords ∧
    (Writer.getNormal tbl sqrtf w p0 p1 p2).2.mesh = w.mesh ∧
    (Writer.getNormal tbl sqrtf w p0 p1 p2).2.faceCount = w.faceCount ∧
    (Writer.getNormal tbl sqrtf w p0 p1 p2).2.meshSize = w.meshSize :=
  ⟨rfl, rfl, rfl, rfl, rfl, rfl⟩

theorem Writer.cubeTriangle_extracting (tbl : CubeTable) (sqrtf : ℚ → ℚ)
    (vals : Nat → Nat → Nat → ℚ) (isColored : Bool) (faces : Nat → Int) (x y z i : Nat)
    (s : Writer × VMap) (cs : List RCoord) (h : Writer.Extracting true s cs) :
    Writer.Extracting true (Writer.cubeTriangle tbl sqrtf vals isColored faces x y z i s)
      (cs ++ (List.range 3).map
        (fun j => (tbl.coords (faces (i + j)) 0 + 2 * x, tbl.coords (faces (i + j)) 1 + 2 * y,
          tbl.coords (faces (i + j)) 2 + 2 * z))) := by
  obtain ⟨g1, g2, g3, g4, g5, g6⟩ := Writer.getNormal_frame tbl sqrtf
    (Writer.growMesh { s.1 with faceCount := s.1.faceCount + 1 })
    (faces i) (faces (i + 1)) (faces (i + 2))
  have h0 := h.openTriangle.congr g1 g2 g3 g4 g5 g6
  have h1 := h0.corner (Writer.cubeCorner_effect vals isColored
    (Writer.getNormal tbl sqrtf (Writer.growMesh { s.1 with faceCount := s.1.faceCount + 1 })
      (faces i) (faces (i + 1)) (faces (i + 2))).1
    (tbl.coords (faces (i + 0)) 0 + 2 * x) (tbl.coords (faces (i + 0)) 1 + 2 * y)
    (tbl.coords (faces (i + 0)) 2 + 2 * z) 0 _) (fun hf => absurd hf (by decide))
  have h2 := h1.corner (Writer.cubeCorner_effect vals isColored
    (Writer.getNormal tbl sqrtf (Writer.growMesh { s.1 with faceCount := s.1.faceCount + 1 })
      (faces i) (faces (i + 1)) (faces (i + 2))).1
    (tbl.coords (faces (i + 1)) 0 + 2 * x) (tbl.coords (faces (i + 1)) 1 + 2 * y)
    (tbl.coords (faces (i + 1)) 2 + 2 * z) 1 _) (fun hf => absurd hf (by decide))
  have h3 := h2.corner (Writer.cubeCorner_effect vals isColored
    (Writer.getNormal tbl sqrtf (Writer.growMesh { s.1 with faceCount := s.1.faceCount + 1 })
      (faces i) (faces (i + 1)) (faces (i + 2))).1
    (tbl.coords (faces (i + 2)) 0 + 2 * x) (tbl.coords (faces (i + 2)) 1 + 2 * y)
    (tbl.coords (faces (i + 2)) 2 + 2 * z) 2 _) (fun hf => absurd hf (by decide))
  have hr : List.range 3 = [0, 1, 2] := rfl
  simp only [Writer.cubeTriangle, hr, List.foldl_cons, List.foldl_nil, List.map_cons,
    List.map_nil]
  have hl : ∀ q0 q1 q2 : RCoord, cs ++ [q0, q1, q2] = cs ++ [q0] ++ [q1] ++ [q2] := by
    intro q0 q1 q2; simp
  rw [hl]
  exact h3.close

theorem Writer.cubeLoop_extracting (tbl : CubeTable) (sqrtf : ℚ → ℚ)
    (vals : Nat → Nat → Nat → ℚ) (isColored : Bool) (faces : Nat → Int) (x y z : Nat)
    (l : List Nat) :
    ∀ (s : Writer × VMap) (cs : List RCoord), Writer.Extracting true s cs →
      Writer.Extracting true (Writer.cubeLoop tbl sqrtf vals isColored faces x y z l s)
        (cs ++ Writer.cubeCorners tbl faces x y z l) := by
  induction l with
  | nil => intro s cs h; simpa [Writer.cubeLoop, Writer.cubeCorners] using h
  | cons i rest ih =>
    intro s cs h
    simp only [Writer.cubeLoop, Writer.cubeCorners]
    split_ifs
    · simpa using h
    · rw [← List.append_assoc]
      exact ih _ _ (Writer.cubeTriangle_extracting tbl sqrtf vals isColored faces x y z i s cs h)

theorem Writer.resetCounts_extracting (dim3 : Bool) (w : Writer) (hv : 3 ≤ w.vertexSize)
    (hm : 3 ≤ w.meshSize) :
    Writer.Extracting dim3 (w.resetCounts, Writer.createVertexMap) [] := by
  refine ⟨⟨hv, ?_, ?_, ?_⟩, ⟨hm, ?_, ?_⟩, ?_⟩
  · simp [Writer.resetCounts]
  · intro a b c; simp [Writer.createVertexMap]
  · intro v h1 h2
    simp only [Writer.resetCounts] at h2
    omega
  · simp [Writer.resetCounts]
  · intro k hk; simp at hk
  · simp [Writer.resetCounts]

/-- After the marching loops of `marchingSquares` both invariants hold for the list of all
emitted corners. -/
theorem Writer.marchingSquaresCore_extracting (w : Writer) (M : Arr2) (isColored : Bool)
    (hv : 3 ≤ w.vertexSize) (hm : 3 ≤ w.meshSize) :
    Writer.Extracting false (Writer.marchingSquaresCore w.resetCounts M isColored)
      (Writer.marchingSquaresCorners M) := by
  refine foldl_rel (Writer.Extracting false) _ _ ?_ _ _ _
    (Writer.resetCounts_extracting false w hv hm)
  intro s cs x hs
  refine foldl_rel (Writer.Extracting false) _ _ ?_ _ _ _ hs
  intro s2 cs2 y hs2
  exact Writer.squareLoop_extracting _ isColored _ x y [0, 3, 6] s2 cs2 hs2

/-- After the marching loops of `marchingCubes` both invariants hold for the list of all
emitted corners. -/
theorem Writer.marchingCubesCore_extracting (tbl : CubeTable) (sqrtf : ℚ → ℚ) (w : Writer)
    (M : Arr3) (isColored : Bool) (hv : 3 ≤ w.vertexSize) (hm : 3 ≤ w.meshSize) :
    Writer.Extracting true (Writer.marchingCubesCore tbl sqrtf w.resetCounts M isColored)
      (Writer.marchingCubesCorners tbl M) := by
  refine foldl_rel (Writer.Extracting true) _ _ ?_ _ _ _
    (Writer.resetCounts_extracting true w hv hm)
  intro s cs x hs
  refine foldl_rel (Writer.Extracting true) _ _ ?_ _ _ _ hs
  intro s2 cs2 y hs2
  refine foldl_rel (Writer.Extracting true) _ _ ?_ _ _ _ hs2
  intro s3 cs3 z hs3
  exact Writer.cubeLoop_extracting tbl sqrtf _ isColored _ x y z [0, 3, 6, 9, 12] s3 cs3 hs3

end HullComputation
namespace HullComputation

/-! ## After the marching loops: normalising and scaling -/

theorem Writer.normalizeNormals_frame (sqrtf : ℚ → ℚ) (w : Writer) :
    (w.normalizeNormals sqrtf).vertexCount = w.vertexCount ∧
    (w.normalizeNormals sqrtf).coords = w.coords ∧
    (w.normalizeNormals sqrtf).mesh = w.mesh ∧
    (w.normalizeNormals sqrtf).faceCount = w.faceCount := by
  refine foldl_inv (fun r : Writer => r.vertexCount = w.vertexCount ∧ r.coords = w.coords ∧
    r.mesh = w.mesh ∧ r.faceCount = w.faceCount) _ ?_ _ _ ⟨rfl, rfl, rfl, rfl⟩
  intro r v hr
  exact hr

theorem Writer.scaleVertex_coords (width height depth : Nat) (w : Writer) (v k : Nat) :
    (Writer.scaleVertex width height depth w v).coords k =
      if k = 3 * v ∨ k = 3 * v + 1 ∨ k = 3 * v + 2
      then w.coords k / Writer.scaleOf width height depth k else w.coords k := by
  simp only [Writer.scaleVertex, setAt, Writer.scaleOf]
  by_cases hk2 : k = 3 * v + 2
  · subst hk2
    have e3 : ¬ ((3 * v + 2) % 3 = 0) := by omega
    have e4 : ¬ ((3 * v + 2) % 3 = 1) := by omega
    simp [e3, e4]
  · by_cases hk1 : k = 3 * v + 1
    · subst hk1
      have e3 : ¬ ((3 * v + 1) % 3 = 0) := by omega
      have e4 : (3 * v + 1) % 3 = 1 := by omega
      simp [e3, e4]
    · by_cases hk0 : k = 3 * v
      · subst hk0
        have e3 : (3 * v) % 3 = 0 := by omega
        simp [e3]
      · simp [hk2, hk1, hk0]

theorem Writer.scaleCoords_aux (width height depth : Nat) (w : Writer) (n : Nat) :
    ((List.range n).foldl (Writer.scaleVertex width height depth) w).vertexCount
      = w.vertexCount ∧
    ((List.range n).foldl (Writer.scaleVertex width height depth) w).mesh = w.mesh ∧
    ((List.range n).foldl (Writer.scaleVertex width height depth) w).faceCount = w.faceCount ∧
    ∀ k, ((List.range n).foldl (Writer.scaleVertex width height depth) w).coords k =
      if k < 3 * n then w.coords k / Writer.scaleOf width height depth k else w.coords k := by
  induction n with
  | zero => simp
  | succ n ih =>
    obtain ⟨h1, h2, h3, h4⟩ := ih
    rw [List.range_succ, List.foldl_append]
    simp only [List.foldl_cons, List.foldl_nil]
    refine ⟨h1, h2, h3, ?_⟩
    intro k
    rw [Writer.scaleVertex_coords, h4]
    by_cases hlt : k < 3 * n
    · have e1 : ¬ (k = 3 * n ∨ k = 3 * n + 1 ∨ k = 3 * n + 2) := by omega
      have e2 : k < 3 * (n + 1) := by omega
      rw [if_neg e1, if_pos hlt, if_pos e2]
    · by_cases hin : k = 3 * n ∨ k = 3 * n + 1 ∨ k = 3 * n + 2
      · have e2 : k < 3 * (n + 1) := by omega
        rw [if_pos hin, if_neg hlt, if_pos e2]
      · have e2 : ¬ k < 3 * (n + 1) := by omega
        rw [if_neg hin, if_neg hlt, if_neg e2]

/-- `scaleCoords` divides the coordinates of the `vertexCount` vertices by twice the extent of
their axis and changes nothing else of the counts and the face list. -/
theorem Writer.scaleCoords_spec (w : Writer) (width height depth : Nat) :
    (w.scaleCoords width height depth).vertexCount = w.vertexCount ∧
    (w.scaleCoords width height depth).mesh = w.mesh ∧
    (w.scaleCoords width height depth).faceCount = w.faceCount ∧
    ∀ k, (w.scaleCoords width height depth).coords k =
      if k < 3 * w.vertexCount then w.coords k / Writer.scaleOf width height depth k
      else w.coords k :=
  Writer.scaleCoords_aux width height depth w w.vertexCount

theorem foldl_id {α γ : Type} (l : List γ) (a : α) : l.foldl (fun st _ => st) a = a := by
  induction l with
  | nil => rfl
  | cons x l ih => simp only [List.foldl_cons]; exact ih

/-- A vertex is only emitted when the field has at least 2 samples on each axis. -/
theorem Writer.marchingSquaresCore_dims (w : Writer) (M : Arr2) (isColored : Bool)
    (h : 1 ≤ (Writer.marchingSquaresCore w.resetCounts M isColored).1.vertexCount) :
    2 ≤ M.n1 ∧ 2 ≤ M.n0 := by
  by_contra hc
  have h0 : (Writer.marchingSquaresCore w.resetCounts M isColored).1.vertexCount = 0 := by
    by_cases h1 : M.n1 - 1 = 0
    · simp [Writer.marchingSquaresCore, h1, Writer.resetCounts]
    · have h2 : M.n0 - 1 = 0 := by omega
      simp [Writer.marchingSquaresCore, h2, foldl_id, Writer.resetCounts]
  omega

theorem Writer.marchingCubesCore_dims (tbl : CubeTable) (sqrtf : ℚ → ℚ) (w : Writer) (M : Arr3)
    (isColored : Bool)
    (h : 1 ≤ (Writer.marchingCubesCore tbl sqrtf w.resetCounts M isColored).1.vertexCount) :
    2 ≤ M.n2 ∧ 2 ≤ M.n1 ∧ 2 ≤ M.n0 := by
  by_contra hc
  have h0 : (Writer.marchingCubesCore tbl sqrtf w.resetCounts M isColored).1.vertexCount = 0 := by
    by_cases h1 : M.n2 - 1 = 0
    · simp [Writer.marchingCubesCore, h1, Writer.resetCounts]
    · by_cases h2 : M.n1 - 1 = 0
      · simp [Writer.marchingCubesCore, h2, foldl_id, Writer.resetCounts]
      · have h3 : M.n0 - 1 = 0 := by omega
        simp [Writer.marchingCubesCore, h3, foldl_id, Writer.resetCounts]
  omega

end HullComputation
namespace HullComputation

/-! ## Every weld-map access is inside the map -/

theorem MarchingSquares.coordAt_le (p : Int) (c : Nat) : MarchingSquares.coordAt p c ≤ 2 := by
  simp only [MarchingSquares.coordAt]
  generalize p.toNat = n
  by_cases hn : n < 8
  · by_cases hc : c < 2
    · interval_cases n <;> interval_cases c <;> decide
    · have hrow : ∀ row ∈ MarchingSquares.coords, row.length ≤ c := by
        intro row hrow
        simp only [MarchingSquares.coords, List.mem_cons, List.mem_singleton,
          List.not_mem_nil, or_false] at hrow
        rcases hrow with h | h | h | h | h | h | h | h <;> (subst h; simp; omega)
      have hmem : MarchingSquares.coords.getD n [] ∈ MarchingSquares.coords := by
        rw [List.getD_eq_getElem _ _ (by simpa [MarchingSquares.coords] using hn)]
        exact List.getElem_mem _
      rw [List.getD_eq_default _ _ (hrow _ hmem)]
      omega
  · have hrow : MarchingSquares.coords.getD n [] = [] :=
      List.getD_eq_default _ _ (by simp [MarchingSquares.coords]; omega)
    rw [hrow]
    simp

theorem Writer.squareCorners_bound (faces : Nat → Int) (x y W H : Nat) (hx : x + 2 ≤ W)
    (hy : y + 2 ≤ H) (l : List Nat) :
    ∀ q ∈ Writer.squareCorners faces x y l, q.1 < 2 * W - 1 ∧ q.2.1 < 2 * H - 1 ∧ q.2.2 < 1 := by
  induction l with
  | nil => intro q hq; simp [Writer.squareCorners] at hq
  | cons i rest ih =>
    intro q hq
    simp only [Writer.squareCorners] at hq
    split_ifs at hq
    · simp at hq
    · rw [List.mem_append] at hq
      rcases hq with hq | hq
      · simp only [List.mem_map] at hq
        obtain ⟨j, _, rfl⟩ := hq
        have h0 := MarchingSquares.coordAt_le (faces (i + j)) 0
        have h1 := MarchingSquares.coordAt_le (faces (i + j)) 1
        refine ⟨?_, ?_, ?_⟩ <;> simp only <;> omega
      · exact ih q hq

theorem Writer.marchingSquaresCorners_bound (M : Arr2) :
    ∀ q ∈ Writer.marchingSquaresCorners M,
      q.1 < 2 * M.n1 - 1 ∧ q.2.1 < 2 * M.n0 - 1 ∧ q.2.2 < 1 := by
  have key : ∀ (xs ys : List Nat), (∀ x ∈ xs, x + 2 ≤ M.n1) → (∀ y ∈ ys, y + 2 ≤ M.n0) →
      ∀ cs0 : List RCoord,
      (∀ q ∈ cs0, q.1 < 2 * M.n1 - 1 ∧ q.2.1 < 2 * M.n0 - 1 ∧ q.2.2 < 1) →
      ∀ q ∈ xs.foldl
        (fun cs x =>
          ys.foldl
            (fun cs y =>
              cs ++ Writer.squareCorners (MarchingSquares.lookupAt (Writer.squareCases M x y))
                x y [0, 3, 6])
            cs)
        cs0, q.1 < 2 * M.n1 - 1 ∧ q.2.1 < 2 * M.n0 - 1 ∧ q.2.2 < 1 := by
    intro xs
    induction xs with
    | nil => intro ys _ _ cs0 h0; simpa using h0
    | cons x xs ihx =>
      intro ys hxs hys cs0 h0
      simp only [List.foldl_cons]
      apply ihx ys (fun x2 hx2 => hxs x2 (List.mem_cons_of_mem _ hx2)) hys
      have hx : x + 2 ≤ M.n1 := hxs x (List.mem_cons_self _ _)
      clear ihx
      revert cs0
      induction ys with
      | nil => intro cs0 h0; simpa using h0
      | cons y ys ihy =>
        intro cs0 h0
        simp only [List.foldl_cons]
        apply ihy (fun y2 hy2 => hys y2 (List.mem_cons_of_mem _ hy2))
        intro q hq
        rw [List.mem_append] at hq
        rcases hq with hq | hq
        · exact h0 q hq
        · exact Writer.squareCorners_bound _ x y M.n1 M.n0 hx
            (hys y (List.mem_cons_self _ _)) _ q hq
  apply key
  · intro x hx
    rw [List.mem_range] at hx
    omega
  · intro y hy
    rw [List.mem_range] at hy
    omega
  · intro q hq; simp at hq

theorem Writer.cubeCorners_bound (tbl : CubeTable) (htbl : ∀ p c, tbl.coords p c ≤ 2)
    (faces : Nat → Int) (x y z W H D : Nat) (hx : x + 2 ≤ W) (hy : y + 2 ≤ H)
    (hz : z + 2 ≤ D) (l : List Nat) :
    ∀ q ∈ Writer.cubeCorners tbl faces x y z l,
      q.1 < 2 * W - 1 ∧ q.2.1 < 2 * H - 1 ∧ q.2.2 < 2 * D - 1 := by
  induction l with
  | nil => intro q hq; simp [Writer.cubeCorners] at hq
  | cons i rest ih =>
    intro q hq
    simp only [Writer.cubeCorners] at hq
    split_ifs at hq
    · simp at hq
    · rw [List.mem_append] at hq
      rcases hq with hq | hq
      · simp only [List.mem_map] at hq
        obtain ⟨j, _, rfl⟩ := hq
        have h0 := htbl (faces (i + j)) 0
        have h1 := htbl (faces (i + j)) 1
        have h2 := htbl (faces (i + j)) 2
        refine ⟨?_, ?_, ?_⟩ <;> simp only <;> omega
      · exact ih q hq

theorem Writer.marchingCubesCorners_bound (tbl : CubeTable) (htbl : ∀ p c, tbl.coords p c ≤ 2)
    (M : Arr3) :
    ∀ q ∈ Writer.marchingCubesCorners tbl M,
      q.1 < 2 * M.n2 - 1 ∧ q.2.1 < 2 * M.n1 - 1 ∧ q.2.2 < 2 * M.n0 - 1 := by
  have inner : ∀ (x y : Nat), x + 2 ≤ M.n2 → y + 2 ≤ M.n1 → ∀ zs : List Nat,
      (∀ z ∈ zs, z + 2 ≤ M.n0) → ∀ cs0 : List RCoord,
      (∀ q ∈ cs0, q.1 < 2 * M.n2 - 1 ∧ q.2.1 < 2 * M.n1 - 1 ∧ q.2.2 < 2 * M.n0 - 1) →
      ∀ q ∈ zs.foldl
        (fun cs z =>
          cs ++ Writer.cubeCorners tbl (tbl.lookup (Writer.cubeCases M x y z)) x y z
            [0, 3, 6, 9, 12])
        cs0, q.1 < 2 * M.n2 - 1 ∧ q.2.1 < 2 * M.n1 - 1 ∧ q.2.2 < 2 * M.n0 - 1 := by
    intro x y hx hy zs
    induction zs with
    | nil => intro _ cs0 h0; simpa using h0
    | cons z zs ih =>
      intro hzs cs0 h0
      simp only [List.foldl_cons]
      apply ih (fun z2 hz2 => hzs z2 (List.mem_cons_of_mem _ hz2))
      intro q hq
      rw [List.mem_append] at hq
      rcases hq with hq | hq
      · exact h0 q hq
      · exact Writer.cubeCorners_bound tbl htbl _ x y z M.n2 M.n1 M.n0 hx hy
          (hzs z (List.mem_cons_self _ _)) _ q hq
  have middle : ∀ (x : Nat), x + 2 ≤ M.n2 → ∀ ys : List Nat, (∀ y ∈ ys, y + 2 ≤ M.n1) →
      ∀ cs0 : List RCoord,
      (∀ q ∈ cs0, q.1 < 2 * M.n2 - 1 ∧ q.2.1 < 2 * M.n1 - 1 ∧ q.2.2 < 2 * M.n0 - 1) →
      ∀ q ∈ ys.foldl
        (fun cs y =>
          (List.range (M.n0 - 1)).foldl
            (fun cs z =>
              cs ++ Writer.cubeCorners tbl (tbl.lookup (Writer.cubeCases M x y z)) x y z
                [0, 3, 6, 9, 12])
            cs)
        cs0, q.1 < 2 * M.n2 - 1 ∧ q.2.1 < 2 * M.n1 - 1 ∧ q.2.2 < 2 * M.n0 - 1 := by
    intro x hx ys
    induction ys with
    | nil => intro _ cs0 h0; simpa using h0
    | cons y ys ih =>
      intro hys cs0 h0
      simp only [List.foldl_cons]
      apply ih (fun y2 hy2 => hys y2 (List.mem_cons_of_mem _ hy2))
      apply inner x y hx (hys y (List.mem_cons_self _ _)) _ _ cs0 h0
      intro z hz
      rw [List.mem_range] at hz
      omega
  have outer : ∀ xs : List Nat, (∀ x ∈ xs, x + 2 ≤ M.n2) → ∀ cs0 : List RCoord,
      (∀ q ∈ cs0, q.1 < 2 * M.n2 - 1 ∧ q.2.1 < 2 * M.n1 - 1 ∧ q.2.2 < 2 * M.n0 - 1) →
      ∀ q ∈ xs.foldl
        (fun cs x =>
          (List.range (M.n1 - 1)).foldl
            (fun cs y =>
              (List.range (M.n0 - 1)).foldl
                (fun cs z =>
                  cs ++ Writer.cubeCorners tbl (tbl.lookup (Writer.cubeCases M x y z)) x y z
                    [0, 3, 6, 9, 12])
                cs)
            cs)
        cs0, q.1 < 2 * M.n2 - 1 ∧ q.2.1 < 2 * M.n1 - 1 ∧ q.2.2 < 2 * M.n0 - 1 := by
    intro xs
    induction xs with
    | nil => intro _ cs0 h0; simpa using h0
    | cons x xs ih =>
      intro hxs cs0 h0
      simp only [List.foldl_cons]
      apply ih (fun x2 hx2 => hxs x2 (List.mem_cons_of_mem _ hx2))
      apply middle x (hxs x (List.mem_cons_self _ _)) _ _ cs0 h0
      intro y hy
      rw [List.mem_range] at hy
      omega
  apply outer
  · intro x hx
    rw [List.mem_range] at hx
    omega
  · intro q hq; simp at hq

end HullComputation
namespace HullComputation

/-! ## Weld uniqueness and weld sharing -/

/-- What `normalizeNormals` followed by `scaleCoords` leaves of the counts, the face list and
the stored positions. -/
theorem Writer.finish_spec (sqrtf : ℚ → ℚ) (w : Writer) (W H D : Nat) :
    ((w.normalizeNormals sqrtf).scaleCoords W H D).vertexCount = w.vertexCount ∧
    ((w.normalizeNormals sqrtf).scaleCoords W H D).mesh = w.mesh ∧
    ((w.normalizeNormals sqrtf).scaleCoords W H D).faceCount = w.faceCount ∧
    ∀ v, 1 ≤ v → v ≤ w.vertexCount →
      ((w.normalizeNormals sqrtf).scaleCoords W H D).position v =
        (w.coords (3 * v - 3) / ((W * 2 : Nat) : ℚ), w.coords (3 * v - 2) / ((H * 2 : Nat) : ℚ),
          w.coords (3 * v - 1) / ((D * 2 : Nat) : ℚ)) := by
  obtain ⟨n1, n2, n3, n4⟩ := Writer.normalizeNormals_frame sqrtf w
  obtain ⟨s1, s2, s3, s4⟩ := Writer.scaleCoords_spec (w.normalizeNormals sqrtf) W H D
  refine ⟨s1.trans n1, s2.trans n3, s3.trans n4, ?_⟩
  intro v h1 h2
  simp only [Writer.position, s4, n1, n2, Writer.scaleOf]
  have a1 : 3 * v - 3 < 3 * w.vertexCount := by omega
  have a2 : 3 * v - 2 < 3 * w.vertexCount := by omega
  have a3 : 3 * v - 1 < 3 * w.vertexCount := by omega
  have m1 : (3 * v - 3) % 3 = 0 := by omega
  have m2 : (3 * v - 2) % 3 = 1 := by omega
  have m3 : (3 * v - 1) % 3 = 2 := by omega
  simp [a1, a2, a3, m1, m2, m3]

theorem cast_div_inj (a b n : Nat) (hn : 1 ≤ n)
    (h : (a : ℚ) / ((n * 2 : Nat) : ℚ) = (b : ℚ) / ((n * 2 : Nat) : ℚ)) : a = b := by
  have hne : ((n * 2 : Nat) : ℚ) ≠ 0 := by
    have : n * 2 ≠ 0 := by omega
    exact_mod_cast this
  have h2 : (a : ℚ) = (b : ℚ) := by
    have h3 := congrArg (fun q : ℚ => q * ((n * 2 : Nat) : ℚ)) h
    simp only [div_mul_cancel₀ _ hne] at h3
    exact h3
  exact_mod_cast h2

/-- Distinct ids have distinct stored positions once the invariant holds before scaling. -/
theorem Writer.positions_distinct (dim3 : Bool) (sqrtf : ℚ → ℚ) (w : Writer) (vmap : VMap)
    (W H D : Nat) (hw : Writer.Welded dim3 w vmap) (hW : 1 ≤ W) (hH : 1 ≤ H) (hD : 1 ≤ D)
    (v1 v2 : Nat) (h1 : 1 ≤ v1) (h1b : v1 ≤ w.vertexCount) (h2 : 1 ≤ v2)
    (h2b : v2 ≤ w.vertexCount)
    (hp : ((w.normalizeNormals sqrtf).scaleCoords W H D).position v1
      = ((w.normalizeNormals sqrtf).scaleCoords W H D).position v2) : v1 = v2 := by
  obtain ⟨_, _, _, hpos⟩ := Writer.finish_spec sqrtf w W H D
  rw [hpos v1 h1 h1b, hpos v2 h2 h2b] at hp
  simp only [Prod.mk.injEq] at hp
  obtain ⟨px, py, pz⟩ := hp
  obtain ⟨a1, b1, c1, e1, x1, y1, z1⟩ := hw.2.2.2 v1 h1 h1b
  obtain ⟨a2, b2, c2, e2, x2, y2, z2⟩ := hw.2.2.2 v2 h2 h2b
  rw [x1, x2] at px
  rw [y1, y2] at py
  have ha := cast_div_inj a1 a2 W hW px
  have hb := cast_div_inj b1 b2 H hH py
  have hc : c1 = c2 := by
    cases dim3
    · simp only [Bool.false_eq_true, if_false] at z1 z2
      rw [z1, z2]
    · simp only [if_true] at z1 z2
      rw [z1, z2] at pz
      exact cast_div_inj c1 c2 D hD pz
  rw [← e1, ← e2, ha, hb, hc]

/-- C9: after `marchingSquares` or `marchingCubes` (called, as `extract` does, with the counts
reset, on a writer whose capacities are at least 3, as the constructor's 300 are), for any
case table whose point offsets lie in 0..2: no two distinct vertex ids in `1..vertexCount`
have the same stored position; before scaling every id is the weld-map entry of the refined
coordinate recorded for it; and every weld-map access is inside the map. -/
theorem C9_weld_uniqueness (tbl : CubeTable) (htbl : ∀ p c, tbl.coords p c ≤ 2)
    (sqrtf : ℚ → ℚ) (w : Writer) (hv : 3 ≤ w.vertexSize) (hm : 3 ≤ w.meshSize)
    (isColored : Bool) :
    (∀ M : Arr2,
      (∀ v1 v2, 1 ≤ v1 → v1 ≤ (Writer.marchingSquares sqrtf w.resetCounts M isColored).vertexCount →
        1 ≤ v2 → v2 ≤ (Writer.marchingSquares sqrtf w.resetCounts M isColored).vertexCount →
        (Writer.marchingSquares sqrtf w.resetCounts M isColored).position v1
          = (Writer.marchingSquares sqrtf w.resetCounts M isColored).position v2 → v1 = v2) ∧
      Writer.Welded false (Writer.marchingSquaresCore w.resetCounts M isColored).1
        (Writer.marchingSquaresCore w.resetCounts M isColored).2 ∧
      ∀ q ∈ Writer.marchingSquaresCorners M,
        q.1 < 2 * M.n1 - 1 ∧ q.2.1 < 2 * M.n0 - 1 ∧ q.2.2 < 1) ∧
    (∀ M : Arr3,
      (∀ v1 v2, 1 ≤ v1 →
        v1 ≤ (Writer.marchingCubes tbl sqrtf w.resetCounts M isColored).vertexCount →
        1 ≤ v2 → v2 ≤ (Writer.marchingCubes tbl sqrtf w.resetCounts M isColored).vertexCount →
        (Writer.marchingCubes tbl sqrtf w.resetCounts M isColored).position v1
          = (Writer.marchingCubes tbl sqrtf w.resetCounts M isColored).position v2 → v1 = v2) ∧
      Writer.Welded true (Writer.marchingCubesCore tbl sqrtf w.resetCounts M isColored).1
        (Writer.marchingCubesCore tbl sqrtf w.resetCounts M isColored).2 ∧
      ∀ q ∈ Writer.marchingCubesCorners tbl M,
        q.1 < 2 * M.n2 - 1 ∧ q.2.1 < 2 * M.n1 - 1 ∧ q.2.2 < 2 * M.n0 - 1) := by
  constructor
  · intro M
    have hE := Writer.marchingSquaresCore_extracting w M isColored hv hm
    refine ⟨?_, hE.1, Writer.marchingSquaresCorners_bound M⟩
    intro v1 v2 h1 h1b h2 h2b hp
    have hvc : (Writer.marchingSquares sqrtf w.resetCounts M isColored).vertexCount
        = (Writer.marchingSquaresCore w.resetCounts M isColored).1.vertexCount :=
      (Writer.finish_spec sqrtf _ M.n1 M.n0 1).1
    rw [hvc] at h1b h2b
    obtain ⟨d1, d0⟩ := Writer.marchingSquaresCore_dims w M isColored (by omega)
    exact Writer.positions_distinct false sqrtf _ _ M.n1 M.n0 1 hE.1 (by omega) (by omega)
      (le_refl 1) v1 v2 h1 h1b h2 h2b hp
  · intro M
    have hE := Writer.marchingCubesCore_extracting tbl sqrtf w M isColored hv hm
    refine ⟨?_, hE.1, Writer.marchingCubesCorners_bound tbl htbl M⟩
    intro v1 v2 h1 h1b h2 h2b hp
    have hvc : (Writer.marchingCubes tbl sqrtf w.resetCounts M isColored).vertexCount
        = (Writer.marchingCubesCore tbl sqrtf w.resetCounts M isColored).1.vertexCount :=
      (Writer.finish_spec sqrtf _ M.n2 M.n1 M.n0).1
    rw [hvc] at h1b h2b
    obtain ⟨d2, d1, d0⟩ := Writer.marchingCubesCore_dims tbl sqrtf w M isColored (by omega)
    exact Writer.positions_distinct true sqrtf _ _ M.n2 M.n1 M.n0 hE.1 (by omega) (by omega)
      (by omega) v1 v2 h1 h1b h2 h2b hp

/-- C10: in the face list produced by one extraction (2D or 3D, counts reset, capacities at
least 3), the `k`-th corner written is the id stored in the weld map for the refined
coordinate of the `k`-th emitted corner, the face list holds exactly the emitted corners, and
so any two corners at the same refined coordinate, in the same cell or not, carry the same
vertex id. -/
theorem C10_weld_sharing (tbl : CubeTable) (sqrtf : ℚ → ℚ) (w : Writer)
    (hv : 3 ≤ w.vertexSize) (hm : 3 ≤ w.meshSize) (isColored : Bool) :
    (∀ M : Arr2,
      (Writer.marchingSquaresCorners M).length
        = 3 * (Writer.marchingSquares sqrtf w.resetCounts M isColored).faceCount ∧
      (∀ k, k < (Writer.marchingSquaresCorners M).length →
        (Writer.marchingSquares sqrtf w.resetCounts M isColored).mesh k
          = (Writer.marchingSquaresCore w.resetCounts M isColored).2
              ((Writer.marchingSquaresCorners M).getD k (0, 0, 0)).1
              ((Writer.marchingSquaresCorners M).getD k (0, 0, 0)).2.1
              ((Writer.marchingSquaresCorners M).getD k (0, 0, 0)).2.2 ∧
        (Writer.marchingSquares sqrtf w.resetCounts M isColored).mesh k ≠ 0) ∧
      ∀ k1 k2, k1 < (Writer.marchingSquaresCorners M).length →
        k2 < (Writer.marchingSquaresCorners M).length →
        (Writer.marchingSquaresCorners M).getD k1 (0, 0, 0)
          = (Writer.marchingSquaresCorners M).getD k2 (0, 0, 0) →
        (Writer.marchingSquares sqrtf w.resetCounts M isColored).mesh k1
          = (Writer.marchingSquares sqrtf w.resetCounts M isColored).mesh k2) ∧
    (∀ M : Arr3,
      (Writer.marchingCubesCorners tbl M).length
        = 3 * (Writer.marchingCubes tbl sqrtf w.resetCounts M isColored).faceCount ∧
      (∀ k, k < (Writer.marchingCubesCorners tbl M).length →
        (Writer.marchingCubes tbl sqrtf w.resetCounts M isColored).mesh k
          = (Writer.marchingCubesCore tbl sqrtf w.resetCounts M isColored).2
              ((Writer.marchingCubesCorners tbl M).getD k (0, 0, 0)).1
              ((Writer.marchingCubesCorners tbl M).getD k (0, 0, 0)).2.1
              ((Writer.marchingCubesCorners tbl M).getD k (0, 0, 0)).2.2 ∧
        (Writer.marchingCubes tbl sqrtf w.resetCounts M isColored).mesh k ≠ 0) ∧
      ∀ k1 k2, k1 < (Writer.marchingCubesCorners tbl M).length →
        k2 < (Writer.marchingCubesCorners tbl M).length →
        (Writer.marchingCubesCorners tbl M).getD k1 (0, 0, 0)
          = (Writer.marchingCubesCorners tbl M).getD k2 (0, 0, 0) →
        (Writer.marchingCubes tbl sqrtf w.resetCounts M isColored).mesh k1
          = (Writer.marchingCubes tbl sqrtf w.resetCounts M isColored).mesh k2) := by
  constructor
  · intro M
    obtain ⟨_, ⟨_, _, hmesh⟩, hlen⟩ := Writer.marchingSquaresCore_extracting w M isColored hv hm
    obtain ⟨_, fm, ff, _⟩ := Writer.finish_spec sqrtf
      (Writer.marchingSquaresCore w.resetCounts M isColored).1 M.n1 M.n0 1
    have em : (Writer.marchingSquares sqrtf w.resetCounts M isColored).mesh
        = (Writer.marchingSquaresCore w.resetCounts M isColored).1.mesh := fm
    have ef : (Writer.marchingSquares sqrtf w.resetCounts M isColored).faceCount
        = (Writer.marchingSquaresCore w.resetCounts M isColored).1.faceCount := ff
    rw [em, ef]
    refine ⟨hlen, hmesh, ?_⟩
    intro k1 k2 hk1 hk2 he
    rw [(hmesh k1 hk1).1, (hmesh k2 hk2).1, he]
  · intro M
    obtain ⟨_, ⟨_, _, hmesh⟩, hlen⟩ :=
      Writer.marchingCubesCore_extracting tbl sqrtf w M isColored hv hm
    obtain ⟨_, fm, ff, _⟩ := Writer.finish_spec sqrtf
      (Writer.marchingCubesCore tbl sqrtf w.resetCounts M isColored).1 M.n2 M.n1 M.n0
    have em : (Writer.marchingCubes tbl sqrtf w.resetCounts M isColored).mesh
        = (Writer.marchingCubesCore tbl sqrtf w.resetCounts M isColored).1.mesh := fm
    have ef : (Writer.marchingCubes tbl sqrtf w.resetCounts M isColored).faceCount
        = (Writer.marchingCubesCore tbl sqrtf w.resetCounts M isColored).1.faceCount := ff
    rw [em, ef]
    refine ⟨hlen, hmesh, ?_⟩
    intro k1 k2 hk1 hk2 he
    rw [(hmesh k1 hk1).1, (hmesh k2 hk2).1, he]

end HullComputation

namespace HullComputation

/-- C9 (witness): a freshly constructed writer, on the 3×3 field of `debugWriter` and on a
zero 2×2×2 field. -/
theorem C9_weld_uniqueness_witness :
    Writer.Welded false (Writer.marchingSquaresCore Writer.init.resetCounts debugField true).1
        (Writer.marchingSquaresCore Writer.init.resetCounts debugField true).2 ∧
    Writer.Welded true
        (Writer.marchingCubesCore emptyCubeTable (fun q => q) Writer.init.resetCounts zeroCube
          true).1
        (Writer.marchingCubesCore emptyCubeTable (fun q => q) Writer.init.resetCounts zeroCube
          true).2 :=
  ⟨((C9_weld_uniqueness emptyCubeTable (fun _ _ => Nat.zero_le 2) (fun q => q) Writer.init
      (by decide) (by decide) true).1 debugField).2.1,
   ((C9_weld_uniqueness emptyCubeTable (fun _ _ => Nat.zero_le 2) (fun q => q) Writer.init
      (by decide) (by decide) true).2 zeroCube).2.1⟩

/-- C10 (witness): a freshly constructed writer, on the 3×3 field of `debugWriter` and on a
zero 2×2×2 field. -/
theorem C10_weld_sharing_witness :
    (Writer.marchingSquaresCorners debugField).length
      = 3 * (Writer.marchingSquares (fun q => q) Writer.init.resetCounts debugField
          true).faceCount ∧
    (Writer.marchingCubesCorners emptyCubeTable zeroCube).length
      = 3 * (Writer.marchingCubes emptyCubeTable (fun q => q) Writer.init.resetCounts zeroCube
          true).faceCount :=
  ⟨((C10_weld_sharing emptyCubeTable (fun q => q) Writer.init (by decide) (by decide) true).1
      debugField).1,
   ((C10_weld_sharing emptyCubeTable (fun q => q) Writer.init (by decide) (by decide) true).2
      zeroCube).1⟩

end HullComputation
namespace HullComputation

/-! ## Growth of the buffers -/

/-- C12 (growth preserves content): `resizeVertexes` and `resizeMesh` double the capacity
exactly, leave the elements below the old capacity unchanged, set every element from the old
capacity up to the new one to 0, and change neither `vertexCount` nor `faceCount`. -/
theorem C12_growth_preserves_content (w : Writer) :
    (w.resizeVertexes.vertexSize = 2 * w.vertexSize ∧
      w.resizeVertexes.vertexCount = w.vertexCount ∧
      w.resizeVertexes.faceCount = w.faceCount ∧
      (∀ k, k < w.vertexSize →
        w.resizeVertexes.coords k = w.coords k ∧ w.resizeVertexes.normals k = w.normals k ∧
          w.resizeVertexes.colors k = w.colors k) ∧
      (∀ k, w.vertexSize ≤ k → k < 2 * w.vertexSize →
        w.resizeVertexes.coords k = 0 ∧ w.resizeVertexes.normals k = 0 ∧
          w.resizeVertexes.colors k = 0)) ∧
    (w.resizeMesh.meshSize = 2 * w.meshSize ∧
      w.resizeMesh.vertexCount = w.vertexCount ∧
      w.resizeMesh.faceCount = w.faceCount ∧
      (∀ k, k < w.meshSize → w.resizeMesh.mesh k = w.mesh k) ∧
      (∀ k, w.meshSize ≤ k → k < 2 * w.meshSize → w.resizeMesh.mesh k = 0)) := by
  obtain ⟨v1, v2, v3, _, _, v6, v7⟩ := Writer.resizeVertexes_spec w
  obtain ⟨m1, m2, m3, _, _, _, _, m8, m9⟩ := Writer.resizeMesh_spec w
  exact ⟨⟨v1, v2, v3, v6, v7⟩, ⟨m1, m2, m3, m8, m9⟩⟩

/-! ## The marching-squares table -/

theorem Writer.growMesh_frame (w : Writer) :
    w.growMesh.vertexCount = w.vertexCount ∧ w.growMesh.vertexSize = w.vertexSize ∧
    w.growMesh.coords = w.coords ∧ w.growMesh.normals = w.normals ∧
    w.growMesh.colors = w.colors ∧ w.growMesh.faceCount = w.faceCount ∧
    w.growMesh.meshSize = (if w.faceCount * 3 > w.meshSize then w.meshSize * 2 else w.meshSize)
    ∧ ∀ k, k < w.meshSize → w.growMesh.mesh k = w.mesh k := by
  simp only [Writer.growMesh]
  obtain ⟨r1, r2, r3, r4, r5, r6, r7, r8, _⟩ := Writer.resizeMesh_spec w
  split_ifs
  · exact ⟨r2, r4, r5, r6, r7, r3, by rw [r1]; omega, r8⟩
  · exact ⟨rfl, rfl, rfl, rfl, rfl, rfl, rfl, fun _ _ => rfl⟩

theorem Writer.squareTriangle_faceCount (vals : Nat → Nat → ℚ) (isColored : Bool)
    (faces : Nat → Int) (x y i : Nat) (s : Writer × VMap) :
    (Writer.squareTriangle vals isColored faces x y i s).1.faceCount = s.1.faceCount + 1 := by
  simp only [Writer.squareTriangle, List.range_succ, List.range_zero, List.nil_append,
    List.cons_append, List.foldl_cons, List.foldl_nil]
  rw [(Writer.squareCorner_effect _ _ _ _ _ _).1, (Writer.squareCorner_effect _ _ _ _ _ _).1,
    (Writer.squareCorner_effect _ _ _ _ _ _).1]
  exact (Writer.growMesh_frame _).2.2.2.2.2.1

/-- A cell of case code 0 leaves the extraction state as it is. -/
theorem Writer.squareCase_empty (cases : Nat → Nat → Nat) (vals : Nat → Nat → ℚ) (x y : Nat)
    (isColored : Bool) (st : Writer × VMap) (h : cases x y = 0) :
    Writer.squareCase cases vals x y isColored st = st := by
  have h0 : MarchingSquares.lookupAt 0 0 = -1 := by decide
  simp [Writer.squareCase, Writer.squareLoop, h, h0]

/-- A cell of case code 15 appends two triangles. -/
theorem Writer.squareCase_full (cases : Nat → Nat → Nat) (vals : Nat → Nat → ℚ) (x y : Nat)
    (isColored : Bool) (st : Writer × VMap) (h : cases x y = 15) :
    (Writer.squareCase cases vals x y isColored st).1.faceCount = st.1.faceCount + 2 := by
  have h0 : MarchingSquares.lookupAt 15 0 ≠ -1 := by decide
  have h3 : MarchingSquares.lookupAt 15 3 ≠ -1 := by decide
  have h6 : MarchingSquares.lookupAt 15 6 = -1 := by decide
  simp only [Writer.squareCase, Writer.squareLoop, h, if_neg h0, if_neg h3, if_pos h6]
  rw [Writer.squareTriangle_faceCount, Writer.squareTriangle_faceCount]

/-- C15 (counterexample): on the 2×2 field whose four samples are all above `EPSILON` the only
cell has case code 15, and `squareCase` appends two triangles for it. -/
theorem C15_full_cell_counterexample :
    Writer.squareCases fullSquare 0 0 = 15 ∧
    (Writer.squareCase (Writer.squareCases fullSquare)
        (fun x y => Writer.squareRefined fullSquare y x) 0 0 true
        (Writer.init.resetCounts, Writer.createVertexMap)).1.faceCount = 2 := by
  have hc : Writer.squareCases fullSquare 0 0 = 15 := by
    simp [Writer.squareCases, aboveEpsilon, fullSquare, EPSILON]
    norm_num
  refine ⟨hc, ?_⟩
  rw [Writer.squareCase_full _ _ _ _ _ _ hc]
  rfl

/-- C15 (amended): the fully-outside case (code 0) yields no triangle and leaves the
extraction state unchanged; the fully-inside case (code 15) yields the two triangles
(0, 2, 4) and (0, 4, 6), whose corners are the four corners of the cell. -/
theorem C15_table_end_cases (cases : Nat → Nat → Nat) (vals : Nat → Nat → ℚ) (x y : Nat)
    (isColored : Bool) (st : Writer × VMap) :
    (cases x y = 0 → Writer.squareCase cases vals x y isColored st = st) ∧
    (cases x y = 15 →
      (Writer.squareCase cases vals x y isColored st).1.faceCount = st.1.faceCount + 2) ∧
    Writer.squareCorners (MarchingSquares.lookupAt 0) x y [0, 3, 6] = [] ∧
    Writer.squareCorners (MarchingSquares.lookupAt 15) x y [0, 3, 6]
      = [(2 + 2 * x, 0 + 2 * y, 0), (2 + 2 * x, 2 + 2 * y, 0), (0 + 2 * x, 2 + 2 * y, 0),
         (2 + 2 * x, 0 + 2 * y, 0), (0 + 2 * x, 2 + 2 * y, 0), (0 + 2 * x, 0 + 2 * y, 0)] := by
  refine ⟨Writer.squareCase_empty cases vals x y isColored st,
    Writer.squareCase_full cases vals x y isColored st, ?_, ?_⟩
  · have h0 : MarchingSquares.lookupAt 0 0 = -1 := by decide
    simp [Writer.squareCorners, h0]
  · have h0 : MarchingSquares.lookupAt 15 0 = 0 := by decide
    have h1 : MarchingSquares.lookupAt 15 1 = 2 := by decide
    have h2 : MarchingSquares.lookupAt 15 2 = 4 := by decide
    have h3 : MarchingSquares.lookupAt 15 3 = 0 := by decide
    have h4 : MarchingSquares.lookupAt 15 4 = 4 := by decide
    have h5 : MarchingSquares.lookupAt 15 5 = 6 := by decide
    have h6 : MarchingSquares.lookupAt 15 6 = -1 := by decide
    have c00 : MarchingSquares.coordAt 0 0 = 2 := by decide
    have c01 : MarchingSquares.coordAt 0 1 = 0 := by decide
    have c20 : MarchingSquares.coordAt 2 0 = 2 := by decide
    have c21 : MarchingSquares.coordAt 2 1 = 2 := by decide
    have c40 : MarchingSquares.coordAt 4 0 = 0 := by decide
    have c41 : MarchingSquares.coordAt 4 1 = 2 := by decide
    have c60 : MarchingSquares.coordAt 6 0 = 0 := by decide
    have c61 : MarchingSquares.coordAt 6 1 = 0 := by decide
    simp [Writer.squareCorners, List.range_succ, h0, h1, h2, h3, h4, h5, h6, c00, c01, c20,
      c21, c40, c41, c60, c61]

/-- C16: every triangle of `MarchingSquares::lookup` (rows 0 to 15, triangles at offsets
0, 3 and 6 up to the first -1) has its three point indices in 0..7 and a strictly positive
doubled signed area over `MarchingSquares::coords`: it is non-degenerate and all triangles
have the same orientation. -/
theorem C16_table_orientation (code i : Nat) (hcode : code < 16) (hi : i < 3)
    (hface : MarchingSquares.lookupAt code (3 * i) ≠ -1) :
    (0 ≤ MarchingSquares.lookupAt code (3 * i) ∧ MarchingSquares.lookupAt code (3 * i) ≤ 7) ∧
    (0 ≤ MarchingSquares.lookupAt code (3 * i + 1) ∧
      MarchingSquares.lookupAt code (3 * i + 1) ≤ 7) ∧
    (0 ≤ MarchingSquares.lookupAt code (3 * i + 2) ∧
      MarchingSquares.lookupAt code (3 * i + 2) ≤ 7) ∧
    0 < MarchingSquares.area2 (MarchingSquares.lookupAt code (3 * i))
      (MarchingSquares.lookupAt code (3 * i + 1)) (MarchingSquares.lookupAt code (3 * i + 2)) := by
  have key : ∀ code, code < 16 → ∀ i, i < 3 → MarchingSquares.lookupAt code (3 * i) ≠ -1 →
      (0 ≤ MarchingSquares.lookupAt code (3 * i) ∧ MarchingSquares.lookupAt code (3 * i) ≤ 7) ∧
      (0 ≤ MarchingSquares.lookupAt code (3 * i + 1) ∧
        MarchingSquares.lookupAt code (3 * i + 1) ≤ 7) ∧
      (0 ≤ MarchingSquares.lookupAt code (3 * i + 2) ∧
        MarchingSquares.lookupAt code (3 * i + 2) ≤ 7) ∧
      0 < MarchingSquares.area2 (MarchingSquares.lookupAt code (3 * i))
        (MarchingSquares.lookupAt code (3 * i + 1))
        (MarchingSquares.lookupAt code (3 * i + 2)) := by
    decide
  exact key code hcode i hi hface

/-- C16 (witness): the second triangle (0, 4, 5) of case 7. -/
theorem C16_table_orientation_witness :
    MarchingSquares.lookupAt 7 (3 * 1) ≠ -1 ∧
    0 < MarchingSquares.area2 (MarchingSquares.lookupAt 7 (3 * 1))
      (MarchingSquares.lookupAt 7 (3 * 1 + 1)) (MarchingSquares.lookupAt 7 (3 * 1 + 2)) :=
  ⟨by decide, (C16_table_orientation 7 1 (by decide) (by decide) (by decide)).2.2.2⟩

/-! ## Extraction of a field without a sample above EPSILON -/

theorem foldl_fixed {α γ : Type} (f : α → γ → α) (l : List γ) (a : α)
    (h : ∀ x ∈ l, f a x = a) : l.foldl f a = a := by
  induction l with
  | nil => rfl
  | cons x l ih =>
    simp only [List.foldl_cons]
    rw [h x (List.mem_cons_self x l)]
    exact ih (fun y hy => h y (List.mem_cons_of_mem x hy))

theorem Writer.squareCases_zero (M : Arr2) (x y : Nat)
    (hM : ∀ a b, a < M.n0 → b < M.n1 → M.val a b ≤ EPSILON) (hx : x < M.n1 - 1)
    (hy : y < M.n0 - 1) : Writer.squareCases M x y = 0 := by
  have e1 := hM y x (by omega) (by omega)
  have e2 := hM (y + 1) x (by omega) (by omega)
  have e3 := hM y (x + 1) (by omega) (by omega)
  have e4 := hM (y + 1) (x + 1) (by omega) (by omega)
  simp [Writer.squareCases, aboveEpsilon, not_lt.mpr e1, not_lt.mpr e2, not_lt.mpr e3,
    not_lt.mpr e4]

/-- C13 (zero-field extraction): for a 2D field none of whose samples exceeds `EPSILON`, every
cell has case code 0, row 0 of the table holds no triangle, and `marchingSquares` emits
nothing: `vertexCount` and `faceCount` are 0 and the writer is as `extract` reset it. -/
theorem C13_zero_field_extraction (sqrtf : ℚ → ℚ) (w : Writer) (M : Arr2) (isColored : Bool)
    (hM : ∀ a b, a < M.n0 → b < M.n1 → M.val a b ≤ EPSILON) :
    (∀ x y, x < M.n1 - 1 → y < M.n0 - 1 → Writer.squareCases M x y = 0) ∧
    (∀ i, i < 9 → MarchingSquares.lookupAt 0 i = -1) ∧
    (Writer.marchingSquares sqrtf w.resetCounts M isColored).vertexCount = 0 ∧
    (Writer.marchingSquares sqrtf w.resetCounts M isColored).faceCount = 0 ∧
    Writer.marchingSquares sqrtf w.resetCounts M isColored = w.resetCounts := by
  have hcore : Writer.marchingSquaresCore w.resetCounts M isColored
      = (w.resetCounts, Writer.createVertexMap) := by
    simp only [Writer.marchingSquaresCore]
    apply foldl_fixed
    intro x hx
    apply foldl_fixed
    intro y hy
    exact Writer.squareCase_empty _ _ x y isColored _
      (Writer.squareCases_zero M x y hM (List.mem_range.mp hx) (List.mem_range.mp hy))
  have hres : Writer.marchingSquares sqrtf w.resetCounts M isColored = w.resetCounts := by
    simp only [Writer.marchingSquares, hcore]
    simp [Writer.normalizeNormals, Writer.scaleCoords, Writer.resetCounts]
  refine ⟨fun x y hx hy => Writer.squareCases_zero M x y hM hx hy, by decide, ?_, ?_, hres⟩
  · rw [hres]; rfl
  · rw [hres]; rfl

/-- C13 (witness): a freshly constructed writer on the zero 3×3 field. -/
theorem C13_zero_field_extraction_witness :
    (Writer.marchingSquares (fun q => q) Writer.init.resetCounts zeroSquare true).vertexCount = 0 ∧
    (Writer.marchingSquares (fun q => q) Writer.init.resetCounts zeroSquare true).faceCount = 0 :=
  ⟨(C13_zero_field_extraction (fun q => q) Writer.init zeroSquare true
      (by intro a b _ _; norm_num [zeroSquare, EPSILON])).2.2.1,
   (C13_zero_field_extraction (fun q => q) Writer.init zeroSquare true
      (by intro a b _ _; norm_num [zeroSquare, EPSILON])).2.2.2.1⟩

end HullComputation
namespace HullComputation

/-! ## The ledger of an extraction: which vertices exist, and their colours -/

theorem Writer.growVertexes_colors (w : Writer) (i : Nat) (hi : i < w.vertexSize) :
    w.growVertexes.colors i = w.colors i := by
  simp only [Writer.growVertexes]
  split_ifs
  · exact ((Writer.resizeVertexes_spec w).2.2.2.2.2.1 i hi).2.2
  · rfl

theorem Writer.setColor_color (w : Writer) (isColored : Bool) (v : Nat) (t : ℚ) (hv : 1 ≤ v) :
    (w.setColor isColored v t).color v = Writer.colorOf isColored t := by
  have h1 : ¬ (3 * v - 3 = 3 * v - 2) := by omega
  have h2 : ¬ (3 * v - 3 = 3 * v - 1) := by omega
  have h3 : ¬ (3 * v - 2 = 3 * v - 1) := by omega
  cases isColored <;>
    simp [Writer.setColor, Writer.color, Writer.colorOf, setAt, h1, h2, h3]

theorem Writer.setColor_colors (w : Writer) (isColored : Bool) (v : Nat) (t : ℚ) (i : Nat)
    (hi : i < 3 * v - 3) : (w.setColor isColored v t).colors i = w.colors i := by
  have h1 : ¬ (i = 3 * v - 3) := by omega
  have h2 : ¬ (i = 3 * v - 2) := by omega
  have h3 : ¬ (i = 3 * v - 1) := by omega
  cases isColored <;> simp [Writer.setColor, setAt, h1, h2, h3]

theorem Writer.squareCorner_colorEffect (vals : Nat → Nat → ℚ) (isColored : Bool) (a b j : Nat)
    (s : Writer × VMap) :
    Writer.ColorEffect isColored (vals a b) a b 0 s
      (Writer.squareCorner vals isColored a b j s) := by
  by_cases h : s.2 a b 0 = 0
  · refine ⟨fun hne => absurd h hne, fun _ => ?_⟩
    simp only [Writer.squareCorner, h, if_true]
    refine ⟨Writer.setColor_color _ isColored _ _ (by omega), ?_⟩
    intro hcap i hi
    show (Writer.setColor _ isColored (s.1.vertexCount + 1) (vals a b)).colors i = s.1.colors i
    rw [Writer.setColor_colors _ _ _ _ _ (by omega)]
    exact Writer.growVertexes_colors _ i (by show i < s.1.vertexSize; omega)
  · refine ⟨fun _ => ?_, fun h0 => absurd h0 h⟩
    simp only [Writer.squareCorner, h, if_false]

theorem Writer.cubeCorner_colorEffect (vals : Nat → Nat → Nat → ℚ) (isColored : Bool)
    (normal : ℚ × ℚ × ℚ) (a b c j : Nat) (s : Writer × VMap) :
    Writer.ColorEffect isColored (vals a b c) a b c s
      (Writer.cubeCorner vals isColored normal a b c j s) := by
  by_cases h : s.2 a b c = 0
  · refine ⟨fun hne => absurd h hne, fun _ => ?_⟩
    simp only [Writer.cubeCorner, h, if_true]
    refine ⟨Writer.setColor_color _ isColored _ _ (by omega), ?_⟩
    intro hcap i hi
    show (Writer.setColor _ isColored (s.1.vertexCount + 1) (vals a b c)).colors i
      = s.1.colors i
    rw [Writer.setColor_colors _ _ _ _ _ (by omega)]
    exact Writer.growVertexes_colors _ i (by show i < s.1.vertexSize; omega)
  · refine ⟨fun _ => ?_, fun h0 => absurd h0 h⟩
    simp only [Writer.cubeCorner, h, if_false]

/-- The ledger only reads the weld map and the colour buffer. -/
theorem Writer.Ledger.congr_colors {isColored : Bool} {vals : Nat → Nat → Nat → ℚ} {w w2 : Writer}
    {vmap : VMap} {cs : List RCoord} (h : Writer.Ledger isColored vals (w, vmap) cs)
    (e : w2.colors = w.colors) : Writer.Ledger isColored vals (w2, vmap) cs := by
  simp only [Writer.Ledger, Writer.color, e] at h ⊢
  exact h

/-- One corner keeps the ledger. -/
theorem Writer.MidTriangle.ledger_corner {dim3 isColored : Bool}
    {vals : Nat → Nat → Nat → ℚ} {a b c j : Nat} {s t : Writer × VMap} {cs : List RCoord}
    (hm : Writer.MidTriangle dim3 j s cs) (h : Writer.CornerEffect dim3 a b c j s t)
    (hcol : Writer.ColorEffect isColored (vals a b c) a b c s t)
    (hl : Writer.Ledger isColored vals s cs) :
    Writer.Ledger isColored vals t (cs ++ [(a, b, c)]) := by
  obtain ⟨⟨_, hcap, hle, _⟩, _, _, _⟩ := hm
  obtain ⟨hcov, hinj, hpaint⟩ := hl
  rcases h.2.2.2 with ⟨hne, hv, hvc, _, _⟩ | ⟨h0, hv, hvc, _, _, _, _, _⟩
  · have hc := hcol.1 hne
    refine ⟨?_, ?_, ?_⟩
    · intro a2 b2 c2 h2
      rw [hv] at h2
      exact List.mem_append_left _ (hcov a2 b2 c2 h2)
    · intro a1 b1 c1 a2 b2 c2 h1 h2
      rw [hv] at h1 h2
      exact hinj a1 b1 c1 a2 b2 c2 h1 h2
    · intro a2 b2 c2 h2
      rw [hv] at h2 ⊢
      have := hpaint a2 b2 c2 h2
      simp only [Writer.color, hc] at this ⊢
      exact this
  · obtain ⟨hnew, hkeep⟩ := hcol.2 h0
    have hset : ∀ a2 b2 c2, ¬ (a2 = a ∧ b2 = b ∧ c2 = c) → t.2 a2 b2 c2 = s.2 a2 b2 c2 := by
      intro a2 b2 c2 hc
      rw [hv]
      simp only [VMap.set, if_neg hc]
    have hself : t.2 a b c = s.1.vertexCount + 1 := by
      rw [hv]; simp [VMap.set]
    refine ⟨?_, ?_, ?_⟩
    · intro a2 b2 c2 h2
      by_cases hc : a2 = a ∧ b2 = b ∧ c2 = c
      · obtain ⟨rfl, rfl, rfl⟩ := hc
        simp
      · rw [hset a2 b2 c2 hc] at h2
        exact List.mem_append_left _ (hcov a2 b2 c2 h2)
    · intro a1 b1 c1 a2 b2 c2 h1 h2
      by_cases hc1 : a1 = a ∧ b1 = b ∧ c1 = c
      · obtain ⟨rfl, rfl, rfl⟩ := hc1
        by_cases hc2 : a2 = a1 ∧ b2 = b1 ∧ c2 = c1
        · obtain ⟨rfl, rfl, rfl⟩ := hc2
          rfl
        · rw [hself, hset a2 b2 c2 hc2] at h2
          have := hle a2 b2 c2
          omega
      · by_cases hc2 : a2 = a ∧ b2 = b ∧ c2 = c
        · obtain ⟨rfl, rfl, rfl⟩ := hc2
          rw [hself, hset a1 b1 c1 hc1] at h2
          have := hle a1 b1 c1
          omega
        · rw [hset a1 b1 c1 hc1] at h1 h2
          rw [hset a2 b2 c2 hc2] at h2
          exact hinj a1 b1 c1 a2 b2 c2 h1 h2
    · intro a2 b2 c2 h2
      by_cases hc : a2 = a ∧ b2 = b ∧ c2 = c
      · obtain ⟨rfl, rfl, rfl⟩ := hc
        rw [hself]
        exact hnew
      · rw [hset a2 b2 c2 hc] at h2 ⊢
        have hp := hpaint a2 b2 c2 h2
        have hb := hle a2 b2 c2
        have h1 : 1 ≤ s.2 a2 b2 c2 := Nat.one_le_iff_ne_zero.mpr h2
        simp only [Writer.color] at hp ⊢
        rw [hkeep hcap _ (by omega), hkeep hcap _ (by omega), hkeep hcap _ (by omega)]
        exact hp

theorem Writer.squareTriangle_ledger (vals : Nat → Nat → ℚ) (isColored : Bool)
    (faces : Nat → Int) (x y i : Nat) (s : Writer × VMap) (cs : List RCoord)
    (h : Writer.Extracting false s cs)
    (hl : Writer.Ledger isColored (fun a b _ => vals a b) s cs) :
    Writer.Ledger isColored (fun a b _ => vals a b)
      (Writer.squareTriangle vals isColored faces x y i s)
      (cs ++ (List.range 3).map
        (fun j => (MarchingSquares.coordAt (faces (i + j)) 0 + 2 * x,
          MarchingSquares.coordAt (faces (i + j)) 1 + 2 * y, 0))) := by
  have h0 := h.openTriangle
  have l0 : Writer.Ledger isColored (fun a b _ => vals a b)
      (Writer.growMesh { s.1 with faceCount := s.1.faceCount + 1 }, s.2) cs :=
    Writer.Ledger.congr_colors hl (Writer.growMesh_frame _).2.2.2.2.1
  have h1 := h0.corner (Writer.squareCorner_effect vals isColored
    (MarchingSquares.coordAt (faces (i + 0)) 0 + 2 * x)
    (MarchingSquares.coordAt (faces (i + 0)) 1 + 2 * y) 0 _) (fun _ => rfl)
  have l1 := h0.ledger_corner (Writer.squareCorner_effect vals isColored
    (MarchingSquares.coordAt (faces (i + 0)) 0 + 2 * x)
    (MarchingSquares.coordAt (faces (i + 0)) 1 + 2 * y) 0 _)
    (Writer.squareCorner_colorEffect vals isColored _ _ 0 _) l0
  have h2 := h1.corner (Writer.squareCorner_effect vals isColored
    (MarchingSquares.coordAt (faces (i + 1)) 0 + 2 * x)
    (MarchingSquares.coordAt (faces (i + 1)) 1 + 2 * y) 1 _) (fun _ => rfl)
  have l2 := h1.ledger_corner (Writer.squareCorner_effect vals isColored
    (MarchingSquares.coordAt (faces (i + 1)) 0 + 2 * x)
    (MarchingSquares.coordAt (faces (i + 1)) 1 + 2 * y) 1 _)
    (Writer.squareCorner_colorEffect vals isColored _ _ 1 _) l1
  have l3 := h2.ledger_corner (Writer.squareCorner_effect vals isColored
    (MarchingSquares.coordAt (faces (i + 2)) 0 + 2 * x)
    (MarchingSquares.coordAt (faces (i + 2)) 1 + 2 * y) 2 _)
    (Writer.squareCorner_colorEffect vals isColored _ _ 2 _) l2
  have hr : List.range 3 = [0, 1, 2] := rfl
  simp only [Writer.squareTriangle, hr, List.foldl_cons, List.foldl_nil, List.map_cons,
    List.map_nil]
  have hlist : ∀ q0 q1 q2 : RCoord, cs ++ [q0, q1, q2] = cs ++ [q0] ++ [q1] ++ [q2] := by
    intro q0 q1 q2; simp
  rw [hlist]
  exact l3

theorem Writer.squareLoop_ledger (vals : Nat → Nat → ℚ) (isColored : Bool)
    (faces : Nat → Int) (x y : Nat) (l : List Nat) :
    ∀ (s : Writer × VMap) (cs : List RCoord), Writer.Extracting false s cs →
      Writer.Ledger isColored (fun a b _ => vals a b) s cs →
      Writer.Ledger isColored (fun a b _ => vals a b)
        (Writer.squareLoop vals isColored faces x y l s)
        (cs ++ Writer.squareCorners faces x y l) := by
  induction l with
  | nil => intro s cs _ h; simpa [Writer.squareLoop, Writer.squareCorners] using h
  | cons i rest ih =>
    intro s cs he h
    simp only [Writer.squareLoop, Writer.squareCorners]
    split_ifs
    · simpa using h
    · rw [← List.append_assoc]
      exact ih _ _ (Writer.squareTriangle_extracting vals isColored faces x y i s cs he)
        (Writer.squareTriangle_ledger vals isColored faces x y i s cs he h)

theorem Writer.cubeTriangle_ledger (tbl : CubeTable) (sqrtf : ℚ → ℚ)
    (vals : Nat → Nat → Nat → ℚ) (isColored : Bool) (faces : Nat → Int) (x y z i : Nat)
    (s : Writer × VMap) (cs : List RCoord) (h : Writer.Extracting true s cs)
    (hl : Writer.Ledger isColored vals s cs) :
    Writer.Ledger isColored vals (Writer.cubeTriangle tbl sqrtf vals isColored faces x y z i s)
      (cs ++ (List.range 3).map
        (fun j => (tbl.coords (faces (i + j)) 0 + 2 * x, tbl.coords (faces (i + j)) 1 + 2 * y,
          tbl.coords (faces (i + j)) 2 + 2 * z))) := by
  obtain ⟨g1, g2, g3, g4, g5, g6⟩ := Writer.getNormal_frame tbl sqrtf
    (Writer.growMesh { s.1 with faceCount := s.1.faceCount + 1 })
    (faces i) (faces (i + 1)) (faces (i + 2))
  have h0 := h.openTriangle.congr g1 g2 g3 g4 g5 g6
  have l0 : Writer.Ledger isColored vals
      ((Writer.getNormal tbl sqrtf (Writer.growMesh { s.1 with faceCount := s.1.faceCount + 1 })
        (faces i) (faces (i + 1)) (faces (i + 2))).2, s.2) cs :=
    Writer.Ledger.congr_colors hl
      (show (Writer.getNormal tbl sqrtf
          (Writer.growMesh { s.1 with faceCount := s.1.faceCount + 1 })
          (faces i) (faces (i + 1)) (faces (i + 2))).2.colors = s.1.colors from
        (Writer.growMesh_frame { s.1 with faceCount := s.1.faceCount + 1 }).2.2.2.2.1)
  have h1 := h0.corner (Writer.cubeCorner_effect vals isColored
    (Writer.getNormal tbl sqrtf (Writer.growMesh { s.1 with faceCount := s.1.faceCount + 1 })
      (faces i) (faces (i + 1)) (faces (i + 2))).1
    (tbl.coords (faces (i + 0)) 0 + 2 * x) (tbl.coords (faces (i + 0)) 1 + 2 * y)
    (tbl.coords (faces (i + 0)) 2 + 2 * z) 0 _) (fun hf => absurd hf (by decide))
  have l1 := h0.ledger_corner (Writer.cubeCorner_effect vals isColored
    (Writer.getNormal tbl sqrtf (Writer.growMesh { s.1 with faceCount := s.1.faceCount + 1 })
      (faces i) (faces (i + 1)) (faces (i + 2))).1
    (tbl.coords (faces (i + 0)) 0 + 2 * x) (tbl.coords (faces (i + 0)) 1 + 2 * y)
    (tbl.coords (faces (i + 0)) 2 + 2 * z) 0 _)
    (Writer.cubeCorner_colorEffect vals isColored _ _ _ _ 0 _) l0
  have h2 := h1.corner (Writer.cubeCorner_effect vals isColored
    (Writer.getNormal tbl sqrtf (Writer.growMesh { s.1 with faceCount := s.1.faceCount + 1 })
      (faces i) (faces (i + 1)) (faces (i + 2))).1
    (tbl.coords (faces (i + 1)) 0 + 2 * x) (tbl.coords (faces (i + 1)) 1 + 2 * y)
    (tbl.coords (faces (i + 1)) 2 + 2 * z) 1 _) (fun hf => absurd hf (by decide))
  have l2 := h1.ledger_corner (Writer.cubeCorner_effect vals isColored
    (Writer.getNormal tbl sqrtf (Writer.growMesh { s.1 with faceCount := s.1.faceCount + 1 })
      (faces i) (faces (i + 1)) (faces (i + 2))).1
    (tbl.coords (faces (i + 1)) 0 + 2 * x) (tbl.coords (faces (i + 1)) 1 + 2 * y)
    (tbl.coords (faces (i + 1)) 2 + 2 * z) 1 _)
    (Writer.cubeCorner_colorEffect vals isColored _ _ _ _ 1 _) l1
  have l3 := h2.ledger_corner (Writer.cubeCorner_effect vals isColored
    (Writer.getNormal tbl sqrtf (Writer.growMesh { s.1 with faceCount := s.1.faceCount + 1 })
      (faces i) (faces (i + 1)) (faces (i + 2))).1
    (tbl.coords (faces (i + 2)) 0 + 2 * x) (tbl.coords (faces (i + 2)) 1 + 2 * y)
    (tbl.coords (faces (i + 2)) 2 + 2 * z) 2 _)
    (Writer.cubeCorner_colorEffect vals isColored _ _ _ _ 2 _) l2
  have hr : List.range 3 = [0, 1, 2] := rfl
  simp only [Writer.cubeTriangle, hr, List.foldl_cons, List.foldl_nil, List.map_cons,
    List.map_nil]
  have hlist : ∀ q0 q1 q2 : RCoord, cs ++ [q0, q1, q2] = cs ++ [q0] ++ [q1] ++ [q2] := by
    intro q0 q1 q2; simp
  rw [hlist]
  exact l3

theorem Writer.cubeLoop_ledger (tbl : CubeTable) (sqrtf : ℚ → ℚ)
    (vals : Nat → Nat → Nat → ℚ) (isColored : Bool) (faces : Nat → Int) (x y z : Nat)
    (l : List Nat) :
    ∀ (s : Writer × VMap) (cs : List RCoord), Writer.Extracting true s cs →
      Writer.Ledger isColored vals s cs →
      Writer.Ledger isColored vals (Writer.cubeLoop tbl sqrtf vals isColored faces x y z l s)
        (cs ++ Writer.cubeCorners tbl faces x y z l) := by
  induction l with
  | nil => intro s cs _ h; simpa [Writer.cubeLoop, Writer.cubeCorners] using h
  | cons i rest ih =>
    intro s cs he h
    simp only [Writer.cubeLoop, Writer.cubeCorners]
    split_ifs
    · simpa using h
    · rw [← List.append_assoc]
      exact ih _ _ (Writer.cubeTriangle_extracting tbl sqrtf vals isColored faces x y z i s cs he)
        (Writer.cubeTriangle_ledger tbl sqrtf vals isColored faces x y z i s cs he h)

theorem Writer.resetCounts_ledger (isColored : Bool) (vals : Nat → Nat → Nat → ℚ) (w : Writer) :
    Writer.Ledger isColored vals (w.resetCounts, Writer.createVertexMap) [] := by
  refine ⟨?_, ?_, ?_⟩
  · intro a b c h; exact absurd rfl h
  · intro a b c a2 b2 c2 h; exact absurd rfl h
  · intro a b c h; exact absurd rfl h

/-- After the marching loops of `marchingSquares` the invariants and the ledger hold for the
list of all emitted corners. -/
theorem Writer.marchingSquaresCore_ledger (w : Writer) (M : Arr2) (isColored : Bool)
    (hv : 3 ≤ w.vertexSize) (hm : 3 ≤ w.meshSize) :
    Writer.Extracting false (Writer.marchingSquaresCore w.resetCounts M isColored)
      (Writer.marchingSquaresCorners M) ∧
    Writer.Ledger isColored (fun a b _ => Writer.squareRefined M b a)
      (Writer.marchingSquaresCore w.resetCounts M isColored) (Writer.marchingSquaresCorners M) := by
  refine foldl_rel (fun s cs => Writer.Extracting false s cs ∧
      Writer.Ledger isColored (fun a b _ => Writer.squareRefined M b a) s cs) _ _ ?_ _ _ _
    ⟨Writer.resetCounts_extracting false w hv hm, Writer.resetCounts_ledger _ _ w⟩
  intro s cs x hs
  refine foldl_rel (fun s cs => Writer.Extracting false s cs ∧
      Writer.Ledger isColored (fun a b _ => Writer.squareRefined M b a) s cs) _ _ ?_ _ _ _ hs
  intro s2 cs2 y hs2
  exact ⟨Writer.squareLoop_extracting _ isColored _ x y [0, 3, 6] s2 cs2 hs2.1,
    Writer.squareLoop_ledger (fun x y => Writer.squareRefined M y x) isColored _ x y [0, 3, 6]
      s2 cs2 hs2.1 hs2.2⟩

/-- After the marching loops of `marchingCubes` the invariants and the ledger hold for the
list of all emitted corners. -/
theorem Writer.marchingCubesCore_ledger (tbl : CubeTable) (sqrtf : ℚ → ℚ) (w : Writer)
    (M : Arr3) (isColored : Bool) (hv : 3 ≤ w.vertexSize) (hm : 3 ≤ w.meshSize) :
    Writer.Extracting true (Writer.marchingCubesCore tbl sqrtf w.resetCounts M isColored)
      (Writer.marchingCubesCorners tbl M) ∧
    Writer.Ledger isColored (fun a b c => Writer.cubeRefined M c b a)
      (Writer.marchingCubesCore tbl sqrtf w.resetCounts M isColored)
      (Writer.marchingCubesCorners tbl M) := by
  refine foldl_rel (fun s cs => Writer.Extracting true s cs ∧
      Writer.Ledger isColored (fun a b c => Writer.cubeRefined M c b a) s cs) _ _ ?_ _ _ _
    ⟨Writer.resetCounts_extracting true w hv hm, Writer.resetCounts_ledger _ _ w⟩
  intro s cs x hs
  refine foldl_rel (fun s cs => Writer.Extracting true s cs ∧
      Writer.Ledger isColored (fun a b c => Writer.cubeRefined M c b a) s cs) _ _ ?_ _ _ _ hs
  intro s2 cs2 y hs2
  refine foldl_rel (fun s cs => Writer.Extracting true s cs ∧
      Writer.Ledger isColored (fun a b c => Writer.cubeRefined M c b a) s cs) _ _ ?_ _ _ _ hs2
  intro s3 cs3 z hs3
  exact ⟨Writer.cubeLoop_extracting tbl sqrtf _ isColored _ x y z [0, 3, 6, 9, 12] s3 cs3 hs3.1,
    Writer.cubeLoop_ledger tbl sqrtf _ isColored _ x y z [0, 3, 6, 9, 12] s3 cs3 hs3.1 hs3.2⟩

end HullComputation
namespace HullComputation

/-! ## Consequences of the invariants -/

/-- Normalising and scaling keep the capacities and the colours. -/
theorem Writer.finish_frame (sqrtf : ℚ → ℚ) (w : Writer) (W H D : Nat) :
    ((w.normalizeNormals sqrtf).scaleCoords W H D).vertexSize = w.vertexSize ∧
    ((w.normalizeNormals sqrtf).scaleCoords W H D).meshSize = w.meshSize ∧
    ((w.normalizeNormals sqrtf).scaleCoords W H D).colors = w.colors := by
  have hn : (w.normalizeNormals sqrtf).vertexSize = w.vertexSize ∧
      (w.normalizeNormals sqrtf).meshSize = w.meshSize ∧
      (w.normalizeNormals sqrtf).colors = w.colors := by
    refine foldl_inv (fun r : Writer => r.vertexSize = w.vertexSize ∧
      r.meshSize = w.meshSize ∧ r.colors = w.colors) _ ?_ _ _ ⟨rfl, rfl, rfl⟩
    intro r v hr
    exact hr
  have hs : ∀ u : Writer, (u.scaleCoords W H D).vertexSize = u.vertexSize ∧
      (u.scaleCoords W H D).meshSize = u.meshSize ∧
      (u.scaleCoords W H D).colors = u.colors := by
    intro u
    refine foldl_inv (fun r : Writer => r.vertexSize = u.vertexSize ∧
      r.meshSize = u.meshSize ∧ r.colors = u.colors) _ ?_ _ _ ⟨rfl, rfl, rfl⟩
    intro r v hr
    exact hr
  obtain ⟨s1, s2, s3⟩ := hs (w.normalizeNormals sqrtf)
  exact ⟨s1.trans hn.1, s2.trans hn.2.1, s3.trans hn.2.2⟩

/-- The weld map is non-zero at every emitted corner. -/
theorem Writer.FacesWelded.ne_zero {w : Writer} {vmap : VMap} {cs : List RCoord}
    (h : Writer.FacesWelded w vmap cs) (q : RCoord) (hq : q ∈ cs) :
    vmap q.1 q.2.1 q.2.2 ≠ 0 := by
  obtain ⟨k, hk, rfl⟩ := List.getElem_of_mem hq
  obtain ⟨e1, e2⟩ := h.2.2 k hk
  rw [List.getD_eq_getElem _ _ hk] at e1
  rw [← e1]
  exact e2

/-- The vertex that an emitted corner is welded to: its id is one of the ids handed out and
its stored coordinate is the corner. -/
theorem Writer.Extracting.corner_vertex {dim3 isColored : Bool} {vals : Nat → Nat → Nat → ℚ}
    {s : Writer × VMap} {cs : List RCoord} (h : Writer.Extracting dim3 s cs)
    (hl : Writer.Ledger isColored vals s cs) (q : RCoord) (hq : q ∈ cs) :
    1 ≤ s.2 q.1 q.2.1 q.2.2 ∧ s.2 q.1 q.2.1 q.2.2 ≤ s.1.vertexCount ∧
    s.1.coords (3 * s.2 q.1 q.2.1 q.2.2 - 3) = (q.1 : ℚ) ∧
    s.1.coords (3 * s.2 q.1 q.2.1 q.2.2 - 2) = (q.2.1 : ℚ) ∧
    (dim3 = true → s.1.coords (3 * s.2 q.1 q.2.1 q.2.2 - 1) = (q.2.2 : ℚ)) := by
  have hne := h.2.1.ne_zero q hq
  have h1 : 1 ≤ s.2 q.1 q.2.1 q.2.2 := Nat.one_le_iff_ne_zero.mpr hne
  have h2 := h.1.2.2.1 q.1 q.2.1 q.2.2
  obtain ⟨a, b, c, hv, hx, hy, hz⟩ := h.1.2.2.2 _ h1 h2
  have he := hl.2.1 q.1 q.2.1 q.2.2 a b c hne hv.symm
  simp only [Prod.mk.injEq] at he
  obtain ⟨e1, e2, e3⟩ := he
  refine ⟨h1, h2, by rw [hx, e1], by rw [hy, e2], ?_⟩
  intro hd
  rw [hd] at hz
  simp only [if_true] at hz
  rw [hz, e3]

/-- Every vertex is the weld of an emitted corner. -/
theorem Writer.Extracting.vertex_corner {dim3 isColored : Bool} {vals : Nat → Nat → Nat → ℚ}
    {s : Writer × VMap} {cs : List RCoord} (h : Writer.Extracting dim3 s cs)
    (hl : Writer.Ledger isColored vals s cs) (v : Nat) (h1 : 1 ≤ v)
    (h2 : v ≤ s.1.vertexCount) :
    ∃ q : RCoord, q ∈ cs ∧ s.2 q.1 q.2.1 q.2.2 = v := by
  obtain ⟨a, b, c, hv, _⟩ := h.1.2.2.2 v h1 h2
  exact ⟨(a, b, c), hl.1 a b c (by rw [hv]; omega), hv⟩

/-- The number of vertices is the number of distinct emitted corners. -/
theorem Writer.Extracting.vertexCount_eq {dim3 isColored : Bool} {vals : Nat → Nat → Nat → ℚ}
    {s : Writer × VMap} {cs : List RCoord} (h : Writer.Extracting dim3 s cs)
    (hl : Writer.Ledger isColored vals s cs) : s.1.vertexCount = cs.toFinset.card := by
  have himg : cs.toFinset.image (fun q : RCoord => s.2 q.1 q.2.1 q.2.2)
      = Finset.Icc 1 s.1.vertexCount := by
    ext v
    simp only [Finset.mem_image, List.mem_toFinset, Finset.mem_Icc]
    constructor
    · rintro ⟨q, hq, rfl⟩
      obtain ⟨c1, c2, _⟩ := h.corner_vertex hl q hq
      exact ⟨c1, c2⟩
    · rintro ⟨h1, h2⟩
      exact h.vertex_corner hl v h1 h2
  have hinj : Set.InjOn (fun q : RCoord => s.2 q.1 q.2.1 q.2.2) (cs.toFinset : Set RCoord) := by
    intro q hq q2 _ he
    have hq1 : q ∈ cs := by simpa using hq
    have := hl.2.1 q.1 q.2.1 q.2.2 q2.1 q2.2.1 q2.2.2 (h.2.1.ne_zero q hq1) he
    exact this
  have hcard := Finset.card_image_of_injOn hinj
  rw [himg, Nat.card_Icc] at hcard
  omega

end HullComputation
namespace HullComputation

/-! ## Extraction of a field with a single interior sample above EPSILON -/

theorem foldl_append_two {α : Type} (g : Nat → List α) (q n : Nat)
    (h : ∀ y, y < n → y ≠ q → y ≠ q + 1 → g y = []) (cs0 : List α) :
    (List.range n).foldl (fun cs y => cs ++ g y) cs0
      = cs0 ++ ((if q < n then g q else []) ++ (if q + 1 < n then g (q + 1) else [])) := by
  induction n with
  | zero => simp
  | succ n ih =>
    rw [List.range_succ, List.foldl_append, ih (fun y hy => h y (by omega))]
    simp only [List.foldl_cons, List.foldl_nil]
    by_cases h1 : n = q
    · subst h1; simp
    · by_cases h2 : n = q + 1
      · subst h2
        have e0 : q < q + 1 + 1 := by omega
        simp [e0]
      · rw [h n (by omega) h1 h2]
        have e1 : (q < n + 1) ↔ (q < n) := by omega
        have e2 : (q + 1 < n + 1) ↔ (q + 1 < n) := by omega
        simp [e1, e2]

theorem Writer.squareCorners_code1 (x y : Nat) :
    Writer.squareCorners (MarchingSquares.lookupAt 1) x y [0, 3, 6]
      = [(2 + 2 * x, 0 + 2 * y, 0), (2 + 2 * x, 1 + 2 * y, 0), (1 + 2 * x, 0 + 2 * y, 0)] := by
  have h0 : MarchingSquares.lookupAt 1 0 = 0 := by decide
  have h1 : MarchingSquares.lookupAt 1 1 = 1 := by decide
  have h2 : MarchingSquares.lookupAt 1 2 = 7 := by decide
  have h3 : MarchingSquares.lookupAt 1 3 = -1 := by decide
  have c00 : MarchingSquares.coordAt 0 0 = 2 := by decide
  have c01 : MarchingSquares.coordAt 0 1 = 0 := by decide
  have c10 : MarchingSquares.coordAt 1 0 = 2 := by decide
  have c11 : MarchingSquares.coordAt 1 1 = 1 := by decide
  have c70 : MarchingSquares.coordAt 7 0 = 1 := by decide
  have c71 : MarchingSquares.coordAt 7 1 = 0 := by decide
  simp [Writer.squareCorners, List.range_succ, h0, h1, h2, h3, c00, c01, c10, c11, c70, c71]

theorem Writer.squareCorners_code2 (x y : Nat) :
    Writer.squareCorners (MarchingSquares.lookupAt 2) x y [0, 3, 6]
      = [(2 + 2 * x, 2 + 2 * y, 0), (1 + 2 * x, 2 + 2 * y, 0), (2 + 2 * x, 1 + 2 * y, 0)] := by
  have h0 : MarchingSquares.lookupAt 2 0 = 2 := by decide
  have h1 : MarchingSquares.lookupAt 2 1 = 3 := by decide
  have h2 : MarchingSquares.lookupAt 2 2 = 1 := by decide
  have h3 : MarchingSquares.lookupAt 2 3 = -1 := by decide
  have c20 : MarchingSquares.coordAt 2 0 = 2 := by decide
  have c21 : MarchingSquares.coordAt 2 1 = 2 := by decide
  have c30 : MarchingSquares.coordAt 3 0 = 1 := by decide
  have c31 : MarchingSquares.coordAt 3 1 = 2 := by decide
  have c10 : MarchingSquares.coordAt 1 0 = 2 := by decide
  have c11 : MarchingSquares.coordAt 1 1 = 1 := by decide
  simp [Writer.squareCorners, List.range_succ, h0, h1, h2, h3, c20, c21, c30, c31, c10, c11]

theorem Writer.squareCorners_code4 (x y : Nat) :
    Writer.squareCorners (MarchingSquares.lookupAt 4) x y [0, 3, 6]
      = [(1 + 2 * x, 2 + 2 * y, 0), (0 + 2 * x, 2 + 2 * y, 0), (0 + 2 * x, 1 + 2 * y, 0)] := by
  have h0 : MarchingSquares.lookupAt 4 0 = 3 := by decide
  have h1 : MarchingSquares.lookupAt 4 1 = 4 := by decide
  have h2 : MarchingSquares.lookupAt 4 2 = 5 := by decide
  have h3 : MarchingSquares.lookupAt 4 3 = -1 := by decide
  have c30 : MarchingSquares.coordAt 3 0 = 1 := by decide
  have c31 : MarchingSquares.coordAt 3 1 = 2 := by decide
  have c40 : MarchingSquares.coordAt 4 0 = 0 := by decide
  have c41 : MarchingSquares.coordAt 4 1 = 2 := by decide
  have c50 : MarchingSquares.coordAt 5 0 = 0 := by decide
  have c51 : MarchingSquares.coordAt 5 1 = 1 := by decide
  simp [Writer.squareCorners, List.range_succ, h0, h1, h2, h3, c30, c31, c40, c41, c50, c51]

theorem Writer.squareCorners_code8 (x y : Nat) :
    Writer.squareCorners (MarchingSquares.lookupAt 8) x y [0, 3, 6]
      = [(0 + 2 * x, 1 + 2 * y, 0), (0 + 2 * x, 0 + 2 * y, 0), (1 + 2 * x, 0 + 2 * y, 0)] := by
  have h0 : MarchingSquares.lookupAt 8 0 = 5 := by decide
  have h1 : MarchingSquares.lookupAt 8 1 = 6 := by decide
  have h2 : MarchingSquares.lookupAt 8 2 = 7 := by decide
  have h3 : MarchingSquares.lookupAt 8 3 = -1 := by decide
  have c50 : MarchingSquares.coordAt 5 0 = 0 := by decide
  have c51 : MarchingSquares.coordAt 5 1 = 1 := by decide
  have c60 : MarchingSquares.coordAt 6 0 = 0 := by decide
  have c61 : MarchingSquares.coordAt 6 1 = 0 := by decide
  have c70 : MarchingSquares.coordAt 7 0 = 1 := by decide
  have c71 : MarchingSquares.coordAt 7 1 = 0 := by decide
  simp [Writer.squareCorners, List.range_succ, h0, h1, h2, h3, c50, c51, c60, c61, c70, c71]

theorem Writer.squareCorners_code0 (x y : Nat) :
    Writer.squareCorners (MarchingSquares.lookupAt 0) x y [0, 3, 6] = [] := by
  have h0 : MarchingSquares.lookupAt 0 0 = -1 := by decide
  simp [Writer.squareCorners, h0]

/-- The case codes of a field with a single interior sample above `EPSILON`, at column `p + 1`
and row `q + 1`. -/
theorem Writer.squareCases_blob (M : Arr2) (p q : Nat) (hM : SingleBlob M (p + 1) (q + 1))
    (x y : Nat) (hx : x < M.n1 - 1) (hy : y < M.n0 - 1) :
    Writer.squareCases M x y =
      if x = p ∧ y = q then 2 else if x = p ∧ y = q + 1 then 1
      else if x = p + 1 ∧ y = q then 4 else if x = p + 1 ∧ y = q + 1 then 8 else 0 := by
  obtain ⟨_, _, _, _, hval⟩ := hM
  have hB : ∀ a b, a < M.n0 → b < M.n1 →
      aboveEpsilon (M.val a b) = if a = q + 1 ∧ b = p + 1 then 1 else 0 := by
    intro a b ha hb
    simp only [aboveEpsilon]
    by_cases hc : a = q + 1 ∧ b = p + 1
    · rw [if_pos hc, if_pos ((hval a b ha hb).mpr hc)]
    · rw [if_neg hc, if_neg (fun h => hc ((hval a b ha hb).mp h))]
  simp only [Writer.squareCases]
  rw [hB y x (by omega) (by omega), hB (y + 1) x (by omega) (by omega),
    hB y (x + 1) (by omega) (by omega), hB (y + 1) (x + 1) (by omega) (by omega)]
  split_ifs <;> omega

/-- The corners emitted for a field with a single interior sample above `EPSILON`. -/
theorem Writer.marchingSquaresCorners_blob (M : Arr2) (p q : Nat)
    (hM : SingleBlob M (p + 1) (q + 1)) :
    Writer.marchingSquaresCorners M =
      [(2 + 2 * p, 2 + 2 * q, 0), (1 + 2 * p, 2 + 2 * q, 0), (2 + 2 * p, 1 + 2 * q, 0),
       (2 + 2 * p, 0 + 2 * (q + 1), 0), (2 + 2 * p, 1 + 2 * (q + 1), 0),
       (1 + 2 * p, 0 + 2 * (q + 1), 0),
       (1 + 2 * (p + 1), 2 + 2 * q, 0), (0 + 2 * (p + 1), 2 + 2 * q, 0),
       (0 + 2 * (p + 1), 1 + 2 * q, 0),
       (0 + 2 * (p + 1), 1 + 2 * (q + 1), 0), (0 + 2 * (p + 1), 0 + 2 * (q + 1), 0),
       (1 + 2 * (p + 1), 0 + 2 * (q + 1), 0)] := by
  have hp : p + 1 < M.n1 - 1 := by have := hM.2.1; omega
  have hq : q + 1 < M.n0 - 1 := by have := hM.2.2.2.1; omega
  have hcase := Writer.squareCases_blob M p q hM
  have hinner : ∀ x, x < M.n1 - 1 → ∀ cs : List RCoord,
      (List.range (M.n0 - 1)).foldl
        (fun cs y =>
          cs ++ Writer.squareCorners (MarchingSquares.lookupAt (Writer.squareCases M x y)) x y
            [0, 3, 6]) cs
      = cs ++ (Writer.squareCorners (MarchingSquares.lookupAt (Writer.squareCases M x q)) x q
            [0, 3, 6]
          ++ Writer.squareCorners (MarchingSquares.lookupAt (Writer.squareCases M x (q + 1))) x
            (q + 1) [0, 3, 6]) := by
    intro x hx cs
    rw [foldl_append_two
      (fun y => Writer.squareCorners (MarchingSquares.lookupAt (Writer.squareCases M x y)) x y
        [0, 3, 6]) q (M.n0 - 1) ?_ cs]
    · rw [if_pos (by omega), if_pos hq]
    · intro y hy h1 h2
      have : Writer.squareCases M x y = 0 := by
        rw [hcase x y hx hy]
        split_ifs <;> omega
      simp only [this]
      exact Writer.squareCorners_code0 x y
  simp only [Writer.marchingSquaresCorners]
  rw [List.foldl_ext _
    (fun cs x => cs ++ (Writer.squareCorners
        (MarchingSquares.lookupAt (Writer.squareCases M x q)) x q [0, 3, 6]
      ++ Writer.squareCorners (MarchingSquares.lookupAt (Writer.squareCases M x (q + 1))) x
        (q + 1) [0, 3, 6])) []
    (fun cs x hx => hinner x (List.mem_range.mp hx) cs)]
  rw [foldl_append_two
    (fun x => Writer.squareCorners (MarchingSquares.lookupAt (Writer.squareCases M x q)) x q
        [0, 3, 6]
      ++ Writer.squareCorners (MarchingSquares.lookupAt (Writer.squareCases M x (q + 1))) x
        (q + 1) [0, 3, 6]) p (M.n1 - 1) ?_ []]
  · rw [if_pos (by omega), if_pos hp]
    have e1 : Writer.squareCases M p q = 2 := by
      rw [hcase p q (by omega) (by omega)]; simp
    have e2 : Writer.squareCases M p (q + 1) = 1 := by
      rw [hcase p (q + 1) (by omega) hq]; simp
    have e3 : Writer.squareCases M (p + 1) q = 4 := by
      rw [hcase (p + 1) q hp (by omega)]; simp
    have e4 : Writer.squareCases M (p + 1) (q + 1) = 8 := by
      rw [hcase (p + 1) (q + 1) hp hq]; simp
    simp only [e1, e2, e3, e4, Writer.squareCorners_code1, Writer.squareCorners_code2,
      Writer.squareCorners_code4, Writer.squareCorners_code8, List.nil_append,
      List.cons_append]
  · intro x hx h1 h2
    have e1 : Writer.squareCases M x q = 0 := by
      rw [hcase x q hx (by omega)]
      split_ifs <;> omega
    have e2 : Writer.squareCases M x (q + 1) = 0 := by
      rw [hcase x (q + 1) hx hq]
      split_ifs <;> omega
    simp only [e1, e2, Writer.squareCorners_code0, List.append_nil]

end HullComputation
namespace HullComputation

theorem blobVertices_nodup (px py : Nat) (hx : 1 ≤ px) (hy : 1 ≤ py) :
    (blobVertices px py).Nodup := by
  simp only [blobVertices, List.nodup_cons, List.mem_cons, List.mem_singleton, Prod.mk.injEq,
    List.not_mem_nil, List.nodup_nil, and_true, or_false, not_or, true_and,
    not_false_eq_true]
  omega

/-- The corners emitted for a single interior sample are the five blob vertices, emitted 12
times in all. -/
theorem Writer.marchingSquaresCorners_blob_mem (M : Arr2) (px py : Nat)
    (hM : SingleBlob M px py) :
    (Writer.marchingSquaresCorners M).length = 12 ∧
    ∀ q : RCoord, q ∈ Writer.marchingSquaresCorners M ↔ q ∈ blobVertices px py := by
  obtain ⟨p, rfl⟩ : ∃ p, px = p + 1 := ⟨px - 1, by have := hM.1; omega⟩
  obtain ⟨q, rfl⟩ : ∃ q, py = q + 1 := ⟨py - 1, by have := hM.2.2.1; omega⟩
  rw [Writer.marchingSquaresCorners_blob M p q hM]
  refine ⟨rfl, ?_⟩
  intro c
  have e1 : 2 + 2 * p = 2 * (p + 1) := by omega
  have e2 : 1 + 2 * p = 2 * (p + 1) - 1 := by omega
  have e3 : 2 + 2 * q = 2 * (q + 1) := by omega
  have e4 : 1 + 2 * q = 2 * (q + 1) - 1 := by omega
  have e5 : 0 + 2 * (q + 1) = 2 * (q + 1) := by omega
  have e6 : 1 + 2 * (q + 1) = 2 * (q + 1) + 1 := by omega
  have e7 : 0 + 2 * (p + 1) = 2 * (p + 1) := by omega
  have e8 : 1 + 2 * (p + 1) = 2 * (p + 1) + 1 := by omega
  simp only [e1, e2, e3, e4, e5, e6, e7, e8, blobVertices, List.mem_cons, List.mem_singleton,
    List.not_mem_nil, or_false]
  tauto

/-- The marching loops on a field with a single interior sample above `EPSILON`: 4 triangles
and 5 vertices, one at each blob vertex. -/
theorem Writer.marchingSquaresCore_blob (w : Writer) (M : Arr2) (isColored : Bool)
    (hv : 3 ≤ w.vertexSize) (hm : 3 ≤ w.meshSize) (px py : Nat) (hM : SingleBlob M px py) :
    (Writer.marchingSquaresCore w.resetCounts M isColored).1.faceCount = 4 ∧
    (Writer.marchingSquaresCore w.resetCounts M isColored).1.vertexCount = 5 ∧
    ∀ q ∈ blobVertices px py, q ∈ Writer.marchingSquaresCorners M := by
  obtain ⟨hex, hled⟩ := Writer.marchingSquaresCore_ledger w M isColored hv hm
  obtain ⟨hlen, hmem⟩ := Writer.marchingSquaresCorners_blob_mem M px py hM
  refine ⟨?_, ?_, fun q hq => (hmem q).mpr hq⟩
  · have := hex.2.2
    omega
  · rw [hex.vertexCount_eq hled]
    have hset : (Writer.marchingSquaresCorners M).toFinset = (blobVertices px py).toFinset := by
      ext c
      simp only [List.mem_toFinset]
      exact hmem c
    rw [hset, List.toFinset_card_of_nodup (blobVertices_nodup px py hM.1 hM.2.2.1)]
    rfl

theorem debugField_blob : SingleBlob debugField 1 1 := by
  refine ⟨by decide, by decide, by decide, by decide, ?_⟩
  intro a b _ _
  simp only [debugField, EPSILON]
  by_cases h : a = 1 ∧ b = 1
  · simp only [h, and_self, if_true, iff_true]; norm_num
  · simp only [h, if_false, iff_false]; norm_num

end HullComputation
namespace HullComputation

/-! ## Valid face indices and the capacity of the buffers -/

/-- C17 (valid face indices): after an extraction (the counts reset, as `extract` does, on a
writer whose capacities are at least 3, as the constructor's 300 are), every entry of
`mesh[0 .. 3*faceCount)` is a vertex id in `1..vertexCount`, so every face record that
`output` writes refers to an existing vertex and normal record. -/
theorem C17_valid_face_indices (tbl : CubeTable) (sqrtf : ℚ → ℚ) (w : Writer)
    (hv : 3 ≤ w.vertexSize) (hm : 3 ≤ w.meshSize) (isColored : Bool) :
    (∀ M : Arr2, ∀ k,
      k < 3 * (Writer.marchingSquares sqrtf w.resetCounts M isColored).faceCount →
      1 ≤ (Writer.marchingSquares sqrtf w.resetCounts M isColored).mesh k ∧
      (Writer.marchingSquares sqrtf w.resetCounts M isColored).mesh k
        ≤ (Writer.marchingSquares sqrtf w.resetCounts M isColored).vertexCount) ∧
    (∀ M : Arr3, ∀ k,
      k < 3 * (Writer.marchingCubes tbl sqrtf w.resetCounts M isColored).faceCount →
      1 ≤ (Writer.marchingCubes tbl sqrtf w.resetCounts M isColored).mesh k ∧
      (Writer.marchingCubes tbl sqrtf w.resetCounts M isColored).mesh k
        ≤ (Writer.marchingCubes tbl sqrtf w.resetCounts M isColored).vertexCount) := by
  constructor
  · intro M k hk
    obtain ⟨hw, ⟨_, _, hmesh⟩, hlen⟩ := Writer.marchingSquaresCore_extracting w M isColored hv hm
    obtain ⟨fv, fm, ff, _⟩ := Writer.finish_spec sqrtf
      (Writer.marchingSquaresCore w.resetCounts M isColored).1 M.n1 M.n0 1
    have ev : (Writer.marchingSquares sqrtf w.resetCounts M isColored).vertexCount
        = (Writer.marchingSquaresCore w.resetCounts M isColored).1.vertexCount := fv
    have em : (Writer.marchingSquares sqrtf w.resetCounts M isColored).mesh
        = (Writer.marchingSquaresCore w.resetCounts M isColored).1.mesh := fm
    have ef : (Writer.marchingSquares sqrtf w.resetCounts M isColored).faceCount
        = (Writer.marchingSquaresCore w.resetCounts M isColored).1.faceCount := ff
    rw [ef] at hk
    rw [em, ev]
    obtain ⟨e1, e2⟩ := hmesh k (by omega)
    refine ⟨Nat.one_le_iff_ne_zero.mpr e2, ?_⟩
    rw [e1]
    exact hw.2.2.1 _ _ _
  · intro M k hk
    obtain ⟨hw, ⟨_, _, hmesh⟩, hlen⟩ :=
      Writer.marchingCubesCore_extracting tbl sqrtf w M isColored hv hm
    obtain ⟨fv, fm, ff, _⟩ := Writer.finish_spec sqrtf
      (Writer.marchingCubesCore tbl sqrtf w.resetCounts M isColored).1 M.n2 M.n1 M.n0
    have ev : (Writer.marchingCubes tbl sqrtf w.resetCounts M isColored).vertexCount
        = (Writer.marchingCubesCore tbl sqrtf w.resetCounts M isColored).1.vertexCount := fv
    have em : (Writer.marchingCubes tbl sqrtf w.resetCounts M isColored).mesh
        = (Writer.marchingCubesCore tbl sqrtf w.resetCounts M isColored).1.mesh := fm
    have ef : (Writer.marchingCubes tbl sqrtf w.resetCounts M isColored).faceCount
        = (Writer.marchingCubesCore tbl sqrtf w.resetCounts M isColored).1.faceCount := ff
    rw [ef] at hk
    rw [em, ev]
    obtain ⟨e1, e2⟩ := hmesh k (by omega)
    refine ⟨Nat.one_le_iff_ne_zero.mpr e2, ?_⟩
    rw [e1]
    exact hw.2.2.1 _ _ _

/-- C17 (witness): a freshly constructed writer on the 3×3 field of `debugWriter`, whose
extraction has 4 faces, and on a zero 2×2×2 field. -/
theorem C17_valid_face_indices_witness :
    (Writer.marchingSquares (fun q => q) Writer.init.resetCounts debugField true).faceCount = 4 ∧
    (1 ≤ (Writer.marchingSquares (fun q => q) Writer.init.resetCounts debugField true).mesh 11 ∧
      (Writer.marchingSquares (fun q => q) Writer.init.resetCounts debugField true).mesh 11
        ≤ (Writer.marchingSquares (fun q => q) Writer.init.resetCounts debugField
            true).vertexCount) := by
  have hf : (Writer.marchingSquares (fun q => q) Writer.init.resetCounts debugField true).faceCount
      = 4 :=
    ((Writer.finish_spec (fun q => q)
      (Writer.marchingSquaresCore Writer.init.resetCounts debugField true).1 3 3 1).2.2.1).trans
      (Writer.marchingSquaresCore_blob Writer.init debugField true (by decide) (by decide) 1 1
        debugField_blob).1
  exact ⟨hf, (C17_valid_face_indices emptyCubeTable (fun q => q) Writer.init (by decide)
    (by decide) true).1 debugField 11 (by rw [hf]; decide)⟩

/-- The vertex append of one corner, from a state in which the invariants hold: the vertex
buffer has room for the vertices counted, its capacity has stayed or doubled, the id of the
corner is a vertex id whose three slots are inside the vertex buffer, and the slot of the
face buffer that the corner is written to is inside the face buffer. -/
theorem Writer.MidTriangle.corner_capacity {dim3 : Bool} {a b c j : Nat} {s t : Writer × VMap}
    {cs : List RCoord} (hm : Writer.MidTriangle dim3 j s cs)
    (h : Writer.CornerEffect dim3 a b c j s t) (hc : dim3 = false → c = 0) (hj : j < 3) :
    3 * t.1.vertexCount ≤ t.1.vertexSize ∧
    (t.1.vertexSize = s.1.vertexSize ∨ t.1.vertexSize = 2 * s.1.vertexSize) ∧
    1 ≤ t.2 a b c ∧ 3 * t.2 a b c ≤ t.1.vertexSize ∧
    3 * t.1.faceCount - 3 + j < t.1.meshSize ∧
    Writer.MidTriangle dim3 (j + 1) t (cs ++ [(a, b, c)]) := by
  have hnext := hm.corner h hc
  obtain ⟨⟨_, hcap, hle, _⟩, ⟨_, hmcap, _⟩, hfc, _⟩ := hnext
  have hid := hle a b c
  have hne := h.vmap_ne_zero
  refine ⟨hcap, ?_, Nat.one_le_iff_ne_zero.mpr hne, by omega, by omega, hm.corner h hc⟩
  rcases h.2.2.2 with ⟨_, _, _, hvs, _⟩ | ⟨_, _, _, hvs, _⟩
  · exact Or.inl hvs
  · rw [hvs]
    split_ifs
    · right; omega
    · left; rfl

/-- C11 (capacity invariant), from the constructor's state on: the capacities start at 300;
the invariants hold when an extraction starts; the triangle append (`++faceCount` and the
resize test) and the vertex append of every corner (`++vertexCount` and the resize test) keep
`3*faceCount ≤ meshSize` and `3*vertexCount ≤ vertexSize`, the capacity staying or doubling
once; the vertex slots `3v-3, 3v-2, 3v-1` of the corner's id `v`, the slots 0, 1, 2 that
`getNormal` writes and the face slot `3*faceCount-3+j` are inside their buffers; and both
bounds hold after `marchingSquares` and `marchingCubes`. -/
theorem C11_capacity_invariant (tbl : CubeTable) (sqrtf : ℚ → ℚ) (isColored : Bool) :
    (Writer.init.vertexSize = 300 ∧ Writer.init.meshSize = 300) ∧
    (∀ (dim3 : Bool) (w : Writer), 3 ≤ w.vertexSize → 3 ≤ w.meshSize →
      Writer.Extracting dim3 (w.resetCounts, Writer.createVertexMap) []) ∧
    (∀ (dim3 : Bool) (s : Writer × VMap) (cs : List RCoord), Writer.Extracting dim3 s cs →
      3 * (Writer.growMesh { s.1 with faceCount := s.1.faceCount + 1 }).faceCount
        ≤ (Writer.growMesh { s.1 with faceCount := s.1.faceCount + 1 }).meshSize ∧
      ((Writer.growMesh { s.1 with faceCount := s.1.faceCount + 1 }).meshSize = s.1.meshSize ∨
        (Writer.growMesh { s.1 with faceCount := s.1.faceCount + 1 }).meshSize
          = 2 * s.1.meshSize) ∧
      Writer.MidTriangle dim3 0
        (Writer.growMesh { s.1 with faceCount := s.1.faceCount + 1 }, s.2) cs) ∧
    (∀ (vals : Nat → Nat → ℚ) (a b j : Nat) (s : Writer × VMap) (cs : List RCoord), j < 3 →
      Writer.MidTriangle false j s cs →
      3 * (Writer.squareCorner vals isColored a b j s).1.vertexCount
        ≤ (Writer.squareCorner vals isColored a b j s).1.vertexSize ∧
      ((Writer.squareCorner vals isColored a b j s).1.vertexSize = s.1.vertexSize ∨
        (Writer.squareCorner vals isColored a b j s).1.vertexSize = 2 * s.1.vertexSize) ∧
      1 ≤ (Writer.squareCorner vals isColored a b j s).2 a b 0 ∧
      3 * (Writer.squareCorner vals isColored a b j s).2 a b 0
        ≤ (Writer.squareCorner vals isColored a b j s).1.vertexSize ∧
      3 * (Writer.squareCorner vals isColored a b j s).1.faceCount - 3 + j
        < (Writer.squareCorner vals isColored a b j s).1.meshSize ∧
      Writer.MidTriangle false (j + 1) (Writer.squareCorner vals isColored a b j s)
        (cs ++ [(a, b, 0)])) ∧
    (∀ (vals : Nat → Nat → Nat → ℚ) (normal : ℚ × ℚ × ℚ) (a b c j : Nat) (s : Writer × VMap)
        (cs : List RCoord), j < 3 → Writer.MidTriangle true j s cs →
      3 * (Writer.cubeCorner vals isColored normal a b c j s).1.vertexCount
        ≤ (Writer.cubeCorner vals isColored normal a b c j s).1.vertexSize ∧
      ((Writer.cubeCorner vals isColored normal a b c j s).1.vertexSize = s.1.vertexSize ∨
        (Writer.cubeCorner vals isColored normal a b c j s).1.vertexSize
          = 2 * s.1.vertexSize) ∧
      1 ≤ (Writer.cubeCorner vals isColored normal a b c j s).2 a b c ∧
      3 * (Writer.cubeCorner vals isColored normal a b c j s).2 a b c
        ≤ (Writer.cubeCorner vals isColored normal a b c j s).1.vertexSize ∧
      3 * (Writer.cubeCorner vals isColored normal a b c j s).1.faceCount - 3 + j
        < (Writer.cubeCorner vals isColored normal a b c j s).1.meshSize ∧
      Writer.MidTriangle true (j + 1) (Writer.cubeCorner vals isColored normal a b c j s)
        (cs ++ [(a, b, c)])) ∧
    (∀ (p0 p1 p2 : Int) (s : Writer × VMap) (cs : List RCoord),
      Writer.MidTriangle true 0 s cs →
      3 ≤ s.1.vertexSize ∧
      Writer.MidTriangle true 0 ((Writer.getNormal tbl sqrtf s.1 p0 p1 p2).2, s.2) cs) ∧
    (∀ (w : Writer) (M : Arr2), 3 ≤ w.vertexSize → 3 ≤ w.meshSize →
      3 * (Writer.marchingSquares sqrtf w.resetCounts M isColored).vertexCount
        ≤ (Writer.marchingSquares sqrtf w.resetCounts M isColored).vertexSize ∧
      3 * (Writer.marchingSquares sqrtf w.resetCounts M isColored).faceCount
        ≤ (Writer.marchingSquares sqrtf w.resetCounts M isColored).meshSize) ∧
    (∀ (w : Writer) (M : Arr3), 3 ≤ w.vertexSize → 3 ≤ w.meshSize →
      3 * (Writer.marchingCubes tbl sqrtf w.resetCounts M isColored).vertexCount
        ≤ (Writer.marchingCubes tbl sqrtf w.resetCounts M isColored).vertexSize ∧
      3 * (Writer.marchingCubes tbl sqrtf w.resetCounts M isColored).faceCount
        ≤ (Writer.marchingCubes tbl sqrtf w.resetCounts M isColored).meshSize) := by
  refine ⟨⟨rfl, rfl⟩, fun dim3 w hv hm => Writer.resetCounts_extracting dim3 w hv hm, ?_, ?_, ?_,
    ?_, ?_, ?_⟩
  · intro dim3 s cs h
    have h0 := h.openTriangle
    obtain ⟨g1, g2, g3, g4, g5, g6, g7, g8⟩ :=
      Writer.growMesh_frame { s.1 with faceCount := s.1.faceCount + 1 }
    refine ⟨h0.2.1.2.1, ?_, h0⟩
    rw [g7]
    split_ifs
    · right; show s.1.meshSize * 2 = 2 * s.1.meshSize; omega
    · left; rfl
  · intro vals a b j s cs hj hmid
    exact hmid.corner_capacity (Writer.squareCorner_effect vals isColored a b j s)
      (fun _ => rfl) hj
  · intro vals normal a b c j s cs hj hmid
    exact hmid.corner_capacity (Writer.cubeCorner_effect vals isColored normal a b c j s)
      (fun hf => absurd hf (by decide)) hj
  · intro p0 p1 p2 s cs hmid
    obtain ⟨g1, g2, g3, g4, g5, g6⟩ := Writer.getNormal_frame tbl sqrtf s.1 p0 p1 p2
    exact ⟨hmid.1.1, Writer.MidTriangle.congr (w := s.1) hmid g1 g2 g3 g4 g5 g6⟩
  · intro w M hv hm
    obtain ⟨hw, hf, _⟩ := Writer.marchingSquaresCore_extracting w M isColored hv hm
    obtain ⟨fv, _, ff, _⟩ := Writer.finish_spec sqrtf
      (Writer.marchingSquaresCore w.resetCounts M isColored).1 M.n1 M.n0 1
    obtain ⟨sv, sm, _⟩ := Writer.finish_frame sqrtf
      (Writer.marchingSquaresCore w.resetCounts M isColored).1 M.n1 M.n0 1
    simp only [Writer.marchingSquares, fv, ff, sv, sm]
    exact ⟨hw.2.1, hf.2.1⟩
  · intro w M hv hm
    obtain ⟨hw, hf, _⟩ := Writer.marchingCubesCore_extracting tbl sqrtf w M isColored hv hm
    obtain ⟨fv, _, ff, _⟩ := Writer.finish_spec sqrtf
      (Writer.marchingCubesCore tbl sqrtf w.resetCounts M isColored).1 M.n2 M.n1 M.n0
    obtain ⟨sv, sm, _⟩ := Writer.finish_frame sqrtf
      (Writer.marchingCubesCore tbl sqrtf w.resetCounts M isColored).1 M.n2 M.n1 M.n0
    simp only [Writer.marchingCubes, fv, ff, sv, sm]
    exact ⟨hw.2.1, hf.2.1⟩

end HullComputation
namespace HullComputation

/-! ## The third coordinate in 2D -/

theorem Writer.init_planar : Writer.init.Planar := fun _ _ _ => rfl

theorem Writer.growVertexes_planar (w : Writer) (h : w.Planar) : w.growVertexes.Planar := by
  intro i hi hmod
  simp only [Writer.growVertexes] at hi ⊢
  split_ifs at hi ⊢
  · obtain ⟨r1, _, _, _, _, r6, r7⟩ := Writer.resizeVertexes_spec w
    by_cases hlt : i < w.vertexSize
    · rw [(r6 i hlt).1]
      exact h i hlt hmod
    · rw [r1] at hi
      exact (r7 i (by omega) hi).1
  · exact h i hi hmod

theorem Writer.squareCorner_planar (vals : Nat → Nat → ℚ) (isColored : Bool) (a b j : Nat)
    (s : Writer × VMap) (h : s.1.Planar) :
    (Writer.squareCorner vals isColored a b j s).1.Planar := by
  by_cases h0 : s.2 a b 0 = 0
  · have hg := Writer.growVertexes_planar { s.1 with vertexCount := s.1.vertexCount + 1 } h
    simp only [Writer.Planar, Writer.squareCorner, h0, if_true, Writer.setColor_frame]
    intro i hi hmod
    simp only [setAt]
    rw [if_neg (by omega), if_neg (by omega)]
    exact hg i hi hmod
  · simp only [Writer.Planar, Writer.squareCorner, h0, if_false]
    exact h

theorem Writer.squareTriangle_planar (vals : Nat → Nat → ℚ) (isColored : Bool)
    (faces : Nat → Int) (x y i : Nat) (s : Writer × VMap) (h : s.1.Planar) :
    (Writer.squareTriangle vals isColored faces x y i s).1.Planar := by
  simp only [Writer.squareTriangle]
  refine foldl_inv (fun st : Writer × VMap => st.1.Planar) _ ?_ _ _ ?_
  · intro st j hst
    exact Writer.squareCorner_planar vals isColored _ _ j st hst
  · obtain ⟨_, g2, g3, _⟩ := Writer.growMesh_frame { s.1 with faceCount := s.1.faceCount + 1 }
    simp only [Writer.Planar, g2, g3]
    exact h

theorem Writer.squareLoop_planar (vals : Nat → Nat → ℚ) (isColored : Bool)
    (faces : Nat → Int) (x y : Nat) (l : List Nat) :
    ∀ s : Writer × VMap, s.1.Planar →
      (Writer.squareLoop vals isColored faces x y l s).1.Planar := by
  induction l with
  | nil => intro s h; exact h
  | cons i rest ih =>
    intro s h
    simp only [Writer.squareLoop]
    split_ifs
    · exact h
    · exact ih _ (Writer.squareTriangle_planar vals isColored faces x y i s h)

theorem Writer.marchingSquaresCore_planar (w : Writer) (M : Arr2) (isColored : Bool)
    (h : w.Planar) : (Writer.marchingSquaresCore w.resetCounts M isColored).1.Planar := by
  refine foldl_inv (fun st : Writer × VMap => st.1.Planar) _ ?_ _ _ h
  intro st x hst
  refine foldl_inv (fun st : Writer × VMap => st.1.Planar) _ ?_ _ _ hst
  intro st2 y hst2
  exact Writer.squareLoop_planar _ isColored _ x y [0, 3, 6] st2 hst2

/-- A writer that has only run `marchingSquares` keeps third coordinates 0. -/
theorem Writer.marchingSquares_planar (sqrtf : ℚ → ℚ) (w : Writer) (M : Arr2)
    (isColored : Bool) (h : w.Planar) :
    (Writer.marchingSquares sqrtf w.resetCounts M isColored).Planar := by
  have hc := Writer.marchingSquaresCore_planar w M isColored h
  obtain ⟨sv, _, _⟩ := Writer.finish_frame sqrtf
    (Writer.marchingSquaresCore w.resetCounts M isColored).1 M.n1 M.n0 1
  obtain ⟨_, n2, _, _⟩ := Writer.normalizeNormals_frame sqrtf
    (Writer.marchingSquaresCore w.resetCounts M isColored).1
  obtain ⟨_, _, _, s4⟩ := Writer.scaleCoords_spec
    ((Writer.marchingSquaresCore w.resetCounts M isColored).1.normalizeNormals sqrtf) M.n1 M.n0 1
  intro i hi hmod
  simp only [Writer.marchingSquares] at hi ⊢
  rw [sv] at hi
  rw [s4 i, n2, hc i hi hmod]
  simp

end HullComputation
namespace HullComputation

/-! ## Positions and colours of the vertices -/

theorem unit_interval (a W : Nat) (h : a < 2 * W - 1) :
    0 ≤ (a : ℚ) / ((W * 2 : Nat) : ℚ) ∧ (a : ℚ) / ((W * 2 : Nat) : ℚ) < 1 := by
  have hpos : (0 : ℚ) < ((W * 2 : Nat) : ℚ) := by
    have : 0 < W * 2 := by omega
    exact_mod_cast this
  refine ⟨div_nonneg (Nat.cast_nonneg a) hpos.le, ?_⟩
  rw [div_lt_one hpos]
  have : a < W * 2 := by omega
  exact_mod_cast this

/-- The vertices of a 2D extraction: each is the weld of an emitted corner `(a, b, 0)`, it is
stored at `(a / (2 width), b / (2 height), z / 2)` where `z` is what the third slot held, and
its colour is the colour of the refined value at `(a, b)`. -/
theorem Writer.marchingSquares_vertex (sqrtf : ℚ → ℚ) (w : Writer) (M : Arr2)
    (isColored : Bool) (hv : 3 ≤ w.vertexSize) (hm : 3 ≤ w.meshSize) (v : Nat) (h1 : 1 ≤ v)
    (h2 : v ≤ (Writer.marchingSquares sqrtf w.resetCounts M isColored).vertexCount) :
    ∃ a b : Nat, (a, b, 0) ∈ Writer.marchingSquaresCorners M ∧
      (Writer.marchingSquaresCore w.resetCounts M isColored).2 a b 0 = v ∧
      a < 2 * M.n1 - 1 ∧ b < 2 * M.n0 - 1 ∧
      (Writer.marchingSquares sqrtf w.resetCounts M isColored).position v =
        ((a : ℚ) / ((M.n1 * 2 : Nat) : ℚ), (b : ℚ) / ((M.n0 * 2 : Nat) : ℚ),
          (Writer.marchingSquaresCore w.resetCounts M isColored).1.coords (3 * v - 1)
            / ((1 * 2 : Nat) : ℚ)) ∧
      (Writer.marchingSquares sqrtf w.resetCounts M isColored).color v =
        Writer.colorOf isColored (Writer.squareRefined M b a) := by
  obtain ⟨hex, hled⟩ := Writer.marchingSquaresCore_ledger w M isColored hv hm
  obtain ⟨fv, _, _, fpos⟩ := Writer.finish_spec sqrtf
    (Writer.marchingSquaresCore w.resetCounts M isColored).1 M.n1 M.n0 1
  obtain ⟨_, _, fc⟩ := Writer.finish_frame sqrtf
    (Writer.marchingSquaresCore w.resetCounts M isColored).1 M.n1 M.n0 1
  have ev : (Writer.marchingSquares sqrtf w.resetCounts M isColored).vertexCount
      = (Writer.marchingSquaresCore w.resetCounts M isColored).1.vertexCount := fv
  rw [ev] at h2
  obtain ⟨⟨a, b, c⟩, hq, hvq⟩ := hex.vertex_corner hled v h1 h2
  obtain ⟨_, _, cx, cy, _⟩ := hex.corner_vertex hled (a, b, c) hq
  obtain ⟨bx, bb, bz⟩ := Writer.marchingSquaresCorners_bound M (a, b, c) hq
  simp only at hvq cx cy bx bb bz
  have hc : c = 0 := by omega
  subst hc
  rw [hvq] at cx cy
  have hne : (Writer.marchingSquaresCore w.resetCounts M isColored).2 a b 0 ≠ 0 := by
    rw [hvq]; omega
  have hcol := hled.2.2 a b 0 hne
  rw [hvq] at hcol
  refine ⟨a, b, hq, hvq, bx, bb, ?_, ?_⟩
  · have hp : (Writer.marchingSquares sqrtf w.resetCounts M isColored).position v = _ :=
      fpos v h1 h2
    rw [hp, cx, cy]
  · have e : (Writer.marchingSquares sqrtf w.resetCounts M isColored).colors
        = (Writer.marchingSquaresCore w.resetCounts M isColored).1.colors := fc
    simp only [Writer.color, e] at hcol ⊢
    exact hcol

/-- The vertices of a 3D extraction: each is the weld of an emitted corner `(a, b, c)`, it is
stored at `(a / (2 width), b / (2 height), c / (2 depth))`, and its colour is the colour of
the refined value at `(a, b, c)`. -/
theorem Writer.marchingCubes_vertex (tbl : CubeTable) (sqrtf : ℚ → ℚ) (w : Writer) (M : Arr3)
    (isColored : Bool) (hv : 3 ≤ w.vertexSize) (hm : 3 ≤ w.meshSize) (v : Nat) (h1 : 1 ≤ v)
    (h2 : v ≤ (Writer.marchingCubes tbl sqrtf w.resetCounts M isColored).vertexCount) :
    ∃ a b c : Nat, (a, b, c) ∈ Writer.marchingCubesCorners tbl M ∧
      (Writer.marchingCubesCore tbl sqrtf w.resetCounts M isColored).2 a b c = v ∧
      (Writer.marchingCubes tbl sqrtf w.resetCounts M isColored).position v =
        ((a : ℚ) / ((M.n2 * 2 : Nat) : ℚ), (b : ℚ) / ((M.n1 * 2 : Nat) : ℚ),
          (c : ℚ) / ((M.n0 * 2 : Nat) : ℚ)) ∧
      (Writer.marchingCubes tbl sqrtf w.resetCounts M isColored).color v =
        Writer.colorOf isColored (Writer.cubeRefined M c b a) := by
  obtain ⟨hex, hled⟩ := Writer.marchingCubesCore_ledger tbl sqrtf w M isColored hv hm
  obtain ⟨fv, _, _, fpos⟩ := Writer.finish_spec sqrtf
    (Writer.marchingCubesCore tbl sqrtf w.resetCounts M isColored).1 M.n2 M.n1 M.n0
  obtain ⟨_, _, fc⟩ := Writer.finish_frame sqrtf
    (Writer.marchingCubesCore tbl sqrtf w.resetCounts M isColored).1 M.n2 M.n1 M.n0
  have ev : (Writer.marchingCubes tbl sqrtf w.resetCounts M isColored).vertexCount
      = (Writer.marchingCubesCore tbl sqrtf w.resetCounts M isColored).1.vertexCount := fv
  rw [ev] at h2
  obtain ⟨⟨a, b, c⟩, hq, hvq⟩ := hex.vertex_corner hled v h1 h2
  obtain ⟨_, _, cx, cy, cz⟩ := hex.corner_vertex hled (a, b, c) hq
  have cz := cz rfl
  simp only at hvq cx cy cz
  rw [hvq] at cx cy cz
  have hne : (Writer.marchingCubesCore tbl sqrtf w.resetCounts M isColored).2 a b c ≠ 0 := by
    rw [hvq]; omega
  have hcol := hled.2.2 a b c hne
  rw [hvq] at hcol
  refine ⟨a, b, c, hq, hvq, ?_, ?_⟩
  · have hp : (Writer.marchingCubes tbl sqrtf w.resetCounts M isColored).position v = _ :=
      fpos v h1 h2
    rw [hp, cx, cy, cz]
  · have e : (Writer.marchingCubes tbl sqrtf w.resetCounts M isColored).colors
        = (Writer.marchingCubesCore tbl sqrtf w.resetCounts M isColored).1.colors := fc
    simp only [Writer.color, e] at hcol ⊢
    exact hcol

/-- C18 (canonical output space): after `marchingSquares` and `marchingCubes` (the counts reset
and the capacities at least 3; for any case table whose point offsets lie in 0..2) every
stored vertex position is the refined coordinate of an emitted corner divided by twice the
extent of the field on that axis; the refined coordinate is at most `2*extent - 2`, so every
component lies in [0, 1). In 2D the third component is 0 for a writer whose third slots hold
0, as those of the constructor do, and `marchingSquares` leaves such a writer so. -/
theorem C18_canonical_output (tbl : CubeTable) (htbl : ∀ p c, tbl.coords p c ≤ 2)
    (sqrtf : ℚ → ℚ) (w : Writer) (hv : 3 ≤ w.vertexSize) (hm : 3 ≤ w.meshSize)
    (isColored : Bool) :
    Writer.init.Planar ∧
    (∀ M : Arr2, w.Planar →
      (Writer.marchingSquares sqrtf w.resetCounts M isColored).Planar ∧
      ∀ v, 1 ≤ v → v ≤ (Writer.marchingSquares sqrtf w.resetCounts M isColored).vertexCount →
        ∃ a b : Nat, (a, b, 0) ∈ Writer.marchingSquaresCorners M ∧
          a ≤ 2 * M.n1 - 2 ∧ b ≤ 2 * M.n0 - 2 ∧
          (Writer.marchingSquares sqrtf w.resetCounts M isColored).position v =
            ((a : ℚ) / ((M.n1 * 2 : Nat) : ℚ), (b : ℚ) / ((M.n0 * 2 : Nat) : ℚ), 0) ∧
          (0 ≤ (a : ℚ) / ((M.n1 * 2 : Nat) : ℚ) ∧ (a : ℚ) / ((M.n1 * 2 : Nat) : ℚ) < 1) ∧
          (0 ≤ (b : ℚ) / ((M.n0 * 2 : Nat) : ℚ) ∧ (b : ℚ) / ((M.n0 * 2 : Nat) : ℚ) < 1)) ∧
    (∀ M : Arr3,
      ∀ v, 1 ≤ v → v ≤ (Writer.marchingCubes tbl sqrtf w.resetCounts M isColored).vertexCount →
        ∃ a b c : Nat, (a, b, c) ∈ Writer.marchingCubesCorners tbl M ∧
          a ≤ 2 * M.n2 - 2 ∧ b ≤ 2 * M.n1 - 2 ∧ c ≤ 2 * M.n0 - 2 ∧
          (Writer.marchingCubes tbl sqrtf w.resetCounts M isColored).position v =
            ((a : ℚ) / ((M.n2 * 2 : Nat) : ℚ), (b : ℚ) / ((M.n1 * 2 : Nat) : ℚ),
              (c : ℚ) / ((M.n0 * 2 : Nat) : ℚ)) ∧
          (0 ≤ (a : ℚ) / ((M.n2 * 2 : Nat) : ℚ) ∧ (a : ℚ) / ((M.n2 * 2 : Nat) : ℚ) < 1) ∧
          (0 ≤ (b : ℚ) / ((M.n1 * 2 : Nat) : ℚ) ∧ (b : ℚ) / ((M.n1 * 2 : Nat) : ℚ) < 1) ∧
          (0 ≤ (c : ℚ) / ((M.n0 * 2 : Nat) : ℚ) ∧ (c : ℚ) / ((M.n0 * 2 : Nat) : ℚ) < 1)) := by
  refine ⟨Writer.init_planar, ?_, ?_⟩
  · intro M hpl
    refine ⟨Writer.marchingSquares_planar sqrtf w M isColored hpl, ?_⟩
    intro v h1 h2
    obtain ⟨a, b, hq, _, bx, bb, hp, _⟩ :=
      Writer.marchingSquares_vertex sqrtf w M isColored hv hm v h1 h2
    have hcap := (Writer.marchingSquaresCore_extracting w M isColored hv hm).1.2.1
    have ev : (Writer.marchingSquares sqrtf w.resetCounts M isColored).vertexCount
        = (Writer.marchingSquaresCore w.resetCounts M isColored).1.vertexCount :=
      (Writer.finish_spec sqrtf _ M.n1 M.n0 1).1
    rw [ev] at h2
    have hz := Writer.marchingSquaresCore_planar w M isColored hpl (3 * v - 1)
      (by omega) (by omega)
    rw [hz, zero_div] at hp
    exact ⟨a, b, hq, by omega, by omega, hp, unit_interval a M.n1 bx, unit_interval b M.n0 bb⟩
  · intro M v h1 h2
    obtain ⟨a, b, c, hq, _, hp, _⟩ :=
      Writer.marchingCubes_vertex tbl sqrtf w M isColored hv hm v h1 h2
    obtain ⟨bx, bb, bz⟩ := Writer.marchingCubesCorners_bound tbl htbl M (a, b, c) hq
    simp only at bx bb bz
    exact ⟨a, b, c, hq, by omega, by omega, by omega, hp, unit_interval a M.n2 bx,
      unit_interval b M.n1 bb, unit_interval c M.n0 bz⟩

/-- C18 (witness): a freshly constructed writer, on the 3×3 field of `debugWriter` and on a
zero 2×2×2 field. -/
theorem C18_canonical_output_witness :
    (Writer.marchingSquares (fun q => q) Writer.init.resetCounts debugField true).Planar ∧
    (∀ v, 1 ≤ v →
      v ≤ (Writer.marchingCubes emptyCubeTable (fun q => q) Writer.init.resetCounts zeroCube
        true).vertexCount →
      ∃ a b c : Nat, (a, b, c) ∈ Writer.marchingCubesCorners emptyCubeTable zeroCube ∧
        a ≤ 2 * zeroCube.n2 - 2 ∧ b ≤ 2 * zeroCube.n1 - 2 ∧ c ≤ 2 * zeroCube.n0 - 2 ∧
        (Writer.marchingCubes emptyCubeTable (fun q => q) Writer.init.resetCounts zeroCube
          true).position v =
          ((a : ℚ) / ((zeroCube.n2 * 2 : Nat) : ℚ), (b : ℚ) / ((zeroCube.n1 * 2 : Nat) : ℚ),
            (c : ℚ) / ((zeroCube.n0 * 2 : Nat) : ℚ)) ∧
        (0 ≤ (a : ℚ) / ((zeroCube.n2 * 2 : Nat) : ℚ) ∧
          (a : ℚ) / ((zeroCube.n2 * 2 : Nat) : ℚ) < 1) ∧
        (0 ≤ (b : ℚ) / ((zeroCube.n1 * 2 : Nat) : ℚ) ∧
          (b : ℚ) / ((zeroCube.n1 * 2 : Nat) : ℚ) < 1) ∧
        (0 ≤ (c : ℚ) / ((zeroCube.n0 * 2 : Nat) : ℚ) ∧
          (c : ℚ) / ((zeroCube.n0 * 2 : Nat) : ℚ) < 1)) :=
  ⟨((C18_canonical_output emptyCubeTable (fun _ _ => Nat.zero_le 2) (fun q => q) Writer.init
      (by decide) (by decide) true).2.1 debugField Writer.init_planar).1,
   (C18_canonical_output emptyCubeTable (fun _ _ => Nat.zero_le 2) (fun q => q) Writer.init
      (by decide) (by decide) true).2.2 zeroCube⟩

end HullComputation
namespace HullComputation

/-! ## The normal of the first vertex -/

theorem Writer.growVertexes_normals (w : Writer) (i : Nat) (hi : i < w.vertexSize) :
    w.growVertexes.normals i = w.normals i := by
  simp only [Writer.growVertexes]
  split_ifs
  · exact ((Writer.resizeVertexes_spec w).2.2.2.2.2.1 i hi).2.1
  · rfl

/-- What one corner of `cubeCase` does to the weld map, the counts, the face list and the
normal of vertex 1 (`normals[0..2]`), when the vertex buffer has room for one more vertex. -/
theorem Writer.cubeCorner_track (vals : Nat → Nat → Nat → ℚ) (isColored : Bool)
    (normal : ℚ × ℚ × ℚ) (a b c j : Nat) (s : Writer × VMap)
    (hcap : 3 * (s.1.vertexCount + 1) ≤ s.1.vertexSize) :
    (Writer.cubeCorner vals isColored normal a b c j s).2
      = (if s.2 a b c = 0 then s.2.set a b c (s.1.vertexCount + 1) else s.2) ∧
    (Writer.cubeCorner vals isColored normal a b c j s).1.vertexCount
      = (if s.2 a b c = 0 then s.1.vertexCount + 1 else s.1.vertexCount) ∧
    (Writer.cubeCorner vals isColored normal a b c j s).1.vertexSize = s.1.vertexSize ∧
    (Writer.cubeCorner vals isColored normal a b c j s).1.faceCount = s.1.faceCount ∧
    (Writer.cubeCorner vals isColored normal a b c j s).1.meshSize = s.1.meshSize ∧
    (Writer.cubeCorner vals isColored normal a b c j s).1.mesh
      = setAt s.1.mesh (3 * s.1.faceCount - 3 + j)
          (if s.2 a b c = 0 then s.1.vertexCount + 1 else s.2 a b c) ∧
    (Writer.cubeCorner vals isColored normal a b c j s).1.normals 0
      = (if (if s.2 a b c = 0 then s.1.vertexCount + 1 else s.2 a b c) = 1
          then s.1.normals 0 + normal.1 else s.1.normals 0) ∧
    (Writer.cubeCorner vals isColored normal a b c j s).1.normals 1
      = (if (if s.2 a b c = 0 then s.1.vertexCount + 1 else s.2 a b c) = 1
          then s.1.normals 1 + normal.2.1 else s.1.normals 1) ∧
    (Writer.cubeCorner vals isColored normal a b c j s).1.normals 2
      = (if (if s.2 a b c = 0 then s.1.vertexCount + 1 else s.2 a b c) = 1
          then s.1.normals 2 + normal.2.2 else s.1.normals 2) := by
  have heff := Writer.cubeCorner_effect vals isColored normal a b c j s
  by_cases h0 : s.2 a b c = 0
  · simp only [h0, if_true]
    have hno : ¬ ((s.1.vertexCount + 1) * 3 > s.1.vertexSize) := by omega
    have hg : ∀ k, k < 3 →
        (Writer.growVertexes { s.1 with vertexCount := s.1.vertexCount + 1 }).normals k
          = s.1.normals k := by
      intro k hk
      exact Writer.growVertexes_normals _ k (by show k < s.1.vertexSize; omega)
    rcases heff.2.2.2 with ⟨hne, _⟩ | ⟨_, hv, hvc, hvs, _⟩
    · exact absurd h0 hne
    · refine ⟨hv, hvc, by rw [hvs, if_neg hno], heff.1, heff.2.1, ?_, ?_, ?_, ?_⟩
      · rw [heff.2.2.1, hv]; simp [VMap.set]
      · by_cases h1 : s.1.vertexCount + 1 = 1
        · have i1 : 3 * (s.1.vertexCount + 1) - 3 = 0 := by omega
          have i2 : 3 * (s.1.vertexCount + 1) - 2 = 1 := by omega
          have i3 : 3 * (s.1.vertexCount + 1) - 1 = 2 := by omega
          rw [if_pos h1]
          simp only [Writer.cubeCorner, h0, if_true, Writer.setColor_frame, setAt, i1, i2, i3]
          simp [hg 0 (by omega), hg 1 (by omega), hg 2 (by omega)]
        · have e1 : ¬ (0 = 3 * (s.1.vertexCount + 1) - 1) := by omega
          have e2 : ¬ (0 = 3 * (s.1.vertexCount + 1) - 2) := by omega
          have e3 : ¬ (0 = 3 * (s.1.vertexCount + 1) - 3) := by omega
          rw [if_neg h1]
          simp only [Writer.cubeCorner, h0, if_true, Writer.setColor_frame, setAt]
          simp [e1, e2, e3, hg 0 (by omega)]
      · by_cases h1 : s.1.vertexCount + 1 = 1
        · have i1 : 3 * (s.1.vertexCount + 1) - 3 = 0 := by omega
          have i2 : 3 * (s.1.vertexCount + 1) - 2 = 1 := by omega
          have i3 : 3 * (s.1.vertexCount + 1) - 1 = 2 := by omega
          rw [if_pos h1]
          simp only [Writer.cubeCorner, h0, if_true, Writer.setColor_frame, setAt, i1, i2, i3]
          simp [hg 0 (by omega), hg 1 (by omega), hg 2 (by omega)]
        · have e1 : ¬ (1 = 3 * (s.1.vertexCount + 1) - 1) := by omega
          have e2 : ¬ (1 = 3 * (s.1.vertexCount + 1) - 2) := by omega
          have e3 : ¬ (1 = 3 * (s.1.vertexCount + 1) - 3) := by omega
          rw [if_neg h1]
          simp only [Writer.cubeCorner, h0, if_true, Writer.setColor_frame, setAt]
          simp [e1, e2, e3, hg 1 (by omega)]
      · by_cases h1 : s.1.vertexCount + 1 = 1
        · have i1 : 3 * (s.1.vertexCount + 1) - 3 = 0 := by omega
          have i2 : 3 * (s.1.vertexCount + 1) - 2 = 1 := by omega
          have i3 : 3 * (s.1.vertexCount + 1) - 1 = 2 := by omega
          rw [if_pos h1]
          simp only [Writer.cubeCorner, h0, if_true, Writer.setColor_frame, setAt, i1, i2, i3]
          simp [hg 0 (by omega), hg 1 (by omega), hg 2 (by omega)]
        · have e1 : ¬ (2 = 3 * (s.1.vertexCount + 1) - 1) := by omega
          have e2 : ¬ (2 = 3 * (s.1.vertexCount + 1) - 2) := by omega
          have e3 : ¬ (2 = 3 * (s.1.vertexCount + 1) - 3) := by omega
          rw [if_neg h1]
          simp only [Writer.cubeCorner, h0, if_true, Writer.setColor_frame, setAt]
          simp [e1, e2, e3, hg 2 (by omega)]
  · simp only [h0, if_false]
    rcases heff.2.2.2 with ⟨_, hv, hvc, hvs, _⟩ | ⟨hz, _⟩
    · refine ⟨hv, hvc, hvs, heff.1, heff.2.1, ?_, ?_, ?_, ?_⟩
      · rw [heff.2.2.1, hv]
      · simp only [Writer.cubeCorner, h0, if_false, setAt]
        by_cases h1 : s.2 a b c = 1
        · simp [h1]
        · have e1 : ¬ (0 = 3 * s.2 a b c - 1) := by omega
          have e2 : ¬ (0 = 3 * s.2 a b c - 2) := by omega
          have e3 : ¬ (0 = 3 * s.2 a b c - 3) := by omega
          simp [h1, e1, e2, e3]
      · simp only [Writer.cubeCorner, h0, if_false, setAt]
        by_cases h1 : s.2 a b c = 1
        · simp [h1]
        · have e1 : ¬ (1 = 3 * s.2 a b c - 1) := by omega
          have e2 : ¬ (1 = 3 * s.2 a b c - 2) := by omega
          have e3 : ¬ (1 = 3 * s.2 a b c - 3) := by omega
          simp [h1, e1, e2, e3]
      · simp only [Writer.cubeCorner, h0, if_false, setAt]
        by_cases h1 : s.2 a b c = 1
        · simp [h1]
        · have e1 : ¬ (2 = 3 * s.2 a b c - 1) := by omega
          have e2 : ¬ (2 = 3 * s.2 a b c - 2) := by omega
          have e3 : ¬ (2 = 3 * s.2 a b c - 3) := by omega
          simp [h1, e1, e2, e3]
    · exact absurd hz h0

end HullComputation
namespace HullComputation

/-- The states that one triangle of `cubeCase` goes through: after the triangle append and
`getNormal`, and after each of its three corners. -/
theorem Writer.cubeTriangle_states (tbl : CubeTable) (sqrtf : ℚ → ℚ)
    (vals : Nat → Nat → Nat → ℚ) (isColored : Bool) (faces : Nat → Int) (x y z i : Nat)
    (s : Writer × VMap) :
    ∃ c0 c1 c2 c3 : Writer × VMap,
      c0 = ((Writer.getNormal tbl sqrtf
          (Writer.growMesh { s.1 with faceCount := s.1.faceCount + 1 })
          (faces i) (faces (i + 1)) (faces (i + 2))).2, s.2) ∧
      c1 = Writer.cubeCorner vals isColored
          (Writer.getNormal tbl sqrtf s.1 (faces i) (faces (i + 1)) (faces (i + 2))).1
          (tbl.coords (faces (i + 0)) 0 + 2 * x) (tbl.coords (faces (i + 0)) 1 + 2 * y)
          (tbl.coords (faces (i + 0)) 2 + 2 * z) 0 c0 ∧
      c2 = Writer.cubeCorner vals isColored
          (Writer.getNormal tbl sqrtf s.1 (faces i) (faces (i + 1)) (faces (i + 2))).1
          (tbl.coords (faces (i + 1)) 0 + 2 * x) (tbl.coords (faces (i + 1)) 1 + 2 * y)
          (tbl.coords (faces (i + 1)) 2 + 2 * z) 1 c1 ∧
      c3 = Writer.cubeCorner vals isColored
          (Writer.getNormal tbl sqrtf s.1 (faces i) (faces (i + 1)) (faces (i + 2))).1
          (tbl.coords (faces (i + 2)) 0 + 2 * x) (tbl.coords (faces (i + 2)) 1 + 2 * y)
          (tbl.coords (faces (i + 2)) 2 + 2 * z) 2 c2 ∧
      Writer.cubeTriangle tbl sqrtf vals isColored faces x y z i s = c3 := by
  refine ⟨_, _, _, _, rfl, rfl, rfl, rfl, ?_⟩
  have hr : List.range 3 = [0, 1, 2] := rfl
  simp only [Writer.cubeTriangle, hr, List.foldl_cons, List.foldl_nil]
  rfl

end HullComputation
namespace HullComputation

/-- The face normal that `getNormal` returns does not depend on the writer. -/
theorem Writer.getNormal_value (tbl : CubeTable) (sqrtf : ℚ → ℚ) (w w2 : Writer)
    (p0 p1 p2 : Int) :
    (Writer.getNormal tbl sqrtf w p0 p1 p2).1 = (Writer.getNormal tbl sqrtf w2 p0 p1 p2).1 :=
  rfl

/-- The triangle append and `getNormal`, on a summarised state: the face count grows and the
normal of vertex 1 is divided by the length `m` of the face normal. -/
theorem Writer.Track.openFace {s : Writer × VMap} {vc fc : Nat} {vm : VMap}
    {nx ny nz : ℚ} {me : Nat → Nat} (h : Writer.Track s vc fc vm nx ny nz me)
    (tbl : CubeTable) (sqrtf : ℚ → ℚ) (p0 p1 p2 : Int) (n : ℚ × ℚ × ℚ)
    (hn : (Writer.getNormal tbl sqrtf s.1 p0 p1 p2).1 = n)
    (hcap : 3 * (fc + 1) ≤ INTIAL_SIZE) :
    Writer.Track
      ((Writer.getNormal tbl sqrtf (Writer.growMesh { s.1 with faceCount := s.1.faceCount + 1 })
        p0 p1 p2).2, s.2) vc (fc + 1) vm
      (nx / sqrtf (n.1 * n.1 + n.2.1 * n.2.1 + n.2.2 * n.2.2))
      (ny / sqrtf (n.1 * n.1 + n.2.1 * n.2.1 + n.2.2 * n.2.2))
      (nz / sqrtf (n.1 * n.1 + n.2.1 * n.2.1 + n.2.2 * n.2.2)) me := by
  obtain ⟨t1, t2, t3, t4, t5, t6, t7, t8, t9⟩ := h
  have hno : ¬ ((s.1.faceCount + 1) * 3 > s.1.meshSize) := by rw [t3, t4]; omega
  have hg : Writer.growMesh { s.1 with faceCount := s.1.faceCount + 1 }
      = { s.1 with faceCount := s.1.faceCount + 1 } := by
    simp only [Writer.growMesh]
    exact if_neg hno
  rw [hg]
  have hn2 : (Writer.getNormal tbl sqrtf { s.1 with faceCount := s.1.faceCount + 1 }
      p0 p1 p2).1 = n := hn
  refine ⟨t1, t2, by show s.1.faceCount + 1 = fc + 1; rw [t3], t4, t5, t6, ?_, ?_, ?_⟩
  · rw [← hn2, ← t7]; simp [Writer.getNormal, setAt]
  · rw [← hn2, ← t8]; simp [Writer.getNormal, setAt]
  · rw [← hn2, ← t9]; simp [Writer.getNormal, setAt]

/-- A corner that becomes the first vertex. -/
theorem Writer.Track.corner_first {s : Writer × VMap} {fc : Nat} {vm : VMap}
    {nx ny nz : ℚ} {me : Nat → Nat} (h : Writer.Track s 0 fc vm nx ny nz me)
    (vals : Nat → Nat → Nat → ℚ) (isColored : Bool) (n0 n : ℚ × ℚ × ℚ)
    (a0 b0 c0 a b c j : Nat) (en : n0 = n) (ea : a0 = a) (eb : b0 = b) (ec : c0 = c)
    (h0 : vm a b c = 0) :
    Writer.Track (Writer.cubeCorner vals isColored n0 a0 b0 c0 j s) 1 fc (vm.set a b c 1)
      (nx + n.1) (ny + n.2.1) (nz + n.2.2) (setAt me (3 * fc - 3 + j) 1) := by
  subst en ea eb ec
  obtain ⟨t1, t2, t3, t4, t5, t6, t7, t8, t9⟩ := h
  obtain ⟨k1, k2, k3, k4, k5, k6, k7, k8, k9⟩ :=
    Writer.cubeCorner_track vals isColored n0 a0 b0 c0 j s (by rw [t1, t2]; decide)
  rw [t5, h0, t1] at k1 k2 k6 k7 k8 k9
  simp only [if_true, zero_add] at k1 k2 k6 k7 k8 k9
  exact ⟨k2, k3.trans t2, k4.trans t3, k5.trans t4, k1, by rw [k6, t6, t3],
    by rw [k7, t7], by rw [k8, t8], by rw [k9, t9]⟩

/-- A corner that becomes a new vertex other than the first. -/
theorem Writer.Track.corner_new {s : Writer × VMap} {vc fc : Nat} {vm : VMap}
    {nx ny nz : ℚ} {me : Nat → Nat} (h : Writer.Track s vc fc vm nx ny nz me)
    (vals : Nat → Nat → Nat → ℚ) (isColored : Bool) (n0 : ℚ × ℚ × ℚ)
    (a0 b0 c0 a b c j : Nat) (ea : a0 = a) (eb : b0 = b) (ec : c0 = c)
    (h0 : vm a b c = 0) (hvc : 1 ≤ vc) (hcap : 3 * (vc + 1) ≤ INTIAL_SIZE) :
    Writer.Track (Writer.cubeCorner vals isColored n0 a0 b0 c0 j s) (vc + 1) fc
      (vm.set a b c (vc + 1)) nx ny nz (setAt me (3 * fc - 3 + j) (vc + 1)) := by
  subst ea eb ec
  obtain ⟨t1, t2, t3, t4, t5, t6, t7, t8, t9⟩ := h
  obtain ⟨k1, k2, k3, k4, k5, k6, k7, k8, k9⟩ :=
    Writer.cubeCorner_track vals isColored n0 a0 b0 c0 j s (by rw [t1, t2]; exact hcap)
  rw [t5, h0, t1] at k1 k2 k6 k7 k8 k9
  have hne : ¬ (vc + 1 = 1) := by omega
  simp only [if_true, if_neg hne] at k1 k2 k6 k7 k8 k9
  exact ⟨k2, k3.trans t2, k4.trans t3, k5.trans t4, k1, by rw [k6, t6, t3],
    by rw [k7, t7], by rw [k8, t8], by rw [k9, t9]⟩

/-- A corner welded to vertex 1: the face normal is added to the normal of vertex 1. -/
theorem Writer.Track.corner_one {s : Writer × VMap} {vc fc : Nat} {vm : VMap}
    {nx ny nz : ℚ} {me : Nat → Nat} (h : Writer.Track s vc fc vm nx ny nz me)
    (vals : Nat → Nat → Nat → ℚ) (isColored : Bool) (n0 n : ℚ × ℚ × ℚ)
    (a0 b0 c0 a b c j : Nat) (en : n0 = n) (ea : a0 = a) (eb : b0 = b) (ec : c0 = c)
    (h1 : vm a b c = 1) (hcap : 3 * (vc + 1) ≤ INTIAL_SIZE) :
    Writer.Track (Writer.cubeCorner vals isColored n0 a0 b0 c0 j s) vc fc vm
      (nx + n.1) (ny + n.2.1) (nz + n.2.2) (setAt me (3 * fc - 3 + j) 1) := by
  subst en ea eb ec
  obtain ⟨t1, t2, t3, t4, t5, t6, t7, t8, t9⟩ := h
  obtain ⟨k1, k2, k3, k4, k5, k6, k7, k8, k9⟩ :=
    Writer.cubeCorner_track vals isColored n0 a0 b0 c0 j s (by rw [t1, t2]; exact hcap)
  rw [t5, h1] at k1 k2 k6 k7 k8 k9
  have hne : ¬ ((1 : Nat) = 0) := by decide
  simp only [if_true, if_neg hne] at k1 k2 k6 k7 k8 k9
  exact ⟨k2.trans t1, k3.trans t2, k4.trans t3, k5.trans t4, k1, by rw [k6, t6, t3],
    by rw [k7, t7], by rw [k8, t8], by rw [k9, t9]⟩

/-- A corner welded to a vertex other than vertex 1. -/
theorem Writer.Track.corner_old {s : Writer × VMap} {vc fc : Nat} {vm : VMap}
    {nx ny nz : ℚ} {me : Nat → Nat} (h : Writer.Track s vc fc vm nx ny nz me)
    (vals : Nat → Nat → Nat → ℚ) (isColored : Bool) (n0 : ℚ × ℚ × ℚ)
    (a0 b0 c0 a b c j v : Nat) (ea : a0 = a) (eb : b0 = b) (ec : c0 = c)
    (hv : vm a b c = v) (h2 : 2 ≤ v) (hcap : 3 * (vc + 1) ≤ INTIAL_SIZE) :
    Writer.Track (Writer.cubeCorner vals isColored n0 a0 b0 c0 j s) vc fc vm nx ny nz
      (setAt me (3 * fc - 3 + j) v) := by
  subst ea eb ec
  obtain ⟨t1, t2, t3, t4, t5, t6, t7, t8, t9⟩ := h
  obtain ⟨k1, k2, k3, k4, k5, k6, k7, k8, k9⟩ :=
    Writer.cubeCorner_track vals isColored n0 a0 b0 c0 j s (by rw [t1, t2]; exact hcap)
  rw [t5, hv] at k1 k2 k6 k7 k8 k9
  have hne : ¬ (v = 0) := by omega
  have hne1 : ¬ (v = 1) := by omega
  simp only [if_neg hne, if_neg hne1] at k1 k2 k6 k7 k8 k9
  exact ⟨k2.trans t1, k3.trans t2, k4.trans t3, k5.trans t4, k1, by rw [k6, t6, t3],
    by rw [k7, t7], by rw [k8, t8], by rw [k9, t9]⟩

end HullComputation
namespace HullComputation

/-- `normalizeNormals` after `n` vertices: the three normal slots of each of them hold their
former content divided by `sqrtf` of its sum of squares. -/
theorem Writer.normalizeNormals_aux (sqrtf : ℚ → ℚ) (w : Writer) (n : Nat) :
    ∀ k, ((List.range n).foldl
        (fun w v =>
          let i := 3 * v
          let m := w.normals i * w.normals i
          let m := m + w.normals (i + 1) * w.normals (i + 1)
          let m := m + w.normals (i + 2) * w.normals (i + 2)
          let m := sqrtf m
          let w := { w with normals := setAt w.normals i (w.normals i / m) }
          let w := { w with normals := setAt w.normals (i + 1) (w.normals (i + 1) / m) }
          { w with normals := setAt w.normals (i + 2) (w.normals (i + 2) / m) })
        w).normals k =
      if k < 3 * n then
        w.normals k / sqrtf (w.normals (3 * (k / 3)) * w.normals (3 * (k / 3))
          + w.normals (3 * (k / 3) + 1) * w.normals (3 * (k / 3) + 1)
          + w.normals (3 * (k / 3) + 2) * w.normals (3 * (k / 3) + 2))
      else w.normals k := by
  induction n with
  | zero => intro k; simp
  | succ n ih =>
    intro k
    rw [List.range_succ, List.foldl_append]
    obtain ⟨r, hr⟩ : ∃ r : Writer, r = (List.range n).foldl
        (fun w v =>
          let i := 3 * v
          let m := w.normals i * w.normals i
          let m := m + w.normals (i + 1) * w.normals (i + 1)
          let m := m + w.normals (i + 2) * w.normals (i + 2)
          let m := sqrtf m
          let w := { w with normals := setAt w.normals i (w.normals i / m) }
          let w := { w with normals := setAt w.normals (i + 1) (w.normals (i + 1) / m) }
          { w with normals := setAt w.normals (i + 2) (w.normals (i + 2) / m) })
        w := ⟨_, rfl⟩
    rw [← hr] at ih ⊢
    simp only [List.foldl_cons, List.foldl_nil, setAt]
    have i0 := ih (3 * n)
    have i1 := ih (3 * n + 1)
    have i2 := ih (3 * n + 2)
    rw [if_neg (by omega)] at i0 i1 i2
    rw [i0, i1, i2, ih k]
    by_cases h2 : k = 3 * n + 2
    · subst h2
      have e : 3 * ((3 * n + 2) / 3) = 3 * n := by omega
      have e1 : ¬ (3 * n + 2 = 3 * n + 1) := by omega
      have e2 : ¬ (3 * n + 2 = 3 * n) := by omega
      have e3 : ¬ (3 * n + 2 < 3 * n) := by omega
      have e4 : 3 * n + 2 < 3 * (n + 1) := by omega
      simp only [e, e1, e2, e3, e4, if_true, if_false]
    · by_cases h1 : k = 3 * n + 1
      · subst h1
        have e : 3 * ((3 * n + 1) / 3) = 3 * n := by omega
        have e1 : ¬ (3 * n + 1 = 3 * n + 2) := by omega
        have e2 : ¬ (3 * n + 1 = 3 * n) := by omega
        have e3 : ¬ (3 * n + 1 < 3 * n) := by omega
        have e4 : 3 * n + 1 < 3 * (n + 1) := by omega
        simp only [e, e1, e2, e3, e4, if_true, if_false]
      · by_cases h0 : k = 3 * n
        · subst h0
          have e : 3 * ((3 * n) / 3) = 3 * n := by omega
          have e1 : ¬ (3 * n = 3 * n + 2) := by omega
          have e2 : ¬ (3 * n = 3 * n + 1) := by omega
          have e3 : ¬ (3 * n < 3 * n) := by omega
          have e4 : 3 * n < 3 * (n + 1) := by omega
          simp only [e, e1, e2, e3, e4, if_true, if_false]
        · simp only [h2, h1, h0, if_false]
          by_cases hlt : k < 3 * n
          · have e4 : k < 3 * (n + 1) := by omega
            simp only [hlt, e4, if_true]
          · have e4 : ¬ k < 3 * (n + 1) := by omega
            simp only [hlt, e4, if_false]

/-- What `marchingCubes` stores as the normal of vertex 1, if there is one: the normal that the
marching loops leave in `normals[0..2]`, divided by `sqrtf` of its sum of squares. -/
theorem Writer.finish_first_normal (sqrtf : ℚ → ℚ) (w : Writer) (W H D : Nat)
    (h : 1 ≤ w.vertexCount) (k : Nat) (hk : k < 3) :
    ((w.normalizeNormals sqrtf).scaleCoords W H D).normals k =
      w.normals k / sqrtf (w.normals 0 * w.normals 0 + w.normals 1 * w.normals 1
        + w.normals 2 * w.normals 2) := by
  have hs : ∀ u : Writer, (u.scaleCoords W H D).normals = u.normals := by
    intro u
    refine foldl_inv (fun r : Writer => r.normals = u.normals) _ ?_ _ _ rfl
    intro r v hr
    exact hr
  rw [hs]
  have := Writer.normalizeNormals_aux sqrtf w w.vertexCount k
  simp only [Writer.normalizeNormals]
  rw [this, if_pos (by omega)]
  have e : 3 * (k / 3) = 0 := by omega
  rw [e]

end HullComputation
namespace HullComputation

theorem pairCubes_cases :
    Writer.cubeCases pairCubes 0 0 0 = 64 ∧ Writer.cubeCases pairCubes 0 0 1 = 32 := by
  constructor <;> norm_num [Writer.cubeCases, aboveEpsilon, pairCubes, EPSILON]

/-- The two face normals of the run on `pairCubes`. -/
theorem cornerCubeTable_normals (sqrtf : ℚ → ℚ) (w : Writer) :
    (Writer.getNormal cornerCubeTable sqrtf w 10 6 5).1 = (-1, -1, -1) ∧
    (Writer.getNormal cornerCubeTable sqrtf w 9 5 4).1 = (-1, -1, 1) := by
  have c0 : cornerCubeTable.coords 10 0 = 2 := by decide
  have c1 : cornerCubeTable.coords 10 1 = 1 := by decide
  have c2 : cornerCubeTable.coords 10 2 = 2 := by decide
  have c3 : cornerCubeTable.coords 6 0 = 1 := by decide
  have c4 : cornerCubeTable.coords 6 1 = 2 := by decide
  have c5 : cornerCubeTable.coords 6 2 = 2 := by decide
  have c6 : cornerCubeTable.coords 5 0 = 2 := by decide
  have c7 : cornerCubeTable.coords 5 1 = 2 := by decide
  have c8 : cornerCubeTable.coords 5 2 = 1 := by decide
  have d0 : cornerCubeTable.coords 9 0 = 2 := by decide
  have d1 : cornerCubeTable.coords 9 1 = 1 := by decide
  have d2 : cornerCubeTable.coords 9 2 = 0 := by decide
  have d3 : cornerCubeTable.coords 4 0 = 1 := by decide
  have d4 : cornerCubeTable.coords 4 1 = 2 := by decide
  have d5 : cornerCubeTable.coords 4 2 = 0 := by decide
  constructor
  · simp only [Writer.getNormal, c0, c1, c2, c3, c4, c5, c6, c7, c8]
    norm_num
  · simp only [Writer.getNormal, c6, c7, c8, d0, d1, d2, d3, d4, d5]
    norm_num

theorem Writer.pairCubes_unfold (sqrtf : ℚ → ℚ) (w : Writer) :
    Writer.marchingCubesCore cornerCubeTable sqrtf w pairCubes true =
      Writer.cubeCase cornerCubeTable sqrtf (Writer.cubeCases pairCubes)
        (fun x y z => Writer.cubeRefined pairCubes z y x) 0 0 1 true
        (Writer.cubeCase cornerCubeTable sqrtf (Writer.cubeCases pairCubes)
          (fun x y z => Writer.cubeRefined pairCubes z y x) 0 0 0 true
          (w, Writer.createVertexMap)) := by
  have hd1 : List.range (pairCubes.n2 - 1) = [0] := rfl
  have hd2 : List.range (pairCubes.n1 - 1) = [0] := rfl
  have hd3 : List.range (pairCubes.n0 - 1) = [0, 1] := rfl
  simp only [Writer.marchingCubesCore, hd1, hd2, hd3, List.foldl_cons, List.foldl_nil]

/-- A cell whose table row holds exactly one triangle. -/
theorem Writer.cubeCase_single (tbl : CubeTable) (sqrtf : ℚ → ℚ)
    (cases : Nat → Nat → Nat → Nat) (vals : Nat → Nat → Nat → ℚ) (x y z : Nat)
    (isColored : Bool) (st : Writer × VMap) (h0 : tbl.lookup (cases x y z) 0 ≠ -1)
    (h3 : tbl.lookup (cases x y z) 3 = -1) :
    Writer.cubeCase tbl sqrtf cases vals x y z isColored st =
      Writer.cubeTriangle tbl sqrtf vals isColored (tbl.lookup (cases x y z)) x y z 0 st := by
  simp only [Writer.cubeCase, Writer.cubeLoop, if_neg h0, if_pos h3]

/-- The marching loops on `pairCubes` with the table `cornerCubeTable`, from a freshly
constructed writer: two triangles, four vertices, vertex 1 is the first corner of both
triangles, and `normals[0..2]` holds the first face normal divided by the length of the
second, plus the second face normal. -/
theorem Writer.pairCubes_core (sqrtf : ℚ → ℚ) :
    Writer.Track
      (Writer.marchingCubesCore cornerCubeTable sqrtf Writer.init.resetCounts pairCubes true)
      4 2
      ((((Writer.createVertexMap.set 2 1 2 1).set 1 2 2 2).set 2 2 1 3).set 2 2 3 4)
      ((0 / sqrtf ((-1) * (-1) + (-1) * (-1) + (-1) * (-1)) + (-1))
        / sqrtf ((-1) * (-1) + (-1) * (-1) + 1 * 1) + (-1))
      ((0 / sqrtf ((-1) * (-1) + (-1) * (-1) + (-1) * (-1)) + (-1))
        / sqrtf ((-1) * (-1) + (-1) * (-1) + 1 * 1) + (-1))
      ((0 / sqrtf ((-1) * (-1) + (-1) * (-1) + (-1) * (-1)) + (-1))
        / sqrtf ((-1) * (-1) + (-1) * (-1) + 1 * 1) + 1)
      (setAt (setAt (setAt (setAt (setAt (setAt (fun _ => 0) 0 1) 1 2) 2 3) 3 1) 4 4) 5 2) := by
  have hn := cornerCubeTable_normals sqrtf
  have hc := pairCubes_cases
  have r0 : ¬ (cornerCubeTable.lookup 64 0 = -1) := by decide
  have r3 : cornerCubeTable.lookup 64 3 = -1 := by decide
  have q0 : ¬ (cornerCubeTable.lookup 32 0 = -1) := by decide
  have q3 : cornerCubeTable.lookup 32 3 = -1 := by decide
  have f0 : cornerCubeTable.lookup 64 0 = 10 := by decide
  have f1 : cornerCubeTable.lookup 64 (0 + 1) = 6 := by decide
  have f2 : cornerCubeTable.lookup 64 (0 + 2) = 5 := by decide
  have g0 : cornerCubeTable.lookup 32 0 = 9 := by decide
  have g1 : cornerCubeTable.lookup 32 (0 + 1) = 5 := by decide
  have g2 : cornerCubeTable.lookup 32 (0 + 2) = 4 := by decide
  have hn1 : ∀ w : Writer, (Writer.getNormal cornerCubeTable sqrtf w
      (cornerCubeTable.lookup 64 0) (cornerCubeTable.lookup 64 (0 + 1))
      (cornerCubeTable.lookup 64 (0 + 2))).1 = (-1, -1, -1) := by
    intro w
    rw [f0, f1, f2]
    exact (hn w).1
  have hn2 : ∀ w : Writer, (Writer.getNormal cornerCubeTable sqrtf w
      (cornerCubeTable.lookup 32 0) (cornerCubeTable.lookup 32 (0 + 1))
      (cornerCubeTable.lookup 32 (0 + 2))).1 = (-1, -1, 1) := by
    intro w
    rw [g0, g1, g2]
    exact (hn w).2
  obtain ⟨a0s, a1s, a2s, a3s, ea0, ea1, ea2, ea3, eT1⟩ :=
    Writer.cubeTriangle_states cornerCubeTable sqrtf
      (fun x y z => Writer.cubeRefined pairCubes z y x) true (cornerCubeTable.lookup 64)
      0 0 0 0 (Writer.init.resetCounts, Writer.createVertexMap)
  obtain ⟨b0s, b1s, b2s, b3s, eb0, eb1, eb2, eb3, eT2⟩ :=
    Writer.cubeTriangle_states cornerCubeTable sqrtf
      (fun x y z => Writer.cubeRefined pairCubes z y x) true (cornerCubeTable.lookup 32)
      0 0 1 0 a3s
  have hcore : Writer.marchingCubesCore cornerCubeTable sqrtf Writer.init.resetCounts pairCubes
      true = b3s := by
    rw [Writer.pairCubes_unfold,
      Writer.cubeCase_single _ _ _ _ 0 0 1 _ _ (by rw [hc.2]; exact q0) (by rw [hc.2]; exact q3),
      Writer.cubeCase_single _ _ _ _ 0 0 0 _ _ (by rw [hc.1]; exact r0) (by rw [hc.1]; exact r3),
      hc.1, hc.2, eT1, eT2]
  have t0 : Writer.Track (Writer.init.resetCounts, Writer.createVertexMap) 0 0
      Writer.createVertexMap 0 0 0 (fun _ => 0) :=
    ⟨rfl, rfl, rfl, rfl, rfl, rfl, rfl, rfl, rfl⟩
  have a0 : Writer.Track a0s 0 1 Writer.createVertexMap
      (0 / sqrtf ((-1) * (-1) + (-1) * (-1) + (-1) * (-1)))
      (0 / sqrtf ((-1) * (-1) + (-1) * (-1) + (-1) * (-1)))
      (0 / sqrtf ((-1) * (-1) + (-1) * (-1) + (-1) * (-1))) (fun _ => 0) := by
    rw [ea0]
    exact t0.openFace cornerCubeTable sqrtf _ _ _ (-1, -1, -1) (hn1 _) (by decide)
  have a1 : Writer.Track a1s 1 1 (Writer.createVertexMap.set 2 1 2 1)
      (0 / sqrtf ((-1) * (-1) + (-1) * (-1) + (-1) * (-1)) + (-1))
      (0 / sqrtf ((-1) * (-1) + (-1) * (-1) + (-1) * (-1)) + (-1))
      (0 / sqrtf ((-1) * (-1) + (-1) * (-1) + (-1) * (-1)) + (-1))
      (setAt (fun _ => 0) 0 1) := by
    rw [ea1]
    exact a0.corner_first _ true _ (-1, -1, -1) _ _ _ 2 1 2 0 (hn1 _) (by decide) (by decide)
      (by decide) (by decide)
  have a2 : Writer.Track a2s 2 1 ((Writer.createVertexMap.set 2 1 2 1).set 1 2 2 2)
      (0 / sqrtf ((-1) * (-1) + (-1) * (-1) + (-1) * (-1)) + (-1))
      (0 / sqrtf ((-1) * (-1) + (-1) * (-1) + (-1) * (-1)) + (-1))
      (0 / sqrtf ((-1) * (-1) + (-1) * (-1) + (-1) * (-1)) + (-1))
      (setAt (setAt (fun _ => 0) 0 1) 1 2) := by
    rw [ea2]
    exact a1.corner_new _ true _ _ _ _ 1 2 2 1 (by decide) (by decide) (by decide) (by decide)
      (by decide) (by decide)
  have a3 : Writer.Track a3s 3 1
      (((Writer.createVertexMap.set 2 1 2 1).set 1 2 2 2).set 2 2 1 3)
      (0 / sqrtf ((-1) * (-1) + (-1) * (-1) + (-1) * (-1)) + (-1))
      (0 / sqrtf ((-1) * (-1) + (-1) * (-1) + (-1) * (-1)) + (-1))
      (0 / sqrtf ((-1) * (-1) + (-1) * (-1) + (-1) * (-1)) + (-1))
      (setAt (setAt (setAt (fun _ => 0) 0 1) 1 2) 2 3) := by
    rw [ea3]
    exact a2.corner_new _ true _ _ _ _ 2 2 1 2 (by decide) (by decide) (by decide) (by decide)
      (by decide) (by decide)
  have b0 : Writer.Track b0s 3 2
      (((Writer.createVertexMap.set 2 1 2 1).set 1 2 2 2).set 2 2 1 3)
      ((0 / sqrtf ((-1) * (-1) + (-1) * (-1) + (-1) * (-1)) + (-1))
        / sqrtf ((-1) * (-1) + (-1) * (-1) + 1 * 1))
      ((0 / sqrtf ((-1) * (-1) + (-1) * (-1) + (-1) * (-1)) + (-1))
        / sqrtf ((-1) * (-1) + (-1) * (-1) + 1 * 1))
      ((0 / sqrtf ((-1) * (-1) + (-1) * (-1) + (-1) * (-1)) + (-1))
        / sqrtf ((-1) * (-1) + (-1) * (-1) + 1 * 1))
      (setAt (setAt (setAt (fun _ => 0) 0 1) 1 2) 2 3) := by
    rw [eb0]
    exact a3.openFace cornerCubeTable sqrtf _ _ _ (-1, -1, 1) (hn2 _) (by decide)
  have b1 : Writer.Track b1s 3 2
      (((Writer.createVertexMap.set 2 1 2 1).set 1 2 2 2).set 2 2 1 3)
      ((0 / sqrtf ((-1) * (-1) + (-1) * (-1) + (-1) * (-1)) + (-1))
        / sqrtf ((-1) * (-1) + (-1) * (-1) + 1 * 1) + (-1))
      ((0 / sqrtf ((-1) * (-1) + (-1) * (-1) + (-1) * (-1)) + (-1))
        / sqrtf ((-1) * (-1) + (-1) * (-1) + 1 * 1) + (-1))
      ((0 / sqrtf ((-1) * (-1) + (-1) * (-1) + (-1) * (-1)) + (-1))
        / sqrtf ((-1) * (-1) + (-1) * (-1) + 1 * 1) + 1)
      (setAt (setAt (setAt (setAt (fun _ => 0) 0 1) 1 2) 2 3) 3 1) := by
    rw [eb1]
    exact b0.corner_one _ true _ (-1, -1, 1) _ _ _ 2 1 2 0 (hn2 _) (by decide) (by decide)
      (by decide) (by decide) (by decide)
  have b2 : Writer.Track b2s 4 2
      ((((Writer.createVertexMap.set 2 1 2 1).set 1 2 2 2).set 2 2 1 3).set 2 2 3 4)
      ((0 / sqrtf ((-1) * (-1) + (-1) * (-1) + (-1) * (-1)) + (-1))
        / sqrtf ((-1) * (-1) + (-1) * (-1) + 1 * 1) + (-1))
      ((0 / sqrtf ((-1) * (-1) + (-1) * (-1) + (-1) * (-1)) + (-1))
        / sqrtf ((-1) * (-1) + (-1) * (-1) + 1 * 1) + (-1))
      ((0 / sqrtf ((-1) * (-1) + (-1) * (-1) + (-1) * (-1)) + (-1))
        / sqrtf ((-1) * (-1) + (-1) * (-1) + 1 * 1) + 1)
      (setAt (setAt (setAt (setAt (setAt (fun _ => 0) 0 1) 1 2) 2 3) 3 1) 4 4) := by
    rw [eb2]
    exact b1.corner_new _ true _ _ _ _ 2 2 3 1 (by decide) (by decide) (by decide) (by decide)
      (by decide) (by decide)
  have b3 : Writer.Track b3s 4 2
      ((((Writer.createVertexMap.set 2 1 2 1).set 1 2 2 2).set 2 2 1 3).set 2 2 3 4)
      ((0 / sqrtf ((-1) * (-1) + (-1) * (-1) + (-1) * (-1)) + (-1))
        / sqrtf ((-1) * (-1) + (-1) * (-1) + 1 * 1) + (-1))
      ((0 / sqrtf ((-1) * (-1) + (-1) * (-1) + (-1) * (-1)) + (-1))
        / sqrtf ((-1) * (-1) + (-1) * (-1) + 1 * 1) + (-1))
      ((0 / sqrtf ((-1) * (-1) + (-1) * (-1) + (-1) * (-1)) + (-1))
        / sqrtf ((-1) * (-1) + (-1) * (-1) + 1 * 1) + 1)
      (setAt (setAt (setAt (setAt (setAt (setAt (fun _ => 0) 0 1) 1 2) 2 3) 3 1) 4 4) 5 2) := by
    rw [eb3]
    exact b2.corner_old _ true _ _ _ _ 1 2 2 2 2 (by decide) (by decide) (by decide) (by decide)
      (by decide) (by decide)
  rw [hcore]
  exact b3

end HullComputation
namespace HullComputation

/-- C20 (the first vertex of a 3D extraction, evaluated): with a table whose case rows 32 and
64 are the usual single triangles, for any `sqrtf` that is positive on positive numbers and
has `sqrtf 3 ≠ 1`, `marchingCubes` on `pairCubes` from a freshly constructed writer emits 2
triangles and 4 vertices; vertex 1 is the first corner of both triangles and of no other
corner; the face normals are (-1, -1, -1) and (-1, -1, 1), whose sum (-2, -2, 0) has third
component 0; and the third component stored for vertex 1 is not that of the sum divided by
its length: `getNormal` has divided `normals[0..2]` by the length of the second face normal
before the second face normal was added. -/
theorem C20_first_vertex_normal (sqrtf : ℚ → ℚ) (hs : ∀ q : ℚ, 0 < q → 0 < sqrtf q)
    (h3 : sqrtf 3 ≠ 1) :
    (Writer.marchingCubes cornerCubeTable sqrtf Writer.init.resetCounts pairCubes
      true).vertexCount = 4 ∧
    (Writer.marchingCubes cornerCubeTable sqrtf Writer.init.resetCounts pairCubes
      true).faceCount = 2 ∧
    ((Writer.marchingCubes cornerCubeTable sqrtf Writer.init.resetCounts pairCubes
        true).mesh 0 = 1 ∧
      (Writer.marchingCubes cornerCubeTable sqrtf Writer.init.resetCounts pairCubes
        true).mesh 1 = 2 ∧
      (Writer.marchingCubes cornerCubeTable sqrtf Writer.init.resetCounts pairCubes
        true).mesh 2 = 3 ∧
      (Writer.marchingCubes cornerCubeTable sqrtf Writer.init.resetCounts pairCubes
        true).mesh 3 = 1 ∧
      (Writer.marchingCubes cornerCubeTable sqrtf Writer.init.resetCounts pairCubes
        true).mesh 4 = 4 ∧
      (Writer.marchingCubes cornerCubeTable sqrtf Writer.init.resetCounts pairCubes
        true).mesh 5 = 2) ∧
    (Writer.getNormal cornerCubeTable sqrtf Writer.init 10 6 5).1 = (-1, -1, -1) ∧
    (Writer.getNormal cornerCubeTable sqrtf Writer.init 9 5 4).1 = (-1, -1, 1) ∧
    (Writer.marchingCubes cornerCubeTable sqrtf Writer.init.resetCounts pairCubes
      true).normals 2 ≠
      ((-1 : ℚ) + 1) / sqrtf (((-1) + (-1)) * ((-1) + (-1)) + ((-1) + (-1)) * ((-1) + (-1))
        + ((-1) + 1) * ((-1) + 1)) := by
  obtain ⟨t1, _, t3, _, _, t6, t7, t8, t9⟩ := Writer.pairCubes_core sqrtf
  obtain ⟨fv, fm, ff, _⟩ := Writer.finish_spec sqrtf
    (Writer.marchingCubesCore cornerCubeTable sqrtf Writer.init.resetCounts pairCubes true).1
    pairCubes.n2 pairCubes.n1 pairCubes.n0
  have hnorm := Writer.finish_first_normal sqrtf
    (Writer.marchingCubesCore cornerCubeTable sqrtf Writer.init.resetCounts pairCubes true).1
    pairCubes.n2 pairCubes.n1 pairCubes.n0 (by rw [t1]; decide) 2 (by decide)
  have em : (Writer.marchingCubes cornerCubeTable sqrtf Writer.init.resetCounts pairCubes
      true).mesh = _ := fm.trans t6
  have en : (Writer.marchingCubes cornerCubeTable sqrtf Writer.init.resetCounts pairCubes
      true).normals 2 = _ := hnorm
  refine ⟨fv.trans t1, ff.trans t3, ?_, (cornerCubeTable_normals sqrtf _).1,
    (cornerCubeTable_normals sqrtf _).2, ?_⟩
  · rw [em]
    exact ⟨rfl, rfl, rfl, rfl, rfl, rfl⟩
  · rw [en, t7, t8, t9]
    have e1 : ((-1 : ℚ)) * (-1) + (-1) * (-1) + (-1) * (-1) = 3 := by norm_num
    have e2 : ((-1 : ℚ)) * (-1) + (-1) * (-1) + 1 * 1 = 3 := by norm_num
    rw [e1, e2]
    have hpos : 0 < sqrtf 3 := hs 3 (by norm_num)
    have hinv : 0 < (sqrtf 3)⁻¹ := inv_pos.mpr hpos
    have hA : (0 / sqrtf 3 + -1) / sqrtf 3 + -1 = -((sqrtf 3)⁻¹ + 1) := by
      rw [zero_div, zero_add, div_eq_mul_inv]; ring
    have hB : (0 / sqrtf 3 + -1) / sqrtf 3 + 1 = 1 - (sqrtf 3)⁻¹ := by
      rw [zero_div, zero_add, div_eq_mul_inv]; ring
    rw [hA, hB]
    have hBne : 1 - (sqrtf 3)⁻¹ ≠ 0 := by
      intro h
      have h1 : (sqrtf 3)⁻¹ = 1 := by linarith
      have h2 : sqrtf 3 = 1 := by
        have := inv_inv (sqrtf 3)
        rw [h1, inv_one] at this
        exact this.symm
      exact h3 h2
    have hsum : 0 < -((sqrtf 3)⁻¹ + 1) * -((sqrtf 3)⁻¹ + 1)
        + -((sqrtf 3)⁻¹ + 1) * -((sqrtf 3)⁻¹ + 1)
        + (1 - (sqrtf 3)⁻¹) * (1 - (sqrtf 3)⁻¹) := by nlinarith [mul_self_nonneg (1 - (sqrtf 3)⁻¹)]
    have hlen := hs _ hsum
    have hlhs : (1 - (sqrtf 3)⁻¹) / sqrtf (-((sqrtf 3)⁻¹ + 1) * -((sqrtf 3)⁻¹ + 1)
        + -((sqrtf 3)⁻¹ + 1) * -((sqrtf 3)⁻¹ + 1)
        + (1 - (sqrtf 3)⁻¹) * (1 - (sqrtf 3)⁻¹)) ≠ 0 := div_ne_zero hBne hlen.ne'
    have hrhs : ((-1 : ℚ) + 1) / sqrtf (((-1) + (-1)) * ((-1) + (-1))
        + ((-1) + (-1)) * ((-1) + (-1)) + ((-1) + 1) * ((-1) + 1)) = 0 := by
      have : ((-1 : ℚ) + 1) = 0 := by norm_num
      rw [this, zero_div]
    rw [hrhs]
    exact hlhs

/-- C20 (witness): the identity in the place of `sqrtf`. -/
theorem C20_first_vertex_normal_witness :
    (Writer.marchingCubes cornerCubeTable (fun q => q) Writer.init.resetCounts pairCubes
      true).vertexCount = 4 ∧
    (Writer.marchingCubes cornerCubeTable (fun q => q) Writer.init.resetCounts pairCubes
      true).faceCount = 2 :=
  ⟨(C20_first_vertex_normal (fun q => q) (fun _ h => h) (by norm_num)).1,
   (C20_first_vertex_normal (fun q => q) (fun _ h => h) (by norm_num)).2.1⟩

end HullComputation
namespace HullComputation

/-! ## The refined value grids -/

theorem Writer.squareRefinedGrid_dims (M : Arr2) :
    (Writer.squareRefinedGrid M).n0 = M.n0 * 2 - 1 ∧
    (Writer.squareRefinedGrid M).n1 = M.n1 * 2 - 1 := ⟨rfl, rfl⟩

theorem Writer.cubeRefinedGrid_dims (M : Arr3) :
    (Writer.cubeRefinedGrid M).n0 = M.n0 * 2 - 1 ∧
    (Writer.cubeRefinedGrid M).n1 = M.n1 * 2 - 1 ∧
    (Writer.cubeRefinedGrid M).n2 = M.n2 * 2 - 1 := ⟨rfl, rfl, rfl⟩

theorem Writer.squareRefined_cases (M : Arr2) (a b : Nat) (ha : a < M.n0 * 2 - 1)
    (hb : b < M.n1 * 2 - 1) :
    (a % 2 = 0 → b % 2 = 0 → Writer.squareRefined M a b = M.val (a / 2) (b / 2)) ∧
    (a % 2 = 1 → b % 2 = 0 → Writer.squareRefined M a b
      = max (M.val (a / 2) (b / 2)) (M.val (a / 2 + 1) (b / 2))) ∧
    (a % 2 = 0 → b % 2 = 1 → Writer.squareRefined M a b
      = max (M.val (a / 2) (b / 2)) (M.val (a / 2) (b / 2 + 1))) ∧
    (a % 2 = 1 → b % 2 = 1 → Writer.squareRefined M a b = 0) := by
  simp only [Writer.squareRefined, Writer.squareRefinedGrid, Arr2.assignStrided, Arr2.maxOf,
    Arr2.slice, Arr2.constant, Nat.zero_le, Nat.sub_zero, true_and, Nat.zero_add]
  refine ⟨?_, ?_, ?_, ?_⟩
  · intro pa pb
    have e1 : ¬ ((a % 2 = 0 ∧ a / 2 < M.n0) ∧ 1 ≤ b ∧ (b - 1) % 2 = 0 ∧ (b - 1) / 2 < M.n1 - 1) := by
      omega
    have e2 : ¬ ((1 ≤ a ∧ (a - 1) % 2 = 0 ∧ (a - 1) / 2 < M.n0 - 1) ∧ b % 2 = 0 ∧ b / 2 < M.n1) := by
      omega
    have e3 : (a % 2 = 0 ∧ a / 2 < M.n0) ∧ b % 2 = 0 ∧ b / 2 < M.n1 := by omega
    rw [if_neg e1, if_neg e2, if_pos e3]
  · intro pa pb
    have e1 : ¬ ((a % 2 = 0 ∧ a / 2 < M.n0) ∧ 1 ≤ b ∧ (b - 1) % 2 = 0 ∧ (b - 1) / 2 < M.n1 - 1) := by
      omega
    have e2 : (1 ≤ a ∧ (a - 1) % 2 = 0 ∧ (a - 1) / 2 < M.n0 - 1) ∧ b % 2 = 0 ∧ b / 2 < M.n1 := by
      omega
    have e3 : (a - 1) / 2 = a / 2 := by omega
    have e4 : 1 + a / 2 = a / 2 + 1 := by omega
    rw [if_neg e1, if_pos e2, e3, e4]
  · intro pa pb
    have e1 : (a % 2 = 0 ∧ a / 2 < M.n0) ∧ 1 ≤ b ∧ (b - 1) % 2 = 0 ∧ (b - 1) / 2 < M.n1 - 1 := by
      omega
    have e3 : (b - 1) / 2 = b / 2 := by omega
    have e4 : 1 + b / 2 = b / 2 + 1 := by omega
    rw [if_pos e1, e3, e4]
  · intro pa pb
    have e1 : ¬ ((a % 2 = 0 ∧ a / 2 < M.n0) ∧ 1 ≤ b ∧ (b - 1) % 2 = 0 ∧ (b - 1) / 2 < M.n1 - 1) := by
      omega
    have e2 : ¬ ((1 ≤ a ∧ (a - 1) % 2 = 0 ∧ (a - 1) / 2 < M.n0 - 1) ∧ b % 2 = 0 ∧ b / 2 < M.n1) := by
      omega
    have e3 : ¬ ((a % 2 = 0 ∧ a / 2 < M.n0) ∧ b % 2 = 0 ∧ b / 2 < M.n1) := by omega
    rw [if_neg e1, if_neg e2, if_neg e3]

theorem strided_even (a n : Nat) (ha : a < n * 2 - 1) :
    (a % 2 = 0 ∧ a / 2 < n) ↔ a % 2 = 0 := by omega

theorem strided_odd (a n : Nat) (ha : a < n * 2 - 1) :
    (1 ≤ a ∧ (a - 1) % 2 = 0 ∧ (a - 1) / 2 < n - 1) ↔ a % 2 = 1 := by omega

theorem strided_half (a : Nat) (ha : a % 2 = 1) : (a - 1) / 2 = a / 2 := by omega

theorem Writer.cubeRefined_cases (M : Arr3) (a b c : Nat) (ha : a < M.n0 * 2 - 1)
    (hb : b < M.n1 * 2 - 1) (hc : c < M.n2 * 2 - 1) :
    (a % 2 = 0 → b % 2 = 0 → c % 2 = 0 →
      Writer.cubeRefined M a b c = M.val (a / 2) (b / 2) (c / 2)) ∧
    (a % 2 = 1 → b % 2 = 0 → c % 2 = 0 → Writer.cubeRefined M a b c
      = max (M.val (a / 2) (b / 2) (c / 2)) (M.val (a / 2 + 1) (b / 2) (c / 2))) ∧
    (a % 2 = 0 → b % 2 = 1 → c % 2 = 0 → Writer.cubeRefined M a b c
      = max (M.val (a / 2) (b / 2) (c / 2)) (M.val (a / 2) (b / 2 + 1) (c / 2))) ∧
    (a % 2 = 0 → b % 2 = 0 → c % 2 = 1 → Writer.cubeRefined M a b c
      = max (M.val (a / 2) (b / 2) (c / 2)) (M.val (a / 2) (b / 2) (c / 2 + 1))) ∧
    (2 ≤ a % 2 + b % 2 + c % 2 → Writer.cubeRefined M a b c = 0) := by
  simp only [Writer.cubeRefined, Writer.cubeRefinedGrid, Arr3.assignStrided, Arr3.maxOf,
    Arr3.slice, Arr3.constant, Nat.zero_le, Nat.sub_zero, true_and, Nat.zero_add,
    strided_even a M.n0 ha, strided_even b M.n1 hb, strided_even c M.n2 hc,
    strided_odd a M.n0 ha, strided_odd b M.n1 hb, strided_odd c M.n2 hc]
  have z1 : ¬ ((1 : Nat) = 0) := by decide
  have z0 : ¬ ((0 : Nat) = 1) := by decide
  refine ⟨?_, ?_, ?_, ?_, ?_⟩
  · intro pa pb pc
    simp only [pa, pb, pc, and_self, and_true, true_and, and_false, false_and, if_true,
      if_false, z0]
  · intro pa pb pc
    simp only [pa, pb, pc, and_self, and_true, true_and, and_false, false_and, if_true,
      if_false, z0, z1, strided_half a pa, Nat.add_comm 1 (a / 2)]
  · intro pa pb pc
    simp only [pa, pb, pc, and_self, and_true, true_and, and_false, false_and, if_true,
      if_false, z0, z1, strided_half b pb, Nat.add_comm 1 (b / 2)]
  · intro pa pb pc
    simp only [pa, pb, pc, and_self, and_true, true_and, and_false, false_and, if_true,
      if_false, z0, z1, strided_half c pc, Nat.add_comm 1 (c / 2)]
  · intro p
    have h : (a % 2 = 1 ∧ b % 2 = 1) ∨ (a % 2 = 1 ∧ c % 2 = 1) ∨ (b % 2 = 1 ∧ c % 2 = 1) := by
      omega
    rcases h with ⟨p1, p2⟩ | ⟨p1, p2⟩ | ⟨p1, p2⟩ <;>
      simp only [p1, p2, and_self, and_true, true_and, and_false, false_and, if_true,
        if_false, z0, z1]


/-- C30: the refined value grid that `marchingSquares` / `marchingCubes` builds from the field
`M` (shape `2n - 1` per axis) holds, inside the grid, the original sample at every refined
coordinate whose components are all even, and at every refined coordinate with exactly one odd
component the maximum of the two original samples adjacent along that axis. -/
theorem C30_refinement_by_maximum :
    (∀ (M : Arr2) (a b : Nat), a < M.n0 * 2 - 1 → b < M.n1 * 2 - 1 →
      (Writer.squareRefinedGrid M).n0 = M.n0 * 2 - 1 ∧
      (Writer.squareRefinedGrid M).n1 = M.n1 * 2 - 1 ∧
      (a % 2 = 0 → b % 2 = 0 → Writer.squareRefined M a b = M.val (a / 2) (b / 2)) ∧
      (a % 2 = 1 → b % 2 = 0 → Writer.squareRefined M a b
        = max (M.val (a / 2) (b / 2)) (M.val (a / 2 + 1) (b / 2))) ∧
      (a % 2 = 0 → b % 2 = 1 → Writer.squareRefined M a b
        = max (M.val (a / 2) (b / 2)) (M.val (a / 2) (b / 2 + 1)))) ∧
    (∀ (M : Arr3) (a b c : Nat), a < M.n0 * 2 - 1 → b < M.n1 * 2 - 1 → c < M.n2 * 2 - 1 →
      (Writer.cubeRefinedGrid M).n0 = M.n0 * 2 - 1 ∧
      (Writer.cubeRefinedGrid M).n1 = M.n1 * 2 - 1 ∧
      (Writer.cubeRefinedGrid M).n2 = M.n2 * 2 - 1 ∧
      (a % 2 = 0 → b % 2 = 0 → c % 2 = 0 →
        Writer.cubeRefined M a b c = M.val (a / 2) (b / 2) (c / 2)) ∧
      (a % 2 = 1 → b % 2 = 0 → c % 2 = 0 → Writer.cubeRefined M a b c
        = max (M.val (a / 2) (b / 2) (c / 2)) (M.val (a / 2 + 1) (b / 2) (c / 2))) ∧
      (a % 2 = 0 → b % 2 = 1 → c % 2 = 0 → Writer.cubeRefined M a b c
        = max (M.val (a / 2) (b / 2) (c / 2)) (M.val (a / 2) (b / 2 + 1) (c / 2))) ∧
      (a % 2 = 0 → b % 2 = 0 → c % 2 = 1 → Writer.cubeRefined M a b c
        = max (M.val (a / 2) (b / 2) (c / 2)) (M.val (a / 2) (b / 2) (c / 2 + 1)))) := by
  constructor
  · intro M a b ha hb
    obtain ⟨h1, h2, h3, _⟩ := Writer.squareRefined_cases M a b ha hb
    exact ⟨rfl, rfl, h1, h2, h3⟩
  · intro M a b c ha hb hc
    obtain ⟨h1, h2, h3, h4, _⟩ := Writer.cubeRefined_cases M a b c ha hb hc
    exact ⟨rfl, rfl, rfl, h1, h2, h3, h4⟩

end HullComputation
namespace HullComputation

/-! ## The frame counter -/

/-- C24 (as stated, refuted): in the one-batch run of a 5-frame sequence with `kt = 3`, the
batch handed to `processBatch` has 5 frames but the counter goes from 1 to 4: it advances
by 3, not by 5. -/
theorem C24_counter_counterexample :
    (Reader.batchOfCall (smallConfig 5 1) zeroFiles 0).n0 = 5 ∧
    (Calc.init (smallConfig 5 1) noCheckpoint).t = 1 ∧
    (Calc.processBatch (smallConfig 5 1) (Calc.init (smallConfig 5 1) noCheckpoint)
      (Reader.batchOfCall (smallConfig 5 1) zeroFiles 0)).t = 4 ∧
    (Calc.processBatch (smallConfig 5 1) (Calc.init (smallConfig 5 1) noCheckpoint)
      (Reader.batchOfCall (smallConfig 5 1) zeroFiles 0)).t
      ≠ (Calc.init (smallConfig 5 1) noCheckpoint).t
        + ((Reader.batchOfCall (smallConfig 5 1) zeroFiles 0).n0 : Int) := by
  have h5 : (Reader.batchOfCall (smallConfig 5 1) zeroFiles 0).n0 = 5 := by
    rw [Reader.batchOfCall_n0]
    decide
  have h1 : (Calc.init (smallConfig 5 1) noCheckpoint).t = 1 := by decide
  have h4 : (Calc.processBatch (smallConfig 5 1) (Calc.init (smallConfig 5 1) noCheckpoint)
      (Reader.batchOfCall (smallConfig 5 1) zeroFiles 0)).t = 4 := by
    rw [Calc.processBatch_t, Calc.featureField_n0, h5, h1]
    decide
  refine ⟨h5, h1, h4, ?_⟩
  rw [h4, h5, h1]
  decide

/-- C24 (amended): in each of the three modes a `processBatch` call advances the frame counter
`t` by the number of feature frames of the batch it was given, which is the number of frames
in the batch minus `kt - 1`; this is the number of frames in the batch only when `kt = 1`. -/
theorem C24_counter_advance (params : Parameters) (c : Calc) (batch : Arr4)
    (hsp : params.special = 0 ∨ params.special = 1 ∨ params.special = 2) :
    (Calc.processBatch params c batch).t
      = c.t + ((Calc.featureField params batch).n0 : Int) ∧
    (Calc.featureField params batch).n0 = batch.n0 - (params.kt - 1) ∧
    (1 ≤ params.kt → params.kt ≤ batch.n0 →
      (Calc.processBatch params c batch).t = c.t + (batch.n0 : Int) - (params.kt : Int) + 1) := by
  have hn : (Calc.featureField params batch).n0 = batch.n0 - (params.kt - 1) := by
    rw [Calc.featureField_n0, if_pos hsp]
  refine ⟨rfl, hn, ?_⟩
  intro h1 h2
  rw [Calc.processBatch_t, hn]
  omega

theorem C24_counter_advance_witness :
    ((smallConfig 5 1).special = 0 ∨ (smallConfig 5 1).special = 1
      ∨ (smallConfig 5 1).special = 2) ∧
    (Calc.processBatch (smallConfig 5 1) (Calc.init (smallConfig 5 1) noCheckpoint)
      (Reader.batchOfCall (smallConfig 5 1) zeroFiles 0)).t
      = (Calc.init (smallConfig 5 1) noCheckpoint).t
        + ((Calc.featureField (smallConfig 5 1)
            (Reader.batchOfCall (smallConfig 5 1) zeroFiles 0)).n0 : Int) :=
  ⟨by decide, (C24_counter_advance (smallConfig 5 1) (Calc.init (smallConfig 5 1) noCheckpoint)
    (Reader.batchOfCall (smallConfig 5 1) zeroFiles 0) (by decide)).1⟩

end HullComputation
namespace HullComputation

/-! ## The separable stencil of `sobelD2` and `sobelD3` -/

theorem Arr4.shifted_zero (M : Arr4) (d i0 i1 i2 i3 : Nat) :
    M.shifted d 0 i0 i1 i2 i3 = M.val i0 i1 i2 i3 := by
  rcases d with _ | _ | _ | d <;> rfl

theorem Calc.derivative_shifted (M : Arr4) (d o i0 i1 i2 i3 : Nat) :
    (Calc.derivative M d).shifted d o i0 i1 i2 i3
      = M.shifted d o i0 i1 i2 i3 - M.shifted d (o + 1) i0 i1 i2 i3 := by
  rcases d with _ | _ | _ | d <;> simp only [Calc.derivative, Arr4.shifted, Nat.add_assoc]

theorem Calc.guassian_shifted (M : Arr4) (d o i0 i1 i2 i3 : Nat) :
    (Calc.guassian M d).shifted d o i0 i1 i2 i3
      = M.shifted d o i0 i1 i2 i3 + M.shifted d (o + 1) i0 i1 i2 i3 := by
  rcases d with _ | _ | _ | d <;> simp only [Calc.guassian, Arr4.shifted, Nat.add_assoc]

/-- Shifting the argument of a coefficient sum multiplies the polynomial by `X`. -/
theorem stencil_shift (P : Polynomial ℚ) (f : Nat → ℚ) (n : Nat) :
    ∑ o ∈ Finset.range n, P.coeff o * f (o + 1)
      = ∑ o ∈ Finset.range (n + 1), (Polynomial.X * P).coeff o * f o := by
  rw [Finset.sum_range_succ']
  simp [Polynomial.coeff_X_mul]

theorem stencil_extend (P : Polynomial ℚ) (f : Nat → ℚ) (n : Nat) (h : P.natDegree < n) :
    ∑ o ∈ Finset.range n, P.coeff o * f o
      = ∑ o ∈ Finset.range (n + 1), P.coeff o * f o := by
  rw [Finset.sum_range_succ, Polynomial.coeff_eq_zero_of_natDegree_lt h]
  simp

theorem stencil_difference (P : Polynomial ℚ) (f : Nat → ℚ) (n : Nat) (h : P.natDegree < n) :
    ∑ o ∈ Finset.range n, P.coeff o * (f o - f (o + 1))
      = ∑ o ∈ Finset.range (n + 1), ((1 - Polynomial.X) * P).coeff o * f o := by
  simp only [mul_sub, Finset.sum_sub_distrib, sub_mul, one_mul, Polynomial.coeff_sub]
  rw [stencil_shift, stencil_extend P f n h]

theorem stencil_smoothing (P : Polynomial ℚ) (f : Nat → ℚ) (n : Nat) (h : P.natDegree < n) :
    ∑ o ∈ Finset.range n, P.coeff o * (f o + f (o + 1))
      = ∑ o ∈ Finset.range (n + 1), ((1 + Polynomial.X) * P).coeff o * f o := by
  simp only [mul_add, Finset.sum_add_distrib, add_mul, one_mul, Polynomial.coeff_add]
  rw [stencil_shift, stencil_extend P f n h]

theorem stencil_natDegree (ops : List Bool) :
    (ops.map (fun b : Bool =>
      if b then (1 - Polynomial.X : Polynomial ℚ) else 1 + Polynomial.X)).prod.natDegree
      ≤ ops.length := by
  induction ops with
  | nil => simp
  | cons b l ih =>
    simp only [List.map_cons, List.prod_cons, List.length_cons]
    refine le_trans Polynomial.natDegree_mul_le ?_
    have h1 : (if b then (1 - Polynomial.X : Polynomial ℚ) else 1 + Polynomial.X).natDegree
        ≤ 1 := by
      cases b
      · simp only [Bool.false_eq_true, if_false]
        refine le_trans (Polynomial.natDegree_add_le _ _) ?_
        simp
      · simp only [if_true]
        refine le_trans (Polynomial.natDegree_sub_le _ _) ?_
        simp
    omega

end HullComputation
namespace HullComputation

theorem Calc.axisSteps_cons (d : Nat) (b : Bool) (ops : List Bool) (M : Arr4) :
    Calc.axisSteps d (b :: ops) M = Calc.axisSteps d ops (Calc.axisStep d M b) := rfl

theorem Calc.axisSteps_append (d : Nat) (l1 l2 : List Bool) (M : Arr4) :
    Calc.axisSteps d (l1 ++ l2) M = Calc.axisSteps d l2 (Calc.axisSteps d l1 M) := by
  simp only [Calc.axisSteps, List.foldl_append]

/-- A run of steps along axis `d` is the stencil whose coefficients are those of the product of
`1 - X` (difference) and `1 + X` (smoothing) over the steps. -/
theorem Calc.axisSteps_stencil (d : Nat) (ops : List Bool) :
    ∀ (M : Arr4) (i0 i1 i2 i3 : Nat),
      (Calc.axisSteps d ops M).val i0 i1 i2 i3
        = ∑ o ∈ Finset.range (ops.length + 1),
            (ops.map (fun b : Bool =>
              if b then (1 - Polynomial.X : Polynomial ℚ) else 1 + Polynomial.X)).prod.coeff o
              * M.shifted d o i0 i1 i2 i3 := by
  induction ops with
  | nil =>
    intro M i0 i1 i2 i3
    simp [Calc.axisSteps, Arr4.shifted_zero]
  | cons b l ih =>
    intro M i0 i1 i2 i3
    rw [Calc.axisSteps_cons, ih]
    have hdeg := Nat.lt_succ_of_le (stencil_natDegree l)
    cases b
    · simp only [Calc.axisStep, Bool.false_eq_true, if_false, Calc.guassian_shifted,
        List.map_cons, List.prod_cons, List.length_cons]
      exact stencil_smoothing _ (fun o => M.shifted d o i0 i1 i2 i3) _ hdeg
    · simp only [Calc.axisStep, if_true, Calc.derivative_shifted,
        List.map_cons, List.prod_cons, List.length_cons]
      exact stencil_difference _ (fun o => M.shifted d o i0 i1 i2 i3) _ hdeg

theorem stencil_replicate (m j : Nat) :
    ((List.replicate m true ++ List.replicate j false).map (fun b : Bool =>
      if b then (1 - Polynomial.X : Polynomial ℚ) else 1 + Polynomial.X)).prod
      = (1 - Polynomial.X) ^ m * (1 + Polynomial.X) ^ j := by
  simp [List.prod_replicate]

/-- The stencil of `m` differences followed by `j` smoothings. -/
theorem Calc.axisSteps_replicate (d m j : Nat) (M : Arr4) (i0 i1 i2 i3 : Nat) :
    (Calc.axisSteps d (List.replicate m true ++ List.replicate j false) M).val i0 i1 i2 i3
      = ∑ o ∈ Finset.range (m + j + 1),
          ((1 - Polynomial.X : Polynomial ℚ) ^ m * (1 + Polynomial.X) ^ j).coeff o
            * M.shifted d o i0 i1 i2 i3 := by
  rw [Calc.axisSteps_stencil, stencil_replicate]
  simp

/-- The extents after a run of steps along axis 0 to 3. -/
theorem Calc.axisSteps_dims (d : Nat) (ops : List Bool) :
    ∀ M : Arr4,
      (Calc.axisSteps d ops M).n0 = (if d = 0 then M.n0 - ops.length else M.n0) ∧
      (Calc.axisSteps d ops M).n1 = (if d = 1 then M.n1 - ops.length else M.n1) ∧
      (Calc.axisSteps d ops M).n2 = (if d = 2 then M.n2 - ops.length else M.n2) ∧
      (Calc.axisSteps d ops M).n3 = (if 3 ≤ d then M.n3 - ops.length else M.n3) := by
  induction ops with
  | nil => intro M; simp [Calc.axisSteps]
  | cons b l ih =>
    intro M
    rw [Calc.axisSteps_cons]
    obtain ⟨h0, h1, h2, h3⟩ := ih (Calc.axisStep d M b)
    rw [h0, h1, h2, h3]
    rcases d with _ | _ | _ | d <;> cases b <;>
      simp [Calc.axisStep, Calc.derivative, Calc.guassian] <;> omega

end HullComputation
namespace HullComputation

/-- The inner loop of `sobelD2` along `d` is the run of steps given by `sobelD2Ops`. -/
theorem Calc.sobelD2_loop (dev1 dev2 d n : Nat) (M : Arr4) :
    (List.range n).foldl (Calc.sobelD2Step dev1 dev2 d) M
      = Calc.axisSteps d (Calc.sobelD2Ops dev1 dev2 d n) M := by
  simp only [Calc.axisSteps, Calc.sobelD2Ops, List.foldl_map]
  congr 1
  funext A i
  simp only [Calc.sobelD2Step, Calc.axisStep, decide_eq_true_eq]
  split_ifs <;> first | rfl | tauto

theorem map_range_shift_false (f : Nat → Bool) (n : Nat) :
    ∀ s : Nat, (∀ i, s ≤ i → f i = false) →
      (List.range' s n).map f = List.replicate n false := by
  induction n with
  | zero => intro s _; rfl
  | succ n ih =>
    intro s h
    rw [List.range'_succ, List.map_cons, List.replicate_succ, h s (le_refl _),
      ih (s + 1) (fun i hi => h i (by omega))]

/-- With at least two steps the flags of `sobelD2` along `d` are: a difference first iff
`dev1 = d`, a difference second iff `dev2 = d`, and smoothing from the third step on. -/
theorem Calc.sobelD2Ops_two (dev1 dev2 d n : Nat) :
    Calc.sobelD2Ops dev1 dev2 d (n + 2)
      = [decide (dev1 = d), decide (dev2 = d)] ++ List.replicate n false := by
  have hr : List.range (n + 2) = 0 :: 1 :: List.range' 2 n := by
    rw [List.range_eq_range', List.range'_succ, List.range'_succ]
  simp only [Calc.sobelD2Ops, hr, List.map_cons, List.cons_append, List.nil_append]
  rw [map_range_shift_false _ n 2 (fun i hi => by
    simp only [decide_eq_false_iff_not]
    omega)]
  simp

/-- On an axis on which no derivative is requested every step of `sobelD2` smooths. -/
theorem Calc.sobelD2Ops_none (dev1 dev2 d n : Nat) (h1 : dev1 ≠ d) (h2 : dev2 ≠ d) :
    Calc.sobelD2Ops dev1 dev2 d n = List.replicate n false := by
  simp only [Calc.sobelD2Ops, List.range_eq_range']
  exact map_range_shift_false _ n 0 (fun i _ => by
    simp only [decide_eq_false_iff_not]
    tauto)

theorem Calc.sobelD2Ops_length (dev1 dev2 d n : Nat) :
    (Calc.sobelD2Ops dev1 dev2 d n).length = n := by
  simp [Calc.sobelD2Ops]

/-- The inner loop of `sobelD3` along `d`, started with `count = c` at step `s`: the flags are
`i < c` for the steps `i = s, s + 1, …`. -/
theorem Calc.sobelD3_loop_from (d : Nat) (c : Int) (n : Nat) :
    ∀ (s : Nat) (M : Arr4),
      (List.range' s n).foldl (fun st _ => Calc.sobelD3Step d st) (M, c - s)
        = (Calc.axisSteps d ((List.range' s n).map (fun i : Nat => decide ((i : Int) < c))) M,
            c - s - n) := by
  induction n with
  | zero => intro s M; simp [Calc.axisSteps]
  | succ n ih =>
    intro s M
    rw [List.range'_succ, List.foldl_cons, List.map_cons, Calc.axisSteps_cons]
    have e : Calc.sobelD3Step d (M, c - s)
        = (Calc.axisStep d M (decide ((s : Int) < c)), c - ((s + 1 : Nat) : Int)) := by
      simp only [Calc.sobelD3Step, Calc.axisStep, decide_eq_true_eq, gt_iff_lt, sub_pos]
      congr 1
      push_cast
      ring
    rw [e, ih (s + 1)]
    congr 1
    push_cast
    ring

theorem map_range_lt (c n : Nat) :
    (List.range n).map (fun i : Nat => decide ((i : Int) < (c : Int)))
      = List.replicate (min c n) true ++ List.replicate (n - min c n) false := by
  induction n with
  | zero => simp
  | succ n ih =>
    rw [List.range_succ, List.map_append, ih]
    rcases Nat.lt_or_ge n c with h | h
    · have e1 : min c n = n := by omega
      have e2 : min c (n + 1) = n + 1 := by omega
      have e3 : decide ((n : Int) < (c : Int)) = true := by
        simp only [decide_eq_true_eq]
        exact_mod_cast h
      rw [e1, e2]
      simp only [Nat.sub_self, List.replicate_zero, List.append_nil, List.map_cons,
        List.map_nil, e3]
      rw [List.replicate_succ']
    · have e1 : min c n = c := by omega
      have e2 : min c (n + 1) = c := by omega
      have e3 : decide ((n : Int) < (c : Int)) = false := by
        simp only [decide_eq_false_iff_not, not_lt]
        exact_mod_cast h
      have e4 : n + 1 - c = (n - c) + 1 := by omega
      rw [e1, e2, e4]
      simp only [List.map_cons, List.map_nil, e3, List.append_assoc]
      rw [List.replicate_succ']

/-- The inner loop of `sobelD3` along `d` with `count = c`: `min c n` differences, then
smoothing for the remaining steps. -/
theorem Calc.sobelD3_loop (d c n : Nat) (M : Arr4) :
    ((List.range n).foldl (fun st _ => Calc.sobelD3Step d st) (M, (c : Int))).1
      = Calc.axisSteps d
          (List.replicate (min c n) true ++ List.replicate (n - min c n) false) M := by
  have h := Calc.sobelD3_loop_from d (c : Int) n 0 M
  simp only [Nat.cast_zero, sub_zero] at h
  rw [List.range_eq_range', h, ← List.range_eq_range', map_range_lt]

end HullComputation
namespace HullComputation

theorem sum_four_reverse (f : Nat → Nat → Nat → Nat → ℚ) (s0 s1 s2 s3 : Finset Nat) :
    ∑ d ∈ s3, ∑ c ∈ s2, ∑ b ∈ s1, ∑ a ∈ s0, f a b c d
      = ∑ a ∈ s0, ∑ b ∈ s1, ∑ c ∈ s2, ∑ d ∈ s3, f a b c d := by
  have e1 : ∀ d c, ∑ b ∈ s1, ∑ a ∈ s0, f a b c d = ∑ a ∈ s0, ∑ b ∈ s1, f a b c d :=
    fun d c => Finset.sum_comm
  have e2 : ∀ d, ∑ c ∈ s2, ∑ a ∈ s0, ∑ b ∈ s1, f a b c d
      = ∑ a ∈ s0, ∑ c ∈ s2, ∑ b ∈ s1, f a b c d := fun d => Finset.sum_comm
  have e3 : ∑ d ∈ s3, ∑ a ∈ s0, ∑ c ∈ s2, ∑ b ∈ s1, f a b c d
      = ∑ a ∈ s0, ∑ d ∈ s3, ∑ c ∈ s2, ∑ b ∈ s1, f a b c d := Finset.sum_comm
  have e4 : ∀ a d, ∑ c ∈ s2, ∑ b ∈ s1, f a b c d = ∑ b ∈ s1, ∑ c ∈ s2, f a b c d :=
    fun a d => Finset.sum_comm
  have e5 : ∀ a, ∑ d ∈ s3, ∑ b ∈ s1, ∑ c ∈ s2, f a b c d
      = ∑ b ∈ s1, ∑ d ∈ s3, ∑ c ∈ s2, f a b c d := fun a => Finset.sum_comm
  have e6 : ∀ a b, ∑ d ∈ s3, ∑ c ∈ s2, f a b c d = ∑ c ∈ s2, ∑ d ∈ s3, f a b c d :=
    fun a b => Finset.sum_comm
  calc ∑ d ∈ s3, ∑ c ∈ s2, ∑ b ∈ s1, ∑ a ∈ s0, f a b c d
      = ∑ d ∈ s3, ∑ c ∈ s2, ∑ a ∈ s0, ∑ b ∈ s1, f a b c d :=
        Finset.sum_congr rfl (fun d _ => Finset.sum_congr rfl (fun c _ => e1 d c))
    _ = ∑ d ∈ s3, ∑ a ∈ s0, ∑ c ∈ s2, ∑ b ∈ s1, f a b c d :=
        Finset.sum_congr rfl (fun d _ => e2 d)
    _ = ∑ a ∈ s0, ∑ d ∈ s3, ∑ c ∈ s2, ∑ b ∈ s1, f a b c d := e3
    _ = ∑ a ∈ s0, ∑ d ∈ s3, ∑ b ∈ s1, ∑ c ∈ s2, f a b c d :=
        Finset.sum_congr rfl (fun a _ => Finset.sum_congr rfl (fun d _ => e4 a d))
    _ = ∑ a ∈ s0, ∑ b ∈ s1, ∑ d ∈ s3, ∑ c ∈ s2, f a b c d :=
        Finset.sum_congr rfl (fun a _ => e5 a)
    _ = ∑ a ∈ s0, ∑ b ∈ s1, ∑ c ∈ s2, ∑ d ∈ s3, f a b c d :=
        Finset.sum_congr rfl (fun a _ => Finset.sum_congr rfl (fun b _ => e6 a b))

/-- Four runs of steps, one per axis in the order 0, 1, 2, 3, form a separable stencil: the
coefficient of the input at offset `(o0, o1, o2, o3)` is the product of the per-axis
coefficients. -/
theorem Calc.separable_stencil (l0 l1 l2 l3 : List Bool) (P0 P1 P2 P3 : Polynomial ℚ)
    (h0 : (l0.map (fun b : Bool =>
      if b then (1 - Polynomial.X : Polynomial ℚ) else 1 + Polynomial.X)).prod = P0)
    (h1 : (l1.map (fun b : Bool =>
      if b then (1 - Polynomial.X : Polynomial ℚ) else 1 + Polynomial.X)).prod = P1)
    (h2 : (l2.map (fun b : Bool =>
      if b then (1 - Polynomial.X : Polynomial ℚ) else 1 + Polynomial.X)).prod = P2)
    (h3 : (l3.map (fun b : Bool =>
      if b then (1 - Polynomial.X : Polynomial ℚ) else 1 + Polynomial.X)).prod = P3)
    (M : Arr4) (p0 p1 p2 p3 : Nat) :
    (Calc.axisSteps 3 l3 (Calc.axisSteps 2 l2 (Calc.axisSteps 1 l1
      (Calc.axisSteps 0 l0 M)))).val p0 p1 p2 p3
      = ∑ o0 ∈ Finset.range (l0.length + 1), ∑ o1 ∈ Finset.range (l1.length + 1),
          ∑ o2 ∈ Finset.range (l2.length + 1), ∑ o3 ∈ Finset.range (l3.length + 1),
            (P0.coeff o0 * P1.coeff o1 * P2.coeff o2 * P3.coeff o3)
              * M.val (p0 + o0) (p1 + o1) (p2 + o2) (p3 + o3) := by
  rw [← sum_four_reverse]
  rw [Calc.axisSteps_stencil, h3]
  refine Finset.sum_congr rfl (fun o3 _ => ?_)
  simp only [Arr4.shifted]
  rw [Calc.axisSteps_stencil, h2, Finset.mul_sum]
  refine Finset.sum_congr rfl (fun o2 _ => ?_)
  simp only [Arr4.shifted]
  rw [Calc.axisSteps_stencil, h1, Finset.mul_sum, Finset.mul_sum]
  refine Finset.sum_congr rfl (fun o1 _ => ?_)
  simp only [Arr4.shifted]
  rw [Calc.axisSteps_stencil, h0, Finset.mul_sum, Finset.mul_sum, Finset.mul_sum]
  refine Finset.sum_congr rfl (fun o0 _ => ?_)
  simp only [Arr4.shifted]
  ring

theorem Calc.sobelD2_steps (params : Parameters) (M : Arr4) (dev1 dev2 : Nat) :
    Calc.sobelD2 params M dev1 dev2 =
      Calc.axisSteps 3 (Calc.sobelD2Ops dev1 dev2 3 (params.kx - 1))
        (Calc.axisSteps 2 (Calc.sobelD2Ops dev1 dev2 2 (params.ky - 1))
          (Calc.axisSteps 1
            (Calc.sobelD2Ops dev1 dev2 1 ((if params.is4D then params.kz else 1) - 1))
            (Calc.axisSteps 0 (Calc.sobelD2Ops dev1 dev2 0 (params.kt - 1)) M))) := by
  rw [Calc.sobelD2_unfold, Calc.sobelD2_loop, Calc.sobelD2_loop, Calc.sobelD2_loop,
    Calc.sobelD2_loop]

/-- The flags of `sobelD3` along an axis with `count = c` and `n` steps. -/
theorem Calc.sobelD3_steps (params : Parameters) (M : Arr4) (dev1 dev2 dev3 : Nat) :
    Calc.sobelD3 params M dev1 dev2 dev3 =
      Calc.axisSteps 3
        (List.replicate (min (Calc.ordersD3 dev1 dev2 dev3 3) (params.kx - 1)) true
          ++ List.replicate
            (params.kx - 1 - min (Calc.ordersD3 dev1 dev2 dev3 3) (params.kx - 1)) false)
        (Calc.axisSteps 2
          (List.replicate (min (Calc.ordersD3 dev1 dev2 dev3 2) (params.ky - 1)) true
            ++ List.replicate
              (params.ky - 1 - min (Calc.ordersD3 dev1 dev2 dev3 2) (params.ky - 1)) false)
          (Calc.axisSteps 1
            (List.replicate (min (Calc.ordersD3 dev1 dev2 dev3 1)
                ((if params.is4D then params.kz else 1) - 1)) true
              ++ List.replicate
                ((if params.is4D then params.kz else 1) - 1
                  - min (Calc.ordersD3 dev1 dev2 dev3 1)
                      ((if params.is4D then params.kz else 1) - 1)) false)
            (Calc.axisSteps 0
              (List.replicate (min (Calc.ordersD3 dev1 dev2 dev3 0) (params.kt - 1)) true
                ++ List.replicate
                  (params.kt - 1 - min (Calc.ordersD3 dev1 dev2 dev3 0) (params.kt - 1))
                  false) M))) := by
  have hc : ∀ d : Nat, ((if dev1 = d then 1 else 0) + (if dev2 = d then 1 else 0)
      + (if dev3 = d then 1 else 0) : Int) = ((Calc.ordersD3 dev1 dev2 dev3 d : Nat) : Int) := by
    intro d
    simp only [Calc.ordersD3]
    push_cast
    rfl
  rw [Calc.sobelD3_unfold, hc 0, hc 1, hc 2, hc 3, Calc.sobelD3_loop, Calc.sobelD3_loop,
    Calc.sobelD3_loop, Calc.sobelD3_loop]

end HullComputation
namespace HullComputation

/-! ## `sobelD3` with three orders on one axis -/

theorem Calc.sobelD2Ops_same (d d' n : Nat) (h : d' = d → n = 2) :
    Calc.sobelD2Ops d d d' n
      = List.replicate (min (Calc.ordersD3 d d d d') n) true
          ++ List.replicate (n - min (Calc.ordersD3 d d d d') n) false := by
  by_cases e : d' = d
  · subst e
    rw [h rfl]
    have h3 : Calc.ordersD3 d' d' d' d' = 3 := by simp [Calc.ordersD3]
    rw [h3, Calc.sobelD2Ops_two d' d' d' 0]
    simp
  · have e' : d ≠ d' := fun q => e q.symm
    have h0 : Calc.ordersD3 d d d d' = 0 := by simp [Calc.ordersD3, e']
    rw [h0, Calc.sobelD2Ops_none d d d' n e' e']
    simp

/-- C28: for an axis `d` whose kernel size is 3, the run of `sobelD3(M, d, d, d)` along `d` is
two differences (the third requested order is not taken) and `sobelD3(M, d, d, d)` is
exactly `sobelD2(M, d, d)`; in general, along each axis `sobelD3` applies
`min (orders requested on the axis) (kernel size - 1)` differences first and smoothing for the
remaining steps. -/
theorem C28_third_derivative (params : Parameters) (M : Arr4) (d : Nat)
    (hd : (Calc.kernelSizes params).getD d 0 = 3) :
    min (Calc.ordersD3 d d d d) ((Calc.kernelSizes params).getD d 0 - 1) = 2 ∧
    Calc.sobelD3 params M d d d = Calc.sobelD2 params M d d ∧
    ∀ dev1 dev2 dev3 : Nat,
      Calc.sobelD3 params M dev1 dev2 dev3 =
        Calc.axisSteps 3
          (List.replicate (min (Calc.ordersD3 dev1 dev2 dev3 3) (params.kx - 1)) true
            ++ List.replicate
              (params.kx - 1 - min (Calc.ordersD3 dev1 dev2 dev3 3) (params.kx - 1)) false)
          (Calc.axisSteps 2
            (List.replicate (min (Calc.ordersD3 dev1 dev2 dev3 2) (params.ky - 1)) true
              ++ List.replicate
                (params.ky - 1 - min (Calc.ordersD3 dev1 dev2 dev3 2) (params.ky - 1)) false)
            (Calc.axisSteps 1
              (List.replicate (min (Calc.ordersD3 dev1 dev2 dev3 1)
                  ((if params.is4D then params.kz else 1) - 1)) true
                ++ List.replicate
                  ((if params.is4D then params.kz else 1) - 1
                    - min (Calc.ordersD3 dev1 dev2 dev3 1)
                        ((if params.is4D then params.kz else 1) - 1)) false)
              (Calc.axisSteps 0
                (List.replicate (min (Calc.ordersD3 dev1 dev2 dev3 0) (params.kt - 1)) true
                  ++ List.replicate
                    (params.kt - 1 - min (Calc.ordersD3 dev1 dev2 dev3 0) (params.kt - 1))
                    false) M))) := by
  refine ⟨?_, ?_, fun dev1 dev2 dev3 => Calc.sobelD3_steps params M dev1 dev2 dev3⟩
  · rw [hd]
    simp [Calc.ordersD3]
  · have k0 : 0 = d → params.kt - 1 = 2 := by
      intro e
      subst e
      simp only [Calc.kernelSizes, List.getD_cons_zero] at hd
      omega
    have k1 : 1 = d → (if params.is4D then params.kz else 1) - 1 = 2 := by
      intro e
      subst e
      simp only [Calc.kernelSizes, List.getD_cons_succ, List.getD_cons_zero] at hd
      omega
    have k2 : 2 = d → params.ky - 1 = 2 := by
      intro e
      subst e
      simp only [Calc.kernelSizes, List.getD_cons_succ, List.getD_cons_zero] at hd
      omega
    have k3 : 3 = d → params.kx - 1 = 2 := by
      intro e
      subst e
      simp only [Calc.kernelSizes, List.getD_cons_succ, List.getD_cons_zero] at hd
      omega
    rw [Calc.sobelD3_steps, Calc.sobelD2_steps, Calc.sobelD2Ops_same d 0 _ k0,
      Calc.sobelD2Ops_same d 1 _ k1, Calc.sobelD2Ops_same d 2 _ k2,
      Calc.sobelD2Ops_same d 3 _ k3]

theorem C28_third_derivative_witness :
    (Calc.kernelSizes (smallConfig 5 1)).getD 0 0 = 3 ∧
    Calc.sobelD3 (smallConfig 5 1) (Reader.batchOfCall (smallConfig 5 1) zeroFiles 0) 0 0 0
      = Calc.sobelD2 (smallConfig 5 1) (Reader.batchOfCall (smallConfig 5 1) zeroFiles 0) 0 0 :=
  ⟨by decide, (C28_third_derivative (smallConfig 5 1)
    (Reader.batchOfCall (smallConfig 5 1) zeroFiles 0) 0 (by decide)).2.1⟩

end HullComputation
namespace HullComputation

end HullComputation
namespace HullComputation

/-! ## Shapes and symmetry of `sobelD2` -/

/-- Four runs of steps, one per axis, shorten each axis by the number of its steps. -/
theorem Calc.axisSteps_four_dims (l0 l1 l2 l3 : List Bool) (M : Arr4) :
    (Calc.axisSteps 3 l3 (Calc.axisSteps 2 l2 (Calc.axisSteps 1 l1
      (Calc.axisSteps 0 l0 M)))).n0 = M.n0 - l0.length ∧
    (Calc.axisSteps 3 l3 (Calc.axisSteps 2 l2 (Calc.axisSteps 1 l1
      (Calc.axisSteps 0 l0 M)))).n1 = M.n1 - l1.length ∧
    (Calc.axisSteps 3 l3 (Calc.axisSteps 2 l2 (Calc.axisSteps 1 l1
      (Calc.axisSteps 0 l0 M)))).n2 = M.n2 - l2.length ∧
    (Calc.axisSteps 3 l3 (Calc.axisSteps 2 l2 (Calc.axisSteps 1 l1
      (Calc.axisSteps 0 l0 M)))).n3 = M.n3 - l3.length := by
  obtain ⟨a0, a1, a2, a3⟩ := Calc.axisSteps_dims 0 l0 M
  obtain ⟨b0, b1, b2, b3⟩ := Calc.axisSteps_dims 1 l1 (Calc.axisSteps 0 l0 M)
  obtain ⟨c0, c1, c2, c3⟩ := Calc.axisSteps_dims 2 l2
    (Calc.axisSteps 1 l1 (Calc.axisSteps 0 l0 M))
  obtain ⟨d0, d1, d2, d3⟩ := Calc.axisSteps_dims 3 l3
    (Calc.axisSteps 2 l2 (Calc.axisSteps 1 l1 (Calc.axisSteps 0 l0 M)))
  have q0 : ¬ (3 = 0) := by decide
  have q1 : ¬ (3 = 1) := by decide
  have q2 : ¬ (3 = 2) := by decide
  have q3 : (3 : Nat) ≤ 3 := le_refl 3
  rw [if_neg q0] at d0
  rw [if_neg q1] at d1
  rw [if_neg q2] at d2
  rw [if_pos q3] at d3
  simp only [if_true, if_false, Nat.one_ne_zero, Nat.succ_ne_zero, OfNat.ofNat_ne_zero,
    OfNat.ofNat_ne_one, OfNat.zero_ne_ofNat, OfNat.one_ne_ofNat, Nat.reduceEqDiff,
    Nat.reduceLeDiff, le_refl, Nat.not_succ_le_zero] at a0 a1 a2 a3 b0 b1 b2 b3 c0 c1 c2 c3
  refine ⟨?_, ?_, ?_, ?_⟩
  · rw [d0, c0, b0, a0]
  · rw [d1, c1, b1, a1]
  · rw [d2, c2, b2, a2]
  · rw [d3, c3, b3, a3]

/-- The shape of `sobelD2`: every axis loses its kernel size minus one. -/
theorem Calc.sobelD2_dims (params : Parameters) (M : Arr4) (a b : Nat) :
    (Calc.sobelD2 params M a b).n0 = M.n0 - (params.kt - 1) ∧
    (Calc.sobelD2 params M a b).n1 = M.n1 - ((if params.is4D then params.kz else 1) - 1) ∧
    (Calc.sobelD2 params M a b).n2 = M.n2 - (params.ky - 1) ∧
    (Calc.sobelD2 params M a b).n3 = M.n3 - (params.kx - 1) := by
  have h := Calc.axisSteps_four_dims (Calc.sobelD2Ops a b 0 (params.kt - 1))
    (Calc.sobelD2Ops a b 1 ((if params.is4D then params.kz else 1) - 1))
    (Calc.sobelD2Ops a b 2 (params.ky - 1)) (Calc.sobelD2Ops a b 3 (params.kx - 1)) M
  simp only [Calc.sobelD2Ops_length] at h
  rw [Calc.sobelD2_steps]
  exact h

/-- The shape of `sobelD3`: every axis loses its kernel size minus one. -/
theorem Calc.sobelD3_dims (params : Parameters) (M : Arr4) (a b c : Nat) :
    (Calc.sobelD3 params M a b c).n0 = M.n0 - (params.kt - 1) ∧
    (Calc.sobelD3 params M a b c).n1 = M.n1 - ((if params.is4D then params.kz else 1) - 1) ∧
    (Calc.sobelD3 params M a b c).n2 = M.n2 - (params.ky - 1) ∧
    (Calc.sobelD3 params M a b c).n3 = M.n3 - (params.kx - 1) := by
  have e : ∀ c n : Nat, (List.replicate (min c n) true
      ++ List.replicate (n - min c n) false).length = n := by
    intro c n
    simp only [List.length_append, List.length_replicate]
    omega
  have h := Calc.axisSteps_four_dims
    (List.replicate (min (Calc.ordersD3 a b c 0) (params.kt - 1)) true
      ++ List.replicate (params.kt - 1 - min (Calc.ordersD3 a b c 0) (params.kt - 1)) false)
    (List.replicate (min (Calc.ordersD3 a b c 1)
        ((if params.is4D then params.kz else 1) - 1)) true
      ++ List.replicate ((if params.is4D then params.kz else 1) - 1
        - min (Calc.ordersD3 a b c 1) ((if params.is4D then params.kz else 1) - 1)) false)
    (List.replicate (min (Calc.ordersD3 a b c 2) (params.ky - 1)) true
      ++ List.replicate (params.ky - 1 - min (Calc.ordersD3 a b c 2) (params.ky - 1)) false)
    (List.replicate (min (Calc.ordersD3 a b c 3) (params.kx - 1)) true
      ++ List.replicate (params.kx - 1 - min (Calc.ordersD3 a b c 3) (params.kx - 1)) false)
    M
  simp only [e] at h
  rw [Calc.sobelD3_steps]
  exact h

end HullComputation
namespace HullComputation

/-! ## The mode-0 feature field -/

/-- The mode-0 feature field, written out: every pure second partial squared plus twice every
cross partial squared, over the axes in use. -/
theorem Calc.featureField_mode0 (params : Parameters) (M : Arr4) (hsp : params.special = 0)
    (i0 i1 i2 i3 : Nat) :
    (Calc.featureField params M).val i0 i1 i2 i3 =
      if params.is4D then
        (Calc.sobelD2 params M 0 0).val i0 i1 i2 i3 ^ 2
          + (Calc.sobelD2 params M 1 1).val i0 i1 i2 i3 ^ 2
          + (Calc.sobelD2 params M 2 2).val i0 i1 i2 i3 ^ 2
          + (Calc.sobelD2 params M 3 3).val i0 i1 i2 i3 ^ 2
          + 2 * (Calc.sobelD2 params M 0 1).val i0 i1 i2 i3 ^ 2
          + 2 * (Calc.sobelD2 params M 0 2).val i0 i1 i2 i3 ^ 2
          + 2 * (Calc.sobelD2 params M 0 3).val i0 i1 i2 i3 ^ 2
          + 2 * (Calc.sobelD2 params M 1 2).val i0 i1 i2 i3 ^ 2
          + 2 * (Calc.sobelD2 params M 1 3).val i0 i1 i2 i3 ^ 2
          + 2 * (Calc.sobelD2 params M 2 3).val i0 i1 i2 i3 ^ 2
      else
        (Calc.sobelD2 params M 0 0).val i0 i1 i2 i3 ^ 2
          + (Calc.sobelD2 params M 2 2).val i0 i1 i2 i3 ^ 2
          + (Calc.sobelD2 params M 3 3).val i0 i1 i2 i3 ^ 2
          + 2 * (Calc.sobelD2 params M 0 2).val i0 i1 i2 i3 ^ 2
          + 2 * (Calc.sobelD2 params M 0 3).val i0 i1 i2 i3 ^ 2
          + 2 * (Calc.sobelD2 params M 2 3).val i0 i1 i2 i3 ^ 2 := by
  have r4 : List.range 4 = [0, 1, 2, 3] := rfl
  have r3 : List.range 3 = [0, 1, 2] := rfl
  have r2 : List.range 2 = [0, 1] := rfl
  have r1 : List.range 1 = [0] := rfl
  have r0 : List.range 0 = [] := rfl
  have hs2 : ¬ (params.special = 2) := by rw [hsp]; decide
  cases h4 : params.is4D <;>
    simp [Calc.featureField, hsp, h4, r4, r3, r2, r1, r0, Arr4.add, Arr4.pow2,
      Arr4.scale] <;> ring

end HullComputation
namespace HullComputation

end HullComputation
namespace HullComputation

theorem Calc.sobelD2_shape (params : Parameters) (M : Arr4) (a b : Nat) :
    (Calc.sobelD2 params M a b).shape
      = (M.n0 - (params.kt - 1), M.n1 - ((if params.is4D then params.kz else 1) - 1),
          M.n2 - (params.ky - 1), M.n3 - (params.kx - 1)) := by
  obtain ⟨h0, h1, h2, h3⟩ := Calc.sobelD2_dims params M a b
  simp only [Arr4.shape, h0, h1, h2, h3]

theorem Calc.sobelD3_shape (params : Parameters) (M : Arr4) (a b c : Nat) :
    (Calc.sobelD3 params M a b c).shape
      = (M.n0 - (params.kt - 1), M.n1 - ((if params.is4D then params.kz else 1) - 1),
          M.n2 - (params.ky - 1), M.n3 - (params.kx - 1)) := by
  obtain ⟨h0, h1, h2, h3⟩ := Calc.sobelD3_dims params M a b c
  simp only [Arr4.shape, h0, h1, h2, h3]

theorem Arr4.add_shape (A B : Arr4) : (A.add B).shape = A.shape := rfl

theorem Arr4.pow2_shape (A : Arr4) : A.pow2.shape = A.shape := rfl

theorem Calc.featureField_shape_aux (params : Parameters) (A : Arr4)
    (hsp : params.special = 0 ∨ params.special = 1 ∨ params.special = 2)
    (S : Nat × Nat × Nat × Nat) (h2 : ∀ a b, (Calc.sobelD2 params A a b).shape = S)
    (h3 : ∀ a b c, (Calc.sobelD3 params A a b c).shape = S) :
    (Calc.featureField params A).shape = S := by
  have step1 : params.special = 0 ∨ params.special = 1 →
      ((List.range 3).foldl
        (fun st j =>
          if !params.is4D && (j + 1) == 1 then st
          else st.add (Calc.sobelD2 params A (j + 1) (j + 1)).pow2)
        (Calc.sobelD2 params A 0 0).pow2).shape = S := by
    intro _
    refine foldl_inv (fun a : Arr4 => a.shape = S) _ ?_ _ _ ?_
    · intro a j ha
      split_ifs
      · exact ha
      · exact ha
    · show (Calc.sobelD2 params A 0 0).pow2.shape = S
      rw [Arr4.pow2_shape]
      exact h2 0 0
  have step2 : ∀ X : Arr4,
      ((List.range 4).foldl
          (fun st d0 =>
            if !params.is4D && d0 == 1 then st
            else
              (List.range (4 - (d0 + 1))).foldl
                (fun st j =>
                  if !params.is4D && (d0 + 1 + j) == 1 then st
                  else st.add (Arr4.scale 2 (Calc.sobelD2 params A d0 (d0 + 1 + j)).pow2))
                st)
          X).shape = X.shape := by
    intro X
    refine foldl_inv (fun a : Arr4 => a.shape = X.shape) _ ?_ _ _ rfl
    intro a d0 ha
    split_ifs
    · exact ha
    · refine foldl_inv (fun a : Arr4 => a.shape = X.shape) _ ?_ _ _ ha
      intro a2 j ha2
      split_ifs
      · exact ha2
      · exact ha2
  unfold Calc.featureField
  simp only []
  by_cases e2 : params.special = 2
  · rw [if_pos e2]
    split_ifs
    · rw [Arr4.add_shape, Arr4.add_shape, Arr4.pow2_shape]
      exact h3 0 0 3
    · rw [Arr4.add_shape, Arr4.pow2_shape]
      exact h3 0 0 3
  · rw [if_neg e2]
    have h01 : params.special = 0 ∨ params.special = 1 := by tauto
    rw [if_pos h01]
    by_cases h0 : params.special = 0
    · rw [if_pos h0, step2]
      exact step1 h01
    · rw [if_neg h0]
      exact step1 h01

/-- In each of the three modes the feature field has the shape of a `sobelD2` result: every
axis of the batch shortened by its kernel size minus one. -/
theorem Calc.featureField_shape (params : Parameters) (A : Arr4)
    (hsp : params.special = 0 ∨ params.special = 1 ∨ params.special = 2) :
    (Calc.featureField params A).shape
      = (A.n0 - (params.kt - 1), A.n1 - ((if params.is4D then params.kz else 1) - 1),
          A.n2 - (params.ky - 1), A.n3 - (params.kx - 1)) :=
  Calc.featureField_shape_aux params A hsp _ (Calc.sobelD2_shape params A)
    (Calc.sobelD3_shape params A)

theorem Calc.labelLoop_shape (params : Parameters) (c : Calc) (A : Arr4) :
    (Calc.labelLoop params c A).shape = A.shape := by
  unfold Calc.labelLoop
  refine foldl_inv (fun a : Arr4 => a.shape = A.shape) _ ?_ _ _ rfl
  intro a i ha
  exact ha

end HullComputation
namespace HullComputation

/-- C29: in each of the three modes, with kernel sizes within the extents and a batch of
`T ≥ kt` frames of the configured spatial shape, the feature field computed by
`processBatch` has shape `(T - kt + 1) × (depth - kz + 1 for 3D frames, 1 for 2D frames) ×
(height - ky + 1) × (width - kx + 1)`, and its time-flattened slice has exactly the shape of
the accumulator built by the constructor (resume offset 0), so that the elementwise maximum
of the two is taken over equal shapes. -/
theorem C29_shape_agreement (params : Parameters) (c : Calc) (batch : Arr4) (saved : Arr3)
    (hsp : params.special = 0 ∨ params.special = 1 ∨ params.special = 2)
    (hk : 1 ≤ params.kt ∧ (params.is4D = true → 1 ≤ params.kz) ∧ 1 ≤ params.ky
      ∧ 1 ≤ params.kx)
    (hext : (params.is4D = true → params.kz ≤ params.depth) ∧ params.ky ≤ params.height
      ∧ params.kx ≤ params.width)
    (h4 : params.is4D = false → params.depth = 1)
    (hT : params.kt ≤ batch.n0)
    (hb : batch.n1 = params.depth ∧ batch.n2 = params.height ∧ batch.n3 = params.width)
    (hy : params.y = 0) :
    (Calc.featureField params batch).shape
      = (batch.n0 - params.kt + 1,
          (if params.is4D then params.depth - params.kz + 1 else 1),
          params.height - params.ky + 1, params.width - params.kx + 1) ∧
    (Calc.maxTime (Calc.labelLoop params c
        (Calc.applyThreshold params (Calc.featureField params batch)))).shape
      = (Calc.init params saved).hulls.shape := by
  obtain ⟨k0, k1, k2, k3⟩ := hk
  obtain ⟨x1, x2, x3⟩ := hext
  obtain ⟨b1, b2, b3⟩ := hb
  have hF := Calc.featureField_shape params batch hsp
  have e0 : batch.n0 - (params.kt - 1) = batch.n0 - params.kt + 1 := by omega
  have e2 : batch.n2 - (params.ky - 1) = params.height - params.ky + 1 := by omega
  have e3 : batch.n3 - (params.kx - 1) = params.width - params.kx + 1 := by omega
  have e1 : batch.n1 - ((if params.is4D then params.kz else 1) - 1)
      = (if params.is4D then params.depth - params.kz + 1 else 1) := by
    cases q : params.is4D
    · have := h4 q
      simp only [Bool.false_eq_true, if_false]
      omega
    · have := k1 q
      have := x1 q
      simp only [if_true]
      omega
  rw [e0, e1, e2, e3] at hF
  refine ⟨hF, ?_⟩
  have hL := Calc.labelLoop_shape params c
    (Calc.applyThreshold params (Calc.featureField params batch))
  have hA : (Calc.applyThreshold params (Calc.featureField params batch)).shape
      = (Calc.featureField params batch).shape := rfl
  rw [hA, hF] at hL
  simp only [Arr4.shape, Prod.mk.injEq] at hL
  obtain ⟨_, l1, l2, l3⟩ := hL
  simp only [Arr3.shape, Calc.maxTime, l1, l2, l3, Calc.init, hy, ne_eq, not_true_eq_false,
    if_false]
  cases q : params.is4D <;> simp

theorem C29_shape_agreement_witness :
    (smallConfig 5 1).kt ≤ (Reader.batchOfCall (smallConfig 5 1) zeroFiles 0).n0 ∧
    (Calc.featureField (smallConfig 5 1)
        (Reader.batchOfCall (smallConfig 5 1) zeroFiles 0)).shape
      = ((Reader.batchOfCall (smallConfig 5 1) zeroFiles 0).n0 - (smallConfig 5 1).kt + 1,
          (if (smallConfig 5 1).is4D then (smallConfig 5 1).depth - (smallConfig 5 1).kz + 1
            else 1),
          (smallConfig 5 1).height - (smallConfig 5 1).ky + 1,
          (smallConfig 5 1).width - (smallConfig 5 1).kx + 1) ∧
    (Calc.maxTime (Calc.labelLoop (smallConfig 5 1) (Calc.init (smallConfig 5 1) noCheckpoint)
        (Calc.applyThreshold (smallConfig 5 1) (Calc.featureField (smallConfig 5 1)
          (Reader.batchOfCall (smallConfig 5 1) zeroFiles 0))))).shape
      = (Calc.init (smallConfig 5 1) noCheckpoint).hulls.shape :=
  ⟨by rw [Reader.batchOfCall_n0]; decide,
    C29_shape_agreement (smallConfig 5 1) (Calc.init (smallConfig 5 1) noCheckpoint)
      (Reader.batchOfCall (smallConfig 5 1) zeroFiles 0) noCheckpoint (by decide) (by decide)
      (by decide) (by decide) (by rw [Reader.batchOfCall_n0]; decide)
      (Reader.batchOfCall_dims (smallConfig 5 1) zeroFiles 0) (by decide)⟩

end HullComputation
namespace HullComputation

/-! ## Validation of the configuration -/

theorem check_step (c : Prop) [Decidable c] (e : String) (k : Except String Unit) :
    (if c then Except.error e else k) = Except.ok () ↔ ¬ c ∧ k = Except.ok () := by
  by_cases h : c
  · simp only [h, if_true, not_true_eq_false, false_and, iff_false]
    intro q
    cases q
  · simp only [h, if_false, not_false_eq_true, true_and]

/-- The configurations that `checkParameters` accepts: those that fail every one of its
tests. -/
theorem Parameters.checkParameters_ok (p : Parameters.Parsed) :
    Parameters.checkParameters p = Except.ok () ↔
      ¬ (0 ≥ p.threshold) ∧ ¬ (p.kx > p.width) ∧ ¬ (p.kx < 3) ∧ ¬ (p.ky > p.height)
        ∧ ¬ (p.ky < 3) ∧ ¬ (p.kz > p.depth ∧ p.is4D = true) ∧ ¬ (p.kz < 3 ∧ p.is4D = true)
        ∧ ¬ (p.kt > p.duration) ∧ ¬ (p.kt < 3)
        ∧ ¬ ((!p.isViewed) = true ∧ p.viewSlice ≠ -1)
        ∧ ¬ (p.isViewed = true ∧ p.viewSlice = -1 ∧ p.is4D = true)
        ∧ ¬ (p.isViewed = true ∧ p.viewSlice ≠ -1 ∧ (!p.is4D) = true)
        ∧ ¬ (p.isViewed = true ∧ p.is4D = true
              ∧ ¬ (0 ≤ p.viewSlice ∧ p.viewSlice ≤ p.depth - p.kz + 1))
        ∧ ¬ (0 ≥ p.batches) ∧ ¬ (p.batches > p.duration - p.kt + 1)
        ∧ ¬ (p.special ≠ 0 ∧ p.special ≠ 1 ∧ p.special ≠ 2) := by
  simp only [Parameters.checkParameters, Parameters.printError, check_step, and_true]

/-- With viewing off, `checkParameters` accepts exactly the configurations that pass its
threshold, kernel, batch and mode tests; the depth kernel is tested for 3D frames only. -/
theorem Parameters.checkParameters_ok_iff (p : Parameters.Parsed) (hv : p.isViewed = false)
    (hs : p.viewSlice = -1) :
    Parameters.checkParameters p = Except.ok () ↔
      (0 < p.threshold ∧ (3 ≤ p.kx ∧ p.kx ≤ p.width) ∧ (3 ≤ p.ky ∧ p.ky ≤ p.height)
        ∧ (p.is4D = true → 3 ≤ p.kz ∧ p.kz ≤ p.depth) ∧ (3 ≤ p.kt ∧ p.kt ≤ p.duration)
        ∧ (1 ≤ p.batches ∧ p.batches ≤ p.duration - p.kt + 1)
        ∧ (p.special = 0 ∨ p.special = 1 ∨ p.special = 2)) := by
  rw [Parameters.checkParameters_ok, hv, hs]
  cases h4 : p.is4D
  · constructor
    · intro h
      simp only [Bool.false_eq_true, and_false, false_and, not_false_eq_true, true_and,
        not_true_eq_false, ne_eq, Bool.not_false, false_implies, not_and, not_not] at h ⊢
      omega
    · intro h
      simp only [Bool.false_eq_true, and_false, false_and, not_false_eq_true, true_and,
        not_true_eq_false, ne_eq, Bool.not_false, false_implies, not_and, not_not] at h ⊢
      omega
  · constructor
    · intro h
      simp only [Bool.false_eq_true, and_false, false_and, not_false_eq_true, true_and,
        not_true_eq_false, ne_eq, Bool.not_false, true_implies, and_true, not_and,
        not_not] at h ⊢
      omega
    · intro h
      simp only [Bool.false_eq_true, and_false, false_and, not_false_eq_true, true_and,
        not_true_eq_false, ne_eq, Bool.not_false, true_implies, and_true, not_and,
        not_not] at h ⊢
      omega

end HullComputation
namespace HullComputation

/-- C26 (as stated, refuted): the configuration of a default run on 2D frames (viewing off,
`depth = 1`, `kz = 3`) is accepted by `checkParameters` although its depth kernel is larger
than the depth extent. -/
theorem C26_flat_counterexample :
    flatDefaults.isViewed = false ∧ flatDefaults.viewSlice = -1 ∧
    Parameters.checkParameters flatDefaults = Except.ok () ∧
    ¬ (0 < flatDefaults.threshold
        ∧ (flatDefaults.special = 0 ∨ flatDefaults.special = 1 ∨ flatDefaults.special = 2)
        ∧ (1 ≤ flatDefaults.batches
          ∧ flatDefaults.batches ≤ flatDefaults.duration - flatDefaults.kt + 1)
        ∧ (3 ≤ flatDefaults.kx ∧ flatDefaults.kx ≤ flatDefaults.width)
        ∧ (3 ≤ flatDefaults.ky ∧ flatDefaults.ky ≤ flatDefaults.height)
        ∧ (3 ≤ flatDefaults.kz ∧ flatDefaults.kz ≤ flatDefaults.depth)
        ∧ (3 ≤ flatDefaults.kt ∧ flatDefaults.kt ≤ flatDefaults.duration)) := by
  refine ⟨rfl, rfl, rfl, ?_⟩
  decide

/-- C26 (amended): with viewing off (`isViewed = 0`, `viewSlice = -1`), `checkParameters`
accepts a configuration if and only if `threshold > 0`, the mode is 0, 1 or 2,
`1 ≤ batches ≤ duration - kt + 1`, each of `kx`, `ky`, `kt` is `≥ 3` and `≤` its extent
(width, height, duration), and, for 3D frames only (`is4D`), `kz` is `≥ 3` and `≤ depth`;
every other configuration ends in a usage error. -/
theorem C26_validation (p : Parameters.Parsed) (hv : p.isViewed = false)
    (hs : p.viewSlice = -1) :
    (Parameters.checkParameters p = Except.ok () ↔
      (0 < p.threshold ∧ (3 ≤ p.kx ∧ p.kx ≤ p.width) ∧ (3 ≤ p.ky ∧ p.ky ≤ p.height)
        ∧ (p.is4D = true → 3 ≤ p.kz ∧ p.kz ≤ p.depth) ∧ (3 ≤ p.kt ∧ p.kt ≤ p.duration)
        ∧ (1 ≤ p.batches ∧ p.batches ≤ p.duration - p.kt + 1)
        ∧ (p.special = 0 ∨ p.special = 1 ∨ p.special = 2))) ∧
    (¬ (0 < p.threshold ∧ (3 ≤ p.kx ∧ p.kx ≤ p.width) ∧ (3 ≤ p.ky ∧ p.ky ≤ p.height)
        ∧ (p.is4D = true → 3 ≤ p.kz ∧ p.kz ≤ p.depth) ∧ (3 ≤ p.kt ∧ p.kt ≤ p.duration)
        ∧ (1 ≤ p.batches ∧ p.batches ≤ p.duration - p.kt + 1)
        ∧ (p.special = 0 ∨ p.special = 1 ∨ p.special = 2)) →
      ∃ error : String, Parameters.checkParameters p = Except.error error) := by
  have h := Parameters.checkParameters_ok_iff p hv hs
  refine ⟨h, ?_⟩
  intro hn
  cases hc : Parameters.checkParameters p with
  | error e => exact ⟨e, rfl⟩
  | ok u =>
    exfalso
    apply hn
    rw [← h, hc]

theorem C26_validation_witness :
    flatDefaults.isViewed = false ∧ flatDefaults.viewSlice = -1 ∧
    (Parameters.checkParameters flatDefaults = Except.ok () ↔
      (0 < flatDefaults.threshold ∧ (3 ≤ flatDefaults.kx ∧ flatDefaults.kx ≤ flatDefaults.width)
        ∧ (3 ≤ flatDefaults.ky ∧ flatDefaults.ky ≤ flatDefaults.height)
        ∧ (flatDefaults.is4D = true → 3 ≤ flatDefaults.kz ∧ flatDefaults.kz ≤ flatDefaults.depth)
        ∧ (3 ≤ flatDefaults.kt ∧ flatDefaults.kt ≤ flatDefaults.duration)
        ∧ (1 ≤ flatDefaults.batches
          ∧ flatDefaults.batches ≤ flatDefaults.duration - flatDefaults.kt + 1)
        ∧ (flatDefaults.special = 0 ∨ flatDefaults.special = 1 ∨ flatDefaults.special = 2))) :=
  ⟨rfl, rfl, (C26_validation flatDefaults rfl rfl).1⟩

end HullComputation
namespace HullComputation

/-! ## The display range of `getHulls` -/

end HullComputation
namespace HullComputation

end HullComputation
namespace HullComputation

/-! ## The mode-2 feature field -/

/-- The separable stencil of `sobelD3`: along each axis `min (orders requested) (k - 1)`
differences and smoothing for the remaining steps. -/
theorem Calc.sobelD3_stencil (params : Parameters) (M : Arr4) (a b c : Nat)
    (hk : 1 ≤ params.kt ∧ (params.is4D = true → 1 ≤ params.kz) ∧ 1 ≤ params.ky
      ∧ 1 ≤ params.kx)
    (p0 p1 p2 p3 : Nat) :
    (Calc.sobelD3 params M a b c).val p0 p1 p2 p3
      = ∑ o0 ∈ Finset.range params.kt,
          ∑ o1 ∈ Finset.range (if params.is4D then params.kz else 1),
            ∑ o2 ∈ Finset.range params.ky, ∑ o3 ∈ Finset.range params.kx,
              (((1 - Polynomial.X : Polynomial ℚ)
                    ^ (min (Calc.ordersD3 a b c 0) (params.kt - 1))
                  * (1 + Polynomial.X)
                    ^ (params.kt - 1 - min (Calc.ordersD3 a b c 0) (params.kt - 1))).coeff o0
                * ((1 - Polynomial.X : Polynomial ℚ)
                    ^ (min (Calc.ordersD3 a b c 1) ((if params.is4D then params.kz else 1) - 1))
                  * (1 + Polynomial.X)
                    ^ ((if params.is4D then params.kz else 1) - 1
                      - min (Calc.ordersD3 a b c 1)
                          ((if params.is4D then params.kz else 1) - 1))).coeff o1
                * ((1 - Polynomial.X : Polynomial ℚ)
                    ^ (min (Calc.ordersD3 a b c 2) (params.ky - 1))
                  * (1 + Polynomial.X)
                    ^ (params.ky - 1 - min (Calc.ordersD3 a b c 2) (params.ky - 1))).coeff o2
                * ((1 - Polynomial.X : Polynomial ℚ)
                    ^ (min (Calc.ordersD3 a b c 3) (params.kx - 1))
                  * (1 + Polynomial.X)
                    ^ (params.kx - 1 - min (Calc.ordersD3 a b c 3) (params.kx - 1))).coeff o3)
              * M.val (p0 + o0) (p1 + o1) (p2 + o2) (p3 + o3) := by
  obtain ⟨h0, h1, h2, h3⟩ := hk
  have l1 : 1 ≤ (if params.is4D then params.kz else 1) := by
    by_cases e : params.is4D = true
    · rw [if_pos e]
      exact h1 e
    · rw [if_neg e]
  have e : ∀ c n : Nat, (List.replicate (min c n) true
      ++ List.replicate (n - min c n) false).length + 1 = n + 1 := by
    intro c n
    simp only [List.length_append, List.length_replicate]
    omega
  have s := Calc.separable_stencil _ _ _ _ _ _ _ _
    (stencil_replicate (min (Calc.ordersD3 a b c 0) (params.kt - 1))
      (params.kt - 1 - min (Calc.ordersD3 a b c 0) (params.kt - 1)))
    (stencil_replicate (min (Calc.ordersD3 a b c 1) ((if params.is4D then params.kz else 1) - 1))
      ((if params.is4D then params.kz else 1) - 1
        - min (Calc.ordersD3 a b c 1) ((if params.is4D then params.kz else 1) - 1)))
    (stencil_replicate (min (Calc.ordersD3 a b c 2) (params.ky - 1))
      (params.ky - 1 - min (Calc.ordersD3 a b c 2) (params.ky - 1)))
    (stencil_replicate (min (Calc.ordersD3 a b c 3) (params.kx - 1))
      (params.kx - 1 - min (Calc.ordersD3 a b c 3) (params.kx - 1))) M p0 p1 p2 p3
  rw [e, e, e, e, Nat.sub_add_cancel h0, Nat.sub_add_cancel l1, Nat.sub_add_cancel h2,
    Nat.sub_add_cancel h3] at s
  rw [Calc.sobelD3_steps]
  exact s

/-- The mode-2 feature field, written out. -/
theorem Calc.featureField_mode2 (params : Parameters) (M : Arr4) (hsp : params.special = 2)
    (i0 i1 i2 i3 : Nat) :
    (Calc.featureField params M).val i0 i1 i2 i3 =
      if params.is4D then
        (Calc.sobelD3 params M 0 0 3).val i0 i1 i2 i3 ^ 2
          + (Calc.sobelD3 params M 0 0 2).val i0 i1 i2 i3 ^ 2
          + (Calc.sobelD3 params M 0 0 1).val i0 i1 i2 i3 ^ 2
      else
        (Calc.sobelD3 params M 0 0 3).val i0 i1 i2 i3 ^ 2
          + (Calc.sobelD3 params M 0 0 2).val i0 i1 i2 i3 ^ 2 := by
  cases h4 : params.is4D <;>
    simp [Calc.featureField, hsp, h4, Arr4.add, Arr4.pow2] <;> ring

end HullComputation
namespace HullComputation

set_option maxHeartbeats 1000000 in
/-- The estimates at cell (0, 0, 0, 0) for the lone voxel of value 255 in frame 1: the
`sobelD3` estimates of mode 2 are both -2, the `sobelD2` estimates that mix one spatial axis
with time are both 0. -/
theorem brightVoxel_motion :
    (Calc.sobelD3 motionConfig (sequence motionConfig brightVoxelFiles) 0 0 3).val 0 0 0 0 = -2 ∧
    (Calc.sobelD3 motionConfig (sequence motionConfig brightVoxelFiles) 0 0 2).val 0 0 0 0 = -2 ∧
    (Calc.sobelD2 motionConfig (sequence motionConfig brightVoxelFiles) 0 3).val 0 0 0 0 = 0 ∧
    (Calc.sobelD2 motionConfig (sequence motionConfig brightVoxelFiles) 0 2).val 0 0 0 0 = 0 := by
  have h255 : ((255 : Fin 256) : Nat) = 255 := rfl
  refine ⟨?_, ?_, ?_, ?_⟩
  · simp [motionConfig, smallConfig, Calc.sobelD3_unfold, List.range_succ,
      Calc.sobelD3Step, Calc.derivative, Calc.guassian, sequence, brightVoxelFiles, h255]
    try norm_num
  · simp [motionConfig, smallConfig, Calc.sobelD3_unfold, List.range_succ,
      Calc.sobelD3Step, Calc.derivative, Calc.guassian, sequence, brightVoxelFiles, h255]
    try norm_num
  · simp [motionConfig, smallConfig, Calc.sobelD2_unfold, List.range_succ,
      Calc.sobelD2Step, Calc.derivative, Calc.guassian, sequence, brightVoxelFiles, h255]
  · simp [motionConfig, smallConfig, Calc.sobelD2_unfold, List.range_succ,
      Calc.sobelD2Step, Calc.derivative, Calc.guassian, sequence, brightVoxelFiles, h255]

end HullComputation
namespace HullComputation

/-- C23 (as stated, refuted): in mode 2, for the lone voxel of value 255 in frame 1, the
feature field at cell (0, 0, 0, 0) is 8, while the squared second-derivative estimates that
mix each spatial axis with time (one difference along time, one along the axis) sum to 0;
the estimates the code squares take two differences along time. -/
theorem C23_mode2_counterexample :
    motionConfig.special = 2 ∧
    (Calc.featureField motionConfig (sequence motionConfig brightVoxelFiles)).val 0 0 0 0 = 8 ∧
    (Calc.sobelD2 motionConfig (sequence motionConfig brightVoxelFiles) 0 3).val 0 0 0 0 ^ 2
      + (Calc.sobelD2 motionConfig (sequence motionConfig brightVoxelFiles) 0 2).val 0 0 0 0 ^ 2
      = 0 ∧
    (Calc.featureField motionConfig (sequence motionConfig brightVoxelFiles)).val 0 0 0 0
      ≠ (Calc.sobelD2 motionConfig (sequence motionConfig brightVoxelFiles) 0 3).val 0 0 0 0 ^ 2
        + (Calc.sobelD2 motionConfig
            (sequence motionConfig brightVoxelFiles) 0 2).val 0 0 0 0 ^ 2 ∧
    min (Calc.ordersD3 0 0 3 0) (motionConfig.kt - 1) = 2 ∧
    min (Calc.ordersD3 0 0 2 0) (motionConfig.kt - 1) = 2 := by
  obtain ⟨a3, a2, b3, b2⟩ := brightVoxel_motion
  have hf : (Calc.featureField motionConfig
      (sequence motionConfig brightVoxelFiles)).val 0 0 0 0 = 8 := by
    rw [Calc.featureField_mode2 motionConfig _ rfl]
    have h4 : motionConfig.is4D = false := rfl
    rw [h4, a3, a2]
    norm_num
  refine ⟨rfl, hf, ?_, ?_, by decide, by decide⟩
  · rw [b3, b2]
    norm_num
  · rw [hf, b3, b2]
    norm_num

/-- C23 (amended): in mode 2 the feature field is a sum of squared `sobelD3` estimates, one
per spatial axis `d` (columns, rows and, for 3D frames, depth); for kernel sizes `≥ 3` each
estimate takes two differences along time and one difference along `d`, with smoothing for
the remaining steps and on the other axes: a third-derivative estimate, whose stencil has the
coefficients of `(1 - X)² (1 + X)^(kt - 3)` along time and of `(1 - X) (1 + X)^(k_d - 2)`
along `d`. -/
theorem C23_mode2_field (params : Parameters) (M : Arr4) (hsp : params.special = 2)
    (hk : 3 ≤ params.kt ∧ (params.is4D = true → 3 ≤ params.kz) ∧ 3 ≤ params.ky
      ∧ 3 ≤ params.kx) :
    (∀ i0 i1 i2 i3 : Nat,
      (Calc.featureField params M).val i0 i1 i2 i3 =
        if params.is4D then
          (Calc.sobelD3 params M 0 0 3).val i0 i1 i2 i3 ^ 2
            + (Calc.sobelD3 params M 0 0 2).val i0 i1 i2 i3 ^ 2
            + (Calc.sobelD3 params M 0 0 1).val i0 i1 i2 i3 ^ 2
        else
          (Calc.sobelD3 params M 0 0 3).val i0 i1 i2 i3 ^ 2
            + (Calc.sobelD3 params M 0 0 2).val i0 i1 i2 i3 ^ 2) ∧
    ∀ d : Nat, (d = 1 ∧ params.is4D = true) ∨ d = 2 ∨ d = 3 →
      min (Calc.ordersD3 0 0 d 0) (params.kt - 1) = 2 ∧
      min (Calc.ordersD3 0 0 d d) ((Calc.kernelSizes params).getD d 0 - 1) = 1 ∧
      (∀ e : Nat, e ≠ 0 → e ≠ d → Calc.ordersD3 0 0 d e = 0) ∧
      ∀ p0 p1 p2 p3 : Nat,
        (Calc.sobelD3 params M 0 0 d).val p0 p1 p2 p3
          = ∑ o0 ∈ Finset.range params.kt,
              ∑ o1 ∈ Finset.range (if params.is4D then params.kz else 1),
                ∑ o2 ∈ Finset.range params.ky, ∑ o3 ∈ Finset.range params.kx,
                  (((1 - Polynomial.X : Polynomial ℚ)
                        ^ (min (Calc.ordersD3 0 0 d 0) (params.kt - 1))
                      * (1 + Polynomial.X)
                        ^ (params.kt - 1
                          - min (Calc.ordersD3 0 0 d 0) (params.kt - 1))).coeff o0
                    * ((1 - Polynomial.X : Polynomial ℚ)
                        ^ (min (Calc.ordersD3 0 0 d 1)
                            ((if params.is4D then params.kz else 1) - 1))
                      * (1 + Polynomial.X)
                        ^ ((if params.is4D then params.kz else 1) - 1
                          - min (Calc.ordersD3 0 0 d 1)
                              ((if params.is4D then params.kz else 1) - 1))).coeff o1
                    * ((1 - Polynomial.X : Polynomial ℚ)
                        ^ (min (Calc.ordersD3 0 0 d 2) (params.ky - 1))
                      * (1 + Polynomial.X)
                        ^ (params.ky - 1
                          - min (Calc.ordersD3 0 0 d 2) (params.ky - 1))).coeff o2
                    * ((1 - Polynomial.X : Polynomial ℚ)
                        ^ (min (Calc.ordersD3 0 0 d 3) (params.kx - 1))
                      * (1 + Polynomial.X)
                        ^ (params.kx - 1
                          - min (Calc.ordersD3 0 0 d 3) (params.kx - 1))).coeff o3)
                  * M.val (p0 + o0) (p1 + o1) (p2 + o2) (p3 + o3) := by
  obtain ⟨h0, h1, h2, h3⟩ := hk
  refine ⟨Calc.featureField_mode2 params M hsp, ?_⟩
  intro d hd
  have hk1 : 1 ≤ params.kt ∧ (params.is4D = true → 1 ≤ params.kz) ∧ 1 ≤ params.ky
      ∧ 1 ≤ params.kx := ⟨by omega, fun q => by have := h1 q; omega, by omega, by omega⟩
  refine ⟨?_, ?_, ?_, fun p0 p1 p2 p3 => Calc.sobelD3_stencil params M 0 0 d hk1 p0 p1 p2 p3⟩
  · have hd0 : d ≠ 0 := by
      rcases hd with ⟨q, _⟩ | q | q <;> omega
    have : Calc.ordersD3 0 0 d 0 = 2 := by simp [Calc.ordersD3, hd0]
    rw [this]
    omega
  · have hdd : Calc.ordersD3 0 0 d d = 1 := by
      have hd0 : ¬ (0 = d) := by
        rcases hd with ⟨q, _⟩ | q | q <;> omega
      simp [Calc.ordersD3, hd0]
    rw [hdd]
    rcases hd with ⟨q, q4⟩ | q | q
    · subst q
      have := h1 q4
      simp only [Calc.kernelSizes, List.getD_cons_succ, List.getD_cons_zero, q4, if_true]
      omega
    · subst q
      simp only [Calc.kernelSizes, List.getD_cons_succ, List.getD_cons_zero]
      omega
    · subst q
      simp only [Calc.kernelSizes, List.getD_cons_succ, List.getD_cons_zero]
      omega
  · intro e he hed
    have h1 : ¬ (0 = e) := fun q => he q.symm
    have h2 : ¬ (d = e) := fun q => hed q.symm
    simp [Calc.ordersD3, h1, h2]

theorem C23_mode2_field_witness :
    motionConfig.special = 2 ∧
    (3 ≤ motionConfig.kt ∧ (motionConfig.is4D = true → 3 ≤ motionConfig.kz)
      ∧ 3 ≤ motionConfig.ky ∧ 3 ≤ motionConfig.kx) ∧
    (Calc.featureField motionConfig (sequence motionConfig brightVoxelFiles)).val 0 0 0 0 =
      (if motionConfig.is4D then
        (Calc.sobelD3 motionConfig (sequence motionConfig brightVoxelFiles) 0 0 3).val 0 0 0 0 ^ 2
          + (Calc.sobelD3 motionConfig
              (sequence motionConfig brightVoxelFiles) 0 0 2).val 0 0 0 0 ^ 2
          + (Calc.sobelD3 motionConfig
              (sequence motionConfig brightVoxelFiles) 0 0 1).val 0 0 0 0 ^ 2
      else
        (Calc.sobelD3 motionConfig (sequence motionConfig brightVoxelFiles) 0 0 3).val 0 0 0 0 ^ 2
          + (Calc.sobelD3 motionConfig
              (sequence motionConfig brightVoxelFiles) 0 0 2).val 0 0 0 0 ^ 2) ∧
    min (Calc.ordersD3 0 0 3 0) (motionConfig.kt - 1) = 2 :=
  ⟨rfl, by decide,
    (C23_mode2_field motionConfig (sequence motionConfig brightVoxelFiles) rfl
      (by decide)).1 0 0 0 0,
    ((C23_mode2_field motionConfig (sequence motionConfig brightVoxelFiles) rfl
      (by decide)).2 3 (Or.inr (Or.inr rfl))).1⟩

end HullComputation
namespace HullComputation

/-! ## A primary extraction after an earlier extraction -/

theorem cornerFields_cases :
    Writer.cubeCases farCorner 0 0 0 = 64 ∧ Writer.cubeCases nearCorner 0 0 0 = 32 := by
  constructor <;> norm_num [Writer.cubeCases, aboveEpsilon, farCorner, nearCorner, EPSILON]

theorem Writer.singleCube_unfold (tbl : CubeTable) (sqrtf : ℚ → ℚ) (w : Writer) (M : Arr3)
    (isColored : Bool) (h0 : M.n0 = 2) (h1 : M.n1 = 2) (h2 : M.n2 = 2) :
    Writer.marchingCubesCore tbl sqrtf w M isColored =
      Writer.cubeCase tbl sqrtf (Writer.cubeCases M)
        (fun x y z => Writer.cubeRefined M z y x) 0 0 0 isColored
        (w, Writer.createVertexMap) := by
  have hd : List.range (2 - 1) = [0] := rfl
  simp only [Writer.marchingCubesCore, h0, h1, h2, hd, List.foldl_cons, List.foldl_nil]

/-- The marching loops on a one-cube field whose case row is the single triangle
`(p0, p1, p2)` with face normal `n` and three distinct corners `ca`, `cb`, `cc`, from a writer
without vertices and faces whose `normals[0..2]` hold `(nx, ny, nz)`: one triangle, three
vertices, and `normals[0..2]` hold `(nx, ny, nz)` divided by the length of `n`, plus `n`. -/
theorem Writer.singleCube_core (tbl : CubeTable) (sqrtf : ℚ → ℚ) (w : Writer) (M : Arr3)
    (isColored : Bool) (h0 : M.n0 = 2) (h1 : M.n1 = 2) (h2 : M.n2 = 2)
    (nx ny nz : ℚ) (me : Nat → Nat)
    (hw : Writer.Track (w, Writer.createVertexMap) 0 0 Writer.createVertexMap nx ny nz me)
    (n : ℚ × ℚ × ℚ) (a1 b1 c1 a2 b2 c2 a3 b3 c3 : Nat)
    (r0 : tbl.lookup (Writer.cubeCases M 0 0 0) 0 ≠ -1)
    (r3 : tbl.lookup (Writer.cubeCases M 0 0 0) 3 = -1)
    (hn : ∀ u : Writer, (Writer.getNormal tbl sqrtf u
      (tbl.lookup (Writer.cubeCases M 0 0 0) 0) (tbl.lookup (Writer.cubeCases M 0 0 0) (0 + 1))
      (tbl.lookup (Writer.cubeCases M 0 0 0) (0 + 2))).1 = n)
    (e1 : tbl.coords (tbl.lookup (Writer.cubeCases M 0 0 0) (0 + 0)) 0 + 2 * 0 = a1)
    (e2 : tbl.coords (tbl.lookup (Writer.cubeCases M 0 0 0) (0 + 0)) 1 + 2 * 0 = b1)
    (e3 : tbl.coords (tbl.lookup (Writer.cubeCases M 0 0 0) (0 + 0)) 2 + 2 * 0 = c1)
    (e4 : tbl.coords (tbl.lookup (Writer.cubeCases M 0 0 0) (0 + 1)) 0 + 2 * 0 = a2)
    (e5 : tbl.coords (tbl.lookup (Writer.cubeCases M 0 0 0) (0 + 1)) 1 + 2 * 0 = b2)
    (e6 : tbl.coords (tbl.lookup (Writer.cubeCases M 0 0 0) (0 + 1)) 2 + 2 * 0 = c2)
    (e7 : tbl.coords (tbl.lookup (Writer.cubeCases M 0 0 0) (0 + 2)) 0 + 2 * 0 = a3)
    (e8 : tbl.coords (tbl.lookup (Writer.cubeCases M 0 0 0) (0 + 2)) 1 + 2 * 0 = b3)
    (e9 : tbl.coords (tbl.lookup (Writer.cubeCases M 0 0 0) (0 + 2)) 2 + 2 * 0 = c3)
    (d1 : Writer.createVertexMap a1 b1 c1 = 0)
    (d2 : (Writer.createVertexMap.set a1 b1 c1 1) a2 b2 c2 = 0)
    (d3 : ((Writer.createVertexMap.set a1 b1 c1 1).set a2 b2 c2 2) a3 b3 c3 = 0) :
    Writer.Track (Writer.marchingCubesCore tbl sqrtf w M isColored) 3 1
      (((Writer.createVertexMap.set a1 b1 c1 1).set a2 b2 c2 2).set a3 b3 c3 3)
      (nx / sqrtf (n.1 * n.1 + n.2.1 * n.2.1 + n.2.2 * n.2.2) + n.1)
      (ny / sqrtf (n.1 * n.1 + n.2.1 * n.2.1 + n.2.2 * n.2.2) + n.2.1)
      (nz / sqrtf (n.1 * n.1 + n.2.1 * n.2.1 + n.2.2 * n.2.2) + n.2.2)
      (setAt (setAt (setAt me 0 1) 1 2) 2 3) := by
  obtain ⟨s0, s1, s2, s3, es0, es1, es2, es3, eT⟩ :=
    Writer.cubeTriangle_states tbl sqrtf (fun x y z => Writer.cubeRefined M z y x) isColored
      (tbl.lookup (Writer.cubeCases M 0 0 0)) 0 0 0 0 (w, Writer.createVertexMap)
  have hcore : Writer.marchingCubesCore tbl sqrtf w M isColored = s3 := by
    rw [Writer.singleCube_unfold tbl sqrtf w M isColored h0 h1 h2,
      Writer.cubeCase_single _ _ _ _ 0 0 0 _ _ r0 r3, eT]
  have t0 : Writer.Track s0 0 1 Writer.createVertexMap
      (nx / sqrtf (n.1 * n.1 + n.2.1 * n.2.1 + n.2.2 * n.2.2))
      (ny / sqrtf (n.1 * n.1 + n.2.1 * n.2.1 + n.2.2 * n.2.2))
      (nz / sqrtf (n.1 * n.1 + n.2.1 * n.2.1 + n.2.2 * n.2.2)) me := by
    rw [es0]
    exact hw.openFace tbl sqrtf _ _ _ n (hn _) (by decide)
  have t1 : Writer.Track s1 1 1 (Writer.createVertexMap.set a1 b1 c1 1)
      (nx / sqrtf (n.1 * n.1 + n.2.1 * n.2.1 + n.2.2 * n.2.2) + n.1)
      (ny / sqrtf (n.1 * n.1 + n.2.1 * n.2.1 + n.2.2 * n.2.2) + n.2.1)
      (nz / sqrtf (n.1 * n.1 + n.2.1 * n.2.1 + n.2.2 * n.2.2) + n.2.2)
      (setAt me 0 1) := by
    rw [es1]
    exact t0.corner_first _ isColored _ n _ _ _ a1 b1 c1 0 (hn _) e1 e2 e3 d1
  have t2 : Writer.Track s2 2 1 ((Writer.createVertexMap.set a1 b1 c1 1).set a2 b2 c2 2)
      (nx / sqrtf (n.1 * n.1 + n.2.1 * n.2.1 + n.2.2 * n.2.2) + n.1)
      (ny / sqrtf (n.1 * n.1 + n.2.1 * n.2.1 + n.2.2 * n.2.2) + n.2.1)
      (nz / sqrtf (n.1 * n.1 + n.2.1 * n.2.1 + n.2.2 * n.2.2) + n.2.2)
      (setAt (setAt me 0 1) 1 2) := by
    rw [es2]
    exact t1.corner_new _ isColored _ _ _ _ a2 b2 c2 1 e4 e5 e6 d2 (by decide) (by decide)
  have t3 : Writer.Track s3 3 1
      (((Writer.createVertexMap.set a1 b1 c1 1).set a2 b2 c2 2).set a3 b3 c3 3)
      (nx / sqrtf (n.1 * n.1 + n.2.1 * n.2.1 + n.2.2 * n.2.2) + n.1)
      (ny / sqrtf (n.1 * n.1 + n.2.1 * n.2.1 + n.2.2 * n.2.2) + n.2.1)
      (nz / sqrtf (n.1 * n.1 + n.2.1 * n.2.1 + n.2.2 * n.2.2) + n.2.2)
      (setAt (setAt (setAt me 0 1) 1 2) 2 3) := by
    rw [es3]
    exact t2.corner_new _ isColored _ _ _ _ a3 b3 c3 2 e7 e8 e9 d3 (by decide) (by decide)
  rw [hcore]
  exact t3

end HullComputation
namespace HullComputation

/-- The marching loops on `farCorner` (triangle `(10, 6, 5)`, face normal `(-1, -1, -1)`). -/
theorem Writer.farCorner_core (sqrtf : ℚ → ℚ) (w : Writer) (isColored : Bool)
    (nx ny nz : ℚ) (me : Nat → Nat)
    (hw : Writer.Track (w, Writer.createVertexMap) 0 0 Writer.createVertexMap nx ny nz me) :
    Writer.Track (Writer.marchingCubesCore cornerCubeTable sqrtf w farCorner isColored) 3 1
      (((Writer.createVertexMap.set 2 1 2 1).set 1 2 2 2).set 2 2 1 3)
      (nx / sqrtf ((-1) * (-1) + (-1) * (-1) + (-1) * (-1)) + (-1))
      (ny / sqrtf ((-1) * (-1) + (-1) * (-1) + (-1) * (-1)) + (-1))
      (nz / sqrtf ((-1) * (-1) + (-1) * (-1) + (-1) * (-1)) + (-1))
      (setAt (setAt (setAt me 0 1) 1 2) 2 3) := by
  have hc := cornerFields_cases.1
  have f0 : cornerCubeTable.lookup 64 0 = 10 := by decide
  have f1 : cornerCubeTable.lookup 64 (0 + 1) = 6 := by decide
  have f2 : cornerCubeTable.lookup 64 (0 + 2) = 5 := by decide
  refine Writer.singleCube_core cornerCubeTable sqrtf w farCorner isColored rfl rfl rfl
    nx ny nz me hw (-1, -1, -1) 2 1 2 1 2 2 2 2 1 ?_ ?_ ?_ ?_ ?_ ?_ ?_ ?_ ?_ ?_ ?_ ?_
    (by decide) (by decide) (by decide)
  · rw [hc]; decide
  · rw [hc]; decide
  · intro u
    rw [hc, f0, f1, f2]
    exact (cornerCubeTable_normals sqrtf u).1
  all_goals rw [hc]; decide

/-- The marching loops on `nearCorner` (triangle `(9, 5, 4)`, face normal `(-1, -1, 1)`). -/
theorem Writer.nearCorner_core (sqrtf : ℚ → ℚ) (w : Writer) (isColored : Bool)
    (nx ny nz : ℚ) (me : Nat → Nat)
    (hw : Writer.Track (w, Writer.createVertexMap) 0 0 Writer.createVertexMap nx ny nz me) :
    Writer.Track (Writer.marchingCubesCore cornerCubeTable sqrtf w nearCorner isColored) 3 1
      (((Writer.createVertexMap.set 2 1 0 1).set 2 2 1 2).set 1 2 0 3)
      (nx / sqrtf ((-1) * (-1) + (-1) * (-1) + 1 * 1) + (-1))
      (ny / sqrtf ((-1) * (-1) + (-1) * (-1) + 1 * 1) + (-1))
      (nz / sqrtf ((-1) * (-1) + (-1) * (-1) + 1 * 1) + 1)
      (setAt (setAt (setAt me 0 1) 1 2) 2 3) := by
  have hc := cornerFields_cases.2
  have g0 : cornerCubeTable.lookup 32 0 = 9 := by decide
  have g1 : cornerCubeTable.lookup 32 (0 + 1) = 5 := by decide
  have g2 : cornerCubeTable.lookup 32 (0 + 2) = 4 := by decide
  refine Writer.singleCube_core cornerCubeTable sqrtf w nearCorner isColored rfl rfl rfl
    nx ny nz me hw (-1, -1, 1) 2 1 0 2 2 1 1 2 0 ?_ ?_ ?_ ?_ ?_ ?_ ?_ ?_ ?_ ?_ ?_ ?_
    (by decide) (by decide) (by decide)
  · rw [hc]; decide
  · rw [hc]; decide
  · intro u
    rw [hc, g0, g1, g2]
    exact (cornerCubeTable_normals sqrtf u).2
  all_goals rw [hc]; decide

/-- The summary of a writer that has finished an extraction and had its counts reset: the
capacities are unchanged and `normals[0..2]` hold the normalised normal of the former
vertex 1. -/
theorem Writer.Track.afterExtraction {s : Writer × VMap} {vc fc : Nat} {vm : VMap}
    {nx ny nz : ℚ} {me : Nat → Nat} (h : Writer.Track s vc fc vm nx ny nz me)
    (sqrtf : ℚ → ℚ) (W H D : Nat) (hvc : 1 ≤ vc) :
    Writer.Track ((((s.1.normalizeNormals sqrtf).scaleCoords W H D).resetCounts),
        Writer.createVertexMap) 0 0 Writer.createVertexMap
      (nx / sqrtf (nx * nx + ny * ny + nz * nz))
      (ny / sqrtf (nx * nx + ny * ny + nz * nz))
      (nz / sqrtf (nx * nx + ny * ny + nz * nz)) me := by
  obtain ⟨t1, t2, t3, t4, t5, t6, t7, t8, t9⟩ := h
  obtain ⟨f1, f2, _⟩ := Writer.finish_frame sqrtf s.1 W H D
  obtain ⟨_, g2, _, _⟩ := Writer.finish_spec sqrtf s.1 W H D
  have n0 := Writer.finish_first_normal sqrtf s.1 W H D (by rw [t1]; exact hvc) 0 (by decide)
  have n1 := Writer.finish_first_normal sqrtf s.1 W H D (by rw [t1]; exact hvc) 1 (by decide)
  have n2 := Writer.finish_first_normal sqrtf s.1 W H D (by rw [t1]; exact hvc) 2 (by decide)
  rw [t7, t8, t9] at n0 n1 n2
  exact ⟨rfl, f1.trans t2, rfl, f2.trans t4, rfl, g2.trans t6, n0, n1, n2⟩

end HullComputation
namespace HullComputation

/-- C21 (a primary extraction after an earlier one, evaluated): with a table whose case rows
32 and 64 are the usual single triangles and any `sqrtf` that is positive on positive numbers,
`marchingCubes` on the one-cube field `nearCorner` emits one triangle with the vertices 1, 2, 3
both from a freshly constructed writer and from a writer that has extracted `farCorner`
before (counts reset in between); from the fresh writer the stored normal of vertex 1 has
first and third components that cancel (it is `(-1, -1, 1)` normalised), from the reused
writer they do not cancel: the face normal was added onto the normal that the earlier
extraction left in `normals[0..2]`, so the two meshes differ in the normal of vertex 1. -/
theorem C21_stale_normals (sqrtf : ℚ → ℚ) (hs : ∀ q : ℚ, 0 < q → 0 < sqrtf q) :
    ((Writer.marchingCubes cornerCubeTable sqrtf Writer.init.resetCounts nearCorner
        true).vertexCount = 3 ∧
      (Writer.marchingCubes cornerCubeTable sqrtf
        (Writer.marchingCubes cornerCubeTable sqrtf Writer.init.resetCounts farCorner
          false).resetCounts nearCorner true).vertexCount = 3) ∧
    ((Writer.marchingCubes cornerCubeTable sqrtf Writer.init.resetCounts nearCorner
        true).faceCount = 1 ∧
      (Writer.marchingCubes cornerCubeTable sqrtf
        (Writer.marchingCubes cornerCubeTable sqrtf Writer.init.resetCounts farCorner
          false).resetCounts nearCorner true).faceCount = 1) ∧
    (∀ k, k < 3 →
      (Writer.marchingCubes cornerCubeTable sqrtf Writer.init.resetCounts nearCorner
        true).mesh k = k + 1 ∧
      (Writer.marchingCubes cornerCubeTable sqrtf
        (Writer.marchingCubes cornerCubeTable sqrtf Writer.init.resetCounts farCorner
          false).resetCounts nearCorner true).mesh k = k + 1) ∧
    (Writer.marchingCubes cornerCubeTable sqrtf Writer.init.resetCounts nearCorner
        true).normals 0
      + (Writer.marchingCubes cornerCubeTable sqrtf Writer.init.resetCounts nearCorner
        true).normals 2 = 0 ∧
    (Writer.marchingCubes cornerCubeTable sqrtf
        (Writer.marchingCubes cornerCubeTable sqrtf Writer.init.resetCounts farCorner
          false).resetCounts nearCorner true).normals 0
      + (Writer.marchingCubes cornerCubeTable sqrtf
        (Writer.marchingCubes cornerCubeTable sqrtf Writer.init.resetCounts farCorner
          false).resetCounts nearCorner true).normals 2 ≠ 0 := by
  have t0 : Writer.Track (Writer.init.resetCounts, Writer.createVertexMap) 0 0
      Writer.createVertexMap 0 0 0 (fun _ => 0) :=
    ⟨rfl, rfl, rfl, rfl, rfl, rfl, rfl, rfl, rfl⟩
  have coreA := Writer.farCorner_core sqrtf Writer.init.resetCounts false 0 0 0 _ t0
  have afterA := coreA.afterExtraction sqrtf farCorner.n2 farCorner.n1 farCorner.n0
    (by decide)
  have hA : ((((Writer.marchingCubesCore cornerCubeTable sqrtf Writer.init.resetCounts
      farCorner false).1.normalizeNormals sqrtf).scaleCoords farCorner.n2 farCorner.n1
      farCorner.n0).resetCounts)
      = (Writer.marchingCubes cornerCubeTable sqrtf Writer.init.resetCounts farCorner
          false).resetCounts := rfl
  rw [hA] at afterA
  obtain ⟨x, hx⟩ : ∃ x : ℚ, x = (0 / sqrtf ((-1) * (-1) + (-1) * (-1) + (-1) * (-1)) + (-1))
      / sqrtf ((0 / sqrtf ((-1) * (-1) + (-1) * (-1) + (-1) * (-1)) + (-1))
          * (0 / sqrtf ((-1) * (-1) + (-1) * (-1) + (-1) * (-1)) + (-1))
        + (0 / sqrtf ((-1) * (-1) + (-1) * (-1) + (-1) * (-1)) + (-1))
          * (0 / sqrtf ((-1) * (-1) + (-1) * (-1) + (-1) * (-1)) + (-1))
        + (0 / sqrtf ((-1) * (-1) + (-1) * (-1) + (-1) * (-1)) + (-1))
          * (0 / sqrtf ((-1) * (-1) + (-1) * (-1) + (-1) * (-1)) + (-1))) := ⟨_, rfl⟩
  rw [← hx] at afterA
  have hxneg : x < 0 := by
    rw [hx]
    have e : (0 / sqrtf ((-1) * (-1) + (-1) * (-1) + (-1) * (-1)) + (-1) : ℚ) = -1 := by
      rw [zero_div, zero_add]
    rw [e]
    have e3 : ((-1 : ℚ)) * (-1) + (-1) * (-1) + (-1) * (-1) = 3 := by norm_num
    rw [e3]
    exact div_neg_of_neg_of_pos (by norm_num) (hs 3 (by norm_num))
  have coreR := Writer.nearCorner_core sqrtf _ true _ _ _ _ afterA
  have coreF := Writer.nearCorner_core sqrtf Writer.init.resetCounts true 0 0 0 _ t0
  obtain ⟨r1, _, r3, _, _, r6, r7, r8, r9⟩ := coreR
  obtain ⟨q1, _, q3, _, _, q6, q7, q8, q9⟩ := coreF
  obtain ⟨fv, fm, ff, _⟩ := Writer.finish_spec sqrtf
    (Writer.marchingCubesCore cornerCubeTable sqrtf Writer.init.resetCounts nearCorner true).1
    nearCorner.n2 nearCorner.n1 nearCorner.n0
  obtain ⟨gv, gm, gf, _⟩ := Writer.finish_spec sqrtf
    (Writer.marchingCubesCore cornerCubeTable sqrtf
      (Writer.marchingCubes cornerCubeTable sqrtf Writer.init.resetCounts farCorner
        false).resetCounts nearCorner true).1
    nearCorner.n2 nearCorner.n1 nearCorner.n0
  have nF : ∀ k, k < 3 → (Writer.marchingCubes cornerCubeTable sqrtf Writer.init.resetCounts
      nearCorner true).normals k = _ := fun k hk =>
    Writer.finish_first_normal sqrtf
      (Writer.marchingCubesCore cornerCubeTable sqrtf Writer.init.resetCounts nearCorner
        true).1 nearCorner.n2 nearCorner.n1 nearCorner.n0 (by rw [q1]; decide) k hk
  have nR : ∀ k, k < 3 → (Writer.marchingCubes cornerCubeTable sqrtf
      (Writer.marchingCubes cornerCubeTable sqrtf Writer.init.resetCounts farCorner
        false).resetCounts nearCorner true).normals k = _ := fun k hk =>
    Writer.finish_first_normal sqrtf
      (Writer.marchingCubesCore cornerCubeTable sqrtf
        (Writer.marchingCubes cornerCubeTable sqrtf Writer.init.resetCounts farCorner
          false).resetCounts nearCorner true).1
      nearCorner.n2 nearCorner.n1 nearCorner.n0 (by rw [r1]; decide) k hk
  have mF : (Writer.marchingCubes cornerCubeTable sqrtf Writer.init.resetCounts nearCorner
      true).mesh = _ := fm.trans q6
  have mR : (Writer.marchingCubes cornerCubeTable sqrtf
      (Writer.marchingCubes cornerCubeTable sqrtf Writer.init.resetCounts farCorner
        false).resetCounts nearCorner true).mesh = _ := gm.trans r6
  have e3 : ((-1 : ℚ)) * (-1) + (-1) * (-1) + 1 * 1 = 3 := by norm_num
  have hpos : 0 < sqrtf 3 := hs 3 (by norm_num)
  refine ⟨⟨fv.trans q1, gv.trans r1⟩, ⟨ff.trans q3, gf.trans r3⟩, ?_, ?_, ?_⟩
  · intro k hk
    rw [mF, mR]
    have hk3 : k = 0 ∨ k = 1 ∨ k = 2 := by omega
    rcases hk3 with h | h | h <;> subst h <;> exact ⟨rfl, rfl⟩
  · rw [nF 0 (by decide), nF 2 (by decide), q7, q8, q9, ← add_div]
    have : (0 / sqrtf ((-1) * (-1) + (-1) * (-1) + 1 * 1) + (-1) : ℚ)
        + (0 / sqrtf ((-1) * (-1) + (-1) * (-1) + 1 * 1) + 1) = 0 := by
      rw [zero_div]
      norm_num
    rw [this, zero_div]
  · rw [nR 0 (by decide), nR 2 (by decide), r7, r8, r9, ← add_div, e3]
    have hy : x / sqrtf 3 < 0 := div_neg_of_neg_of_pos hxneg hpos
    have hsum : (x / sqrtf 3 + (-1)) + (x / sqrtf 3 + 1) ≠ 0 := by
      intro h
      linarith
    have hq : 0 < (x / sqrtf 3 + (-1)) * (x / sqrtf 3 + (-1))
        + (x / sqrtf 3 + (-1)) * (x / sqrtf 3 + (-1))
        + (x / sqrtf 3 + 1) * (x / sqrtf 3 + 1) := by
      nlinarith [mul_self_nonneg (x / sqrtf 3 + 1), mul_self_nonneg (x / sqrtf 3 + (-1))]
    exact div_ne_zero hsum (hs _ hq).ne'

/-- C21 (witness): the identity in the place of `sqrtf`. -/
theorem C21_stale_normals_witness :
    (Writer.marchingCubes cornerCubeTable (fun q => q) Writer.init.resetCounts nearCorner
        true).normals 0
      + (Writer.marchingCubes cornerCubeTable (fun q => q) Writer.init.resetCounts nearCorner
        true).normals 2 = 0 ∧
    (Writer.marchingCubes cornerCubeTable (fun q => q)
        (Writer.marchingCubes cornerCubeTable (fun q => q) Writer.init.resetCounts farCorner
          false).resetCounts nearCorner true).normals 0
      + (Writer.marchingCubes cornerCubeTable (fun q => q)
        (Writer.marchingCubes cornerCubeTable (fun q => q) Writer.init.resetCounts farCorner
          false).resetCounts nearCorner true).normals 2 ≠ 0 :=
  (C21_stale_normals (fun q => q) (fun _ h => h)).2.2.2

end HullComputation
namespace HullComputation

/-! ## The marching-squares table -/

theorem aboveEpsilon_le (v : ℚ) : aboveEpsilon v ≤ 1 := by
  simp only [aboveEpsilon]
  split_ifs <;> omega

theorem Writer.squareCases_lt (M : Arr2) (x y : Nat) : Writer.squareCases M x y < 16 := by
  have h1 := aboveEpsilon_le (M.val y x)
  have h2 := aboveEpsilon_le (M.val (y + 1) x)
  have h3 := aboveEpsilon_le (M.val y (x + 1))
  have h4 := aboveEpsilon_le (M.val (y + 1) (x + 1))
  simp only [Writer.squareCases]
  omega

theorem MarchingSquares.table_shape :
    MarchingSquares.lookup.length = 16 ∧ (∀ row ∈ MarchingSquares.lookup, row.length = 9) ∧
    MarchingSquares.coords.length = 8 ∧ (∀ row ∈ MarchingSquares.coords, row.length = 2) := by
  decide

theorem MarchingSquares.rows_wellFormed :
    ∀ code, code < 16 → MarchingSquares.WellFormedRow code := by
  intro code h
  have hn : ∃ n, n < 4 ∧
      (∀ i, i < 3 * n → 0 ≤ MarchingSquares.lookupAt code i
        ∧ MarchingSquares.lookupAt code i ≤ 7) ∧
      (∀ i, i < 9 → 3 * n ≤ i → MarchingSquares.lookupAt code i = -1) := by
    revert code
    decide
  obtain ⟨n, h1, h2, h3⟩ := hn
  exact ⟨n, by omega, h2, h3⟩

/-- Every triangle that the loop of `squareCase` starts (entry `i ∈ {0, 3, 6}` is not `-1`)
is complete: its three entries are point indices in `0..7`. -/
theorem MarchingSquares.triangles_complete :
    ∀ code, code < 16 → ∀ i ∈ [0, 3, 6], MarchingSquares.lookupAt code i ≠ -1 →
      ∀ j, j < 3 → 0 ≤ MarchingSquares.lookupAt code (i + j)
        ∧ MarchingSquares.lookupAt code (i + j) ≤ 7 := by
  decide

end HullComputation
namespace HullComputation

theorem Writer.squareCorners_length (faces : Nat → Int) (x y : Nat) (l : List Nat) :
    (Writer.squareCorners faces x y l).length % 3 = 0 := by
  induction l with
  | nil => rfl
  | cons i rest ih =>
    simp only [Writer.squareCorners]
    split_ifs
    · rfl
    · simp only [List.length_append, List.length_map, List.length_range]
      omega

/-- C31: for every 2D field and every cell the case code computed by `marchingSquares` lies in
`0..15`; the table has 16 rows of 9 entries and 8 points of 2 coordinates; every row is
well formed (between 0 and 3 complete triangles with entries in `0..7`, followed only by
`-1`); so every triangle that `squareCase` starts is complete, all its reads of `lookup` and
`coords` are inside the tables, and the corners it emits come in threes. -/
theorem C31_total_case_lookup :
    (∀ (M : Arr2) (x y : Nat), Writer.squareCases M x y < 16) ∧
    (MarchingSquares.lookup.length = 16 ∧ (∀ row ∈ MarchingSquares.lookup, row.length = 9) ∧
      MarchingSquares.coords.length = 8 ∧ (∀ row ∈ MarchingSquares.coords, row.length = 2)) ∧
    (∀ code, code < 16 → MarchingSquares.WellFormedRow code) ∧
    (∀ code, code < 16 → ∀ i ∈ [0, 3, 6], MarchingSquares.lookupAt code i ≠ -1 →
      ∀ j, j < 3 → i + j < 9 ∧ 0 ≤ MarchingSquares.lookupAt code (i + j)
        ∧ MarchingSquares.lookupAt code (i + j) ≤ 7) ∧
    (∀ (M : Arr2) (x y : Nat),
      (Writer.squareCorners (MarchingSquares.lookupAt (Writer.squareCases M x y)) x y
        [0, 3, 6]).length % 3 = 0) := by
  refine ⟨Writer.squareCases_lt, MarchingSquares.table_shape, MarchingSquares.rows_wellFormed,
    ?_, fun M x y => Writer.squareCorners_length _ x y _⟩
  intro code hc i hi hne j hj
  have hb : i + j < 9 := by
    simp only [List.mem_cons, List.mem_singleton, List.not_mem_nil, or_false] at hi
    omega
  exact ⟨hb, MarchingSquares.triangles_complete code hc i hi hne j hj⟩

/-! ## Which points a cell emits -/

theorem Writer.squareCorners_shift (faces : Nat → Int) (x y : Nat) (l : List Nat) :
    Writer.squareCorners faces x y l
      = (Writer.squareCorners faces 0 0 l).map
          (fun q : RCoord => (q.1 + 2 * x, q.2.1 + 2 * y, q.2.2)) := by
  induction l with
  | nil => rfl
  | cons i rest ih =>
    simp only [Writer.squareCorners]
    split_ifs
    · rfl
    · rw [List.map_append, ← ih]
      simp [List.map_map]

theorem Writer.squareCorners_mem (faces : Nat → Int) (x y : Nat) (l : List Nat) (a b c : Nat) :
    (a + 2 * x, b + 2 * y, c) ∈ Writer.squareCorners faces x y l
      ↔ (a, b, c) ∈ Writer.squareCorners faces 0 0 l := by
  rw [Writer.squareCorners_shift faces x y l, List.mem_map]
  constructor
  · rintro ⟨q, hq, he⟩
    simp only [Prod.mk.injEq] at he
    obtain ⟨e1, e2, e3⟩ := he
    have : q = (a, b, c) := by
      obtain ⟨q1, q2, q3⟩ := q
      simp only at e1 e2 e3
      simp only [Prod.mk.injEq]
      omega
    rw [← this]
    exact hq
  · intro h
    exact ⟨(a, b, c), h, rfl⟩

/-- In every row the emitted coordinates are those of the points that occur in the row. -/
theorem MarchingSquares.emitted_iff_occurs :
    ∀ code, code < 16 → ∀ p : Nat, p < 8 →
      ((MarchingSquares.coordAt p 0, MarchingSquares.coordAt p 1, 0)
          ∈ Writer.squareCorners (MarchingSquares.lookupAt code) 0 0 [0, 3, 6]
        ↔ ∃ i, i < 9 ∧ MarchingSquares.lookupAt code i = (p : Int)) := by
  decide

/-- The table against the case code: corner point `2k` occurs in row `c` iff bit `k` of `c`
is set, and midpoint `2k + 1` occurs iff the bits of its two adjacent corners differ. -/
theorem MarchingSquares.table_consistent :
    ∀ c, c < 16 → ∀ k, k < 4 →
      ((∃ i, i < 9 ∧ MarchingSquares.lookupAt c i = ((2 * k : Nat) : Int))
        ↔ caseBit c k = true) ∧
      ((∃ i, i < 9 ∧ MarchingSquares.lookupAt c i = ((2 * k + 1 : Nat) : Int))
        ↔ caseBit c k ≠ caseBit c ((k + 1) % 4)) := by
  decide

end HullComputation
namespace HullComputation

theorem MarchingSquares.emitted_are_points :
    ∀ code, code < 16 →
      ∀ q ∈ Writer.squareCorners (MarchingSquares.lookupAt code) 0 0 [0, 3, 6],
        ∃ p, p < 8 ∧ q = (MarchingSquares.coordAt (p : Nat) 0, MarchingSquares.coordAt p 1, 0)
          ∧ ∃ i, i < 9 ∧ MarchingSquares.lookupAt code i = ((p : Nat) : Int) := by
  decide

/-- The bits of the case code of a cell: 1 for the corner `(x+1, y)`, 2 for `(x+1, y+1)`,
4 for `(x, y+1)` and 8 for `(x, y)`, each set iff the sample there is above `EPSILON`. -/
theorem Writer.squareCases_bits (M : Arr2) (x y : Nat) :
    (caseBit (Writer.squareCases M x y) 0 = true ↔ M.val y (x + 1) > EPSILON) ∧
    (caseBit (Writer.squareCases M x y) 1 = true ↔ M.val (y + 1) (x + 1) > EPSILON) ∧
    (caseBit (Writer.squareCases M x y) 2 = true ↔ M.val (y + 1) x > EPSILON) ∧
    (caseBit (Writer.squareCases M x y) 3 = true ↔ M.val y x > EPSILON) := by
  simp only [Writer.squareCases, aboveEpsilon]
  by_cases h1 : M.val y x > EPSILON <;> by_cases h2 : M.val (y + 1) x > EPSILON <;>
    by_cases h3 : M.val y (x + 1) > EPSILON <;>
    by_cases h4 : M.val (y + 1) (x + 1) > EPSILON <;>
    simp only [h1, h2, h3, h4, if_true, if_false, iff_true, iff_false] <;> decide

/-- The points that the cell `(x, y)` emits, at their refined coordinates: the point `p`
is emitted iff it occurs in the row of the cell's case code, and nothing else is emitted. -/
theorem Writer.squareCase_points (M : Arr2) (x y : Nat) :
    (∀ p : Nat, p < 8 →
      ((MarchingSquares.coordAt p 0 + 2 * x, MarchingSquares.coordAt p 1 + 2 * y, 0)
          ∈ Writer.squareCorners (MarchingSquares.lookupAt (Writer.squareCases M x y)) x y
              [0, 3, 6]
        ↔ ∃ i, i < 9 ∧ MarchingSquares.lookupAt (Writer.squareCases M x y) i = (p : Int))) ∧
    (∀ q ∈ Writer.squareCorners (MarchingSquares.lookupAt (Writer.squareCases M x y)) x y
        [0, 3, 6],
      ∃ p : Nat, p < 8 ∧
        q = (MarchingSquares.coordAt p 0 + 2 * x, MarchingSquares.coordAt p 1 + 2 * y, 0) ∧
        ∃ i, i < 9 ∧ MarchingSquares.lookupAt (Writer.squareCases M x y) i = (p : Int)) := by
  have hc := Writer.squareCases_lt M x y
  constructor
  · intro p hp
    rw [Writer.squareCorners_mem]
    exact MarchingSquares.emitted_iff_occurs _ hc p hp
  · intro q hq
    rw [Writer.squareCorners_shift, List.mem_map] at hq
    obtain ⟨q0, hq0, rfl⟩ := hq
    obtain ⟨p, hp, rfl, ho⟩ := MarchingSquares.emitted_are_points _ hc q0 hq0
    exact ⟨p, hp, by simp, ho⟩

end HullComputation
namespace HullComputation

theorem foldl_append_mem {α : Type} (f : Nat → Nat → List α) (ys : List Nat) (x : Nat) :
    ∀ (cs0 : List α) (q : α), q ∈ ys.foldl (fun cs y => cs ++ f x y) cs0 →
      q ∈ cs0 ∨ ∃ y ∈ ys, q ∈ f x y := by
  induction ys with
  | nil => intro cs0 q h; exact Or.inl h
  | cons y ys ih =>
    intro cs0 q h
    simp only [List.foldl_cons] at h
    rcases ih _ q h with h1 | ⟨y2, hy2, h2⟩
    · rw [List.mem_append] at h1
      rcases h1 with h1 | h1
      · exact Or.inl h1
      · exact Or.inr ⟨y, List.mem_cons_self _ _, h1⟩
    · exact Or.inr ⟨y2, List.mem_cons_of_mem _ hy2, h2⟩

theorem foldl_append_mem_nested {α : Type} (f : Nat → Nat → List α) (xs ys : List Nat) :
    ∀ (cs0 : List α) (q : α),
      q ∈ xs.foldl (fun cs x => ys.foldl (fun cs y => cs ++ f x y) cs) cs0 →
      q ∈ cs0 ∨ ∃ x ∈ xs, ∃ y ∈ ys, q ∈ f x y := by
  induction xs with
  | nil => intro cs0 q h; exact Or.inl h
  | cons x xs ih =>
    intro cs0 q h
    simp only [List.foldl_cons] at h
    rcases ih _ q h with h1 | ⟨x2, hx2, h2⟩
    · rcases foldl_append_mem f ys x cs0 q h1 with h3 | ⟨y, hy, h3⟩
      · exact Or.inl h3
      · exact Or.inr ⟨x, List.mem_cons_self _ _, y, hy, h3⟩
    · exact Or.inr ⟨x2, List.mem_cons_of_mem _ hx2, h2⟩

/-- Every corner that `marchingSquares` emits is emitted by one of its cells. -/
theorem Writer.marchingSquaresCorners_cell (M : Arr2) (q : RCoord)
    (hq : q ∈ Writer.marchingSquaresCorners M) :
    ∃ x y, x + 2 ≤ M.n1 ∧ y + 2 ≤ M.n0 ∧
      q ∈ Writer.squareCorners (MarchingSquares.lookupAt (Writer.squareCases M x y)) x y
        [0, 3, 6] := by
  rcases foldl_append_mem_nested
    (fun x y => Writer.squareCorners (MarchingSquares.lookupAt (Writer.squareCases M x y)) x y
      [0, 3, 6]) _ _ [] q hq with h | ⟨x, hx, y, hy, h⟩
  · simp at h
  · rw [List.mem_range] at hx hy
    exact ⟨x, y, by omega, by omega, h⟩

end HullComputation
namespace HullComputation

/-- What a cell emits, at refined coordinate `(a, b)`: a sample above `EPSILON` (both
components even) or the midpoint of an edge with an endpoint above `EPSILON` (one component
odd). -/
theorem Writer.squareCase_above (M : Arr2) (x y : Nat) (q : RCoord)
    (hq : q ∈ Writer.squareCorners (MarchingSquares.lookupAt (Writer.squareCases M x y)) x y
      [0, 3, 6]) :
    q.2.2 = 0 ∧ q.1 ≤ 2 * x + 2 ∧ q.2.1 ≤ 2 * y + 2 ∧
    ((q.1 % 2 = 0 ∧ q.2.1 % 2 = 0 ∧ M.val (q.2.1 / 2) (q.1 / 2) > EPSILON) ∨
     (q.1 % 2 = 1 ∧ q.2.1 % 2 = 0 ∧
        (M.val (q.2.1 / 2) (q.1 / 2) > EPSILON ∨ M.val (q.2.1 / 2) (q.1 / 2 + 1) > EPSILON)) ∨
     (q.1 % 2 = 0 ∧ q.2.1 % 2 = 1 ∧
        (M.val (q.2.1 / 2) (q.1 / 2) > EPSILON
          ∨ M.val (q.2.1 / 2 + 1) (q.1 / 2) > EPSILON))) := by
  obtain ⟨p, hp, rfl, ho⟩ := (Writer.squareCase_points M x y).2 q hq
  have hc := Writer.squareCases_lt M x y
  obtain ⟨b0, b1, b2, b3⟩ := Writer.squareCases_bits M x y
  have t0 := MarchingSquares.table_consistent _ hc 0 (by decide)
  have t1 := MarchingSquares.table_consistent _ hc 1 (by decide)
  have t2 := MarchingSquares.table_consistent _ hc 2 (by decide)
  have t3 := MarchingSquares.table_consistent _ hc 3 (by decide)
  have dif : ∀ u v : Bool, u ≠ v → u = true ∨ v = true := by decide
  have e0 : (2 + 2 * x) / 2 = x + 1 := by omega
  have e1 : (1 + 2 * x) / 2 = x := by omega
  have e2 : (0 + 2 * x) / 2 = x := by omega
  have f0 : (2 + 2 * y) / 2 = y + 1 := by omega
  have f1 : (1 + 2 * y) / 2 = y := by omega
  have f2 : (0 + 2 * y) / 2 = y := by omega
  have g0 : (2 + 2 * x) % 2 = 0 := by omega
  have g1 : (1 + 2 * x) % 2 = 1 := by omega
  have g2 : (0 + 2 * x) % 2 = 0 := by omega
  have k0 : (2 + 2 * y) % 2 = 0 := by omega
  have k1 : (1 + 2 * y) % 2 = 1 := by omega
  have k2 : (0 + 2 * y) % 2 = 0 := by omega
  have c00 : MarchingSquares.coordAt ((0 : Nat) : Int) 0 = 2 := by decide
  have c01 : MarchingSquares.coordAt ((0 : Nat) : Int) 1 = 0 := by decide
  have c10 : MarchingSquares.coordAt ((1 : Nat) : Int) 0 = 2 := by decide
  have c11 : MarchingSquares.coordAt ((1 : Nat) : Int) 1 = 1 := by decide
  have c20 : MarchingSquares.coordAt ((2 : Nat) : Int) 0 = 2 := by decide
  have c21 : MarchingSquares.coordAt ((2 : Nat) : Int) 1 = 2 := by decide
  have c30 : MarchingSquares.coordAt ((3 : Nat) : Int) 0 = 1 := by decide
  have c31 : MarchingSquares.coordAt ((3 : Nat) : Int) 1 = 2 := by decide
  have c40 : MarchingSquares.coordAt ((4 : Nat) : Int) 0 = 0 := by decide
  have c41 : MarchingSquares.coordAt ((4 : Nat) : Int) 1 = 2 := by decide
  have c50 : MarchingSquares.coordAt ((5 : Nat) : Int) 0 = 0 := by decide
  have c51 : MarchingSquares.coordAt ((5 : Nat) : Int) 1 = 1 := by decide
  have c60 : MarchingSquares.coordAt ((6 : Nat) : Int) 0 = 0 := by decide
  have c61 : MarchingSquares.coordAt ((6 : Nat) : Int) 1 = 0 := by decide
  have c70 : MarchingSquares.coordAt ((7 : Nat) : Int) 0 = 1 := by decide
  have c71 : MarchingSquares.coordAt ((7 : Nat) : Int) 1 = 0 := by decide
  interval_cases p
  · simp only [c00, c01, e0, f2, g0, k2]
    exact ⟨trivial, by omega, by omega, Or.inl ⟨trivial, trivial, b0.mp (t0.1.mp ho)⟩⟩
  · simp only [c10, c11, e0, f1, g0, k1]
    refine ⟨trivial, by omega, by omega, Or.inr (Or.inr ⟨trivial, trivial, ?_⟩)⟩
    rcases dif _ _ (t0.2.mp ho) with h | h
    · exact Or.inl (b0.mp h)
    · exact Or.inr (b1.mp h)
  · simp only [c20, c21, e0, f0, g0, k0]
    exact ⟨trivial, by omega, by omega, Or.inl ⟨trivial, trivial, b1.mp (t1.1.mp ho)⟩⟩
  · simp only [c30, c31, e1, f0, g1, k0]
    refine ⟨trivial, by omega, by omega, Or.inr (Or.inl ⟨trivial, trivial, ?_⟩)⟩
    rcases dif _ _ (t1.2.mp ho) with h | h
    · exact Or.inr (b1.mp h)
    · exact Or.inl (b2.mp h)
  · simp only [c40, c41, e2, f0, g2, k0]
    exact ⟨trivial, by omega, by omega, Or.inl ⟨trivial, trivial, b2.mp (t2.1.mp ho)⟩⟩
  · simp only [c50, c51, e2, f1, g2, k1]
    refine ⟨trivial, by omega, by omega, Or.inr (Or.inr ⟨trivial, trivial, ?_⟩)⟩
    rcases dif _ _ (t2.2.mp ho) with h | h
    · exact Or.inr (b2.mp h)
    · exact Or.inl (b3.mp h)
  · simp only [c60, c61, e2, f2, g2, k2]
    exact ⟨trivial, by omega, by omega, Or.inl ⟨trivial, trivial, b3.mp (t3.1.mp ho)⟩⟩
  · simp only [c70, c71, e1, f2, g1, k2]
    refine ⟨trivial, by omega, by omega, Or.inr (Or.inl ⟨trivial, trivial, ?_⟩)⟩
    rcases dif _ _ (t3.2.mp ho) with h | h
    · exact Or.inl (b3.mp h)
    · exact Or.inr (b0.mp h)

end HullComputation
namespace HullComputation

/-- The refined value at an emitted coordinate is above `EPSILON`. -/
theorem Writer.marchingSquaresCorners_above (M : Arr2) (q : RCoord)
    (hq : q ∈ Writer.marchingSquaresCorners M) :
    Writer.squareRefined M q.2.1 q.1 > EPSILON ∧
    ((q.1 % 2 = 0 ∧ q.2.1 % 2 = 0 ∧ M.val (q.2.1 / 2) (q.1 / 2) > EPSILON) ∨
     (q.1 % 2 = 1 ∧ q.2.1 % 2 = 0 ∧
        (M.val (q.2.1 / 2) (q.1 / 2) > EPSILON ∨ M.val (q.2.1 / 2) (q.1 / 2 + 1) > EPSILON)) ∨
     (q.1 % 2 = 0 ∧ q.2.1 % 2 = 1 ∧
        (M.val (q.2.1 / 2) (q.1 / 2) > EPSILON
          ∨ M.val (q.2.1 / 2 + 1) (q.1 / 2) > EPSILON))) := by
  obtain ⟨x, y, hx, hy, hc⟩ := Writer.marchingSquaresCorners_cell M q hq
  obtain ⟨_, ha, hb, hd⟩ := Writer.squareCase_above M x y q hc
  obtain ⟨r1, r2, r3, _⟩ := Writer.squareRefined_cases M q.2.1 q.1 (by omega) (by omega)
  refine ⟨?_, hd⟩
  rcases hd with ⟨p1, p2, h⟩ | ⟨p1, p2, h⟩ | ⟨p1, p2, h⟩
  · rw [r1 p2 p1]
    exact h
  · rw [r3 p2 p1]
    rcases h with h | h
    · exact lt_of_lt_of_le h (le_max_left _ _)
    · exact lt_of_lt_of_le h (le_max_right _ _)
  · rw [r2 p2 p1]
    rcases h with h | h
    · exact lt_of_lt_of_le h (le_max_left _ _)
    · exact lt_of_lt_of_le h (le_max_right _ _)

/-- C36: every vertex `v` of a `marchingSquares` extraction is the weld of an emitted corner
at a refined coordinate `(a, b)`, where it is stored, whose refined field value is above
`EPSILON`: either a sample above `EPSILON` (both components even) or the midpoint of an edge
with at least one endpoint above `EPSILON` (one component odd); in a coloured extraction the
blue channel of `v` is strictly positive. -/
theorem C36_vertices_above_epsilon (sqrtf : ℚ → ℚ) (w : Writer) (M : Arr2)
    (isColored : Bool) (hv : 3 ≤ w.vertexSize) (hm : 3 ≤ w.meshSize) (v : Nat) (h1 : 1 ≤ v)
    (h2 : v ≤ (Writer.marchingSquares sqrtf w.resetCounts M isColored).vertexCount) :
    ∃ a b : Nat, (a, b, 0) ∈ Writer.marchingSquaresCorners M ∧
      (Writer.marchingSquaresCore w.resetCounts M isColored).2 a b 0 = v ∧
      ((Writer.marchingSquares sqrtf w.resetCounts M isColored).position v).1
        = (a : ℚ) / ((M.n1 * 2 : Nat) : ℚ) ∧
      ((Writer.marchingSquares sqrtf w.resetCounts M isColored).position v).2.1
        = (b : ℚ) / ((M.n0 * 2 : Nat) : ℚ) ∧
      Writer.squareRefined M b a > EPSILON ∧
      ((a % 2 = 0 ∧ b % 2 = 0 ∧ M.val (b / 2) (a / 2) > EPSILON) ∨
       (a % 2 = 1 ∧ b % 2 = 0 ∧
          (M.val (b / 2) (a / 2) > EPSILON ∨ M.val (b / 2) (a / 2 + 1) > EPSILON)) ∨
       (a % 2 = 0 ∧ b % 2 = 1 ∧
          (M.val (b / 2) (a / 2) > EPSILON ∨ M.val (b / 2 + 1) (a / 2) > EPSILON))) ∧
      (isColored = true →
        0 < ((Writer.marchingSquares sqrtf w.resetCounts M isColored).color v).2.2) := by
  obtain ⟨a, b, hq, hw, _, _, hp, hcol⟩ :=
    Writer.marchingSquares_vertex sqrtf w M isColored hv hm v h1 h2
  obtain ⟨hr, hd⟩ := Writer.marchingSquaresCorners_above M (a, b, 0) hq
  refine ⟨a, b, hq, hw, by rw [hp], by rw [hp], hr, hd, ?_⟩
  intro hc
  rw [hcol, hc]
  simp only [Writer.colorOf, if_true]
  have he : (0 : ℚ) < EPSILON := by norm_num [EPSILON]
  have ht : (0 : ℚ) < Writer.squareRefined M b a := lt_trans he hr
  exact div_pos ht (by norm_num)

theorem C36_vertices_above_epsilon_witness :
    (3 ≤ Writer.init.vertexSize ∧ 3 ≤ Writer.init.meshSize) ∧
    1 ≤ (Writer.marchingSquares (fun q => q) Writer.init.resetCounts debugField
      true).vertexCount ∧
    ∃ a b : Nat, (a, b, 0) ∈ Writer.marchingSquaresCorners debugField ∧
      Writer.squareRefined debugField b a > EPSILON ∧
      0 < ((Writer.marchingSquares (fun q => q) Writer.init.resetCounts debugField
        true).color 1).2.2 := by
  have h5 : (Writer.marchingSquares (fun q => q) Writer.init.resetCounts debugField
      true).vertexCount = 5 :=
    ((Writer.finish_spec (fun q => q)
      (Writer.marchingSquaresCore Writer.init.resetCounts debugField true).1 3 3 1).1).trans
      (Writer.marchingSquaresCore_blob Writer.init debugField true (by decide) (by decide) 1 1
        debugField_blob).2.1
  have hvc : 1 ≤ (Writer.marchingSquares (fun q => q) Writer.init.resetCounts debugField
      true).vertexCount := by
    rw [h5]
    decide
  obtain ⟨a, b, h1, _, _, _, h6, _, h7⟩ :=
    C36_vertices_above_epsilon (fun q => q) Writer.init debugField true (by decide) (by decide)
      1 (le_refl 1) hvc
  exact ⟨⟨by decide, by decide⟩, hvc, a, b, h1, h6, h7 rfl⟩

end HullComputation
namespace HullComputation

/-! ## The frames of every batch -/

/-- The end `start k + tSize k` of the batches does not decrease from call to call. -/
theorem Reader.end_mono (params : Parameters) (hkt : 1 ≤ params.kt) (hB : 1 ≤ params.batches)
    (hD : params.kt ≤ params.duration + 1) {j k : Nat} (h : j ≤ k) :
    Reader.start params j + Reader.tSize params j
      ≤ Reader.start params k + Reader.tSize params k := by
  induction k with
  | zero =>
    have : j = 0 := by omega
    rw [this]
  | succ k ih =>
    rcases Nat.lt_or_ge j (k + 1) with q | q
    · have h1 := ih (by omega)
      have h2 := Reader.border_le_tSize params hkt hB hD (k + 1)
      have h3 := Reader.border_le_tSize params hkt hB hD k
      simp only [Reader.start]
      omega
    · have : j = k + 1 := by omega
      rw [this]

/-- C32: when the border fits in the sequence (`kt ≤ duration + 1`, as in every accepted
configuration), for every call `k < B` the batch returned by `getNextBatch` has `size_k`
frames and holds, in order, the input frames with global indices
`s_k, s_k + 1, …, s_k + size_k - 1`, each byte divided by 255 and so in `[0, 1]`, where
`s_0 = 0` and `s_(k+1) = s_k + size_k - (kt - 1)`; every such index is below `duration`, the
file pointer after the call is `s_k + size_k ≤ duration`, and the last batch ends exactly at
frame `duration - 1`. -/
theorem C32_frame_placement (params : Parameters) (files : FrameStore)
    (hkt : 1 ≤ params.kt) (hB : 1 ≤ params.batches) (hD : params.kt ≤ params.duration + 1) :
    Reader.start params 0 = 0 ∧
    (∀ k, Reader.start params (k + 1)
      = Reader.start params k + (Reader.batchOfCall params files k).n0 - (params.kt - 1)) ∧
    (∀ k, k < params.batches →
      (∀ i, i < (Reader.batchOfCall params files k).n0 →
        Reader.start params k + i < params.duration ∧
        ∀ z y x,
          (Reader.batchOfCall params files k).val i z y x
            = ((files (Reader.start params k + i) z y x).val : ℚ) / 255 ∧
          0 ≤ (Reader.batchOfCall params files k).val i z y x ∧
          (Reader.batchOfCall params files k).val i z y x ≤ 1) ∧
      (Reader.afterCalls params files (k + 1)).pointer
        = Reader.start params k + (Reader.batchOfCall params files k).n0 ∧
      (Reader.afterCalls params files (k + 1)).pointer ≤ params.duration) ∧
    Reader.start params (params.batches - 1)
      + (Reader.batchOfCall params files (params.batches - 1)).n0 = params.duration := by
  have hlast := Reader.start_last params hkt hB hD
  refine ⟨rfl, ?_, ?_, ?_⟩
  · intro k
    rw [Reader.batchOfCall_n0]
    rfl
  · intro k hk
    have hend := Reader.end_mono params hkt hB hD (by omega : k ≤ params.batches - 1)
    obtain ⟨_, hp, hval⟩ := Reader.afterCalls_holds params files hkt hB hD k
    rw [Reader.batchOfCall_n0]
    refine ⟨?_, hp, by rw [hp]; omega⟩
    intro i hi
    refine ⟨by omega, ?_⟩
    intro z y x
    have hv : (Reader.batchOfCall params files k).val i z y x
        = ((files (Reader.start params k + i) z y x).val : ℚ) / 255 := by
      rw [Reader.batchOfCall_eq]
      simp only [Arr4.divScalar]
      rw [hval i hi]
    have hb : ((files (Reader.start params k + i) z y x).val : ℚ) ≤ 255 := by
      have := (files (Reader.start params k + i) z y x).isLt
      have h2 : (files (Reader.start params k + i) z y x).val ≤ 255 := by omega
      exact_mod_cast h2
    have h0 : (0 : ℚ) ≤ ((files (Reader.start params k + i) z y x).val : ℚ) :=
      Nat.cast_nonneg _
    refine ⟨hv, ?_, ?_⟩
    · rw [hv]
      exact div_nonneg h0 (by norm_num)
    · rw [hv, div_le_one (by norm_num)]
      exact hb
  · rw [Reader.batchOfCall_n0]
    exact hlast

theorem C32_frame_placement_witness :
    (1 ≤ (smallConfig 5 2).kt ∧ 1 ≤ (smallConfig 5 2).batches
      ∧ (smallConfig 5 2).kt ≤ (smallConfig 5 2).duration + 1) ∧
    Reader.start (smallConfig 5 2) ((smallConfig 5 2).batches - 1)
      + (Reader.batchOfCall (smallConfig 5 2) zeroFiles ((smallConfig 5 2).batches - 1)).n0
      = (smallConfig 5 2).duration ∧
    (Reader.afterCalls (smallConfig 5 2) zeroFiles (1 + 1)).pointer ≤ (smallConfig 5 2).duration :=
  ⟨by decide,
    (C32_frame_placement (smallConfig 5 2) zeroFiles (by decide) (by decide) (by decide)).2.2.2,
    ((C32_frame_placement (smallConfig 5 2) zeroFiles (by decide) (by decide)
      (by decide)).2.2.1 1 (by decide)).2.2⟩

/-! ## The shortest batch -/

theorem Reader.tSize_zero_ge_iff (params : Parameters) (hkt : 1 ≤ params.kt)
    (hB : 1 ≤ params.batches) :
    params.kt ≤ Reader.tSize params 0 ↔ params.batches + params.kt ≤ params.duration + 1 := by
  rw [Reader.tSize, Nat.le_div_iff_mul_le (by omega)]
  obtain ⟨b, hb⟩ : ∃ b, params.batches = b + 1 := ⟨params.batches - 1, by omega⟩
  obtain ⟨c, hc⟩ : ∃ c, params.kt = c + 1 := ⟨params.kt - 1, by omega⟩
  rw [hb, hc]
  simp only [Nat.add_sub_cancel, Nat.add_zero]
  have e : (c + 1) * (b + 1) = b * c + b + c + 1 := by ring
  rw [e]
  omega

end HullComputation
namespace HullComputation

/-- The batch-count tests of `checkParameters`: among the configurations that differ only in
the batch count, the accepted ones are those with `1 ≤ B ≤ duration - kt + 1`. -/
theorem Parameters.checkParameters_batches (p : Parameters.Parsed)
    (h1 : Parameters.checkParameters { p with batches := 1 } = Except.ok ()) (b : Int) :
    Parameters.checkParameters { p with batches := b } = Except.ok ()
      ↔ 1 ≤ b ∧ b ≤ p.duration - p.kt + 1 := by
  rw [Parameters.checkParameters_ok] at h1 ⊢
  obtain ⟨a1, a2, a3, a4, a5, a6, a7, a8, a9, a10, a11, a12, a13, a14, a15, a16⟩ := h1
  constructor
  · intro h
    obtain ⟨-, -, -, -, -, -, -, -, -, -, -, -, -, b14, b15, -⟩ := h
    simp only at b14 b15
    omega
  · intro h
    refine ⟨a1, a2, a3, a4, a5, a6, a7, a8, a9, a10, a11, a12, a13, ?_, ?_, a16⟩
    · simp only
      omega
    · simp only
      omega

/-- C34: for `kt ≥ 1` and `B ≥ 1`, every batch that the Reader produces has at least `kt`
frames if and only if `B ≤ duration - kt + 1`; a batch with at least `kt` frames covers the
border of `kt - 1` frames that the next call copies and yields at least one feature frame in
each of the three modes; and `B ≤ duration - kt + 1` is the upper bound on the batch count that
`checkParameters` enforces: among the configurations that differ only in the batch count it
accepts exactly those with `1 ≤ B ≤ duration - kt + 1`. -/
theorem C34_minimum_batch_length (params : Parameters) (files : FrameStore)
    (hkt : 1 ≤ params.kt) (hB : 1 ≤ params.batches) :
    ((∀ k, k < params.batches → params.kt ≤ (Reader.batchOfCall params files k).n0)
      ↔ (params.batches : Int) ≤ (params.duration : Int) - (params.kt : Int) + 1) ∧
    (∀ k, params.kt ≤ (Reader.batchOfCall params files k).n0 →
      params.kt - 1 ≤ (Reader.batchOfCall params files k).n0 ∧
      ((params.special = 0 ∨ params.special = 1 ∨ params.special = 2) →
        1 ≤ (Calc.featureField params (Reader.batchOfCall params files k)).n0)) ∧
    (∀ p : Parameters.Parsed, Parameters.checkParameters p = Except.ok () →
      p.batches ≤ p.duration - p.kt + 1) ∧
    (∀ p : Parameters.Parsed,
      Parameters.checkParameters { p with batches := 1 } = Except.ok () → ∀ b : Int,
        (Parameters.checkParameters { p with batches := b } = Except.ok ()
          ↔ 1 ≤ b ∧ b ≤ p.duration - p.kt + 1)) := by
  refine ⟨?_, ?_, ?_, ?_⟩
  · constructor
    · intro h
      have h0 := h 0 (by omega)
      rw [Reader.batchOfCall_n0, Reader.tSize_zero_ge_iff params hkt hB] at h0
      omega
    · intro h k _
      rw [Reader.batchOfCall_n0]
      exact Reader.kt_le_tSize params hkt hB (by omega) k
  · intro k h
    refine ⟨by omega, ?_⟩
    intro hsp
    rw [Calc.featureField_n0, if_pos hsp]
    omega
  · intro p h
    rw [Parameters.checkParameters_ok] at h
    omega
  · intro p h b
    exact Parameters.checkParameters_batches p h b

theorem C34_minimum_batch_length_witness :
    (1 ≤ (smallConfig 5 3).kt ∧ 1 ≤ (smallConfig 5 3).batches) ∧
    ((∀ k, k < (smallConfig 5 3).batches →
        (smallConfig 5 3).kt ≤ (Reader.batchOfCall (smallConfig 5 3) zeroFiles k).n0)
      ↔ ((smallConfig 5 3).batches : Int)
          ≤ ((smallConfig 5 3).duration : Int) - ((smallConfig 5 3).kt : Int) + 1) ∧
    (Parameters.checkParameters { flatDefaults with batches := 3 } = Except.ok ()
      ↔ (1 : Int) ≤ 3 ∧ (3 : Int) ≤ flatDefaults.duration - flatDefaults.kt + 1) :=
  ⟨by decide,
    (C34_minimum_batch_length (smallConfig 5 3) zeroFiles (by decide) (by decide)).1,
    (C34_minimum_batch_length (smallConfig 5 3) zeroFiles (by decide) (by decide)).2.2.2
      flatDefaults rfl 3⟩

end HullComputation
namespace HullComputation

/-! ## The viewed slice -/

/-- C38 (evaluated at the largest accepted slice): `checkParameters` accepts a viewed 3D
configuration only if `0 ≤ viewSlice ≤ depth - kz + 1`, and it accepts the 3×3×3 configuration
with `kz = 3` and `viewSlice = 1 = depth - kz + 1`; for that configuration the accumulator that
`Viewer::show` receives has depth extent `depth - kz + 1 = 1` after every run, so
`viewSlice ≤ depth - kz` fails, the index `viewSlice` is not below the extent and
`hulls(viewSlice, span, span)` is an index error. -/
theorem C38_edge_slice :
    (∀ p : Parameters.Parsed, Parameters.checkParameters p = Except.ok () →
      p.isViewed = true → p.is4D = true →
        0 ≤ p.viewSlice ∧ p.viewSlice ≤ p.depth - p.kz + 1) ∧
    Parameters.checkParameters edgeSliceConfig.asParsed = Except.ok () ∧
    edgeSliceConfig.isViewed = true ∧ edgeSliceConfig.is4D = true ∧
    ¬ (edgeSliceConfig.viewSlice ≤ (edgeSliceConfig.depth : Int) - (edgeSliceConfig.kz : Int)) ∧
    (∀ (files : FrameStore) (saved : Arr3),
      (Calc.getHulls edgeSliceConfig (pipelineLoop edgeSliceConfig files saved).2).n0
        = edgeSliceConfig.depth - edgeSliceConfig.kz + 1 ∧
      ((Calc.getHulls edgeSliceConfig (pipelineLoop edgeSliceConfig files saved).2).n0 : Int)
        ≤ edgeSliceConfig.viewSlice ∧
      Viewer.viewedSlice edgeSliceConfig
        (Calc.getHulls edgeSliceConfig (pipelineLoop edgeSliceConfig files saved).2) = none) := by
  refine ⟨?_, rfl, rfl, rfl, by decide, ?_⟩
  · intro p h hv h4
    rw [Parameters.checkParameters_ok] at h
    obtain ⟨-, -, -, -, -, -, -, -, -, -, -, -, a13, -⟩ := h
    simp only [hv, h4, true_and, not_not] at a13
    exact a13
  · intro files saved
    have hn : (Calc.getHulls edgeSliceConfig (pipelineLoop edgeSliceConfig files saved).2).n0
        = 1 := by
      have h := (pipelineAfter_dims edgeSliceConfig files saved edgeSliceConfig.batches).1
      have e : (Calc.getHulls edgeSliceConfig (pipelineLoop edgeSliceConfig files saved).2).n0
          = (pipelineAfter edgeSliceConfig files saved edgeSliceConfig.batches).2.hulls.n0 := rfl
      rw [e, h]
      rfl
    refine ⟨hn, ?_, ?_⟩
    · rw [hn]
      decide
    · simp only [Viewer.viewedSlice, hn]
      rfl

/-! ## The side effect of getNormal -/

/-- The first cell of the run on `pairCubes`: one triangle, three vertices, and
`normals[0..2]` holds the first face normal. -/
theorem Writer.pairCubes_first (sqrtf : ℚ → ℚ) :
    Writer.Track (pairCubesAfterFirst sqrtf) 3 1
      (((Writer.createVertexMap.set 2 1 2 1).set 1 2 2 2).set 2 2 1 3)
      (0 / sqrtf ((-1) * (-1) + (-1) * (-1) + (-1) * (-1)) + (-1))
      (0 / sqrtf ((-1) * (-1) + (-1) * (-1) + (-1) * (-1)) + (-1))
      (0 / sqrtf ((-1) * (-1) + (-1) * (-1) + (-1) * (-1)) + (-1))
      (setAt (setAt (setAt (fun _ => 0) 0 1) 1 2) 2 3) := by
  have hn := cornerCubeTable_normals sqrtf
  have hc := pairCubes_cases
  have r0 : ¬ (cornerCubeTable.lookup 64 0 = -1) := by decide
  have r3 : cornerCubeTable.lookup 64 3 = -1 := by decide
  have f0 : cornerCubeTable.lookup 64 0 = 10 := by decide
  have f1 : cornerCubeTable.lookup 64 (0 + 1) = 6 := by decide
  have f2 : cornerCubeTable.lookup 64 (0 + 2) = 5 := by decide
  have hn1 : ∀ w : Writer, (Writer.getNormal cornerCubeTable sqrtf w
      (cornerCubeTable.lookup 64 0) (cornerCubeTable.lookup 64 (0 + 1))
      (cornerCubeTable.lookup 64 (0 + 2))).1 = (-1, -1, -1) := by
    intro w
    rw [f0, f1, f2]
    exact (hn w).1
  obtain ⟨a0s, a1s, a2s, a3s, ea0, ea1, ea2, ea3, eT1⟩ :=
    Writer.cubeTriangle_states cornerCubeTable sqrtf
      (fun x y z => Writer.cubeRefined pairCubes z y x) true (cornerCubeTable.lookup 64)
      0 0 0 0 (Writer.init.resetCounts, Writer.createVertexMap)
  have hcore : pairCubesAfterFirst sqrtf = a3s := by
    rw [pairCubesAfterFirst,
      Writer.cubeCase_single _ _ _ _ 0 0 0 _ _ (by rw [hc.1]; exact r0) (by rw [hc.1]; exact r3),
      hc.1, eT1]
  have t0 : Writer.Track (Writer.init.resetCounts, Writer.createVertexMap) 0 0
      Writer.createVertexMap 0 0 0 (fun _ => 0) :=
    ⟨rfl, rfl, rfl, rfl, rfl, rfl, rfl, rfl, rfl⟩
  have a0 : Writer.Track a0s 0 1 Writer.createVertexMap
      (0 / sqrtf ((-1) * (-1) + (-1) * (-1) + (-1) * (-1)))
      (0 / sqrtf ((-1) * (-1) + (-1) * (-1) + (-1) * (-1)))
      (0 / sqrtf ((-1) * (-1) + (-1) * (-1) + (-1) * (-1))) (fun _ => 0) := by
    rw [ea0]
    exact t0.openFace cornerCubeTable sqrtf _ _ _ (-1, -1, -1) (hn1 _) (by decide)
  have a1 : Writer.Track a1s 1 1 (Writer.createVertexMap.set 2 1 2 1)
      (0 / sqrtf ((-1) * (-1) + (-1) * (-1) + (-1) * (-1)) + (-1))
      (0 / sqrtf ((-1) * (-1) + (-1) * (-1) + (-1) * (-1)) + (-1))
      (0 / sqrtf ((-1) * (-1) + (-1) * (-1) + (-1) * (-1)) + (-1))
      (setAt (fun _ => 0) 0 1) := by
    rw [ea1]
    exact a0.corner_first _ true _ (-1, -1, -1) _ _ _ 2 1 2 0 (hn1 _) (by decide) (by decide)
      (by decide) (by decide)
  have a2 : Writer.Track a2s 2 1 ((Writer.createVertexMap.set 2 1 2 1).set 1 2 2 2)
      (0 / sqrtf ((-1) * (-1) + (-1) * (-1) + (-1) * (-1)) + (-1))
      (0 / sqrtf ((-1) * (-1) + (-1) * (-1) + (-1) * (-1)) + (-1))
      (0 / sqrtf ((-1) * (-1) + (-1) * (-1) + (-1) * (-1)) + (-1))
      (setAt (setAt (fun _ => 0) 0 1) 1 2) := by
    rw [ea2]
    exact a1.corner_new _ true _ _ _ _ 1 2 2 1 (by decide) (by decide) (by decide) (by decide)
      (by decide) (by decide)
  have a3 : Writer.Track a3s 3 1
      (((Writer.createVertexMap.set 2 1 2 1).set 1 2 2 2).set 2 2 1 3)
      (0 / sqrtf ((-1) * (-1) + (-1) * (-1) + (-1) * (-1)) + (-1))
      (0 / sqrtf ((-1) * (-1) + (-1) * (-1) + (-1) * (-1)) + (-1))
      (0 / sqrtf ((-1) * (-1) + (-1) * (-1) + (-1) * (-1)) + (-1))
      (setAt (setAt (setAt (fun _ => 0) 0 1) 1 2) 2 3) := by
    rw [ea3]
    exact a2.corner_new _ true _ _ _ _ 2 2 1 2 (by decide) (by decide) (by decide) (by decide)
      (by decide) (by decide)
  rw [hcore]
  exact a3

/-- The second cell of the run on `pairCubes` is one triangle, processed from the state that
the first cell leaves. -/
theorem Writer.pairCubes_second (sqrtf : ℚ → ℚ) :
    Writer.marchingCubesCore cornerCubeTable sqrtf Writer.init.resetCounts pairCubes true
      = Writer.cubeTriangle cornerCubeTable sqrtf
          (fun x y z => Writer.cubeRefined pairCubes z y x) true (cornerCubeTable.lookup 32)
          0 0 1 0 (pairCubesAfterFirst sqrtf) := by
  have hc := pairCubes_cases
  have q0 : ¬ (cornerCubeTable.lookup 32 0 = -1) := by decide
  have q3 : cornerCubeTable.lookup 32 3 = -1 := by decide
  rw [Writer.pairCubes_unfold,
    Writer.cubeCase_single _ _ _ _ 0 0 1 _ _ (by rw [hc.2]; exact q0) (by rw [hc.2]; exact q3),
    hc.2]
  rfl

/-- C39 (evaluated on the second triangle of a run): for every table, writer and point
triple `getNormal` returns the cross product `(P1-P0) × (P2-P0)` and leaves both counts, both
capacities, `coords`, `colors`, `mesh` and every entry of `normals` from index 3 on
unchanged; but it divides `normals[0..2]` by the length of the returned vector. In the run of
`marchingCubes` on `pairCubes` the triangle (9, 5, 4) of the second cell is processed from
the state that the first cell leaves, `getNormal` is called on a writer whose `normals[0]` is
-1, and after the call `normals[0]` is `-1 / sqrtf 3`, another value as soon as
`sqrtf 3 ≠ 1`. -/
theorem C39_normal_side_effect (sqrtf : ℚ → ℚ) (h3 : sqrtf 3 ≠ 1) :
    (∀ (tbl : CubeTable) (w : Writer) (p0 p1 p2 : Int),
      (Writer.getNormal tbl sqrtf w p0 p1 p2).1 =
        (((((tbl.coords p1 1 : Int) - tbl.coords p0 1) * ((tbl.coords p2 2 : Int) - tbl.coords p0 2)
            - ((tbl.coords p1 2 : Int) - tbl.coords p0 2)
              * ((tbl.coords p2 1 : Int) - tbl.coords p0 1) : Int) : ℚ),
         ((((tbl.coords p1 2 : Int) - tbl.coords p0 2) * ((tbl.coords p2 0 : Int) - tbl.coords p0 0)
            - ((tbl.coords p1 0 : Int) - tbl.coords p0 0)
              * ((tbl.coords p2 2 : Int) - tbl.coords p0 2) : Int) : ℚ),
         ((((tbl.coords p1 0 : Int) - tbl.coords p0 0) * ((tbl.coords p2 1 : Int) - tbl.coords p0 1)
            - ((tbl.coords p1 1 : Int) - tbl.coords p0 1)
              * ((tbl.coords p2 0 : Int) - tbl.coords p0 0) : Int) : ℚ)) ∧
      (Writer.getNormal tbl sqrtf w p0 p1 p2).2.vertexCount = w.vertexCount ∧
      (Writer.getNormal tbl sqrtf w p0 p1 p2).2.faceCount = w.faceCount ∧
      (Writer.getNormal tbl sqrtf w p0 p1 p2).2.vertexSize = w.vertexSize ∧
      (Writer.getNormal tbl sqrtf w p0 p1 p2).2.meshSize = w.meshSize ∧
      (Writer.getNormal tbl sqrtf w p0 p1 p2).2.coords = w.coords ∧
      (Writer.getNormal tbl sqrtf w p0 p1 p2).2.colors = w.colors ∧
      (Writer.getNormal tbl sqrtf w p0 p1 p2).2.mesh = w.mesh ∧
      (∀ i, 3 ≤ i → (Writer.getNormal tbl sqrtf w p0 p1 p2).2.normals i = w.normals i)) ∧
    Writer.marchingCubesCore cornerCubeTable sqrtf Writer.init.resetCounts pairCubes true
      = Writer.cubeTriangle cornerCubeTable sqrtf
          (fun x y z => Writer.cubeRefined pairCubes z y x) true (cornerCubeTable.lookup 32)
          0 0 1 0 (pairCubesAfterFirst sqrtf) ∧
    (cornerCubeTable.lookup 32 0 = 9 ∧ cornerCubeTable.lookup 32 1 = 5
      ∧ cornerCubeTable.lookup 32 2 = 4) ∧
    (Writer.getNormal cornerCubeTable sqrtf (pairCubesSecondCall sqrtf) 9 5 4).1 = (-1, -1, 1) ∧
    (pairCubesSecondCall sqrtf).normals 0 = -1 ∧
    (Writer.getNormal cornerCubeTable sqrtf (pairCubesSecondCall sqrtf) 9 5 4).2.normals 0
      = -1 / sqrtf 3 ∧
    (Writer.getNormal cornerCubeTable sqrtf (pairCubesSecondCall sqrtf) 9 5 4).2.normals 0
      ≠ (pairCubesSecondCall sqrtf).normals 0 := by
  obtain ⟨t1, t2, t3, t4, t5, t6, t7, t8, t9⟩ := Writer.pairCubes_first sqrtf
  have hno : ¬ (((pairCubesAfterFirst sqrtf).1.faceCount + 1) * 3
      > (pairCubesAfterFirst sqrtf).1.meshSize) := by
    rw [t3, t4]
    decide
  have hg : pairCubesSecondCall sqrtf
      = { (pairCubesAfterFirst sqrtf).1 with
          faceCount := (pairCubesAfterFirst sqrtf).1.faceCount + 1 } := by
    simp only [pairCubesSecondCall, Writer.growMesh]
    exact if_neg hno
  have hb : (pairCubesSecondCall sqrtf).normals 0 = -1 := by
    rw [hg]
    show (pairCubesAfterFirst sqrtf).1.normals 0 = -1
    rw [t7, zero_div, zero_add]
  have hnv := (cornerCubeTable_normals sqrtf (pairCubesSecondCall sqrtf)).2
  have ha : (Writer.getNormal cornerCubeTable sqrtf (pairCubesSecondCall sqrtf) 9 5 4).2.normals 0
      = -1 / sqrtf 3 := by
    have e : (Writer.getNormal cornerCubeTable sqrtf (pairCubesSecondCall sqrtf) 9 5 4).2.normals 0
        = (pairCubesSecondCall sqrtf).normals 0
          / sqrtf ((Writer.getNormal cornerCubeTable sqrtf (pairCubesSecondCall sqrtf) 9 5 4).1.1
              * (Writer.getNormal cornerCubeTable sqrtf (pairCubesSecondCall sqrtf) 9 5 4).1.1
            + (Writer.getNormal cornerCubeTable sqrtf (pairCubesSecondCall sqrtf) 9 5 4).1.2.1
              * (Writer.getNormal cornerCubeTable sqrtf (pairCubesSecondCall sqrtf) 9 5 4).1.2.1
            + (Writer.getNormal cornerCubeTable sqrtf (pairCubesSecondCall sqrtf) 9 5 4).1.2.2
              * (Writer.getNormal cornerCubeTable sqrtf
                  (pairCubesSecondCall sqrtf) 9 5 4).1.2.2) := by
      simp [Writer.getNormal, setAt]
    rw [e, hnv, hb]
    norm_num
  refine ⟨?_, Writer.pairCubes_second sqrtf, by decide, hnv, hb, ha, ?_⟩
  · intro tbl w p0 p1 p2
    refine ⟨rfl, rfl, rfl, rfl, rfl, rfl, rfl, rfl, ?_⟩
    intro i hi
    have i0 : i ≠ 0 := by omega
    have i1 : i ≠ 1 := by omega
    have i2 : i ≠ 2 := by omega
    simp [Writer.getNormal, setAt, i0, i1, i2]
  · rw [ha, hb]
    intro h
    apply h3
    have hz : sqrtf 3 ≠ 0 := by
      intro hz
      rw [hz, div_zero] at h
      norm_num at h
    field_simp at h
    linarith

theorem C39_normal_side_effect_witness :
    (fun q : ℚ => q) 3 ≠ 1 ∧
    (Writer.getNormal cornerCubeTable (fun q => q) (pairCubesSecondCall (fun q => q))
        9 5 4).2.normals 0
      ≠ (pairCubesSecondCall (fun q => q)).normals 0 :=
  ⟨by norm_num, (C39_normal_side_effect (fun q => q) (by norm_num)).2.2.2.2.2.2⟩

end HullComputation
namespace HullComputation

/-! ## The elapsed time as text -/

/-- C33 (evaluated at six minutes): for `ms = 360000000` microseconds, six minutes, a value
of an `int`, the hours `floor(ms / 3600000000)` are 0, the minutes 6, the seconds 0 and the
fraction 0, yet `formatTime` prints an hours field, `1h 06m 00.000000s`: its hours test and
hours field divide by 360000000. One microsecond earlier it prints `5m 59.999999s`, below one
minute it prints seconds only, and at the largest `int`, less than 36 minutes, it prints
`5h 35m 47.483647s`. -/
theorem C33_six_minutes :
    ((0 : Int) ≤ 360000000 ∧ (360000000 : Int) < 2 ^ 31) ∧
    ((360000000 : Int) / 3600000000 = 0 ∧ (360000000 : Int) / 60000000 % 60 = 6
      ∧ (360000000 : Int) / 1000000 % 60 = 0 ∧ (360000000 : Int) % 1000000 = 0) ∧
    Timer.formatTime 360000000 = "1h 06m 00.000000s" ∧
    Timer.formatTime 359999999 = "5m 59.999999s" ∧
    Timer.formatTime 5000123 = "5.000123s" ∧
    Timer.formatTime 2147483647 = "5h 35m 47.483647s" := by
  refine ⟨by decide, by decide, ?_, ?_, ?_, ?_⟩ <;> rfl

end HullComputation
namespace HullComputation

/-! ## Mode 0 against mode 1 -/

/-- The mode-1 feature field, written out: every pure second partial squared, over the axes in
use. -/
theorem Calc.featureField_mode1 (params : Parameters) (M : Arr4) (hsp : params.special = 1)
    (i0 i1 i2 i3 : Nat) :
    (Calc.featureField params M).val i0 i1 i2 i3 =
      if params.is4D then
        (Calc.sobelD2 params M 0 0).val i0 i1 i2 i3 ^ 2
          + (Calc.sobelD2 params M 1 1).val i0 i1 i2 i3 ^ 2
          + (Calc.sobelD2 params M 2 2).val i0 i1 i2 i3 ^ 2
          + (Calc.sobelD2 params M 3 3).val i0 i1 i2 i3 ^ 2
      else
        (Calc.sobelD2 params M 0 0).val i0 i1 i2 i3 ^ 2
          + (Calc.sobelD2 params M 2 2).val i0 i1 i2 i3 ^ 2
          + (Calc.sobelD2 params M 3 3).val i0 i1 i2 i3 ^ 2 := by
  have r3 : List.range 3 = [0, 1, 2] := rfl
  have hs0 : ¬ (params.special = 0) := by rw [hsp]; decide
  have hs2 : ¬ (params.special = 2) := by rw [hsp]; decide
  cases h4 : params.is4D <;>
    simp [Calc.featureField, hsp, h4, r3, Arr4.add, Arr4.pow2] <;> ring

/-- The convolutions do not read the mode. -/
theorem Calc.sobelD2_special (params : Parameters) (s : Int) (M : Arr4) (a b : Nat) :
    Calc.sobelD2 { params with special := s } M a b = Calc.sobelD2 params M a b := rfl

/-- The mode-0 feature field is pointwise at least the mode-1 feature field, which is
non-negative. -/
theorem Calc.featureField_mode_le (params : Parameters) (hsp : params.special = 0) (M : Arr4)
    (i0 i1 i2 i3 : Nat) :
    0 ≤ (Calc.featureField { params with special := 1 } M).val i0 i1 i2 i3 ∧
    (Calc.featureField { params with special := 1 } M).val i0 i1 i2 i3
      ≤ (Calc.featureField params M).val i0 i1 i2 i3 := by
  rw [Calc.featureField_mode0 params M hsp, Calc.featureField_mode1 _ M rfl]
  simp only [Calc.sobelD2_special]
  have e : ({ params with special := 1 } : Parameters).is4D = params.is4D := rfl
  rw [e]
  cases params.is4D
  · simp only [Bool.false_eq_true, if_false]
    constructor
    · positivity
    · nlinarith [sq_nonneg ((Calc.sobelD2 params M 0 2).val i0 i1 i2 i3),
        sq_nonneg ((Calc.sobelD2 params M 0 3).val i0 i1 i2 i3),
        sq_nonneg ((Calc.sobelD2 params M 2 3).val i0 i1 i2 i3)]
  · simp only [if_true]
    constructor
    · positivity
    · nlinarith [sq_nonneg ((Calc.sobelD2 params M 0 1).val i0 i1 i2 i3),
        sq_nonneg ((Calc.sobelD2 params M 0 2).val i0 i1 i2 i3),
        sq_nonneg ((Calc.sobelD2 params M 0 3).val i0 i1 i2 i3),
        sq_nonneg ((Calc.sobelD2 params M 1 2).val i0 i1 i2 i3),
        sq_nonneg ((Calc.sobelD2 params M 1 3).val i0 i1 i2 i3),
        sq_nonneg ((Calc.sobelD2 params M 2 3).val i0 i1 i2 i3)]

/-- Both modes give feature fields of the same length. -/
theorem Calc.featureField_mode_n0 (params : Parameters) (hsp : params.special = 0) (M : Arr4) :
    (Calc.featureField { params with special := 1 } M).n0 = (Calc.featureField params M).n0 := by
  rw [Calc.featureField_n0, Calc.featureField_n0, if_pos (Or.inl hsp),
    if_pos (Or.inr (Or.inl rfl))]

/-- The thresholded mode-0 field is pointwise at least the thresholded mode-1 field. -/
theorem Calc.applyThreshold_mode_le (params : Parameters) (hsp : params.special = 0) (M : Arr4)
    (i0 i1 i2 i3 : Nat) :
    (Calc.applyThreshold { params with special := 1 }
        (Calc.featureField { params with special := 1 } M)).val i0 i1 i2 i3
      ≤ (Calc.applyThreshold params (Calc.featureField params M)).val i0 i1 i2 i3 := by
  obtain ⟨h0, h1⟩ := Calc.featureField_mode_le params hsp M i0 i1 i2 i3
  simp only [Calc.applyThreshold]
  split_ifs with a b b
  · exact le_refl _
  · exact le_trans h0 h1
  · exact absurd (lt_of_le_of_lt h1 b) a
  · exact h1

/-- The time maximum is monotone in the field. -/
theorem Calc.maxTime_mono (A B : Arr4) (hn : A.n0 = B.n0)
    (h : ∀ i z y x, A.val i z y x ≤ B.val i z y x) (z y x : Nat) :
    (Calc.maxTime A).val z y x ≤ (Calc.maxTime B).val z y x := by
  rcases Nat.eq_zero_or_pos A.n0 with q | q
  · rw [Calc.maxTime_empty A z y x q, Calc.maxTime_empty B z y x (by omega)]
  · obtain ⟨i, hi, hv⟩ := (Calc.maxTime_spec A z y x q).2
    rw [hv]
    exact le_trans (h i z y x) ((Calc.maxTime_spec B z y x (by omega)).1 i (by omega))

/-- One `processBatch` call keeps "same counter, counter at least 1, mode-1 accumulator below
the mode-0 accumulator". -/
theorem Calc.processBatch_mode_le (params : Parameters) (hsp : params.special = 0)
    (hy : 0 ≤ params.y) (c1 c0 : Calc) (batch : Arr4) (ht : c1.t = c0.t) (h1 : 1 ≤ c0.t)
    (hh : ∀ z y x, c1.hulls.val z y x ≤ c0.hulls.val z y x) :
    (Calc.processBatch { params with special := 1 } c1 batch).t
      = (Calc.processBatch params c0 batch).t ∧
    1 ≤ (Calc.processBatch params c0 batch).t ∧
    ∀ z y x, (Calc.processBatch { params with special := 1 } c1 batch).hulls.val z y x
      ≤ (Calc.processBatch params c0 batch).hulls.val z y x := by
  refine ⟨?_, ?_, ?_⟩
  · rw [Calc.processBatch_t, Calc.processBatch_t, Calc.featureField_mode_n0 params hsp, ht]
  · rw [Calc.processBatch_t]
    omega
  · intro z y x
    rw [Calc.processBatch_hulls, Calc.processBatch_hulls]
    refine max_le_max (hh z y x) (Calc.maxTime_mono _ _ ?_ ?_ z y x)
    · rw [Calc.labelLoop_n0, Calc.labelLoop_n0]
      exact Calc.featureField_mode_n0 params hsp batch
    · intro i z y x
      have hn : (Calc.applyThreshold { params with special := 1 }
          (Calc.featureField { params with special := 1 } batch)).n0
          = (Calc.applyThreshold params (Calc.featureField params batch)).n0 :=
        Calc.featureField_mode_n0 params hsp batch
      have hle := Calc.applyThreshold_mode_le params hsp batch i z y x
      rw [Calc.labelLoop_val, Calc.labelLoop_val, hn, ht]
      have ey : ({ params with special := 1 } : Parameters).y = params.y := rfl
      rw [ey]
      split_ifs with a b d d
      · exact le_refl _
      · exact absurd (lt_of_lt_of_le b hle) d
      · refine le_trans (not_lt.mp b) ?_
        have : (1 : Int) ≤ (i : Int) + c0.t + params.y := by omega
        exact_mod_cast this
      · exact hle
      · exact hle

/-- A run of `processBatch` calls keeps the same. -/
theorem Calc.run_mode_le (params : Parameters) (hsp : params.special = 0)
    (hy : 0 ≤ params.y) (c : Calc) (h1 : 1 ≤ c.t) (bs : List Arr4) :
    (Calc.run { params with special := 1 } c bs).t = (Calc.run params c bs).t ∧
    1 ≤ (Calc.run params c bs).t ∧
    ∀ z y x, (Calc.run { params with special := 1 } c bs).hulls.val z y x
      ≤ (Calc.run params c bs).hulls.val z y x := by
  induction bs using List.reverseRecOn with
  | nil => exact ⟨rfl, h1, fun _ _ _ => le_refl _⟩
  | append_singleton bs b ih =>
    rw [Calc.run_append, Calc.run_append]
    exact Calc.processBatch_mode_le params hsp hy _ _ b ih.1 ih.2.1 ih.2.2

/-- C37: for a mode-0 configuration and the configuration that differs from it only in the
mode being 1, with resume offset `y ≥ 0` (the accumulator starts at zero when `y = 0`): for
every batch the mode-0 feature field is pointwise `≥` the mode-1 feature field and both have
the same number of frames; every cell and frame whose mode-1 value reaches `threshold²`
(it survives the threshold) also does so in mode 0, and the thresholded mode-0 field is
pointwise `≥` the thresholded mode-1 field; and after any run of `processBatch` calls from the
constructor's state both runs have the same frame counter and the mode-0 accumulator is
pointwise `≥` the mode-1 accumulator. -/
theorem C37_mode0_dominates_mode1 (params : Parameters) (saved : Arr3)
    (hsp : params.special = 0) (hy : 0 ≤ params.y) :
    (∀ (batch : Arr4) (i z y x : Nat),
      (Calc.featureField { params with special := 1 } batch).val i z y x
        ≤ (Calc.featureField params batch).val i z y x ∧
      (Calc.featureField { params with special := 1 } batch).n0
        = (Calc.featureField params batch).n0 ∧
      (¬ ((Calc.featureField { params with special := 1 } batch).val i z y x
            < ((params.threshold * params.threshold : Int) : ℚ)) →
        ¬ ((Calc.featureField params batch).val i z y x
            < ((params.threshold * params.threshold : Int) : ℚ))) ∧
      (Calc.applyThreshold { params with special := 1 }
          (Calc.featureField { params with special := 1 } batch)).val i z y x
        ≤ (Calc.applyThreshold params (Calc.featureField params batch)).val i z y x) ∧
    (∀ (batches : List Arr4),
      (Calc.run { params with special := 1 }
          (Calc.init { params with special := 1 } saved) batches).t
        = (Calc.run params (Calc.init params saved) batches).t ∧
      ∀ z y x,
        (Calc.run { params with special := 1 }
            (Calc.init { params with special := 1 } saved) batches).hulls.val z y x
          ≤ (Calc.run params (Calc.init params saved) batches).hulls.val z y x) := by
  constructor
  · intro batch i z y x
    obtain ⟨h0, h1⟩ := Calc.featureField_mode_le params hsp batch i z y x
    refine ⟨h1, Calc.featureField_mode_n0 params hsp batch, ?_,
      Calc.applyThreshold_mode_le params hsp batch i z y x⟩
    intro h q
    exact h (lt_of_le_of_lt h1 q)
  · intro batches
    have e : Calc.init { params with special := 1 } saved = Calc.init params saved := rfl
    have ht : 1 ≤ (Calc.init params saved).t := by
      simp only [Calc.init]
      split_ifs <;> exact le_refl _
    rw [e]
    obtain ⟨a, -, b⟩ := Calc.run_mode_le params hsp hy (Calc.init params saved) ht batches
    exact ⟨a, b⟩

theorem C37_mode0_dominates_mode1_witness :
    ((smallConfig 5 1).special = 0 ∧ 0 ≤ (smallConfig 5 1).y) ∧
    (Calc.featureField { smallConfig 5 1 with special := 1 }
        (Reader.batchOfCall (smallConfig 5 1) zeroFiles 0)).val 0 0 0 0
      ≤ (Calc.featureField (smallConfig 5 1)
        (Reader.batchOfCall (smallConfig 5 1) zeroFiles 0)).val 0 0 0 0 ∧
    (Calc.run { smallConfig 5 1 with special := 1 }
        (Calc.init { smallConfig 5 1 with special := 1 } noCheckpoint)
        [Reader.batchOfCall (smallConfig 5 1) zeroFiles 0]).hulls.val 0 0 0
      ≤ (Calc.run (smallConfig 5 1) (Calc.init (smallConfig 5 1) noCheckpoint)
        [Reader.batchOfCall (smallConfig 5 1) zeroFiles 0]).hulls.val 0 0 0 :=
  ⟨by decide,
    ((C37_mode0_dominates_mode1 (smallConfig 5 1) noCheckpoint rfl (by decide)).1
      (Reader.batchOfCall (smallConfig 5 1) zeroFiles 0) 0 0 0 0).1,
    ((C37_mode0_dominates_mode1 (smallConfig 5 1) noCheckpoint rfl (by decide)).2
      [Reader.batchOfCall (smallConfig 5 1) zeroFiles 0]).2 0 0 0⟩

end HullComputation
